import Mathlib

/-!
# libevtx XML tag: lookup by name, size computation and serialisation

A shallow embedding of `libevtx/old/libevtx_xml_tag.c`.

* Pointers that may be NULL are `Option`s; the arrays of attributes and of
  elements are lists whose entries may be NULL.
* `size_t` and `int` quantities are natural numbers.  The size computation
  and the writer are given twice: counting in natural numbers, and, in the
  namespace `Machine`, with the arithmetic of a 32-bit `int` and a 64-bit
  `size_t`, wrap-around included; the two agree as long as no computation
  leaves the range of its type.  In the lookups the offsets of the trailing
  test are computed in `size_t`.
* The typed values of libfvalue, the decoders of libuna and `towupper` are not
  part of this source file.  Values are modelled by their stored bytes and
  their renderings; decoders and `towupper` are parameters of the lookups.
* The UTF-8 and the UTF-16 variant of each function differ only in the
  primitive they call; they are one definition taking the encoding.
-/

namespace Libevtx

/-- The libcerror codes set by the functions of `libevtx_xml_tag.c`. -/
inductive ErrorCode where
  | ARGUMENT_INVALID_VALUE
  | ARGUMENT_VALUE_EXCEEDS_MAXIMUM
  | ARGUMENT_VALUE_TOO_SMALL
  | RUNTIME_VALUE_ALREADY_SET
  | RUNTIME_VALUE_EXCEEDS_MAXIMUM
  | RUNTIME_VALUE_MISSING
  | RUNTIME_GET_FAILED
  | RUNTIME_UNSUPPORTED_VALUE
  | RUNTIME_COPY_FAILED
  | MEMORY_INSUFFICIENT
  | MEMORY_SET_FAILED
  | RUNTIME_INITIALIZE_FAILED
  | RUNTIME_FINALIZE_FAILED
  | RUNTIME_APPEND_FAILED
  | RUNTIME_PRINT_FAILED
  deriving DecidableEq, Repr

/-- Modelled from the spec: the platform signed-size limit `SSIZE_MAX` of a
64-bit platform (the macro comes from the platform headers). -/
def SSIZE_MAX : Nat := 9223372036854775807

/-- The target encoding of a size computation or of a write. -/
inductive Encoding where
  | utf8
  | utf16
  deriving DecidableEq, Repr

/-- The value types of libfvalue that the tag code distinguishes. -/
inductive ValueType where
  | STRING_UTF16
  | FILETIME
  | SYSTEMTIME
  | OTHER (code : Nat)
  deriving DecidableEq, Repr

/-- Modelled from the spec: one entry of a libfvalue value, given by its stored
bytes and by its text rendering (without the trailing NUL) in each encoding;
`none` is a rendering the value subsystem fails to produce. -/
structure ValueEntry where
  data : List Nat
  utf8_string : Option (List Nat)
  utf16_string : Option (List Nat)
  deriving DecidableEq, Repr

/-- Modelled from the spec: a libfvalue typed value, a type and its entries. -/
structure Value where
  type : ValueType
  entries : List ValueEntry
  deriving DecidableEq, Repr

/-- The kinds of XML tag (`LIBEVTX_XML_TAG_TYPE_*`). -/
inductive XmlTagType where
  | NODE
  | CDATA
  | PI
  deriving DecidableEq, Repr

/-- The XML tag `libevtx_xml_tag_t`: type, name, value, and the two arrays. -/
inductive XmlTag where
  | mk (type : XmlTagType) (name : Option Value) (value : Option Value)
      (attributes_array : List (Option XmlTag))
      (elements_array : List (Option XmlTag)) : XmlTag

namespace XmlTag

/-- Field `type`. -/
def type : XmlTag → XmlTagType
  | mk t _ _ _ _ => t

/-- Field `name`. -/
def name : XmlTag → Option Value
  | mk _ n _ _ _ => n

/-- Field `value`. -/
def value : XmlTag → Option Value
  | mk _ _ v _ _ => v

/-- Field `attributes_array`. -/
def attributes_array : XmlTag → List (Option XmlTag)
  | mk _ _ _ a _ => a

/-- Field `elements_array`. -/
def elements_array : XmlTag → List (Option XmlTag)
  | mk _ _ _ _ e => e

end XmlTag

/-! ## The value primitives (libfvalue) -/

/-- The rendering of an entry in the given encoding. -/
def ValueEntry.string (enc : Encoding) (e : ValueEntry) : Option (List Nat) :=
  match enc with
  | .utf8 => e.utf8_string
  | .utf16 => e.utf16_string

/-- Modelled from the spec: `libfvalue_value_get_type`; fails on a NULL value. -/
def libfvalue_value_get_type (value : Option Value) : Option ValueType :=
  value.map (fun v => v.type)

/-- Modelled from the spec: the string size of one entry, its rendering plus
one NUL. -/
def ValueEntry.string_size (enc : Encoding) (e : ValueEntry) : Option Nat :=
  (e.string enc).map (fun r => r.length + 1)

/-- Modelled from the spec: `libfvalue_value_get_utf8_string_size` and
`libfvalue_value_get_utf16_string_size`: the size of entry
`value_entry_index` including the NUL; fails on a NULL value, on a missing
entry and on a rendering that cannot be produced. -/
def libfvalue_value_get_string_size (enc : Encoding) (value : Option Value)
    (value_entry_index : Nat) : Option Nat :=
  match value with
  | none => none
  | some v =>
    match v.entries[value_entry_index]? with
    | none => none
    | some e => e.string_size enc

/-- Whether a value type is FILETIME or SYSTEMTIME. -/
def is_time_type (value_type : ValueType) : Bool :=
  decide (value_type = ValueType.FILETIME) || decide (value_type = ValueType.SYSTEMTIME)

/-! ## Lookup of an attribute or element by name -/

/-- One decoding routine of libuna (`libuna_unicode_character_copy_from_*`):
from a stream, its size and an index it yields the Unicode character and the
advanced index, or fails.  A successful step always advances the index. -/
structure Decoder where
  run : List Nat → Nat → Nat → Option (Nat × Nat)
  advances : ∀ stream size index character next,
    run stream size index = some (character, next) → index < next

/-- The routines the lookups call that are not part of this source file: the
three decoders of libuna and `towupper` of the C library. -/
structure Externals where
  towupper : Nat → Nat
  copy_from_utf16_stream : Decoder
  copy_from_utf8 : Decoder
  copy_from_utf16 : Decoder

/-- Modelled from the spec: `libfvalue_value_get_entry_data`, the stored bytes
of an entry; fails on a NULL value and on a missing entry. -/
def libfvalue_value_get_entry_data (value : Option Value) (value_entry_index : Nat) :
    Option (List Nat) :=
  match value with
  | none => none
  | some v => (v.entries[value_entry_index]?).map (fun e => e.data)

/-- The comparison loop `while( name_index < value_entry_data_size )`
(lines 502-545).  It returns the two indices at loop exit, or the error of a
failed decoding step.  The first argument bounds the number of iterations;
`value_entry_data_size` iterations always suffice because every pass
advances `name_index`. -/
def name_compare_loop (towupper : Nat → Nat) (name_decoder string_decoder : Decoder)
    (value_entry_data : List Nat) (value_entry_data_size : Nat)
    (string : List Nat) (string_length : Nat) :
    Nat → Nat → Nat → Except ErrorCode (Nat × Nat)
  | 0, name_index, string_index => .ok (name_index, string_index)
  | fuel + 1, name_index, string_index =>
    if name_index < value_entry_data_size then
      if string_index ≥ string_length then .ok (name_index, string_index)
      else
        match name_decoder.run value_entry_data value_entry_data_size name_index with
        | none => .error ErrorCode.RUNTIME_COPY_FAILED
        | some (name_character, name_index) =>
          match string_decoder.run string string_length string_index with
          | none => .error ErrorCode.RUNTIME_COPY_FAILED
          | some (string_character, string_index) =>
            if towupper name_character ≠ towupper string_character then
              .ok (name_index, string_index)
            else
              name_compare_loop towupper name_decoder string_decoder value_entry_data
                value_entry_data_size string string_length fuel name_index string_index
    else .ok (name_index, string_index)

/-- What the body of the `for` loop of a lookup does with one entry. -/
inductive EntryOutcome where
  /-- The entry is returned: `return( 1 )`. -/
  | accepted
  /-- The loop goes on to the next entry. -/
  | rejected
  /-- The function returns -1 with this error code. -/
  | failed (code : ErrorCode)
  /-- A read of the trailing test was outside the bytes of the stored name: no
  defined result. -/
  | undefined
  deriving DecidableEq, Repr

/-- The difference `size - k` in the unsigned arithmetic of `size_t`, for a
size that a `size_t` holds: below `k` it wraps around 2^64. -/
def size_t_difference (size k : Nat) : Nat :=
  if size < k then size + 18446744073709551616 - k else size - k

/-- What the trailing test does: the offsets at which it has read the stored
name, in order, and whether it found two trailing zero bytes; no outcome when
a read was outside the stored bytes. -/
structure TrailingTest where
  reads : List Nat
  trailing_nul : Option Bool
  deriving DecidableEq, Repr

/-- The trailing test of lines 493-494,
`value_entry_data[ value_entry_data_size - 2 ] == 0 && value_entry_data[ value_entry_data_size - 1 ] == 0`:
the byte at `value_entry_data_size - 2` is read first, and the byte at
`value_entry_data_size - 1` only when the first one is zero.  The size is not
tested before. -/
def trailing_test (value_entry_data : List Nat) : TrailingTest :=
  match value_entry_data[size_t_difference value_entry_data.length 2]? with
  | none =>
    { reads := [size_t_difference value_entry_data.length 2], trailing_nul := none }
  | some first =>
    if first ≠ 0 then
      { reads := [size_t_difference value_entry_data.length 2], trailing_nul := some false }
    else
      match value_entry_data[size_t_difference value_entry_data.length 1]? with
      | none =>
        { reads := [size_t_difference value_entry_data.length 2,
                    size_t_difference value_entry_data.length 1],
          trailing_nul := none }
      | some second =>
        { reads := [size_t_difference value_entry_data.length 2,
                    size_t_difference value_entry_data.length 1],
          trailing_nul := some (decide (second = 0)) }

/-- The size of a stored name of at least 2 bytes after the trailing test
(lines 493-497): the size with two trailing zero bytes removed. -/
def trimmed_size (value_entry_data : List Nat) : Nat :=
  if value_entry_data.getD (value_entry_data.length - 2) 0 = 0
      ∧ value_entry_data.getD (value_entry_data.length - 1) 0 = 0 then
    value_entry_data.length - 2
  else value_entry_data.length

/-- The body of the `for` loop from the type test on (lines 450-550), for an
entry with the given name. -/
def compare_name (towupper : Nat → Nat) (name_decoder string_decoder : Decoder)
    (name : Option Value) (string : List Nat) (string_length : Nat) : EntryOutcome :=
  match libfvalue_value_get_type name with
  | none => .failed ErrorCode.RUNTIME_GET_FAILED
  | some value_type =>
    if value_type ≠ ValueType.STRING_UTF16 then .failed ErrorCode.RUNTIME_UNSUPPORTED_VALUE
    else
      match libfvalue_value_get_entry_data name 0 with
      | none => .failed ErrorCode.RUNTIME_GET_FAILED
      | some value_entry_data =>
        match (trailing_test value_entry_data).trailing_nul with
        | none => .undefined
        | some trailing_nul =>
          let value_entry_data_size :=
            if trailing_nul then value_entry_data.length - 2 else value_entry_data.length
          match name_compare_loop towupper name_decoder string_decoder value_entry_data
              value_entry_data_size string string_length value_entry_data_size 0 0 with
          | .error code => .failed code
          | .ok (name_index, string_index) =>
            if name_index = value_entry_data_size ∧ string_index = string_length then
              .accepted
            else .rejected

/-- The body of the `for` loop for one array entry, which may be NULL. -/
def examine_entry (towupper : Nat → Nat) (name_decoder string_decoder : Decoder)
    (string : List Nat) (string_length : Nat) : Option XmlTag → EntryOutcome
  | none => .failed ErrorCode.RUNTIME_VALUE_MISSING
  | some entry => compare_name towupper name_decoder string_decoder entry.name string
      string_length

/-- What a caller sees after a lookup: the return value, the error code if any,
and the tag behind the out-parameter. -/
structure LookupOutcome where
  status : Int
  error : Option ErrorCode
  out : Option XmlTag

/-- The `for` loop over the entries (lines 418-555).  The out-parameter is the
loop variable: it refers to the entry under examination when the function
returns 1 or -1, and is reset to NULL before `return( 0 )`.  `none` stands
for an execution without a defined result. -/
def lookup_loop (towupper : Nat → Nat) (name_decoder string_decoder : Decoder)
    (string : List Nat) (string_length : Nat) : List (Option XmlTag) → Option LookupOutcome
  | [] => some { status := 0, error := none, out := none }
  | entry :: rest =>
    match examine_entry towupper name_decoder string_decoder string string_length entry with
    | .failed code => some { status := -1, error := some code, out := entry }
    | .accepted => some { status := 1, error := none, out := entry }
    | .rejected => lookup_loop towupper name_decoder string_decoder string string_length rest
    | .undefined => none

/-- The common text of the four lookup functions, for the given array and
decoder of the needle; `out` is the tag behind the out-parameter at entry. -/
def get_entry_by_name (towupper : Nat → Nat) (name_decoder string_decoder : Decoder)
    (array : List (Option XmlTag)) (string : List Nat) (string_length : Nat)
    (out : Option XmlTag) : Option LookupOutcome :=
  if string_length > SSIZE_MAX then
    some { status := -1, error := some ErrorCode.RUNTIME_VALUE_EXCEEDS_MAXIMUM, out := out }
  else if out.isSome then
    some { status := -1, error := some ErrorCode.RUNTIME_VALUE_ALREADY_SET, out := out }
  else
    match array with
    | [] => some { status := 0, error := none, out := out }
    | entry :: rest =>
      lookup_loop towupper name_decoder string_decoder string string_length (entry :: rest)

/-- The function `libevtx_xml_tag_get_attribute_by_utf8_name`. -/
def libevtx_xml_tag_get_attribute_by_utf8_name (E : Externals) (xml_tag : XmlTag)
    (utf8_string : List Nat) (utf8_string_length : Nat) (attribute_xml_tag : Option XmlTag) :
    Option LookupOutcome :=
  get_entry_by_name E.towupper E.copy_from_utf16_stream E.copy_from_utf8
    xml_tag.attributes_array utf8_string utf8_string_length attribute_xml_tag

/-- The function `libevtx_xml_tag_get_attribute_by_utf16_name`. -/
def libevtx_xml_tag_get_attribute_by_utf16_name (E : Externals) (xml_tag : XmlTag)
    (utf16_string : List Nat) (utf16_string_length : Nat) (attribute_xml_tag : Option XmlTag) :
    Option LookupOutcome :=
  get_entry_by_name E.towupper E.copy_from_utf16_stream E.copy_from_utf16
    xml_tag.attributes_array utf16_string utf16_string_length attribute_xml_tag

/-- The function `libevtx_xml_tag_get_element_by_utf8_name`. -/
def libevtx_xml_tag_get_element_by_utf8_name (E : Externals) (xml_tag : XmlTag)
    (utf8_string : List Nat) (utf8_string_length : Nat) (element_xml_tag : Option XmlTag) :
    Option LookupOutcome :=
  get_entry_by_name E.towupper E.copy_from_utf16_stream E.copy_from_utf8
    xml_tag.elements_array utf8_string utf8_string_length element_xml_tag

/-- The function `libevtx_xml_tag_get_element_by_utf16_name`. -/
def libevtx_xml_tag_get_element_by_utf16_name (E : Externals) (xml_tag : XmlTag)
    (utf16_string : List Nat) (utf16_string_length : Nat) (element_xml_tag : Option XmlTag) :
    Option LookupOutcome :=
  get_entry_by_name E.towupper E.copy_from_utf16_stream E.copy_from_utf16
    xml_tag.elements_array utf16_string utf16_string_length element_xml_tag

/-! ## Size computation

The definitions of this part count levels and sizes in natural numbers; they
are what the code computes as long as `( xml_tag_level * 2 ) + 1` fits an `int`
and the sums fit a `size_t`.  `Machine.xml_string_size` below follows the code
with the arithmetic of `int` and `size_t`. -/

/-- The attribute loop of `libevtx_xml_tag_get_utf8_xml_string_size`
(lines 1365-1465): adds the size of every attribute to `string_size`. -/
def attributes_string_size (enc : Encoding) :
    List (Option XmlTag) → Nat → Option Nat
  | [], string_size => some string_size
  | none :: _, _ => none
  | some attribute_xml_tag :: rest, string_size =>
    match libfvalue_value_get_string_size enc attribute_xml_tag.name 0 with
    | none => none
    | some name_size =>
      match libfvalue_value_get_type attribute_xml_tag.value with
      | none => none
      | some value_type =>
        match libfvalue_value_get_string_size enc attribute_xml_tag.value 0 with
        | none => none
        | some value_size =>
          attributes_string_size enc rest
            (string_size + (name_size + 2) + value_size
              + (if is_time_type value_type then 1 else 0))

/-- The value entry loop (lines 1499-1534): the sum `value_string_size` over
the entries of an element value. -/
def value_string_size (enc : Encoding) (value_type : ValueType) :
    List ValueEntry → Nat → Option Nat
  | [], size => some size
  | e :: rest, size =>
    match e.string_size enc with
    | none => none
    | some string_size =>
      value_string_size enc value_type rest
        (if string_size > 1 then
          size + (string_size - 1) + (if is_time_type value_type then 1 else 0)
        else size)

mutual

/-- The function `libevtx_xml_tag_get_utf8_xml_string_size` (and its UTF-16
twin) on a non-NULL tag: `some size` for return value 1, `none` for -1.  The
level and the size are natural numbers (`Machine.xml_string_size` has them in
`int` and `size_t`). -/
def xml_string_size (enc : Encoding) : XmlTag → Nat → Option Nat
  | .mk type name value attributes_array elements_array, xml_tag_level =>
    match type with
    | .NODE =>
      match libfvalue_value_get_string_size enc name 0 with
      | none => none
      | some name_size =>
        match attributes_string_size enc attributes_array
            (xml_tag_level * 2 + 1 + (name_size - 1)) with
        | none => none
        | some string_size =>
          match value with
          | some v =>
            match value_string_size enc v.type v.entries 0 with
            | none => none
            | some value_size =>
              if value_size > 0 then
                some (string_size + (value_size + name_size + 2) + 3)
              else
                some (string_size + 1 + 3)
          | none =>
            match elements_array with
            | [] => some (string_size + 1 + 3)
            | e :: es =>
              match elements_string_size enc (e :: es) (xml_tag_level + 1) string_size with
              | none => none
              | some string_size =>
                some (string_size + (xml_tag_level * 2 + name_size + 3) + 3)
    | .CDATA =>
      match libfvalue_value_get_string_size enc value 0 with
      | none => none
      | some string_size => some (xml_tag_level * 2 + 1 + (string_size + 9) + 3)
    | .PI =>
      match libfvalue_value_get_string_size enc name 0 with
      | none => none
      | some name_size =>
        match libfvalue_value_get_string_size enc value 0 with
        | none => none
        | some string_size =>
          some (xml_tag_level * 2 + 1 + name_size + (string_size + 1) + 3)

/-- The size function on an array entry, which may be NULL. -/
def xml_string_size_entry (enc : Encoding) : Option XmlTag → Nat → Option Nat
  | none, _ => none
  | some xml_tag, xml_tag_level => xml_string_size enc xml_tag xml_tag_level

/-- The element loop (lines 1556-1596): adds the size of every sub element,
less its NUL, to `string_size`. -/
def elements_string_size (enc : Encoding) :
    List (Option XmlTag) → Nat → Nat → Option Nat
  | [], _, string_size => some string_size
  | e :: rest, xml_tag_level, string_size =>
    match xml_string_size_entry enc e xml_tag_level with
    | none => none
    | some element_size =>
      elements_string_size enc rest xml_tag_level (string_size + (element_size - 1))

end

/-- The function `libevtx_xml_tag_get_utf8_xml_string_size`. -/
def libevtx_xml_tag_get_utf8_xml_string_size (xml_tag : XmlTag) (xml_tag_level : Nat) :
    Option Nat :=
  xml_string_size Encoding.utf8 xml_tag xml_tag_level

/-- The function `libevtx_xml_tag_get_utf16_xml_string_size`. -/
def libevtx_xml_tag_get_utf16_xml_string_size (xml_tag : XmlTag) (xml_tag_level : Nat) :
    Option Nat :=
  xml_string_size Encoding.utf16 xml_tag xml_tag_level

/-! ## Serialisation into a caller buffer

The definitions of this part count levels and indices in natural numbers; they
are what the code computes as long as `( xml_tag_level * 2 ) + 1` fits an `int`
and `string_index + n` fits a `size_t`.  `Machine.xml_string_with_index` below
follows the code with the arithmetic of `int` and `size_t`. -/

/-- The buffer of the caller, the local `string_index`, and whether some store
of the writer went to an index at or beyond the capacity. -/
structure WState where
  buf : List Nat
  index : Nat
  oob : Bool
  deriving DecidableEq, Repr

/-- The result of a run of the writer: the state reached, either on return 1
(`ok`) or at the point where -1 is returned, with the error code set there. -/
abbrev WResult := Except (ErrorCode × WState) WState

/-- The statement `utf8_string[ string_index++ ] = unit`.  A store at an index
below the capacity changes the buffer; another one is recorded in `oob`. -/
def store (cap : Nat) (st : WState) (unit : Nat) : WState :=
  { buf := if st.index < cap then st.buf.set st.index unit else st.buf
    index := st.index + 1
    oob := st.oob || decide (cap ≤ st.index) }

/-- Consecutive stores of the given units. -/
def store_list (cap : Nat) (st : WState) (units : List Nat) : WState :=
  units.foldl (store cap) st

/-- The statement `string_index--`. -/
def rewind (st : WState) : WState :=
  { st with index := st.index - 1 }

/-- The bounds check `if( ( string_index + n ) > utf8_string_size )`, with the
sum in natural numbers (`Machine.require_room` has the sum in `size_t`). -/
def require_room (cap n : Nat) (st : WState) : WResult :=
  if st.index + n > cap then .error (ErrorCode.ARGUMENT_VALUE_TOO_SMALL, st) else .ok st

/-- Sequencing of two steps of the writer. -/
def WResult.andThen (r : WResult) (f : WState → WResult) : WResult :=
  match r with
  | .ok st => f st
  | .error e => .error e

/-- The indentation loop: two spaces per level. -/
def indent (cap : Nat) : Nat → WState → WState
  | 0, st => st
  | n + 1, st => indent cap n (store cap (store cap st 32) 32)

/-- Modelled from the spec: `libfvalue_value_copy_to_utf8_string_with_index` and
its UTF-16 twin.  The rendering of the entry and one NUL are written at the
index, which advances by that size; the copy fails, writing nothing, when
the value is NULL, the entry is missing, the rendering cannot be produced or
the buffer has no room for it. -/
def libfvalue_value_copy_to_string_with_index (enc : Encoding) (value : Option Value)
    (value_entry_index : Nat) (cap : Nat) (st : WState) : Option WState :=
  match value with
  | none => none
  | some v =>
    match v.entries[value_entry_index]? with
    | none => none
    | some e =>
      match e.string enc with
      | none => none
      | some r =>
        if st.index + (r.length + 1) > cap then none
        else some (store_list cap st (r ++ [0]))

/-- A value copy followed by `string_index--`, as the writer does each time; a
failed copy makes the writer return -1 with COPY_FAILED. -/
def copy_value (enc : Encoding) (value : Option Value) (value_entry_index : Nat)
    (cap : Nat) (st : WState) : WResult :=
  match libfvalue_value_copy_to_string_with_index enc value value_entry_index cap st with
  | none => .error (ErrorCode.RUNTIME_COPY_FAILED, st)
  | some st1 => .ok (rewind st1)

/-- The attribute loop of the writer (lines 1837-1978). -/
def write_attributes (enc : Encoding) (cap : Nat) :
    List (Option XmlTag) → WState → WResult
  | [], st => .ok st
  | none :: _, st => .error (ErrorCode.RUNTIME_VALUE_MISSING, st)
  | some attribute_xml_tag :: rest, st =>
    (require_room cap 1 st).andThen fun st =>
    (copy_value enc attribute_xml_tag.name 0 cap (store cap st 32)).andThen fun st =>
    (require_room cap 2 st).andThen fun st =>
    let st := store cap (store cap st 61) 34
    match libfvalue_value_get_type attribute_xml_tag.value with
    | none => .error (ErrorCode.RUNTIME_GET_FAILED, st)
    | some value_type =>
      (copy_value enc attribute_xml_tag.value 0 cap st).andThen fun st =>
      (require_room cap 1 st).andThen fun st =>
      if is_time_type value_type then
        (require_room cap 1 st).andThen fun st =>
        write_attributes enc cap rest (store cap (store cap st 90) 34)
      else
        write_attributes enc cap rest (store cap st 34)

/-- The second value entry loop of the writer (lines 2063-2120): copies every
entry whose string size exceeds 1, each followed by `Z` for a time type. -/
def write_value_entries (enc : Encoding) (cap : Nat) (value : Value) :
    List ValueEntry → Nat → WState → WResult
  | [], _, st => .ok st
  | e :: rest, value_entry_index, st =>
    match e.string_size enc with
    | none => .error (ErrorCode.RUNTIME_GET_FAILED, st)
    | some string_size =>
      if string_size > 1 then
        (copy_value enc (some value) value_entry_index cap st).andThen fun st =>
        if is_time_type value.type then
          (require_room cap 1 st).andThen fun st =>
          write_value_entries enc cap value rest (value_entry_index + 1) (store cap st 90)
        else
          write_value_entries enc cap value rest (value_entry_index + 1) st
      else
        write_value_entries enc cap value rest (value_entry_index + 1) st

/-- The final stores `>`, newline, NUL (lines 2438-2440); no bounds check
precedes them. -/
def write_trailer (cap : Nat) (st : WState) : WState :=
  store cap (store cap (store cap st 62) 10) 0

mutual

/-- The function `libevtx_xml_tag_get_utf8_xml_string_with_index` (and its
UTF-16 twin) on a non-NULL tag, as a transformer of the buffer and of the
index behind `utf8_string_index`.  The level and the index are natural numbers
(`Machine.xml_string_with_index` has them in `int` and `size_t`). -/
def xml_string_with_index (enc : Encoding) : XmlTag → Nat → Nat → WState → WResult
  | .mk type name value attributes_array elements_array, xml_tag_level, cap, st =>
    if cap > SSIZE_MAX then .error (ErrorCode.ARGUMENT_VALUE_EXCEEDS_MAXIMUM, st)
    else
    (require_room cap (xml_tag_level * 2 + 1) st).andThen fun st =>
    let st := store cap (indent cap xml_tag_level st) 60
    match type with
    | .NODE =>
      (copy_value enc name 0 cap st).andThen fun st =>
      (write_attributes enc cap attributes_array st).andThen fun st =>
      WResult.andThen (match value with
        | some v =>
          match value_string_size enc v.type v.entries 0 with
          | none => .error (ErrorCode.RUNTIME_GET_FAILED, st)
          | some value_size =>
            if value_size > 0 then
              (require_room cap 1 st).andThen fun st =>
              (write_value_entries enc cap v v.entries 0 (store cap st 62)).andThen fun st =>
              (require_room cap 2 st).andThen fun st =>
              copy_value enc name 0 cap (store cap (store cap st 60) 47)
            else
              (require_room cap 1 st).andThen fun st => .ok (store cap st 47)
        | none =>
          match elements_array with
          | [] => (require_room cap 1 st).andThen fun st => .ok (store cap st 47)
          | e :: es =>
            (require_room cap 2 st).andThen fun st =>
            (write_elements enc (e :: es) (xml_tag_level + 1) cap
              (store cap (store cap st 62) 10)).andThen fun st =>
            (require_room cap (xml_tag_level * 2) st).andThen fun st =>
            (require_room cap 2 (indent cap xml_tag_level st)).andThen fun st =>
            copy_value enc name 0 cap (store cap (store cap st 60) 47)) fun st =>
      (require_room cap 3 st).andThen fun st => .ok (write_trailer cap st)
    | .CDATA =>
      (require_room cap 8 st).andThen fun st =>
      (copy_value enc value 0 cap
        (store_list cap st [33, 91, 67, 68, 65, 84, 65, 91])).andThen fun st =>
      (require_room cap 2 st).andThen fun st =>
      .ok (write_trailer cap (store cap (store cap st 93) 93))
    | .PI =>
      (require_room cap 1 st).andThen fun st =>
      (copy_value enc name 0 cap (store cap st 63)).andThen fun st =>
      (require_room cap 1 st).andThen fun st =>
      (copy_value enc value 0 cap (store cap st 32)).andThen fun st =>
      (require_room cap 1 st).andThen fun st =>
      .ok (write_trailer cap (store cap st 63))

/-- The writer on an array entry; a NULL tag is refused. -/
def xml_string_with_index_entry (enc : Encoding) :
    Option XmlTag → Nat → Nat → WState → WResult
  | none, _, _, st => .error (ErrorCode.ARGUMENT_INVALID_VALUE, st)
  | some xml_tag, xml_tag_level, cap, st =>
    xml_string_with_index enc xml_tag xml_tag_level cap st

/-- The element loop of the writer (lines 2186-2225): each sub element is
written at the running index, which then steps back over its NUL. -/
def write_elements (enc : Encoding) :
    List (Option XmlTag) → Nat → Nat → WState → WResult
  | [], _, _, st => .ok st
  | e :: rest, xml_tag_level, cap, st =>
    match xml_string_with_index_entry enc e xml_tag_level cap st with
    | .error (_, st1) => .error (ErrorCode.RUNTIME_COPY_FAILED, st1)
    | .ok st1 => write_elements enc rest xml_tag_level cap (rewind st1)

end

/-- What a caller sees after a call of the writer: the return value, the error
code if any, the buffer, the index behind `utf8_string_index` (stored back
only on return 1), and whether a store went beyond the capacity. -/
structure WriteOutcome where
  status : Int
  error : Option ErrorCode
  string : List Nat
  string_index : Nat
  oob : Bool
  deriving DecidableEq, Repr

/-- A call of the writer with the buffer, its capacity and the entry index. -/
def get_xml_string_with_index (enc : Encoding) (xml_tag : XmlTag) (xml_tag_level : Nat)
    (string : List Nat) (string_size : Nat) (string_index : Nat) : WriteOutcome :=
  match xml_string_with_index enc xml_tag xml_tag_level string_size
      { buf := string, index := string_index, oob := false } with
  | .ok st =>
    { status := 1, error := none, string := st.buf, string_index := st.index, oob := st.oob }
  | .error (code, st) =>
    { status := -1, error := some code, string := st.buf, string_index := string_index,
      oob := st.oob }

/-- The function `libevtx_xml_tag_get_utf8_xml_string_with_index`. -/
def libevtx_xml_tag_get_utf8_xml_string_with_index (xml_tag : XmlTag) (xml_tag_level : Nat)
    (utf8_string : List Nat) (utf8_string_size : Nat) (utf8_string_index : Nat) :
    WriteOutcome :=
  get_xml_string_with_index Encoding.utf8 xml_tag xml_tag_level
    utf8_string utf8_string_size utf8_string_index

/-- The function `libevtx_xml_tag_get_utf16_xml_string_with_index`. -/
def libevtx_xml_tag_get_utf16_xml_string_with_index (xml_tag : XmlTag) (xml_tag_level : Nat)
    (utf16_string : List Nat) (utf16_string_size : Nat) (utf16_string_index : Nat) :
    WriteOutcome :=
  get_xml_string_with_index Encoding.utf16 xml_tag xml_tag_level
    utf16_string utf16_string_size utf16_string_index


/-! ## The text of a tag as a list of units

These functions are not part of the C source: they describe, by recursion on
the tag, the units the writer produces.  `xml_string_with_index_wrote` below
proves that the writer stores exactly these units. -/

/-- The rendering of entry `value_entry_index` of a value, if it exists. -/
def value_entry_string (enc : Encoding) (value : Option Value) (value_entry_index : Nat) :
    Option (List Nat) :=
  match value with
  | none => none
  | some v =>
    match v.entries[value_entry_index]? with
    | none => none
    | some e => e.string enc

/-- The text of the attributes: for each one a space, the name, `="`, the
value, `Z` for a time type, and the closing quote. -/
def attributes_text (enc : Encoding) : List (Option XmlTag) → Option (List Nat)
  | [] => some []
  | none :: _ => none
  | some a :: rest =>
    match value_entry_string enc a.name 0 with
    | none => none
    | some n =>
      match libfvalue_value_get_type a.value with
      | none => none
      | some value_type =>
        match value_entry_string enc a.value 0 with
        | none => none
        | some v =>
          match attributes_text enc rest with
          | none => none
          | some w =>
            some ([32] ++ n ++ [61, 34] ++ v
              ++ (if is_time_type value_type then [90] else []) ++ [34] ++ w)

/-- The text of the entries of an element value: the non-empty renderings in
order, each followed by `Z` for a time type. -/
def value_text (enc : Encoding) (value_type : ValueType) : List ValueEntry → Option (List Nat)
  | [] => some []
  | e :: rest =>
    match e.string enc with
    | none => none
    | some r =>
      match value_text enc value_type rest with
      | none => none
      | some w =>
        some ((if r.length + 1 > 1 then
            r ++ (if is_time_type value_type then [90] else [])
          else []) ++ w)

mutual

/-- The text of a tag at a level, including the final NUL. -/
def xml_text (enc : Encoding) : XmlTag → Nat → Option (List Nat)
  | .mk type name value attributes_array elements_array, xml_tag_level =>
    match type with
    | .NODE =>
      match value_entry_string enc name 0 with
      | none => none
      | some n =>
        match attributes_text enc attributes_array with
        | none => none
        | some a =>
          match value with
          | some v =>
            match value_text enc v.type v.entries with
            | none => none
            | some text =>
              if text.length > 0 then
                some (List.replicate (xml_tag_level * 2) 32 ++ [60] ++ n ++ a ++ [62] ++ text
                  ++ [60, 47] ++ n ++ [62, 10, 0])
              else
                some (List.replicate (xml_tag_level * 2) 32 ++ [60] ++ n ++ a ++ [47]
                  ++ [62, 10, 0])
          | none =>
            match elements_array with
            | [] =>
              some (List.replicate (xml_tag_level * 2) 32 ++ [60] ++ n ++ a ++ [47]
                ++ [62, 10, 0])
            | e :: es =>
              match elements_text enc (e :: es) (xml_tag_level + 1) with
              | none => none
              | some k =>
                some (List.replicate (xml_tag_level * 2) 32 ++ [60] ++ n ++ a ++ [62, 10] ++ k
                  ++ List.replicate (xml_tag_level * 2) 32 ++ [60, 47] ++ n ++ [62, 10, 0])
    | .CDATA =>
      match value_entry_string enc value 0 with
      | none => none
      | some p =>
        some (List.replicate (xml_tag_level * 2) 32 ++ [60]
          ++ [33, 91, 67, 68, 65, 84, 65, 91] ++ p ++ [93, 93] ++ [62, 10, 0])
    | .PI =>
      match value_entry_string enc name 0 with
      | none => none
      | some n =>
        match value_entry_string enc value 0 with
        | none => none
        | some b =>
          some (List.replicate (xml_tag_level * 2) 32 ++ [60] ++ [63] ++ n ++ [32] ++ b ++ [63]
            ++ [62, 10, 0])

/-- The text of an array entry; none for a NULL entry. -/
def xml_text_entry (enc : Encoding) : Option XmlTag → Nat → Option (List Nat)
  | none, _ => none
  | some xml_tag, xml_tag_level => xml_text enc xml_tag xml_tag_level

/-- The text of the sub elements: each one without its final NUL. -/
def elements_text (enc : Encoding) : List (Option XmlTag) → Nat → Option (List Nat)
  | [], _ => some []
  | e :: rest, xml_tag_level =>
    match xml_text_entry enc e xml_tag_level with
    | none => none
    | some w =>
      match elements_text enc rest xml_tag_level with
      | none => none
      | some k => some (w.dropLast ++ k)

end

/-! ## The two-pass protocol of a caller -/

/-- The text a caller obtains from a tag by the two passes: the size
computation, then the writer on a zeroed buffer of exactly that size from
index 0.  `none` when either pass returns -1. -/
def xml_string (enc : Encoding) (xml_tag : XmlTag) (xml_tag_level : Nat) :
    Option (List Nat) :=
  match xml_string_size enc xml_tag xml_tag_level with
  | none => none
  | some size =>
    match xml_string_with_index enc xml_tag xml_tag_level size
        { buf := List.replicate size 0, index := 0, oob := false } with
    | .ok st => some st.buf
    | .error _ => none

/-- The units the attribute loop of the writer stores for the attributes of a
tag, run on a zeroed buffer of exactly the size the attribute loop of the
size computation counts for them. -/
def attributes_string (enc : Encoding) (attributes_array : List (Option XmlTag)) :
    Option (List Nat) :=
  match attributes_string_size enc attributes_array 0 with
  | none => none
  | some size =>
    match write_attributes enc size attributes_array
        { buf := List.replicate size 0, index := 0, oob := false } with
    | .ok st => some st.buf
    | .error _ => none

/-! ## Needles and stored names as sequences of code points -/

/-- The code points a decoder reads from a stream of the given size, step by
step from `index` until the size is reached exactly; `none` when a step
fails or overshoots.  The first argument bounds the number of steps. -/
def decode_string (decoder : Decoder) (stream : List Nat) (size : Nat) :
    Nat → Nat → Option (List Nat)
  | 0, index => if index = size then some [] else none
  | fuel + 1, index =>
    if index = size then some []
    else if index > size then none
    else
      match decoder.run stream size index with
      | none => none
      | some (character, next) =>
        (decode_string decoder stream size fuel next).map (fun cs => character :: cs)

/-! ## Properties of the entries of an array, as a lookup sees them -/

/-- The loop body of the two lookups with a UTF-8 needle. -/
def examine_utf8 (E : Externals) (utf8_string : List Nat) (utf8_string_length : Nat) :
    Option XmlTag → EntryOutcome :=
  examine_entry E.towupper E.copy_from_utf16_stream E.copy_from_utf8 utf8_string
    utf8_string_length

/-- The loop body of the two lookups with a UTF-16 needle. -/
def examine_utf16 (E : Externals) (utf16_string : List Nat) (utf16_string_length : Nat) :
    Option XmlTag → EntryOutcome :=
  examine_entry E.towupper E.copy_from_utf16_stream E.copy_from_utf16 utf16_string
    utf16_string_length

/-- The entry is a tag whose name is a value of a type other than
LIBFVALUE_VALUE_TYPE_STRING_UTF16. -/
def name_type_unsupported : Option XmlTag → Bool
  | none => false
  | some entry =>
    match entry.name with
    | none => false
    | some v => decide (v.type ≠ ValueType.STRING_UTF16)

/-- Every entry is readable and decodable: the loop body accepts it, rejects
it, or stops at the type of its name. -/
def entries_readable (examine : Option XmlTag → EntryOutcome)
    (array : List (Option XmlTag)) : Prop :=
  ∀ e ∈ array, examine e = .accepted ∨ examine e = .rejected ∨ name_type_unsupported e = true

/-- In insertion order, an entry with a name of unsupported type comes before
the first entry that the loop body accepts. -/
def unsupported_before_accepted (examine : Option XmlTag → EntryOutcome)
    (array : List (Option XmlTag)) : Prop :=
  ∃ before e after, array = before ++ e :: after ∧ name_type_unsupported e = true
    ∧ ∀ x ∈ before, examine x ≠ .accepted

/-- The lookup returns -1 with the error code UNSUPPORTED_VALUE. -/
def returns_unsupported (result : Option LookupOutcome) : Prop :=
  ∃ o, result = some o ∧ o.status = -1
    ∧ o.error = some ErrorCode.RUNTIME_UNSUPPORTED_VALUE

/-- Two needles have the same number of code points, and their code points are
pairwise equal after `towupper`. -/
def same_code_points_up_to_case (towupper : Nat → Nat) (decoder : Decoder)
    (string1 : List Nat) (length1 : Nat) (string2 : List Nat) (length2 : Nat) : Prop :=
  ∃ fuel1 fuel2 cs1 cs2,
    decode_string decoder string1 length1 fuel1 0 = some cs1
    ∧ decode_string decoder string2 length2 fuel2 0 = some cs2
    ∧ cs1.map towupper = cs2.map towupper

/-- An attribute whose name is a single-entry value of type STRING_UTF16 with
the given stored bytes; its renderings and its value are arbitrary. -/
def attribute_named (data : List Nat) (utf8_string utf16_string : Option (List Nat))
    (value : Option Value) : XmlTag :=
  .mk .NODE
    (some { type := .STRING_UTF16
            entries := [{ data := data, utf8_string := utf8_string,
                          utf16_string := utf16_string }] })
    value [] []

/-- A result with the tag behind the out-parameter, if any, replaced. -/
def LookupOutcome.with_out (o : LookupOutcome) (xml_tag : XmlTag) : LookupOutcome :=
  { o with out := o.out.map (fun _ => xml_tag) }

/-! ## Reference routines for concrete inputs

A plain implementation of the external routines, used where a lookup is
evaluated on a concrete input. -/

/-- One UTF-16 code unit of a little-endian byte stream. -/
def utf16le_unit (stream : List Nat) (index : Nat) : Nat :=
  stream.getD index 0 + 256 * stream.getD (index + 1) 0

/-- Decoding step for a UTF-16 little-endian byte stream. -/
def utf16le_stream_step (stream : List Nat) (size index : Nat) : Option (Nat × Nat) :=
  if index + 2 ≤ size then
    if 0xD800 ≤ utf16le_unit stream index ∧ utf16le_unit stream index ≤ 0xDBFF then
      if index + 4 ≤ size ∧ 0xDC00 ≤ utf16le_unit stream (index + 2)
          ∧ utf16le_unit stream (index + 2) ≤ 0xDFFF then
        some (0x10000 + (utf16le_unit stream index - 0xD800) * 1024
          + (utf16le_unit stream (index + 2) - 0xDC00), index + 4)
      else none
    else if 0xDC00 ≤ utf16le_unit stream index ∧ utf16le_unit stream index ≤ 0xDFFF then none
    else some (utf16le_unit stream index, index + 2)
  else none

/-- Decoding step for a string of UTF-16 code units. -/
def utf16_step (string : List Nat) (size index : Nat) : Option (Nat × Nat) :=
  if index + 1 ≤ size then
    if 0xD800 ≤ string.getD index 0 ∧ string.getD index 0 ≤ 0xDBFF then
      if index + 2 ≤ size ∧ 0xDC00 ≤ string.getD (index + 1) 0
          ∧ string.getD (index + 1) 0 ≤ 0xDFFF then
        some (0x10000 + (string.getD index 0 - 0xD800) * 1024
          + (string.getD (index + 1) 0 - 0xDC00), index + 2)
      else none
    else if 0xDC00 ≤ string.getD index 0 ∧ string.getD index 0 ≤ 0xDFFF then none
    else some (string.getD index 0, index + 1)
  else none

/-- Whether a byte is a UTF-8 continuation byte. -/
def utf8_continuation (byte : Nat) : Bool :=
  decide (0x80 ≤ byte ∧ byte ≤ 0xBF)

/-- Decoding step for a UTF-8 string: sequences of one to four bytes. -/
def utf8_step (string : List Nat) (size index : Nat) : Option (Nat × Nat) :=
  if index + 1 ≤ size then
    if string.getD index 0 < 0x80 then some (string.getD index 0, index + 1)
    else if 0xC2 ≤ string.getD index 0 ∧ string.getD index 0 ≤ 0xDF then
      if index + 2 ≤ size ∧ utf8_continuation (string.getD (index + 1) 0) then
        some ((string.getD index 0 - 0xC0) * 64 + (string.getD (index + 1) 0 - 0x80), index + 2)
      else none
    else if 0xE0 ≤ string.getD index 0 ∧ string.getD index 0 ≤ 0xEF then
      if index + 3 ≤ size ∧ utf8_continuation (string.getD (index + 1) 0)
          ∧ utf8_continuation (string.getD (index + 2) 0) then
        some ((string.getD index 0 - 0xE0) * 4096 + (string.getD (index + 1) 0 - 0x80) * 64
          + (string.getD (index + 2) 0 - 0x80), index + 3)
      else none
    else if 0xF0 ≤ string.getD index 0 ∧ string.getD index 0 ≤ 0xF4 then
      if index + 4 ≤ size ∧ utf8_continuation (string.getD (index + 1) 0)
          ∧ utf8_continuation (string.getD (index + 2) 0)
          ∧ utf8_continuation (string.getD (index + 3) 0) then
        some ((string.getD index 0 - 0xF0) * 262144 + (string.getD (index + 1) 0 - 0x80) * 4096
          + (string.getD (index + 2) 0 - 0x80) * 64 + (string.getD (index + 3) 0 - 0x80),
          index + 4)
      else none
    else none
  else none

/-- The function `towupper` of the C library in the default locale `C`:
upper-casing of the letters a-z, identity on every other character. -/
def reference_towupper (character : Nat) : Nat :=
  if 97 ≤ character ∧ character ≤ 122 then character - 32
  else character

/-- The reference decoder for the stored names. -/
def reference_utf16_stream : Decoder where
  run := utf16le_stream_step
  advances := by
    intro stream size index character next h
    unfold utf16le_stream_step at h
    split at h
    · split at h
      · split at h
        · simp at h; omega
        · simp at h
      · split at h
        · simp at h
        · simp at h; omega
    · simp at h

/-- The reference decoder for UTF-16 needles. -/
def reference_utf16 : Decoder where
  run := utf16_step
  advances := by
    intro stream size index character next h
    unfold utf16_step at h
    split at h
    · split at h
      · split at h
        · simp at h; omega
        · simp at h
      · split at h
        · simp at h
        · simp at h; omega
    · simp at h

/-- The reference decoder for UTF-8 needles. -/
def reference_utf8 : Decoder where
  run := utf8_step
  advances := by
    intro stream size index character next h
    unfold utf8_step at h
    split at h
    · split at h
      · simp at h; omega
      · split at h
        · split at h
          · simp at h; omega
          · simp at h
        · split at h
          · split at h
            · simp at h; omega
            · simp at h
          · split at h
            · split at h
              · simp at h; omega
              · simp at h
            · simp at h
    · simp at h

/-- The reference routines together. -/
def reference_externals : Externals where
  towupper := reference_towupper
  copy_from_utf16_stream := reference_utf16_stream
  copy_from_utf8 := reference_utf8
  copy_from_utf16 := reference_utf16

/-- The characters that `towupper` of the C library changes in the locale
`C.UTF-8` (GNU C library 2.36, 1450 characters), as runs
`(first, last, step, image of first)`: the characters `first`, `first + step`,
... up to `last` are mapped to the image of `first` plus their distance from
`first`. -/
def utf8_locale_upper_runs : List (Nat × Nat × Nat × Nat) :=
  [(97, 122, 1, 65), (181, 181, 1, 924), (224, 246, 1, 192), (248, 254, 1, 216),
   (255, 255, 1, 376), (257, 303, 2, 256), (305, 305, 1, 73), (307, 311, 2, 306),
   (314, 328, 2, 313), (331, 375, 2, 330), (378, 382, 2, 377), (383, 383, 1, 83),
   (384, 384, 1, 579), (387, 389, 2, 386), (392, 392, 1, 391), (396, 396, 1, 395),
   (402, 402, 1, 401), (405, 405, 1, 502), (409, 409, 1, 408), (410, 410, 1, 573),
   (414, 414, 1, 544), (417, 421, 2, 416), (424, 424, 1, 423), (429, 429, 1, 428),
   (432, 432, 1, 431), (436, 438, 2, 435), (441, 441, 1, 440), (445, 445, 1, 444),
   (447, 447, 1, 503), (453, 453, 1, 452), (454, 454, 1, 452), (456, 456, 1, 455),
   (457, 457, 1, 455), (459, 459, 1, 458), (460, 460, 1, 458), (462, 476, 2, 461),
   (477, 477, 1, 398), (479, 495, 2, 478), (498, 498, 1, 497), (499, 499, 1, 497),
   (501, 501, 1, 500), (505, 543, 2, 504), (547, 563, 2, 546), (572, 572, 1, 571),
   (575, 576, 1, 11390), (578, 578, 1, 577), (583, 591, 2, 582), (592, 592, 1, 11375),
   (593, 593, 1, 11373), (594, 594, 1, 11376), (595, 595, 1, 385), (596, 596, 1, 390),
   (598, 599, 1, 393), (601, 601, 1, 399), (603, 603, 1, 400), (604, 604, 1, 42923),
   (608, 608, 1, 403), (609, 609, 1, 42924), (611, 611, 1, 404), (613, 613, 1, 42893),
   (614, 614, 1, 42922), (616, 616, 1, 407), (617, 617, 1, 406), (618, 618, 1, 42926),
   (619, 619, 1, 11362), (620, 620, 1, 42925), (623, 623, 1, 412), (625, 625, 1, 11374),
   (626, 626, 1, 413), (629, 629, 1, 415), (637, 637, 1, 11364), (640, 640, 1, 422),
   (642, 642, 1, 42949), (643, 643, 1, 425), (647, 647, 1, 42929), (648, 648, 1, 430),
   (649, 649, 1, 580), (650, 651, 1, 433), (652, 652, 1, 581), (658, 658, 1, 439),
   (669, 669, 1, 42930), (670, 670, 1, 42928), (837, 837, 1, 921), (881, 883, 2, 880),
   (887, 887, 1, 886), (891, 893, 1, 1021), (940, 940, 1, 902), (941, 943, 1, 904),
   (945, 961, 1, 913), (962, 962, 1, 931), (963, 971, 1, 931), (972, 972, 1, 908),
   (973, 974, 1, 910), (976, 976, 1, 914), (977, 977, 1, 920), (981, 981, 1, 934),
   (982, 982, 1, 928), (983, 983, 1, 975), (985, 1007, 2, 984), (1008, 1008, 1, 922),
   (1009, 1009, 1, 929), (1010, 1010, 1, 1017), (1011, 1011, 1, 895), (1013, 1013, 1, 917),
   (1016, 1016, 1, 1015), (1019, 1019, 1, 1018), (1072, 1103, 1, 1040), (1104, 1119, 1, 1024),
   (1121, 1153, 2, 1120), (1163, 1215, 2, 1162), (1218, 1230, 2, 1217), (1231, 1231, 1, 1216),
   (1233, 1327, 2, 1232), (1377, 1414, 1, 1329), (4304, 4346, 1, 7312), (4349, 4351, 1, 7357),
   (5112, 5117, 1, 5104), (7296, 7296, 1, 1042), (7297, 7297, 1, 1044), (7298, 7298, 1, 1054),
   (7299, 7300, 1, 1057), (7301, 7301, 1, 1058), (7302, 7302, 1, 1066), (7303, 7303, 1, 1122),
   (7304, 7304, 1, 42570), (7545, 7545, 1, 42877), (7549, 7549, 1, 11363), (7566, 7566, 1, 42950),
   (7681, 7829, 2, 7680), (7835, 7835, 1, 7776), (7841, 7935, 2, 7840), (7936, 7943, 1, 7944),
   (7952, 7957, 1, 7960), (7968, 7975, 1, 7976), (7984, 7991, 1, 7992), (8000, 8005, 1, 8008),
   (8017, 8023, 2, 8025), (8032, 8039, 1, 8040), (8048, 8049, 1, 8122), (8050, 8053, 1, 8136),
   (8054, 8055, 1, 8154), (8056, 8057, 1, 8184), (8058, 8059, 1, 8170), (8060, 8061, 1, 8186),
   (8064, 8071, 1, 8072), (8080, 8087, 1, 8088), (8096, 8103, 1, 8104), (8112, 8113, 1, 8120),
   (8115, 8115, 1, 8124), (8126, 8126, 1, 921), (8131, 8131, 1, 8140), (8144, 8145, 1, 8152),
   (8160, 8161, 1, 8168), (8165, 8165, 1, 8172), (8179, 8179, 1, 8188), (8526, 8526, 1, 8498),
   (8560, 8575, 1, 8544), (8580, 8580, 1, 8579), (9424, 9449, 1, 9398), (11312, 11359, 1, 11264),
   (11361, 11361, 1, 11360), (11365, 11365, 1, 570), (11366, 11366, 1, 574),
   (11368, 11372, 2, 11367), (11379, 11379, 1, 11378), (11382, 11382, 1, 11381),
   (11393, 11491, 2, 11392), (11500, 11502, 2, 11499), (11507, 11507, 1, 11506),
   (11520, 11557, 1, 4256), (11559, 11559, 1, 4295), (11565, 11565, 1, 4301),
   (42561, 42605, 2, 42560), (42625, 42651, 2, 42624), (42787, 42799, 2, 42786),
   (42803, 42863, 2, 42802), (42874, 42876, 2, 42873), (42879, 42887, 2, 42878),
   (42892, 42892, 1, 42891), (42897, 42899, 2, 42896), (42900, 42900, 1, 42948),
   (42903, 42921, 2, 42902), (42933, 42947, 2, 42932), (42952, 42954, 2, 42951),
   (42961, 42961, 1, 42960), (42967, 42969, 2, 42966), (42998, 42998, 1, 42997),
   (43859, 43859, 1, 42931), (43888, 43967, 1, 5024), (65345, 65370, 1, 65313),
   (66600, 66639, 1, 66560), (66776, 66811, 1, 66736), (66967, 66977, 1, 66928),
   (66979, 66993, 1, 66940), (66995, 67001, 1, 66956), (67003, 67004, 1, 66964),
   (68800, 68850, 1, 68736), (71872, 71903, 1, 71840), (93792, 93823, 1, 93760),
   (125218, 125251, 1, 125184)]

/-- The function `towupper` of the C library in the locale `C.UTF-8`: the image
given by the run that holds the character, identity on every other
character. -/
def utf8_locale_towupper (character : Nat) : Nat :=
  match utf8_locale_upper_runs.find? (fun run =>
      decide (run.1 ≤ character ∧ character ≤ run.2.1
        ∧ (character - run.1) % run.2.2.1 = 0)) with
  | some run => run.2.2.2 + (character - run.1)
  | none => character

/-- The reference decoders with `towupper` of the locale `C.UTF-8`. -/
def utf8_locale_externals : Externals where
  towupper := utf8_locale_towupper
  copy_from_utf16_stream := reference_utf16_stream
  copy_from_utf8 := reference_utf8
  copy_from_utf16 := reference_utf16

/-! ## Concrete tags -/

/-- The code units of an ASCII string. -/
def units (s : String) : List Nat :=
  s.toList.map Char.toNat

/-- The UTF-16 little-endian bytes of code points of the basic plane. -/
def utf16le (characters : List Nat) : List Nat :=
  characters.flatMap (fun c => [c % 256, c / 256])

/-- A single-entry value of the given type holding an ASCII text: stored as
UTF-16 little-endian with a trailing NUL code unit, rendered as the text. -/
def text_value (type : ValueType) (s : String) : Value :=
  { type := type
    entries := [{ data := utf16le (units s) ++ [0, 0]
                  utf8_string := some (units s)
                  utf16_string := some (units s) }] }

/-- A Node without value. -/
def node (name : String) (attributes_array elements_array : List (Option XmlTag)) : XmlTag :=
  .mk .NODE (some (text_value .STRING_UTF16 name)) none attributes_array elements_array

/-- An attribute: a Node with a name and a value. -/
def attribute_tag (name : String) (type : ValueType) (value : String) : XmlTag :=
  .mk .NODE (some (text_value .STRING_UTF16 name)) (some (text_value type value)) [] []

/-- Scenario (a): the empty element `Event`. -/
def event_tag : XmlTag := node "Event" [] []

/-- Scenario (c): the element `A` with the empty sub elements `B` and `C`. -/
def block_tag : XmlTag := node "A" [] [some (node "B" [] []), some (node "C" [] [])]

/-- Scenario (e): the CData section with payload `x<y&z]`. -/
def cdata_tag : XmlTag := .mk .CDATA none (some (text_value .STRING_UTF16 "x<y&z]")) [] []

/-- Scenario (f): the processing instruction `xml version="1.0"`. -/
def pi_tag : XmlTag :=
  .mk .PI (some (text_value .STRING_UTF16 "xml"))
    (some (text_value .STRING_UTF16 "version=\"1.0\"")) [] []

/-- The element `T` with the attribute `Time` of type FILETIME rendering `2020`. -/
def time_tag : XmlTag := node "T" [some (attribute_tag "Time" .FILETIME "2020")] []

/-- An attribute whose name is a value of type FILETIME. -/
def time_named_tag : XmlTag :=
  .mk .NODE (some (text_value .FILETIME "When")) (some (text_value .STRING_UTF16 "1")) [] []

/-- The given units repeated `n` times. -/
def repeated (pattern : List Nat) : Nat → List Nat
  | 0 => []
  | n + 1 => pattern ++ repeated pattern n

/-- Half of `SSIZE_MAX + 1`. -/
def half_limit : Nat := 4611686018427387904

/-- A Node whose name renders as `SSIZE_MAX` units. -/
def huge_tag : XmlTag :=
  .mk .NODE
    (some { type := .STRING_UTF16
            entries := [{ data := [65, 0, 0, 0]
                          utf8_string := some (List.replicate SSIZE_MAX 65)
                          utf16_string := some (List.replicate SSIZE_MAX 65) }] })
    none [] []

/-- The writer went from `st` to `st1` by producing the units `w`: the index
advanced by their number, the buffer up to the new index is the buffer up to
the old index followed by `w`, and no store left the buffer. -/
def Wrote (st st1 : WState) (w : List Nat) : Prop :=
  st1.index = st.index + w.length
    ∧ st1.buf.take st1.index = st.buf.take st.index ++ w
    ∧ st1.buf.length = st.buf.length
    ∧ st1.oob = st.oob
    ∧ st1.index ≤ st1.buf.length

/-- The step `r` of the writer, started in `st`, returns 1 and has produced the
units `w`. -/
def Runs (st : WState) (r : WResult) (w : List Nat) : Prop :=
  ∃ st1, r = .ok st1 ∧ Wrote st st1 w


/-- The writer went from `st` to `st1` by storing the units `w` at consecutive
indices, some of them possibly at or beyond the capacity: the index advanced
by their number, and below the capacity the buffer up to the new index is the
buffer up to the old index followed by `w`. -/
def WroteCut (cap : Nat) (st st1 : WState) (w : List Nat) : Prop :=
  st1.index = st.index + w.length
    ∧ (st1.buf.take st1.index).take cap = (st.buf.take st.index ++ w).take cap
    ∧ st1.buf.length = st.buf.length

/-! ## The forms of the specification -/

/-- Scenario (b): the element `Data` with the attribute `Name="Id"` and the
value `42`. -/
def data_tag : XmlTag :=
  .mk .NODE (some (text_value .STRING_UTF16 "Data")) (some (text_value .STRING_UTF16 "42"))
    [some (attribute_tag "Name" .STRING_UTF16 "Id")] []

/-- No rendering of an entry of the value contains a NUL unit. -/
def value_nul_free (enc : Encoding) : Option Value → Bool
  | none => true
  | some v => v.entries.all fun e =>
      match e.string enc with
      | none => true
      | some r => decide (0 ∉ r)

/-- No name and no value of the attributes renders with a NUL unit. -/
def attributes_nul_free (enc : Encoding) : List (Option XmlTag) → Bool
  | [] => true
  | none :: rest => attributes_nul_free enc rest
  | some a :: rest =>
    value_nul_free enc a.name && value_nul_free enc a.value && attributes_nul_free enc rest

mutual

/-- No name and no value of the tag, of its attributes and of its sub elements
at every depth renders with a NUL unit. -/
def nul_free (enc : Encoding) : XmlTag → Bool
  | .mk _ name value attributes_array elements_array =>
    value_nul_free enc name && value_nul_free enc value
      && attributes_nul_free enc attributes_array && elements_nul_free enc elements_array

/-- The same for an array entry, which may be NULL. -/
def nul_free_entry (enc : Encoding) : Option XmlTag → Bool
  | none => true
  | some xml_tag => nul_free enc xml_tag

/-- The same for every sub element of an array. -/
def elements_nul_free (enc : Encoding) : List (Option XmlTag) → Bool
  | [] => true
  | e :: rest => nul_free_entry enc e && elements_nul_free enc rest

end

/-! ## Creation, growth and release of a tag -/

/-- Modelled from the spec: the kind of a tag whose structure is all zero
bytes, as `memory_set` leaves it.  The enumeration `LIBEVTX_XML_TAG_TYPE_*` is
declared in a header that is not part of the source; the spec gives a new tag
the default kind Node. -/
def zeroed_tag_type : XmlTagType := .NODE

/-- The outcomes of the allocating routines that `libevtx_xml_tag_initialize`
calls and that are not part of this source file: `memory_allocate_structure`,
`memory_set` and the two calls of `libevtx_array_initialize`; `true` stands
for success. -/
structure Allocator where
  memory_allocate_structure : Bool
  memory_set : Bool
  attributes_array_created : Bool
  elements_array_created : Bool
  deriving DecidableEq, Repr

/-- Modelled from the spec: `libevtx_array_initialize` for 0 entries, an empty
ordered collection, or no array when the allocator fails. -/
def libevtx_array_initialize (succeeds : Bool) : Option (List (Option XmlTag)) :=
  if succeeds then some [] else none

/-- What a caller sees after `libevtx_xml_tag_initialize`: the return value,
the error code if any, and the slot `*xml_tag` (`none` for a NULL pointer to
the slot, `some none` for a slot that holds NULL). -/
structure InitializeOutcome where
  status : Int
  error : Option ErrorCode
  slot : Option (Option XmlTag)

/-- The function `libevtx_xml_tag_initialize`. -/
def libevtx_xml_tag_initialize (allocator : Allocator) (xml_tag : Option (Option XmlTag)) :
    InitializeOutcome :=
  match xml_tag with
  | none => { status := -1, error := some ErrorCode.ARGUMENT_INVALID_VALUE, slot := none }
  | some (some tag) =>
    { status := -1, error := some ErrorCode.RUNTIME_VALUE_ALREADY_SET, slot := some (some tag) }
  | some none =>
    if allocator.memory_allocate_structure = false then
      { status := -1, error := some ErrorCode.MEMORY_INSUFFICIENT, slot := some none }
    else if allocator.memory_set = false then
      { status := -1, error := some ErrorCode.MEMORY_SET_FAILED, slot := some none }
    else
      match libevtx_array_initialize allocator.attributes_array_created with
      | none =>
        { status := -1, error := some ErrorCode.RUNTIME_INITIALIZE_FAILED, slot := some none }
      | some attributes_array =>
        match libevtx_array_initialize allocator.elements_array_created with
        | none =>
          { status := -1, error := some ErrorCode.RUNTIME_INITIALIZE_FAILED, slot := some none }
        | some elements_array =>
          { status := 1, error := none
            slot := some (some (.mk zeroed_tag_type none none attributes_array elements_array)) }

/-- Modelled from the spec: `libevtx_array_append_entry`, which adds the entry
at the tail of the sequence and reports its index; the spec describes no
failure of it. -/
def libevtx_array_append_entry (array : List (Option XmlTag)) (entry : Option XmlTag) :
    Option (Nat × List (Option XmlTag)) :=
  some (array.length, array ++ [entry])

/-- What a caller sees after an append: the return value, the error code if
any, and the tag. -/
structure AppendOutcome where
  status : Int
  error : Option ErrorCode
  xml_tag : Option XmlTag

/-- The function `libevtx_xml_tag_append_attribute`. -/
def libevtx_xml_tag_append_attribute (xml_tag : Option XmlTag)
    (attribute_xml_tag : Option XmlTag) : AppendOutcome :=
  match xml_tag with
  | none => { status := -1, error := some ErrorCode.ARGUMENT_INVALID_VALUE, xml_tag := none }
  | some (.mk type name value attributes_array elements_array) =>
    match libevtx_array_append_entry attributes_array attribute_xml_tag with
    | none =>
      { status := -1, error := some ErrorCode.RUNTIME_APPEND_FAILED
        xml_tag := some (.mk type name value attributes_array elements_array) }
    | some (_, attributes_array) =>
      { status := 1, error := none
        xml_tag := some (.mk type name value attributes_array elements_array) }

/-- The function `libevtx_xml_tag_append_element`. -/
def libevtx_xml_tag_append_element (xml_tag : Option XmlTag)
    (element_xml_tag : Option XmlTag) : AppendOutcome :=
  match xml_tag with
  | none => { status := -1, error := some ErrorCode.ARGUMENT_INVALID_VALUE, xml_tag := none }
  | some (.mk type name value attributes_array elements_array) =>
    match libevtx_array_append_entry elements_array element_xml_tag with
    | none =>
      { status := -1, error := some ErrorCode.RUNTIME_APPEND_FAILED
        xml_tag := some (.mk type name value attributes_array elements_array) }
    | some (_, elements_array) =>
      { status := 1, error := none
        xml_tag := some (.mk type name value attributes_array elements_array) }

/-- The tag after appending the given attributes one after the other. -/
def append_attributes (xml_tag : Option XmlTag) (entries : List (Option XmlTag)) :
    Option XmlTag :=
  entries.foldl (fun tag entry => (libevtx_xml_tag_append_attribute tag entry).xml_tag) xml_tag

/-- The tag after appending the given sub elements one after the other. -/
def append_elements (xml_tag : Option XmlTag) (entries : List (Option XmlTag)) :
    Option XmlTag :=
  entries.foldl (fun tag entry => (libevtx_xml_tag_append_element tag entry).xml_tag) xml_tag

/-- The result of the frees of a tag or of an array: 1 or -1, and the values on
which `libfvalue_value_free` was called, in order. -/
structure FreeTrace where
  result : Int
  freed : List Value

/-- The free of the value or of the name of a tag (lines 202-233): nothing
for a NULL pointer, else one call of `libfvalue_value_free`, which is not
part of this repository; `value_free` tells whether it returns 1. -/
def value_free_trace (value_free : Value → Bool) : Option Value → FreeTrace
  | none => { result := 1, freed := [] }
  | some v => { result := if value_free v then 1 else -1, freed := [v] }

mutual

/-- The body of `if( *xml_tag != NULL )` in `libevtx_xml_tag_free`
(lines 172-233): the sub elements, the attributes, the value and the name are
freed in that order, each failure sets `result` to -1 and the next free is
still done. -/
def xml_tag_free_contents (value_free : Value → Bool) : XmlTag → FreeTrace
  | .mk _ name value attributes_array elements_array =>
    { result :=
        if (libevtx_array_free value_free elements_array).result ≠ 1
            ∨ (libevtx_array_free value_free attributes_array).result ≠ 1
            ∨ (value_free_trace value_free value).result ≠ 1
            ∨ (value_free_trace value_free name).result ≠ 1 then -1
        else 1
      freed := (libevtx_array_free value_free elements_array).freed
        ++ (libevtx_array_free value_free attributes_array).freed
        ++ (value_free_trace value_free value).freed
        ++ (value_free_trace value_free name).freed }

/-- The entry free function of the arrays, `libevtx_xml_tag_free` on the slot of
an entry; nothing is done for a NULL entry. -/
def xml_tag_free_entry (value_free : Value → Bool) : Option XmlTag → FreeTrace
  | none => { result := 1, freed := [] }
  | some xml_tag => xml_tag_free_contents value_free xml_tag

/-- Modelled from the spec: `libevtx_array_free` with `libevtx_xml_tag_free` as
entry free function.  Every entry is freed in order; a failure of one entry is
recorded in the result and the remaining entries are still freed. -/
def libevtx_array_free (value_free : Value → Bool) : List (Option XmlTag) → FreeTrace
  | [] => { result := 1, freed := [] }
  | entry :: rest =>
    { result :=
        if (xml_tag_free_entry value_free entry).result ≠ 1
            ∨ (libevtx_array_free value_free rest).result ≠ 1 then -1
        else 1
      freed := (xml_tag_free_entry value_free entry).freed
        ++ (libevtx_array_free value_free rest).freed }

end

/-- What a caller sees after `libevtx_xml_tag_free`: the return value, the
error code if any, the slot `*xml_tag`, and the values on which
`libfvalue_value_free` was called. -/
structure FreeOutcome where
  status : Int
  error : Option ErrorCode
  slot : Option (Option XmlTag)
  freed : List Value

/-- The function `libevtx_xml_tag_free`. -/
def libevtx_xml_tag_free (value_free : Value → Bool) (xml_tag : Option (Option XmlTag)) :
    FreeOutcome :=
  match xml_tag with
  | none =>
    { status := -1, error := some ErrorCode.ARGUMENT_INVALID_VALUE, slot := none, freed := [] }
  | some none => { status := 1, error := none, slot := some none, freed := [] }
  | some (some tag) =>
    { status := (xml_tag_free_contents value_free tag).result
      error := if (xml_tag_free_contents value_free tag).result = 1 then none
        else some ErrorCode.RUNTIME_FINALIZE_FAILED
      slot := some none
      freed := (xml_tag_free_contents value_free tag).freed }

/-! ## The size formulas of the specification -/

/-- The quantity `value_size` of the specification, from the reported string
sizes of the entries of an element value: a size above 1 counts less its NUL,
plus 1 for a value of type FILETIME or SYSTEMTIME; a size of at most 1 counts
nothing. -/
def reference_value_size (time : Bool) (entry_sizes : List Nat) : Nat :=
  (entry_sizes.map
    (fun sz => if sz > 1 then sz - 1 + (if time then 1 else 0) else 0)).sum

/-- The reported sizes of one attribute: the string sizes of entry 0 of its
name and of its value, each with its NUL, and whether the value has type
FILETIME or SYSTEMTIME. -/
structure AttributeSizes where
  name_size : Nat
  value_size : Nat
  time : Bool
  deriving DecidableEq, Repr

/-- The tail of the size formula of the specification: for a value with a
positive `value_size`, that size, the name and 2; for another value 1; without
value and with sub elements their sizes, each less 1, and
2·L + size(name) + 3; else 1. -/
def reference_tail (xml_tag_level name_size : Nat) (value_size : Option Nat)
    (child_sizes : List Nat) : Nat :=
  match value_size with
  | some value_size => if value_size > 0 then value_size + name_size + 2 else 1
  | none =>
    if child_sizes.length > 0 then
      (child_sizes.map (fun s => s - 1)).sum + (2 * xml_tag_level + name_size + 3)
    else 1

/-- The size formula of the specification for a Node, with its term
1 + size(a.name) + 2 + size(a.value) + (1 for a time type) for each
attribute. -/
def spec_node_size (xml_tag_level name_size : Nat) (attributes : List AttributeSizes)
    (tail : Nat) : Nat :=
  2 * xml_tag_level + 1 + (name_size - 1)
    + (attributes.map
        (fun a => 1 + a.name_size + 2 + a.value_size + (if a.time then 1 else 0))).sum
    + tail + 3

/-- The size formula for a Node with the term
size(a.name) + 2 + size(a.value) + (1 for a time type) for each attribute. -/
def node_size (xml_tag_level name_size : Nat) (attributes : List AttributeSizes)
    (tail : Nat) : Nat :=
  2 * xml_tag_level + 1 + (name_size - 1)
    + (attributes.map
        (fun a => a.name_size + 2 + a.value_size + (if a.time then 1 else 0))).sum
    + tail + 3

/-- The array entry is an attribute that reports the given sizes. -/
def attribute_sizes (enc : Encoding) (entry : Option XmlTag) (sizes : AttributeSizes) : Prop :=
  ∃ (a : XmlTag) (value_type : ValueType),
    entry = some a
    ∧ libfvalue_value_get_string_size enc a.name 0 = some sizes.name_size
    ∧ libfvalue_value_get_type a.value = some value_type
    ∧ sizes.time = is_time_type value_type
    ∧ libfvalue_value_get_string_size enc a.value 0 = some sizes.value_size

/-- The quantity `value_size` of the value of a tag, from the string sizes its
entries report: none for an absent value. -/
def value_sizes (enc : Encoding) (value : Option Value) (value_size : Option Nat) : Prop :=
  match value with
  | none => value_size = none
  | some v =>
    ∃ entry_sizes,
      List.Forall₂ (fun e sz => ValueEntry.string_size enc e = some sz) v.entries entry_sizes
      ∧ value_size = some (reference_value_size (is_time_type v.type) entry_sizes)

/-! ## Properties of every value entry of a tag -/

/-- Every entry of the value has the property; true for a NULL value. -/
def value_every (p : ValueEntry → Bool) : Option Value → Bool
  | none => true
  | some v => v.entries.all p

/-- Every entry of the name and of the value of every attribute has the
property. -/
def attributes_every (p : ValueEntry → Bool) : List (Option XmlTag) → Bool
  | [] => true
  | none :: rest => attributes_every p rest
  | some a :: rest =>
    value_every p a.name && value_every p a.value && attributes_every p rest

mutual

/-- Every entry of the name and of the value of the tag, of its attributes and
of its sub elements at every depth has the property. -/
def every_entry (p : ValueEntry → Bool) : XmlTag → Bool
  | .mk _ name value attributes_array elements_array =>
    value_every p name && value_every p value
      && attributes_every p attributes_array && elements_every p elements_array

/-- The same for an array entry, which may be NULL. -/
def every_entry_of (p : ValueEntry → Bool) : Option XmlTag → Bool
  | none => true
  | some xml_tag => every_entry p xml_tag

/-- The same for every sub element of an array. -/
def elements_every (p : ValueEntry → Bool) : List (Option XmlTag) → Bool
  | [] => true
  | e :: rest => every_entry_of p e && elements_every p rest

end

/-- The entry reports the same string size through the UTF-8 and through the
UTF-16 size primitive, or fails in both. -/
def ValueEntry.same_string_size (e : ValueEntry) : Bool :=
  decide (ValueEntry.string_size Encoding.utf8 e = ValueEntry.string_size Encoding.utf16 e)

/-- The copy primitives write the same unit values for the entry in both
encodings, or fail in both. -/
def ValueEntry.same_rendering (e : ValueEntry) : Bool :=
  decide (ValueEntry.string Encoding.utf8 e = ValueEntry.string Encoding.utf16 e)

/-- What a run of the writer leaves apart from the buffer: the index and
whether a store went beyond the capacity. -/
def WState.outline (st : WState) : Nat × Bool :=
  (st.index, st.oob)

/-- The result of a run of the writer apart from the buffer. -/
def WResult.outline : WResult → Except (ErrorCode × (Nat × Bool)) (Nat × Bool)
  | .ok st => .ok st.outline
  | .error (code, st) => .error (code, st.outline)

/-! ## Debug print -/

/-- The result of a run of the debug print: the characters sent to the sink so
far, either on return 1 (`ok`) or at the point where -1 is returned, with the
error code set there. -/
abbrev PResult := Except (ErrorCode × List Nat) (List Nat)

/-- Sequencing of two steps of the debug print. -/
def PResult.andThen (r : PResult) (f : List Nat → PResult) : PResult :=
  match r with
  | .ok sink => f sink
  | .error e => .error e

/-- The call `libcnotify_printf` with a literal text: its characters go to the
sink. -/
def libcnotify_printf (sink : List Nat) (text : String) : List Nat :=
  sink ++ units text

/-- Modelled from the spec: `libfvalue_value_print`, which sends exactly the
rendering of the entry to the sink; it fails, printing nothing, when the
value is NULL, the entry is missing or the rendering cannot be produced. -/
def libfvalue_value_print (value : Option Value) (value_entry_index : Nat)
    (sink : List Nat) : Option (List Nat) :=
  match value_entry_string Encoding.utf8 value value_entry_index with
  | none => none
  | some r => some (sink ++ r)

/-- A value print as the debug print does it each time; a failed print makes
the function return -1 with PRINT_FAILED. -/
def print_value (value : Option Value) (value_entry_index : Nat) (sink : List Nat) :
    PResult :=
  match libfvalue_value_print value value_entry_index sink with
  | none => .error (ErrorCode.RUNTIME_PRINT_FAILED, sink)
  | some sink => .ok sink

/-- The indentation loop of the debug print: two spaces per level. -/
def print_indent : Nat → List Nat → List Nat
  | 0, sink => sink
  | n + 1, sink => print_indent n (libcnotify_printf sink "  ")

/-- The attribute loop of the debug print (lines 3724-3814). -/
def print_attributes : List (Option XmlTag) → List Nat → PResult
  | [], sink => .ok sink
  | none :: _, sink => .error (ErrorCode.RUNTIME_VALUE_MISSING, sink)
  | some attribute_xml_tag :: rest, sink =>
    (print_value attribute_xml_tag.name 0 (libcnotify_printf sink " ")).andThen fun sink =>
    let sink := libcnotify_printf sink "=\""
    match libfvalue_value_get_type attribute_xml_tag.value with
    | none => .error (ErrorCode.RUNTIME_GET_FAILED, sink)
    | some value_type =>
      (print_value attribute_xml_tag.value 0 sink).andThen fun sink =>
      print_attributes rest
        (libcnotify_printf
          (if is_time_type value_type then libcnotify_printf sink "Z" else sink) "\"")

/-- The second value entry loop of the debug print (lines 3889-3914): every
entry is printed and, for a time type, followed by `Z`; the string size of the
entry is not looked at. -/
def print_value_entries (value : Value) : List ValueEntry → Nat → List Nat → PResult
  | [], _, sink => .ok sink
  | _ :: rest, value_entry_index, sink =>
    (print_value (some value) value_entry_index sink).andThen fun sink =>
    print_value_entries value rest (value_entry_index + 1)
      (if is_time_type value.type then libcnotify_printf sink "Z" else sink)

mutual

/-- The function `libevtx_xml_tag_debug_print` on a non-NULL tag, as a
transformer of the sink. -/
def debug_print : XmlTag → Nat → List Nat → PResult
  | .mk type name value attributes_array elements_array, xml_tag_level, sink =>
    let sink := libcnotify_printf (print_indent xml_tag_level sink) "<"
    match type with
    | .NODE =>
      (print_value name 0 sink).andThen fun sink =>
      (print_attributes attributes_array sink).andThen fun sink =>
      PResult.andThen (match value with
        | some v =>
          match value_string_size Encoding.utf8 v.type v.entries 0 with
          | none => .error (ErrorCode.RUNTIME_GET_FAILED, sink)
          | some value_size =>
            if value_size > 0 then
              (print_value_entries v v.entries 0 (libcnotify_printf sink ">")).andThen
                fun sink =>
              print_value name 0 (libcnotify_printf sink "</")
            else .ok (libcnotify_printf sink "/")
        | none =>
          match elements_array with
          | [] => .ok (libcnotify_printf sink "/")
          | e :: es =>
            (debug_print_elements (e :: es) (xml_tag_level + 1)
              (libcnotify_printf sink ">\n")).andThen fun sink =>
            print_value name 0
              (libcnotify_printf (print_indent xml_tag_level sink) "</")) fun sink =>
      .ok (libcnotify_printf sink ">\n")
    | .CDATA =>
      (print_value value 0 (libcnotify_printf sink "![CDATA[")).andThen fun sink =>
      .ok (libcnotify_printf (libcnotify_printf sink "]]") ">\n")
    | .PI =>
      (print_value name 0 (libcnotify_printf sink "?")).andThen fun sink =>
      (print_value value 0 (libcnotify_printf sink " ")).andThen fun sink =>
      .ok (libcnotify_printf (libcnotify_printf sink "?") ">\n")

/-- The debug print on an array entry; a NULL tag is refused. -/
def debug_print_entry : Option XmlTag → Nat → List Nat → PResult
  | none, _, sink => .error (ErrorCode.ARGUMENT_INVALID_VALUE, sink)
  | some xml_tag, xml_tag_level, sink => debug_print xml_tag xml_tag_level sink

/-- The element loop of the debug print (lines 3945-3980). -/
def debug_print_elements : List (Option XmlTag) → Nat → List Nat → PResult
  | [], _, sink => .ok sink
  | e :: rest, xml_tag_level, sink =>
    match debug_print_entry e xml_tag_level sink with
    | .error (_, sink) => .error (ErrorCode.RUNTIME_PRINT_FAILED, sink)
    | .ok sink => debug_print_elements rest xml_tag_level sink

end

/-- What a call of the debug print leaves: the return value, the error code if
any, and the characters sent to the sink. -/
structure PrintOutcome where
  status : Int
  error : Option ErrorCode
  sink : List Nat
  deriving DecidableEq, Repr

/-- The function `libevtx_xml_tag_debug_print`, called with an empty sink. -/
def libevtx_xml_tag_debug_print (xml_tag : XmlTag) (xml_tag_level : Nat) : PrintOutcome :=
  match debug_print xml_tag xml_tag_level [] with
  | .ok sink => { status := 1, error := none, sink := sink }
  | .error (code, sink) => { status := -1, error := some code, sink := sink }

/-- An entry of a value that renders as the given ASCII text. -/
def text_entry (s : String) : ValueEntry :=
  { data := utf16le (units s) ++ [0, 0], utf8_string := some (units s),
    utf16_string := some (units s) }

/-- The element `T` whose value of type FILETIME has two entries, the first
rendering `2020` and the second with an empty rendering. -/
def empty_entry_time_tag : XmlTag :=
  .mk .NODE (some (text_value .STRING_UTF16 "T"))
    (some { type := .FILETIME, entries := [text_entry "2020", text_entry ""] }) [] []

/-- The element `T` whose value of string type has the entries `a`, empty and
`b`. -/
def empty_entry_text_tag : XmlTag :=
  .mk .NODE (some (text_value .STRING_UTF16 "T"))
    (some { type := .STRING_UTF16,
            entries := [text_entry "a", text_entry "", text_entry "b"] }) [] []

/-! ## The acceptance condition of the name comparison -/

/-- The acceptance condition: the stored name, within the given size, and the
needle decode completely into the same number of code points, and apart from
the last code point of each the code points are pairwise equal under
`towupper`. -/
def equal_up_to_last_code_point (towupper : Nat → Nat) (name_decoder string_decoder : Decoder)
    (value_entry_data : List Nat) (value_entry_data_size : Nat)
    (string : List Nat) (string_length : Nat) : Prop :=
  ∃ fuel_name fuel_string name_code_points string_code_points,
    decode_string name_decoder value_entry_data value_entry_data_size fuel_name 0
      = some name_code_points
    ∧ decode_string string_decoder string string_length fuel_string 0
      = some string_code_points
    ∧ name_code_points.length = string_code_points.length
    ∧ name_code_points.dropLast.map towupper = string_code_points.dropLast.map towupper

/-- The stored bytes of the name of an array entry that reaches the comparison
loop: the entry is a tag, its name has the type STRING_UTF16, and entry 0 of
the name has at least 2 bytes. -/
def comparable_name : Option XmlTag → Option (List Nat)
  | none => none
  | some entry =>
    if libfvalue_value_get_type entry.name = some ValueType.STRING_UTF16 then
      match libfvalue_value_get_entry_data entry.name 0 with
      | none => none
      | some value_entry_data =>
        if 2 ≤ value_entry_data.length then some value_entry_data else none
    else none

/-- The result of a lookup is the first entry, in insertion order, that the
loop body accepts after rejected entries only: when such an entry exists the
result is 1 with that entry behind the out-parameter, and a result of 1 has
such an entry behind the out-parameter. -/
def returns_first_accepted (examine : Option XmlTag → EntryOutcome)
    (array : List (Option XmlTag)) (result : Option LookupOutcome) : Prop :=
  (∀ before e after, array = before ++ e :: after →
      (∀ x ∈ before, examine x = .rejected) → examine e = .accepted →
      result = some { status := 1, error := none, out := e })
  ∧ (∀ o, result = some o → o.status = 1 →
      ∃ before after, array = before ++ o.out :: after
        ∧ (∀ x ∈ before, examine x = .rejected) ∧ examine o.out = .accepted)

/-! ## Attributes that differ in the later entries of their values -/

/-- Entry 0 of a value; none for a NULL value and for a value without
entries. -/
def first_entry (value : Option Value) : Option ValueEntry :=
  value.bind (fun v => v.entries[0]?)

/-- Two array entries are attributes that differ at most in the entries 1.. of
their values: both are NULL, or both are tags with the same name, the same
value type and the same entry 0 of the value. -/
def same_up_to_later_entries : Option XmlTag → Option XmlTag → Prop
  | none, none => True
  | some a, some b =>
    a.name = b.name
      ∧ libfvalue_value_get_type a.value = libfvalue_value_get_type b.value
      ∧ first_entry a.value = first_entry b.value
  | _, _ => False

/-- A value of string type with the entries `ab` and `cd`. -/
def two_entry_value : Value :=
  { type := .STRING_UTF16, entries := [text_entry "ab", text_entry "cd"] }

/-- The same value with entry 1 removed. -/
def one_entry_value : Value :=
  { type := .STRING_UTF16, entries := [text_entry "ab"] }

/-- The same value with entry 1 altered and an entry 2 added. -/
def altered_entry_value : Value :=
  { type := .STRING_UTF16, entries := [text_entry "ab", text_entry "xyz", text_entry "q"] }

/-- The element `T` with the attribute `k` of the given value. -/
def attribute_holder (value : Value) : XmlTag :=
  node "T" [some (.mk .NODE (some (text_value .STRING_UTF16 "k")) (some value) [] [])] []

/-- The element `T` with the given value. -/
def value_holder (value : Value) : XmlTag :=
  .mk .NODE (some (text_value .STRING_UTF16 "T")) (some value) [] []

/-! ## Needles in the two encodings -/

/-- The UTF-8 string and the UTF-16 string are encodings of the same sequence
of Unicode code points: the two decoders of the needles read that sequence from
them. -/
def encode_same_code_points (E : Externals) (utf8_string : List Nat) (utf8_string_length : Nat)
    (utf16_string : List Nat) (utf16_string_length : Nat) : Prop :=
  ∃ fuel8 fuel16 code_points,
    decode_string E.copy_from_utf8 utf8_string utf8_string_length fuel8 0 = some code_points
    ∧ decode_string E.copy_from_utf16 utf16_string utf16_string_length fuel16 0
      = some code_points

/-! ## Stored names of at least two bytes -/

/-- Every entry of the array that is a tag with a readable name has a stored
name of at least 2 bytes. -/
def names_have_two_bytes (array : List (Option XmlTag)) : Prop :=
  ∀ e ∈ array, ∀ t, e = some t →
    ∀ data, libfvalue_value_get_entry_data t.name 0 = some data → 2 ≤ data.length

/-! ## The buffer before the entry index -/

/-- The state in which a run of the writer ends, with return 1 or with -1. -/
def WResult.state : WResult → WState
  | .ok st => st
  | .error (_, st) => st

/-- The index of the state is not below `i0`, and the buffer holds the units
`pre` at the indices below `i0`. -/
def Kept (i0 : Nat) (pre : List Nat) (st : WState) : Prop :=
  i0 ≤ st.index ∧ st.buf.take i0 = pre

/-! ## Lines of the text of a tag -/

mutual

/-- Modelled from the spec: the count lines(t), 1 for a CData tag, for a PI tag
and for a Node that has a value or no sub elements; 2 and the lines of the sub
elements for a Node without value that has sub elements. -/
def lines : XmlTag → Nat
  | .mk type _ value _ elements_array =>
    match type with
    | .NODE =>
      match value with
      | some _ => 1
      | none =>
        match elements_array with
        | [] => 1
        | e :: es => 2 + elements_lines (e :: es)
    | .CDATA => 1
    | .PI => 1

/-- The lines of an array entry; none for a NULL entry. -/
def entry_lines : Option XmlTag → Nat
  | none => 0
  | some xml_tag => lines xml_tag

/-- The lines of the sub elements of an array together. -/
def elements_lines : List (Option XmlTag) → Nat
  | [] => 0
  | e :: rest => entry_lines e + elements_lines rest

end

/-! ## The values held by a tag -/

mutual

/-- The values that a tag holds, at every depth: those of the sub elements,
those of the attributes, the value of the tag and its name, in the order in
which `libevtx_xml_tag_free` goes through them. -/
def held_values : XmlTag → List Value
  | .mk _ name value attributes_array elements_array =>
    array_held_values elements_array ++ array_held_values attributes_array
      ++ value.toList ++ name.toList

/-- The values held by an array entry; none for a NULL entry. -/
def entry_held_values : Option XmlTag → List Value
  | none => []
  | some xml_tag => held_values xml_tag

/-- The values held by the entries of an array, in order. -/
def array_held_values : List (Option XmlTag) → List Value
  | [] => []
  | entry :: rest => entry_held_values entry ++ array_held_values rest

end

/-- The element `A` with the attribute `k` and the sub elements `B`, which has
the value `x`, and `C`. -/
def family_tag : XmlTag :=
  node "A" [some (attribute_tag "k" .STRING_UTF16 "v")]
    [some (.mk .NODE (some (text_value .STRING_UTF16 "B")) (some (text_value .STRING_UTF16 "x"))
      [] []), some (node "C" [] [])]

/-! ## The arithmetic of `int` and `size_t`

The definitions of the size computation and of the writer above count in
natural numbers.  The C code counts levels in `int` (32 bits) and sizes and
indices in `size_t` (64 bits).  The definitions of this part follow the code
with that arithmetic; the theorems `machine_xml_string_size_of_fit` and
`machine_get_xml_string_with_index_of_fit` show that both agree as long as no
computation leaves the range of its type. -/

/-- The largest value of an `int`. -/
def INT_MAX : Int := 2147483647

/-- The largest value of a `size_t`. -/
def SIZE_MAX : Nat := 18446744073709551615

/-- The result of a computation in `int`: the value in 32-bit two's complement.
(An overflow in `int` is undefined in C; this is what the compiled code
computes.) -/
def int_result (z : Int) : Int :=
  (z + 2147483648) % 4294967296 - 2147483648

/-- The conversion of an `int` to `size_t`. -/
def to_size_t (z : Int) : Nat :=
  (z % 18446744073709551616).toNat

/-- The result of a computation in `size_t`: the value modulo 2^64. -/
def size_t (n : Nat) : Nat :=
  n % 18446744073709551616

/-- The least number of 3-byte UTF-8 sequences that take more than SSIZE_MAX
bytes. -/
def third_limit : Nat := 3074457345618258603

/-- The value of `( xml_tag_level * 2 )`, computed in `int`, as it enters a sum
in `size_t`. -/
def Machine.level_units (xml_tag_level : Int) : Nat :=
  to_size_t (int_result (xml_tag_level * 2))

/-- The attribute loop of the size computation (lines 1365-1465) in `size_t`.
A sum is reduced modulo 2^64 once, which gives the same value as reducing it
after every addition. -/
def Machine.attributes_string_size (enc : Encoding) :
    List (Option XmlTag) → Nat → Option Nat
  | [], string_size => some string_size
  | none :: _, _ => none
  | some attribute_xml_tag :: rest, string_size =>
    match libfvalue_value_get_string_size enc attribute_xml_tag.name 0 with
    | none => none
    | some name_size =>
      match libfvalue_value_get_type attribute_xml_tag.value with
      | none => none
      | some value_type =>
        match libfvalue_value_get_string_size enc attribute_xml_tag.value 0 with
        | none => none
        | some value_size =>
          Machine.attributes_string_size enc rest
            (size_t (string_size + (name_size + 2) + value_size
              + (if is_time_type value_type then 1 else 0)))

/-- The value entry loop (lines 1499-1534) in `size_t`. -/
def Machine.value_string_size (enc : Encoding) (value_type : ValueType) :
    List ValueEntry → Nat → Option Nat
  | [], size => some size
  | e :: rest, size =>
    match e.string_size enc with
    | none => none
    | some string_size =>
      Machine.value_string_size enc value_type rest
        (if string_size > 1 then
          size_t (size + (string_size - 1) + (if is_time_type value_type then 1 else 0))
        else size)

mutual

/-- The function `libevtx_xml_tag_get_utf8_xml_string_size` (and its UTF-16
twin) on a non-NULL tag with the arithmetic of the code: the level is an `int`,
the sizes are `size_t`. -/
def Machine.xml_string_size (enc : Encoding) : XmlTag → Int → Option Nat
  | .mk type name value attributes_array elements_array, xml_tag_level =>
    match type with
    | .NODE =>
      match libfvalue_value_get_string_size enc name 0 with
      | none => none
      | some name_size =>
        match Machine.attributes_string_size enc attributes_array
            (size_t (to_size_t (int_result (int_result (xml_tag_level * 2) + 1))
              + size_t_difference name_size 1)) with
        | none => none
        | some string_size =>
          match value with
          | some v =>
            match Machine.value_string_size enc v.type v.entries 0 with
            | none => none
            | some value_size =>
              if value_size > 0 then
                some (size_t (size_t (string_size + (value_size + name_size + 2)) + 3))
              else
                some (size_t (size_t (string_size + 1) + 3))
          | none =>
            match elements_array with
            | [] => some (size_t (size_t (string_size + 1) + 3))
            | e :: es =>
              match Machine.elements_string_size enc (e :: es)
                  (int_result (xml_tag_level + 1)) string_size with
              | none => none
              | some string_size =>
                some (size_t (size_t (string_size
                  + (Machine.level_units xml_tag_level + name_size + 3)) + 3))
    | .CDATA =>
      match libfvalue_value_get_string_size enc value 0 with
      | none => none
      | some string_size =>
        some (size_t (size_t (to_size_t (int_result (int_result (xml_tag_level * 2) + 1))
          + (string_size + 9)) + 3))
    | .PI =>
      match libfvalue_value_get_string_size enc name 0 with
      | none => none
      | some name_size =>
        match libfvalue_value_get_string_size enc value 0 with
        | none => none
        | some string_size =>
          some (size_t (size_t (size_t
            (to_size_t (int_result (int_result (xml_tag_level * 2) + 1)) + name_size)
            + (string_size + 1)) + 3))

/-- The size function on an array entry, which may be NULL. -/
def Machine.xml_string_size_entry (enc : Encoding) : Option XmlTag → Int → Option Nat
  | none, _ => none
  | some xml_tag, xml_tag_level => Machine.xml_string_size enc xml_tag xml_tag_level

/-- The element loop (lines 1556-1596) in `size_t`. -/
def Machine.elements_string_size (enc : Encoding) :
    List (Option XmlTag) → Int → Nat → Option Nat
  | [], _, string_size => some string_size
  | e :: rest, xml_tag_level, string_size =>
    match Machine.xml_string_size_entry enc e xml_tag_level with
    | none => none
    | some element_size =>
      Machine.elements_string_size enc rest xml_tag_level
        (size_t (string_size + size_t_difference element_size 1))

end

/-- The function `libevtx_xml_tag_get_utf8_xml_string_size` with the arithmetic
of the code. -/
def Machine.libevtx_xml_tag_get_utf8_xml_string_size (xml_tag : XmlTag)
    (xml_tag_level : Int) : Option Nat :=
  Machine.xml_string_size Encoding.utf8 xml_tag xml_tag_level

/-- The function `libevtx_xml_tag_get_utf16_xml_string_size` with the
arithmetic of the code. -/
def Machine.libevtx_xml_tag_get_utf16_xml_string_size (xml_tag : XmlTag)
    (xml_tag_level : Int) : Option Nat :=
  Machine.xml_string_size Encoding.utf16 xml_tag xml_tag_level

/-- The statement `utf8_string[ string_index++ ] = unit` with the index in
`size_t`.  A store at an index below the capacity changes the buffer; another
one goes outside the buffer and is recorded in `oob`. -/
def Machine.store (cap : Nat) (st : WState) (unit : Nat) : WState :=
  { buf := if st.index < cap then st.buf.set st.index unit else st.buf
    index := size_t (st.index + 1)
    oob := st.oob || decide (cap ≤ st.index) }

/-- Consecutive stores of the given units. -/
def Machine.store_list (cap : Nat) (st : WState) (units : List Nat) : WState :=
  units.foldl (Machine.store cap) st

/-- The statement `string_index--` in `size_t`. -/
def Machine.rewind (st : WState) : WState :=
  { st with index := size_t_difference st.index 1 }

/-- The bounds check `if( ( string_index + n ) > utf8_string_size )` in
`size_t`: the sum wraps around 2^64. -/
def Machine.require_room (cap n : Nat) (st : WState) : WResult :=
  if size_t (st.index + n) > cap then .error (ErrorCode.ARGUMENT_VALUE_TOO_SMALL, st)
  else .ok st

/-- The indentation loop `for( indentation_iterator = 0; indentation_iterator <
xml_tag_level; indentation_iterator++ )` with its two stores, for the given
number of passes. -/
def Machine.indent (cap : Nat) : Nat → WState → WState
  | 0, st => st
  | n + 1, st => Machine.indent cap n (Machine.store cap (Machine.store cap st 32) 32)

/-- A value copy followed by `string_index--`. -/
def Machine.copy_value (enc : Encoding) (value : Option Value) (value_entry_index : Nat)
    (cap : Nat) (st : WState) : WResult :=
  match libfvalue_value_copy_to_string_with_index enc value value_entry_index cap st with
  | none => .error (ErrorCode.RUNTIME_COPY_FAILED, st)
  | some st1 => .ok (Machine.rewind st1)

/-- The attribute loop of the writer (lines 1837-1978) with the index in
`size_t`. -/
def Machine.write_attributes (enc : Encoding) (cap : Nat) :
    List (Option XmlTag) → WState → WResult
  | [], st => .ok st
  | none :: _, st => .error (ErrorCode.RUNTIME_VALUE_MISSING, st)
  | some attribute_xml_tag :: rest, st =>
    (Machine.require_room cap 1 st).andThen fun st =>
    (Machine.copy_value enc attribute_xml_tag.name 0 cap
      (Machine.store cap st 32)).andThen fun st =>
    (Machine.require_room cap 2 st).andThen fun st =>
    let st := Machine.store cap (Machine.store cap st 61) 34
    match libfvalue_value_get_type attribute_xml_tag.value with
    | none => .error (ErrorCode.RUNTIME_GET_FAILED, st)
    | some value_type =>
      (Machine.copy_value enc attribute_xml_tag.value 0 cap st).andThen fun st =>
      (Machine.require_room cap 1 st).andThen fun st =>
      if is_time_type value_type then
        (Machine.require_room cap 1 st).andThen fun st =>
        Machine.write_attributes enc cap rest (Machine.store cap (Machine.store cap st 90) 34)
      else
        Machine.write_attributes enc cap rest (Machine.store cap st 34)

/-- The second value entry loop of the writer (lines 2063-2120) with the index
in `size_t`. -/
def Machine.write_value_entries (enc : Encoding) (cap : Nat) (value : Value) :
    List ValueEntry → Nat → WState → WResult
  | [], _, st => .ok st
  | e :: rest, value_entry_index, st =>
    match e.string_size enc with
    | none => .error (ErrorCode.RUNTIME_GET_FAILED, st)
    | some string_size =>
      if string_size > 1 then
        (Machine.copy_value enc (some value) value_entry_index cap st).andThen fun st =>
        if is_time_type value.type then
          (Machine.require_room cap 1 st).andThen fun st =>
          Machine.write_value_entries enc cap value rest (value_entry_index + 1)
            (Machine.store cap st 90)
        else
          Machine.write_value_entries enc cap value rest (value_entry_index + 1) st
      else
        Machine.write_value_entries enc cap value rest (value_entry_index + 1) st

/-- The final stores `>`, newline, NUL (lines 2438-2440). -/
def Machine.write_trailer (cap : Nat) (st : WState) : WState :=
  Machine.store cap (Machine.store cap (Machine.store cap st 62) 10) 0

mutual

/-- The function `libevtx_xml_tag_get_utf8_xml_string_with_index` (and its
UTF-16 twin) on a non-NULL tag with the arithmetic of the code: the level is an
`int`, the index and the sums compared with the capacity are `size_t`. -/
def Machine.xml_string_with_index (enc : Encoding) : XmlTag → Int → Nat → WState → WResult
  | .mk type name value attributes_array elements_array, xml_tag_level, cap, st =>
    if cap > SSIZE_MAX then .error (ErrorCode.ARGUMENT_VALUE_EXCEEDS_MAXIMUM, st)
    else
    (Machine.require_room cap (Machine.level_units xml_tag_level + 1) st).andThen fun st =>
    let st := Machine.store cap (Machine.indent cap xml_tag_level.toNat st) 60
    match type with
    | .NODE =>
      (Machine.copy_value enc name 0 cap st).andThen fun st =>
      (Machine.write_attributes enc cap attributes_array st).andThen fun st =>
      WResult.andThen (match value with
        | some v =>
          match Machine.value_string_size enc v.type v.entries 0 with
          | none => .error (ErrorCode.RUNTIME_GET_FAILED, st)
          | some value_size =>
            if value_size > 0 then
              (Machine.require_room cap 1 st).andThen fun st =>
              (Machine.write_value_entries enc cap v v.entries 0
                (Machine.store cap st 62)).andThen fun st =>
              (Machine.require_room cap 2 st).andThen fun st =>
              Machine.copy_value enc name 0 cap
                (Machine.store cap (Machine.store cap st 60) 47)
            else
              (Machine.require_room cap 1 st).andThen fun st =>
              .ok (Machine.store cap st 47)
        | none =>
          match elements_array with
          | [] =>
            (Machine.require_room cap 1 st).andThen fun st => .ok (Machine.store cap st 47)
          | e :: es =>
            (Machine.require_room cap 2 st).andThen fun st =>
            (Machine.write_elements enc (e :: es) (int_result (xml_tag_level + 1)) cap
              (Machine.store cap (Machine.store cap st 62) 10)).andThen fun st =>
            (Machine.require_room cap (Machine.level_units xml_tag_level) st).andThen fun st =>
            (Machine.require_room cap 2
              (Machine.indent cap xml_tag_level.toNat st)).andThen fun st =>
            Machine.copy_value enc name 0 cap
              (Machine.store cap (Machine.store cap st 60) 47)) fun st =>
      (Machine.require_room cap 3 st).andThen fun st => .ok (Machine.write_trailer cap st)
    | .CDATA =>
      (Machine.require_room cap 8 st).andThen fun st =>
      (Machine.copy_value enc value 0 cap
        (Machine.store_list cap st [33, 91, 67, 68, 65, 84, 65, 91])).andThen fun st =>
      (Machine.require_room cap 2 st).andThen fun st =>
      .ok (Machine.write_trailer cap (Machine.store cap (Machine.store cap st 93) 93))
    | .PI =>
      (Machine.require_room cap 1 st).andThen fun st =>
      (Machine.copy_value enc name 0 cap (Machine.store cap st 63)).andThen fun st =>
      (Machine.require_room cap 1 st).andThen fun st =>
      (Machine.copy_value enc value 0 cap (Machine.store cap st 32)).andThen fun st =>
      (Machine.require_room cap 1 st).andThen fun st =>
      .ok (Machine.write_trailer cap (Machine.store cap st 63))

/-- The writer on an array entry; a NULL tag is refused. -/
def Machine.xml_string_with_index_entry (enc : Encoding) :
    Option XmlTag → Int → Nat → WState → WResult
  | none, _, _, st => .error (ErrorCode.ARGUMENT_INVALID_VALUE, st)
  | some xml_tag, xml_tag_level, cap, st =>
    Machine.xml_string_with_index enc xml_tag xml_tag_level cap st

/-- The element loop of the writer (lines 2186-2225) with the index in
`size_t`. -/
def Machine.write_elements (enc : Encoding) :
    List (Option XmlTag) → Int → Nat → WState → WResult
  | [], _, _, st => .ok st
  | e :: rest, xml_tag_level, cap, st =>
    match Machine.xml_string_with_index_entry enc e xml_tag_level cap st with
    | .error (_, st1) => .error (ErrorCode.RUNTIME_COPY_FAILED, st1)
    | .ok st1 => Machine.write_elements enc rest xml_tag_level cap (Machine.rewind st1)

end

/-- A call of the writer with the buffer, its capacity and the entry index,
with the arithmetic of the code. -/
def Machine.get_xml_string_with_index (enc : Encoding) (xml_tag : XmlTag)
    (xml_tag_level : Int) (string : List Nat) (string_size : Nat) (string_index : Nat) :
    WriteOutcome :=
  match Machine.xml_string_with_index enc xml_tag xml_tag_level string_size
      { buf := string, index := string_index, oob := false } with
  | .ok st =>
    { status := 1, error := none, string := st.buf, string_index := st.index, oob := st.oob }
  | .error (code, st) =>
    { status := -1, error := some code, string := st.buf, string_index := string_index,
      oob := st.oob }

/-- The function `libevtx_xml_tag_get_utf8_xml_string_with_index` with the
arithmetic of the code. -/
def Machine.libevtx_xml_tag_get_utf8_xml_string_with_index (xml_tag : XmlTag)
    (xml_tag_level : Int) (utf8_string : List Nat) (utf8_string_size : Nat)
    (utf8_string_index : Nat) : WriteOutcome :=
  Machine.get_xml_string_with_index Encoding.utf8 xml_tag xml_tag_level
    utf8_string utf8_string_size utf8_string_index

/-- The function `libevtx_xml_tag_get_utf16_xml_string_with_index` with the
arithmetic of the code. -/
def Machine.libevtx_xml_tag_get_utf16_xml_string_with_index (xml_tag : XmlTag)
    (xml_tag_level : Int) (utf16_string : List Nat) (utf16_string_size : Nat)
    (utf16_string_index : Nat) : WriteOutcome :=
  Machine.get_xml_string_with_index Encoding.utf16 xml_tag xml_tag_level
    utf16_string utf16_string_size utf16_string_index

/-! ## The levels a tag reaches -/

mutual

/-- The number of levels below the level of the tag that the size computation
and the writer reach: one more than the deepest sub element for a Node without
value that has sub elements, 0 for every other tag. -/
def nesting : XmlTag → Nat
  | .mk type _ value _ elements_array =>
    match type with
    | .NODE =>
      match value with
      | some _ => 0
      | none => elements_nesting elements_array
    | .CDATA => 0
    | .PI => 0

/-- One more than the nesting of an array entry; 0 for a NULL entry. -/
def entry_nesting : Option XmlTag → Nat
  | none => 0
  | some xml_tag => nesting xml_tag + 1

/-- The largest `entry_nesting` of the entries of an array. -/
def elements_nesting : List (Option XmlTag) → Nat
  | [] => 0
  | e :: rest => max (entry_nesting e) (elements_nesting rest)

end

mutual

/-- The value size of the tag and of every sub element the writer reaches is
at most SIZE_MAX when it is counted without wrap-around (or is not reported). -/
def value_sizes_fit (enc : Encoding) : XmlTag → Bool
  | .mk type _ value _ elements_array =>
    match type with
    | .NODE =>
      match value with
      | some v =>
        match value_string_size enc v.type v.entries 0 with
        | none => true
        | some value_size => decide (value_size ≤ SIZE_MAX)
      | none => elements_value_sizes_fit enc elements_array
    | .CDATA => true
    | .PI => true

/-- The same for an array entry, which may be NULL. -/
def entry_value_sizes_fit (enc : Encoding) : Option XmlTag → Bool
  | none => true
  | some xml_tag => value_sizes_fit enc xml_tag

/-- The same for every entry of an array. -/
def elements_value_sizes_fit (enc : Encoding) : List (Option XmlTag) → Bool
  | [] => true
  | e :: rest => entry_value_sizes_fit enc e && elements_value_sizes_fit enc rest

end

/-- The step of the writer in the arithmetic of the code gives the same result
as the step that counts in natural numbers, and after return 1 the index is at
most `k` above the capacity. -/
def Same (cap k : Nat) (machine_result result : WResult) : Prop :=
  machine_result = result ∧ ∀ st, result = .ok st → st.index ≤ cap + k

/-- The first level whose double does not fit an `int`: 2^30. -/
def level_limit : Nat := 1073741824

/-- No computation on the levels and on the value sizes of the tag leaves the
range of its type: every level that the size computation and the writer reach
from `xml_tag_level` is below `level_limit`, so that `( level * 2 ) + 1` fits an
`int`, and every value size fits a `size_t`. -/
def in_range (enc : Encoding) (xml_tag : XmlTag) (xml_tag_level : Nat) : Prop :=
  xml_tag_level + nesting xml_tag < level_limit ∧ value_sizes_fit enc xml_tag = true
/-! ## Index arithmetic of the writer -/

@[simp] theorem store_index (cap : Nat) (st : WState) (v : Nat) :
    (store cap st v).index = st.index + 1 := rfl

@[simp] theorem store_list_index (cap : Nat) (l : List Nat) : ∀ (st : WState),
    (store_list cap st l).index = st.index + l.length := by
  induction l with
  | nil => intro st; rfl
  | cons a l ih =>
    intro st
    show (store_list cap (store cap st a) l).index = _
    rw [ih]; simp; omega

@[simp] theorem indent_index (cap : Nat) (n : Nat) : ∀ (st : WState),
    (indent cap n st).index = st.index + n * 2 := by
  induction n with
  | zero => intro st; simp [indent]
  | succ n ih => intro st; simp [indent, ih]; omega

@[simp] theorem write_trailer_index (cap : Nat) (st : WState) :
    (write_trailer cap st).index = st.index + 3 := rfl

@[simp] theorem rewind_index (st : WState) : (rewind st).index = st.index - 1 := rfl

theorem andThen_ok {r : WResult} {f : WState → WResult} {st2 : WState}
    (h : r.andThen f = .ok st2) : ∃ st1, r = .ok st1 ∧ f st1 = .ok st2 := by
  cases r with
  | error e => simp [WResult.andThen] at h
  | ok st1 => exact ⟨st1, rfl, h⟩

theorem require_room_ok {cap n : Nat} {st st1 : WState}
    (h : require_room cap n st = .ok st1) : st1 = st ∧ st.index + n ≤ cap := by
  unfold require_room at h
  by_cases hc : st.index + n > cap
  · simp [hc] at h
  · simp [hc] at h; exact ⟨h.symm, by omega⟩

theorem copy_value_ok {enc : Encoding} {value : Option Value} {i cap : Nat} {st st1 : WState}
    (h : copy_value enc value i cap st = .ok st1) :
    ∃ sz, libfvalue_value_get_string_size enc value i = some sz
      ∧ st1.index + 1 = st.index + sz ∧ st.index + sz ≤ cap := by
  unfold copy_value libfvalue_value_copy_to_string_with_index at h
  unfold libfvalue_value_get_string_size ValueEntry.string_size
  cases value with
  | none => simp at h
  | some v =>
    simp only at h ⊢
    cases hv : v.entries[i]? with
    | none => simp [hv] at h
    | some e =>
      simp only [hv] at h ⊢
      cases hr : e.string enc with
      | none => simp [hr] at h
      | some r =>
        simp only [hr] at h
        by_cases hc : st.index + (r.length + 1) > cap
        · simp [hc] at h
        · simp only [hc, if_false] at h
          injection h with h
          subst h
          refine ⟨r.length + 1, rfl, ?_, by omega⟩
          simp
          omega


theorem write_attributes_index (enc : Encoding) (cap : Nat) :
    ∀ (attrs : List (Option XmlTag)) (st st1 : WState) (acc : Nat),
      write_attributes enc cap attrs st = .ok st1 →
      ∃ total, attributes_string_size enc attrs acc = some total
        ∧ st1.index + acc = st.index + total := by
  intro attrs
  induction attrs with
  | nil =>
    intro st st1 acc h
    simp [write_attributes] at h
    subst h
    exact ⟨acc, rfl, rfl⟩
  | cons a rest ih =>
    intro st st1 acc h
    cases a with
    | none => simp [write_attributes] at h
    | some a =>
      simp only [write_attributes] at h
      obtain ⟨s1, h1, ha⟩ := andThen_ok h
      obtain ⟨e1, -⟩ := require_room_ok h1
      obtain ⟨s2, h2, hb⟩ := andThen_ok ha
      obtain ⟨nsz, hn, hn1, -⟩ := copy_value_ok h2
      obtain ⟨s3, h3, hc⟩ := andThen_ok hb
      obtain ⟨e3, -⟩ := require_room_ok h3
      cases hty : libfvalue_value_get_type a.value with
      | none => simp [hty] at hc
      | some vt =>
        simp only [hty] at hc
        obtain ⟨s4, h4, hd⟩ := andThen_ok hc
        obtain ⟨vsz, hv, hv1, -⟩ := copy_value_ok h4
        obtain ⟨s5, h5, he⟩ := andThen_ok hd
        obtain ⟨e5, -⟩ := require_room_ok h5
        simp only [attributes_string_size, hn, hv, hty]
        simp only [store_index] at hn1 hv1
        by_cases ht : is_time_type vt = true
        · simp only [ht, if_true] at he ⊢
          obtain ⟨s6, h6, hf⟩ := andThen_ok he
          obtain ⟨e6, -⟩ := require_room_ok h6
          obtain ⟨total, htot, hidx⟩ := ih _ _ (acc + (nsz + 2) + vsz + 1) hf
          refine ⟨total, htot, ?_⟩
          simp only [store_index] at hidx
          subst e1 e3 e5 e6
          omega
        · simp only [ht] at he ⊢
          obtain ⟨total, htot, hidx⟩ := ih _ _ (acc + (nsz + 2) + vsz + 0) he
          refine ⟨total, htot, ?_⟩
          simp only [store_index] at hidx
          subst e1 e3 e5
          omega

theorem write_value_entries_index (enc : Encoding) (cap : Nat) (value : Value) :
    ∀ (es : List ValueEntry) (i : Nat) (st st1 : WState) (acc : Nat),
      value.entries.drop i = es →
      write_value_entries enc cap value es i st = .ok st1 →
      ∃ total, value_string_size enc value.type es acc = some total
        ∧ st1.index + acc = st.index + total := by
  intro es
  induction es with
  | nil =>
    intro i st st1 acc _ h
    simp [write_value_entries] at h
    subst h
    exact ⟨acc, rfl, rfl⟩
  | cons e rest ih =>
    intro i st st1 acc hd h
    have hget : value.entries[i]? = some e := by
      have := congrArg List.head? hd
      simpa [List.head?_drop] using this
    have hrest : value.entries.drop (i + 1) = rest := by
      have := congrArg List.tail hd
      simpa [List.tail_drop] using this
    simp only [write_value_entries] at h
    cases hsz : e.string_size enc with
    | none => simp [hsz] at h
    | some sz =>
      simp only [hsz] at h
      simp only [value_string_size, hsz]
      by_cases hgt : sz > 1
      · simp only [hgt, if_true] at h ⊢
        obtain ⟨s1, h1, ha⟩ := andThen_ok h
        obtain ⟨csz, hc, hc1, -⟩ := copy_value_ok h1
        have hcs : csz = sz := by
          simp only [libfvalue_value_get_string_size, hget, hsz] at hc
          exact (Option.some.inj hc).symm
        subst hcs
        by_cases ht : is_time_type value.type = true
        · simp only [ht, if_true] at ha ⊢
          obtain ⟨s2, h2, hb⟩ := andThen_ok ha
          obtain ⟨e2, -⟩ := require_room_ok h2
          obtain ⟨total, htot, hidx⟩ := ih (i + 1) _ _ (acc + (csz - 1) + 1) hrest hb
          refine ⟨total, htot, ?_⟩
          simp only [store_index] at hidx
          subst e2
          omega
        · simp only [ht] at ha ⊢
          obtain ⟨total, htot, hidx⟩ := ih (i + 1) _ _ (acc + (csz - 1) + 0) hrest ha
          refine ⟨total, htot, ?_⟩
          omega
      · simp only [hgt, if_false] at h ⊢
        exact ih (i + 1) _ _ acc hrest h


/-- Induction over a tag and over its array of sub elements at once. -/
theorem XmlTag.induct {P : XmlTag → Prop} {Q : List (Option XmlTag) → Prop}
    (hmk : ∀ ty n v a e, Q e → P (.mk ty n v a e))
    (hnil : Q [])
    (hnone : ∀ rest, Q rest → Q (none :: rest))
    (hsome : ∀ t rest, P t → Q rest → Q (some t :: rest)) :
    (∀ t, P t) ∧ (∀ es, Q es) := by
  have key : ∀ t, P t := fun t =>
    @XmlTag.rec (fun t => P t) (fun es => Q es) (fun o => ∀ t, o = some t → P t)
      (fun ty n v a e _ ihe => hmk ty n v a e ihe)
      hnil
      (fun head tail ihh iht => by
        cases head with
        | none => exact hnone tail iht
        | some t => exact hsome t tail (ihh t rfl) iht)
      (fun t h => by cases h)
      (fun val ih t h => by cases h; exact ih)
      t
  refine ⟨key, ?_⟩
  intro es
  induction es with
  | nil => exact hnil
  | cons e rest ih =>
    cases e with
    | none => exact hnone rest ih
    | some t => exact hsome t rest (key t) ih

theorem get_string_size_pos {enc : Encoding} {value : Option Value} {i sz : Nat}
    (h : libfvalue_value_get_string_size enc value i = some sz) : 1 ≤ sz := by
  simp only [libfvalue_value_get_string_size, ValueEntry.string_size] at h
  cases value with
  | none => simp at h
  | some v =>
    simp only at h
    cases hv : v.entries[i]? with
    | none => simp [hv] at h
    | some e =>
      simp only [hv, Option.map_eq_some'] at h
      obtain ⟨r, -, hr⟩ := h
      omega

theorem xml_string_with_index_eq (enc : Encoding) (type : XmlTagType) (name value : Option Value)
    (attributes_array elements_array : List (Option XmlTag)) (xml_tag_level cap : Nat)
    (st : WState) :
    xml_string_with_index enc (.mk type name value attributes_array elements_array)
      xml_tag_level cap st =
    if cap > SSIZE_MAX then .error (ErrorCode.ARGUMENT_VALUE_EXCEEDS_MAXIMUM, st)
    else
    (require_room cap (xml_tag_level * 2 + 1) st).andThen fun st =>
    match type with
    | .NODE =>
      (copy_value enc name 0 cap (store cap (indent cap xml_tag_level st) 60)).andThen fun st =>
      (write_attributes enc cap attributes_array st).andThen fun st =>
      WResult.andThen (match value with
        | some v =>
          match value_string_size enc v.type v.entries 0 with
          | none => .error (ErrorCode.RUNTIME_GET_FAILED, st)
          | some value_size =>
            if value_size > 0 then
              (require_room cap 1 st).andThen fun st =>
              (write_value_entries enc cap v v.entries 0 (store cap st 62)).andThen fun st =>
              (require_room cap 2 st).andThen fun st =>
              copy_value enc name 0 cap (store cap (store cap st 60) 47)
            else
              (require_room cap 1 st).andThen fun st => .ok (store cap st 47)
        | none =>
          match elements_array with
          | [] => (require_room cap 1 st).andThen fun st => .ok (store cap st 47)
          | e :: es =>
            (require_room cap 2 st).andThen fun st =>
            (write_elements enc (e :: es) (xml_tag_level + 1) cap
              (store cap (store cap st 62) 10)).andThen fun st =>
            (require_room cap (xml_tag_level * 2) st).andThen fun st =>
            (require_room cap 2 (indent cap xml_tag_level st)).andThen fun st =>
            copy_value enc name 0 cap (store cap (store cap st 60) 47)) fun st =>
      (require_room cap 3 st).andThen fun st => .ok (write_trailer cap st)
    | .CDATA =>
      (require_room cap 8 (store cap (indent cap xml_tag_level st) 60)).andThen fun st =>
      (copy_value enc value 0 cap
        (store_list cap st [33, 91, 67, 68, 65, 84, 65, 91])).andThen fun st =>
      (require_room cap 2 st).andThen fun st =>
      .ok (write_trailer cap (store cap (store cap st 93) 93))
    | .PI =>
      (require_room cap 1 (store cap (indent cap xml_tag_level st) 60)).andThen fun st =>
      (copy_value enc name 0 cap (store cap st 63)).andThen fun st =>
      (require_room cap 1 st).andThen fun st =>
      (copy_value enc value 0 cap (store cap st 32)).andThen fun st =>
      (require_room cap 1 st).andThen fun st =>
      .ok (write_trailer cap (store cap st 63)) := by
  rw [xml_string_with_index]


theorem xml_string_with_index_entry_none (enc : Encoding) (L cap : Nat) (st : WState) :
    xml_string_with_index_entry enc none L cap st
      = .error (ErrorCode.ARGUMENT_INVALID_VALUE, st) := by
  rw [xml_string_with_index_entry]

theorem xml_string_with_index_entry_some (enc : Encoding) (t : XmlTag) (L cap : Nat)
    (st : WState) :
    xml_string_with_index_entry enc (some t) L cap st = xml_string_with_index enc t L cap st := by
  rw [xml_string_with_index_entry]

theorem write_elements_nil (enc : Encoding) (L cap : Nat) (st : WState) :
    write_elements enc [] L cap st = .ok st := by
  rw [write_elements]

theorem write_elements_cons (enc : Encoding) (e : Option XmlTag) (rest : List (Option XmlTag))
    (L cap : Nat) (st : WState) :
    write_elements enc (e :: rest) L cap st =
      match xml_string_with_index_entry enc e L cap st with
      | .error (_, st1) => .error (ErrorCode.RUNTIME_COPY_FAILED, st1)
      | .ok st1 => write_elements enc rest L cap (rewind st1) := by
  rw [write_elements]

theorem xml_string_size_eq (enc : Encoding) (type : XmlTagType) (name value : Option Value)
    (attributes_array elements_array : List (Option XmlTag)) (xml_tag_level : Nat) :
    xml_string_size enc (.mk type name value attributes_array elements_array) xml_tag_level =
    match type with
    | .NODE =>
      match libfvalue_value_get_string_size enc name 0 with
      | none => none
      | some name_size =>
        match attributes_string_size enc attributes_array
            (xml_tag_level * 2 + 1 + (name_size - 1)) with
        | none => none
        | some string_size =>
          match value with
          | some v =>
            match value_string_size enc v.type v.entries 0 with
            | none => none
            | some value_size =>
              if value_size > 0 then
                some (string_size + (value_size + name_size + 2) + 3)
              else
                some (string_size + 1 + 3)
          | none =>
            match elements_array with
            | [] => some (string_size + 1 + 3)
            | e :: es =>
              match elements_string_size enc (e :: es) (xml_tag_level + 1) string_size with
              | none => none
              | some string_size =>
                some (string_size + (xml_tag_level * 2 + name_size + 3) + 3)
    | .CDATA =>
      match libfvalue_value_get_string_size enc value 0 with
      | none => none
      | some string_size => some (xml_tag_level * 2 + 1 + (string_size + 9) + 3)
    | .PI =>
      match libfvalue_value_get_string_size enc name 0 with
      | none => none
      | some name_size =>
        match libfvalue_value_get_string_size enc value 0 with
        | none => none
        | some string_size =>
          some (xml_tag_level * 2 + 1 + name_size + (string_size + 1) + 3) := by
  cases type <;> rw [xml_string_size]

theorem xml_string_size_entry_none (enc : Encoding) (L : Nat) :
    xml_string_size_entry enc none L = none := by
  rw [xml_string_size_entry]

theorem xml_string_size_entry_some (enc : Encoding) (t : XmlTag) (L : Nat) :
    xml_string_size_entry enc (some t) L = xml_string_size enc t L := by
  rw [xml_string_size_entry]

theorem elements_string_size_nil (enc : Encoding) (L acc : Nat) :
    elements_string_size enc [] L acc = some acc := by
  rw [elements_string_size]

theorem elements_string_size_cons (enc : Encoding) (e : Option XmlTag)
    (rest : List (Option XmlTag)) (L acc : Nat) :
    elements_string_size enc (e :: rest) L acc =
      match xml_string_size_entry enc e L with
      | none => none
      | some element_size => elements_string_size enc rest L (acc + (element_size - 1)) := by
  rw [elements_string_size]

theorem xml_string_with_index_index_both (enc : Encoding) :
    (∀ (t : XmlTag) (L cap : Nat) (st st1 : WState),
      xml_string_with_index enc t L cap st = .ok st1 →
      ∃ s, xml_string_size enc t L = some s ∧ st1.index = st.index + s ∧ 1 ≤ s)
    ∧ (∀ (es : List (Option XmlTag)) (L cap : Nat) (st st1 : WState) (acc : Nat),
      write_elements enc es L cap st = .ok st1 →
      ∃ total, elements_string_size enc es L acc = some total
        ∧ st1.index + acc = st.index + total) := by
  apply XmlTag.induct
  · intro type name value attrs elems IH L cap st st1 h
    rw [xml_string_with_index_eq] at h
    by_cases hmax : cap > SSIZE_MAX
    · simp [hmax] at h
    simp only [hmax, if_false] at h
    obtain ⟨s0, h0, ha⟩ := andThen_ok h
    obtain ⟨e0, -⟩ := require_room_ok h0
    subst e0
    cases type with
    | NODE =>
      simp only at ha
      obtain ⟨s1, h1, hb⟩ := andThen_ok ha
      obtain ⟨nsz, hn, hn1, -⟩ := copy_value_ok h1
      obtain ⟨s2, h2, hc⟩ := andThen_ok hb
      obtain ⟨tot, hatt, hidx⟩ :=
        write_attributes_index enc cap attrs s1 s2 (L * 2 + 1 + (nsz - 1)) h2
      obtain ⟨s3, h3, hd⟩ := andThen_ok hc
      obtain ⟨s4, h4, he⟩ := andThen_ok hd
      obtain ⟨e4, -⟩ := require_room_ok h4
      subst e4
      simp only [Except.ok.injEq] at he
      subst he
      rw [xml_string_size_eq]
      simp only [hn, hatt]
      simp only [store_index, indent_index] at hn1
      have hnpos : 1 ≤ nsz := get_string_size_pos hn
      cases value with
      | some v =>
        simp only at h3 ⊢
        cases hvs : value_string_size enc v.type v.entries 0 with
        | none => simp [hvs] at h3
        | some vsz =>
          simp only [hvs] at h3 ⊢
          by_cases hpos : vsz > 0
          · simp only [hpos, if_true] at h3 ⊢
            obtain ⟨s5, h5, hf⟩ := andThen_ok h3
            obtain ⟨e5, -⟩ := require_room_ok h5
            subst e5
            obtain ⟨s6, h6, hg⟩ := andThen_ok hf
            obtain ⟨tot2, hv2, hidx2⟩ :=
              write_value_entries_index enc cap v v.entries 0 _ s6 0 (by simp) h6
            obtain ⟨s7, h7, hh⟩ := andThen_ok hg
            obtain ⟨e7, -⟩ := require_room_ok h7
            subst e7
            obtain ⟨nsz2, hn2, hn3, -⟩ := copy_value_ok hh
            rw [hn] at hn2
            have e8 : nsz2 = nsz := (Option.some.inj hn2).symm
            subst e8
            rw [hvs] at hv2
            have e9 : tot2 = vsz := (Option.some.inj hv2).symm
            subst e9
            simp only [store_index] at hidx2 hn3
            refine ⟨_, rfl, ?_, by omega⟩
            simp only [write_trailer_index]
            omega
          · simp only [hpos, if_false] at h3 ⊢
            obtain ⟨s5, h5, hf⟩ := andThen_ok h3
            obtain ⟨e5, -⟩ := require_room_ok h5
            subst e5
            simp only [Except.ok.injEq] at hf
            subst hf
            refine ⟨_, rfl, ?_, by omega⟩
            simp only [write_trailer_index, store_index]
            omega
      | none =>
        simp only at h3 ⊢
        cases elems with
        | nil =>
          simp only at h3 ⊢
          obtain ⟨s5, h5, hf⟩ := andThen_ok h3
          obtain ⟨e5, -⟩ := require_room_ok h5
          subst e5
          simp only [Except.ok.injEq] at hf
          subst hf
          refine ⟨_, rfl, ?_, by omega⟩
          simp only [write_trailer_index, store_index]
          omega
        | cons e es =>
          simp only at h3 ⊢
          obtain ⟨s5, h5, hf⟩ := andThen_ok h3
          obtain ⟨e5, -⟩ := require_room_ok h5
          subst e5
          obtain ⟨s6, h6, hg⟩ := andThen_ok hf
          obtain ⟨tot2, hel, hidx2⟩ := IH (L + 1) cap _ s6 tot h6
          obtain ⟨s7, h7, hh⟩ := andThen_ok hg
          obtain ⟨e7, -⟩ := require_room_ok h7
          subst e7
          obtain ⟨s8, h8, hi⟩ := andThen_ok hh
          obtain ⟨e8, -⟩ := require_room_ok h8
          subst e8
          obtain ⟨nsz2, hn2, hn3, -⟩ := copy_value_ok hi
          rw [hn] at hn2
          have e9 : nsz2 = nsz := (Option.some.inj hn2).symm
          subst e9
          simp only [hel]
          simp only [store_index, indent_index] at hidx2 hn3
          refine ⟨_, rfl, ?_, by omega⟩
          simp only [write_trailer_index]
          omega
    | CDATA =>
      simp only at ha
      obtain ⟨s1, h1, hb⟩ := andThen_ok ha
      obtain ⟨e1, -⟩ := require_room_ok h1
      subst e1
      obtain ⟨s2, h2, hc⟩ := andThen_ok hb
      obtain ⟨vsz, hv, hv1, -⟩ := copy_value_ok h2
      obtain ⟨s3, h3, hd⟩ := andThen_ok hc
      obtain ⟨e3, -⟩ := require_room_ok h3
      subst e3
      simp only [Except.ok.injEq] at hd
      subst hd
      rw [xml_string_size_eq]
      simp only [hv]
      simp only [store_index, store_list_index, indent_index, List.length_cons,
        List.length_nil] at hv1
      refine ⟨_, rfl, ?_, by omega⟩
      simp only [write_trailer_index, store_index]
      omega
    | PI =>
      simp only at ha
      obtain ⟨s1, h1, hb⟩ := andThen_ok ha
      obtain ⟨e1, -⟩ := require_room_ok h1
      subst e1
      obtain ⟨s2, h2, hc⟩ := andThen_ok hb
      obtain ⟨nsz, hn, hn1, -⟩ := copy_value_ok h2
      obtain ⟨s3, h3, hd⟩ := andThen_ok hc
      obtain ⟨e3, -⟩ := require_room_ok h3
      subst e3
      obtain ⟨s4, h4, he⟩ := andThen_ok hd
      obtain ⟨vsz, hv, hv1, -⟩ := copy_value_ok h4
      obtain ⟨s5, h5, hf⟩ := andThen_ok he
      obtain ⟨e5, -⟩ := require_room_ok h5
      subst e5
      simp only [Except.ok.injEq] at hf
      subst hf
      rw [xml_string_size_eq]
      simp only [hn, hv]
      simp only [store_index, indent_index] at hn1 hv1
      refine ⟨_, rfl, ?_, by omega⟩
      simp only [write_trailer_index, store_index]
      omega
  · intro L cap st st1 acc h
    rw [write_elements_nil] at h
    simp only [Except.ok.injEq] at h
    subst h
    exact ⟨acc, elements_string_size_nil enc L acc, rfl⟩
  · intro rest _ L cap st st1 acc h
    rw [write_elements_cons, xml_string_with_index_entry_none] at h
    simp at h
  · intro t rest IHt IHrest L cap st st1 acc h
    rw [write_elements_cons, xml_string_with_index_entry_some] at h
    cases hw : xml_string_with_index enc t L cap st with
    | error err =>
      rw [hw] at h
      cases err
      simp at h
    | ok s1 =>
      rw [hw] at h
      simp only at h
      obtain ⟨s, hs, hidx, hpos⟩ := IHt L cap st s1 hw
      obtain ⟨total, htot, hidx2⟩ := IHrest L cap (rewind s1) st1 (acc + (s - 1)) h
      rw [elements_string_size_cons, xml_string_size_entry_some]
      simp only [hs]
      refine ⟨total, htot, ?_⟩
      simp only [rewind_index] at hidx2
      omega


/-! ## The size computation counts the units of the text -/

theorem xml_text_eq (enc : Encoding) (type : XmlTagType) (name value : Option Value)
    (attributes_array elements_array : List (Option XmlTag)) (xml_tag_level : Nat) :
    xml_text enc (.mk type name value attributes_array elements_array) xml_tag_level =
    match type with
    | .NODE =>
      match value_entry_string enc name 0 with
      | none => none
      | some n =>
        match attributes_text enc attributes_array with
        | none => none
        | some a =>
          match value with
          | some v =>
            match value_text enc v.type v.entries with
            | none => none
            | some text =>
              if text.length > 0 then
                some (List.replicate (xml_tag_level * 2) 32 ++ [60] ++ n ++ a ++ [62] ++ text
                  ++ [60, 47] ++ n ++ [62, 10, 0])
              else
                some (List.replicate (xml_tag_level * 2) 32 ++ [60] ++ n ++ a ++ [47]
                  ++ [62, 10, 0])
          | none =>
            match elements_array with
            | [] =>
              some (List.replicate (xml_tag_level * 2) 32 ++ [60] ++ n ++ a ++ [47]
                ++ [62, 10, 0])
            | e :: es =>
              match elements_text enc (e :: es) (xml_tag_level + 1) with
              | none => none
              | some k =>
                some (List.replicate (xml_tag_level * 2) 32 ++ [60] ++ n ++ a ++ [62, 10] ++ k
                  ++ List.replicate (xml_tag_level * 2) 32 ++ [60, 47] ++ n ++ [62, 10, 0])
    | .CDATA =>
      match value_entry_string enc value 0 with
      | none => none
      | some p =>
        some (List.replicate (xml_tag_level * 2) 32 ++ [60]
          ++ [33, 91, 67, 68, 65, 84, 65, 91] ++ p ++ [93, 93] ++ [62, 10, 0])
    | .PI =>
      match value_entry_string enc name 0 with
      | none => none
      | some n =>
        match value_entry_string enc value 0 with
        | none => none
        | some b =>
          some (List.replicate (xml_tag_level * 2) 32 ++ [60] ++ [63] ++ n ++ [32] ++ b ++ [63]
            ++ [62, 10, 0]) := by
  cases type <;> rw [xml_text]

theorem xml_text_entry_none (enc : Encoding) (L : Nat) : xml_text_entry enc none L = none := by
  rw [xml_text_entry]

theorem xml_text_entry_some (enc : Encoding) (t : XmlTag) (L : Nat) :
    xml_text_entry enc (some t) L = xml_text enc t L := by
  rw [xml_text_entry]

theorem elements_text_nil (enc : Encoding) (L : Nat) : elements_text enc [] L = some [] := by
  rw [elements_text]

theorem elements_text_cons (enc : Encoding) (e : Option XmlTag) (rest : List (Option XmlTag))
    (L : Nat) :
    elements_text enc (e :: rest) L =
      match xml_text_entry enc e L with
      | none => none
      | some w =>
        match elements_text enc rest L with
        | none => none
        | some k => some (w.dropLast ++ k) := by
  rw [elements_text]

theorem get_string_size_eq (enc : Encoding) (value : Option Value) (i : Nat) :
    libfvalue_value_get_string_size enc value i
      = (value_entry_string enc value i).map (fun r => r.length + 1) := by
  unfold libfvalue_value_get_string_size value_entry_string ValueEntry.string_size
  cases value with
  | none => rfl
  | some v =>
    simp only
    cases v.entries[i]? <;> rfl

theorem attributes_string_size_eq (enc : Encoding) :
    ∀ (attrs : List (Option XmlTag)) (acc : Nat),
      attributes_string_size enc attrs acc
        = (attributes_text enc attrs).map (fun w => acc + w.length) := by
  intro attrs
  induction attrs with
  | nil => intro acc; simp [attributes_string_size, attributes_text]
  | cons a rest ih =>
    intro acc
    cases a with
    | none => simp [attributes_string_size, attributes_text]
    | some a =>
      simp only [attributes_string_size, attributes_text, get_string_size_eq]
      cases value_entry_string enc a.name 0 with
      | none => rfl
      | some n =>
        cases libfvalue_value_get_type a.value with
        | none => rfl
        | some vt =>
          cases value_entry_string enc a.value 0 with
          | none => rfl
          | some v =>
            simp only [Option.map_some', ih]
            cases attributes_text enc rest with
            | none => rfl
            | some w =>
              simp only [Option.map_some', Option.some.injEq]
              by_cases ht : is_time_type vt = true <;> simp [ht] <;> omega

theorem value_string_size_eq (enc : Encoding) (vt : ValueType) :
    ∀ (es : List ValueEntry) (acc : Nat),
      value_string_size enc vt es acc = (value_text enc vt es).map (fun w => acc + w.length) := by
  intro es
  induction es with
  | nil => intro acc; simp [value_string_size, value_text]
  | cons e rest ih =>
    intro acc
    simp only [value_string_size, value_text, ValueEntry.string_size]
    cases e.string enc with
    | none => rfl
    | some r =>
      simp only [Option.map_some', ih]
      cases value_text enc vt rest with
      | none => rfl
      | some w =>
        simp only [Option.map_some', Option.some.injEq]
        by_cases hr : r.length + 1 > 1
        · by_cases ht : is_time_type vt = true <;> simp [hr, ht] <;> omega
        · have : r.length = 0 := by omega
          simp [hr, this]

theorem xml_string_size_eq_text_both (enc : Encoding) :
    (∀ (t : XmlTag) (L : Nat), xml_string_size enc t L = (xml_text enc t L).map List.length)
    ∧ (∀ (es : List (Option XmlTag)) (L acc : Nat),
        elements_string_size enc es L acc
          = (elements_text enc es L).map (fun w => acc + w.length)) := by
  apply XmlTag.induct
  · intro type name value attrs elems IH L
    rw [xml_string_size_eq, xml_text_eq]
    cases type with
    | NODE =>
      simp only [get_string_size_eq, attributes_string_size_eq, value_string_size_eq]
      cases value_entry_string enc name 0 with
      | none => rfl
      | some n =>
        simp only [Option.map_some']
        cases attributes_text enc attrs with
        | none => rfl
        | some a =>
          simp only [Option.map_some']
          cases value with
          | some v =>
            simp only
            cases value_text enc v.type v.entries with
            | none => rfl
            | some text =>
              simp only [Option.map_some', Nat.zero_add]
              by_cases hp : text.length > 0
              · simp [hp]; omega
              · simp [hp]; omega
          | none =>
            simp only
            cases elems with
            | nil => simp; omega
            | cons e es =>
              simp only [IH]
              cases elements_text enc (e :: es) (L + 1) with
              | none => rfl
              | some k => simp; omega
    | CDATA =>
      simp only [get_string_size_eq]
      cases value_entry_string enc value 0 with
      | none => rfl
      | some p => simp; omega
    | PI =>
      simp only [get_string_size_eq]
      cases value_entry_string enc name 0 with
      | none => rfl
      | some n =>
        simp only [Option.map_some']
        cases value_entry_string enc value 0 with
        | none => rfl
        | some b => simp; omega
  · intro L acc
    rw [elements_string_size_nil, elements_text_nil]
    rfl
  · intro rest _ L acc
    rw [elements_string_size_cons, elements_text_cons, xml_string_size_entry_none,
      xml_text_entry_none]
    rfl
  · intro t rest IHt IHrest L acc
    rw [elements_string_size_cons, elements_text_cons, xml_string_size_entry_some,
      xml_text_entry_some, IHt]
    cases xml_text enc t L with
    | none => rfl
    | some w =>
      simp only [Option.map_some', IHrest]
      cases elements_text enc rest L with
      | none => rfl
      | some k => simp; omega


/-! ## The writer stores the text of the tag -/

theorem Wrote.refl {st : WState} (h : st.index ≤ st.buf.length) : Wrote st st [] := by
  refine ⟨by simp, by simp, rfl, rfl, h⟩

theorem Wrote.trans {st st1 st2 : WState} {w1 w2 : List Nat}
    (h1 : Wrote st st1 w1) (h2 : Wrote st1 st2 w2) : Wrote st st2 (w1 ++ w2) := by
  obtain ⟨a1, b1, c1, d1, e1⟩ := h1
  obtain ⟨a2, b2, c2, d2, e2⟩ := h2
  refine ⟨?_, ?_, ?_, ?_, e2⟩
  · rw [a2, a1, List.length_append]; omega
  · rw [b2, b1, List.append_assoc]
  · rw [c2, c1]
  · rw [d2, d1]

theorem take_succ_set (v : Nat) : ∀ (l : List Nat) (i : Nat), i < l.length →
    (l.set i v).take (i + 1) = l.take i ++ [v] := by
  intro l
  induction l with
  | nil => intro i h; simp at h
  | cons a l ih =>
    intro i h
    cases i with
    | zero => simp
    | succ i =>
      simp only [List.length_cons] at h
      simp [ih i (by omega)]

theorem store_wrote (cap : Nat) (st : WState) (v : Nat) (h : st.index < cap)
    (hcap : cap ≤ st.buf.length) : Wrote st (store cap st v) [v] := by
  have hlt : st.index < st.buf.length := by omega
  refine ⟨rfl, ?_, ?_, ?_, ?_⟩
  · simp only [store, h, if_true]
    exact take_succ_set v st.buf st.index hlt
  · simp [store, h]
  · simp [store]; omega
  · simp [store, h]; omega

theorem store_list_wrote (cap : Nat) : ∀ (l : List Nat) (st : WState),
    st.index + l.length ≤ cap → cap ≤ st.buf.length → Wrote st (store_list cap st l) l := by
  intro l
  induction l with
  | nil => intro st h hcap; exact Wrote.refl (by simp at h; omega)
  | cons a l ih =>
    intro st h hcap
    simp only [List.length_cons] at h
    have h1 := store_wrote cap st a (by omega) hcap
    have h2 := ih (store cap st a) (by simp; omega) (by rw [h1.2.2.1]; exact hcap)
    exact Wrote.trans h1 h2

theorem indent_wrote (cap : Nat) : ∀ (n : Nat) (st : WState),
    st.index + n * 2 ≤ cap → cap ≤ st.buf.length →
    Wrote st (indent cap n st) (List.replicate (n * 2) 32) := by
  intro n
  induction n with
  | zero => intro st h hcap; exact Wrote.refl (by omega)
  | succ n ih =>
    intro st h hcap
    have h1 := store_wrote cap st 32 (by omega) hcap
    have hc1 : cap ≤ (store cap st 32).buf.length := by rw [h1.2.2.1]; exact hcap
    have h2 := store_wrote cap (store cap st 32) 32 (by simp; omega) hc1
    have hc2 : cap ≤ (store cap (store cap st 32) 32).buf.length := by
      rw [h2.2.2.1]; exact hc1
    have h3 := ih (store cap (store cap st 32) 32) (by simp; omega) hc2
    have := Wrote.trans (Wrote.trans h1 h2) h3
    have e : List.replicate ((n + 1) * 2) 32 = [32] ++ [32] ++ List.replicate (n * 2) 32 := by
      rw [Nat.succ_mul]
      simp [List.replicate_succ]
    rw [e]
    exact this

theorem rewind_wrote {st st1 : WState} {r : List Nat} (h : Wrote st st1 (r ++ [0])) :
    Wrote st (rewind st1) r := by
  obtain ⟨a, b, c, d, e⟩ := h
  simp only [List.length_append, List.length_cons, List.length_nil] at a
  have hpre : (st.buf.take st.index).length = st.index := by
    rw [List.length_take]
    omega
  refine ⟨by simp [rewind]; omega, ?_, c, d, by simp [rewind]; omega⟩
  have e1 : (rewind st1).index = st.index + r.length := by simp [rewind]; omega
  have e2 : (rewind st1).buf = st1.buf := rfl
  rw [e1, e2]
  have : List.take (st.index + r.length) st1.buf
      = List.take (st.index + r.length) (List.take st1.index st1.buf) := by
    rw [List.take_take, Nat.min_eq_left (by omega)]
  rw [this, b, ← List.append_assoc, List.take_append_of_le_length (by simp [hpre])]
  rw [List.take_of_length_le (by simp [hpre])]

theorem write_trailer_wrote {cap : Nat} {st : WState} (h : st.index + 3 ≤ cap)
    (hcap : cap ≤ st.buf.length) : Wrote st (write_trailer cap st) [62, 10, 0] :=
  store_list_wrote cap [62, 10, 0] st (by simpa using h) hcap

theorem require_room_eq {cap n : Nat} {st : WState} (h : st.index + n ≤ cap) :
    require_room cap n st = .ok st := by
  unfold require_room
  rw [if_neg (by omega)]

theorem Runs.pre {st st1 : WState} {r : WResult} {w1 w2 : List Nat}
    (h1 : Wrote st st1 w1) (h2 : Runs st1 r w2) : Runs st r (w1 ++ w2) := by
  obtain ⟨st2, hr, hw⟩ := h2
  exact ⟨st2, hr, Wrote.trans h1 hw⟩

theorem Runs.andThen {st : WState} {r : WResult} {f : WState → WResult} {w1 w2 : List Nat}
    (h1 : Runs st r w1) (h2 : ∀ st1, Wrote st st1 w1 → Runs st1 (f st1) w2) :
    Runs st (r.andThen f) (w1 ++ w2) := by
  obtain ⟨st1, hr, hw⟩ := h1
  obtain ⟨st2, hr2, hw2⟩ := h2 st1 hw
  refine ⟨st2, ?_, Wrote.trans hw hw2⟩
  rw [hr]
  exact hr2

theorem Runs.room {cap n : Nat} {st : WState} {f : WState → WResult} {w : List Nat}
    (h : st.index + n ≤ cap) (h2 : Runs st (f st) w) :
    Runs st ((require_room cap n st).andThen f) w := by
  rw [require_room_eq h]
  exact h2

theorem Runs.ok {st st1 : WState} {w : List Nat} (h : Wrote st st1 w) :
    Runs st (.ok st1) w := ⟨st1, rfl, h⟩

theorem Runs.cast {st : WState} {r : WResult} {w w1 : List Nat} (h : Runs st r w1)
    (e : w = w1) : Runs st r w := e ▸ h

theorem copy_value_runs {enc : Encoding} {value : Option Value} {i cap : Nat} {st : WState}
    {r : List Nat} (hr : value_entry_string enc value i = some r)
    (hroom : st.index + r.length + 1 ≤ cap) (hcap : cap ≤ st.buf.length) :
    Runs st (copy_value enc value i cap st) r := by
  unfold value_entry_string at hr
  unfold copy_value libfvalue_value_copy_to_string_with_index
  cases value with
  | none => simp at hr
  | some v =>
    simp only at hr ⊢
    cases hv : v.entries[i]? with
    | none => simp [hv] at hr
    | some e =>
      simp only [hv] at hr ⊢
      simp only [hr]
      rw [if_neg (by omega)]
      refine ⟨_, rfl, rewind_wrote ?_⟩
      exact store_list_wrote cap (r ++ [0]) st (by simp; omega) hcap


theorem Wrote.index_eq {st st1 : WState} {w : List Nat} (h : Wrote st st1 w) :
    st1.index = st.index + w.length := h.1

theorem Wrote.length_eq {st st1 : WState} {w : List Nat} (h : Wrote st st1 w) :
    st1.buf.length = st.buf.length := h.2.2.1

theorem store2_wrote (cap : Nat) (st : WState) (a b : Nat) (h : st.index + 2 ≤ cap)
    (hcap : cap ≤ st.buf.length) : Wrote st (store cap (store cap st a) b) [a, b] :=
  store_list_wrote cap [a, b] st (by simpa using h) hcap

theorem write_attributes_runs (enc : Encoding) (cap : Nat) :
    ∀ (attrs : List (Option XmlTag)) (st : WState) (w : List Nat),
      attributes_text enc attrs = some w → st.index + w.length ≤ cap →
      cap ≤ st.buf.length → Runs st (write_attributes enc cap attrs st) w := by
  intro attrs
  induction attrs with
  | nil =>
    intro st w h hroom hcap
    simp only [attributes_text, Option.some.injEq] at h
    subst h
    exact Runs.ok (Wrote.refl (by simp at hroom; omega))
  | cons a rest ih =>
    intro st w h hroom hcap
    cases a with
    | none => simp [attributes_text] at h
    | some a =>
      simp only [attributes_text] at h
      cases hn : value_entry_string enc a.name 0 with
      | none => simp [hn] at h
      | some n =>
        cases hty : libfvalue_value_get_type a.value with
        | none => simp [hn, hty] at h
        | some vt =>
          cases hv : value_entry_string enc a.value 0 with
          | none => simp [hn, hty, hv] at h
          | some v =>
            cases hw : attributes_text enc rest with
            | none => simp [hn, hty, hv, hw] at h
            | some w' =>
              simp only [hn, hty, hv, hw, Option.some.injEq] at h
              subst h
              simp only [List.length_append, List.length_cons, List.length_nil] at hroom
              simp only [write_attributes, hty]
              apply Runs.room (by omega)
              have s1 := store_wrote cap st 32 (by omega) hcap
              refine Runs.cast (Runs.pre s1 (Runs.andThen
                (copy_value_runs (r := n) hn (by rw [s1.index_eq]; simp; omega)
                  (by rw [s1.length_eq]; exact hcap)) ?_)) (by simp [List.append_assoc]; rfl)
              intro st2 s2
              have i2 : st2.index = st.index + 1 + n.length := by
                rw [s2.index_eq, s1.index_eq]; simp
              have l2 : cap ≤ st2.buf.length := by
                rw [s2.length_eq, s1.length_eq]; exact hcap
              apply Runs.room (by omega)
              have s3 := store2_wrote cap st2 61 34 (by omega) l2
              have i3 : (store cap (store cap st2 61) 34).index = st.index + 1 + n.length + 2 := by
                simp; omega
              have l3 : cap ≤ (store cap (store cap st2 61) 34).buf.length := by
                rw [s3.length_eq]; exact l2
              refine Runs.pre s3 (Runs.andThen
                (copy_value_runs (r := v) hv (by rw [i3]; split at hroom <;> simp at hroom <;> omega)
                  l3) ?_)
              intro st4 s4
              have i4 : st4.index = st.index + 1 + n.length + 2 + v.length := by
                rw [s4.index_eq, i3]
              have l4 : cap ≤ st4.buf.length := by
                rw [s4.length_eq]; exact l3
              by_cases ht : is_time_type vt = true
              · simp only [ht, if_true] at hroom ⊢
                simp only [List.length_cons, List.length_nil] at hroom
                apply Runs.room (by omega)
                apply Runs.room (by omega)
                have s5 := store2_wrote cap st4 90 34 (by omega) l4
                refine Runs.cast (Runs.pre s5 (ih _ w' hw (by simp; omega)
                  (by rw [s5.length_eq]; exact l4))) (by simp)
              · simp only [ht] at hroom ⊢
                try simp only [List.length_nil] at hroom
                apply Runs.room (by omega)
                have s5 := store_wrote cap st4 34 (by omega) l4
                refine Runs.cast (Runs.pre s5 (ih _ w' hw (by simp; omega)
                  (by rw [s5.length_eq]; exact l4))) (by simp)


theorem write_value_entries_runs (enc : Encoding) (cap : Nat) (value : Value) :
    ∀ (es : List ValueEntry) (i : Nat) (st : WState) (w : List Nat),
      value.entries.drop i = es → value_text enc value.type es = some w →
      st.index + w.length + 1 ≤ cap → cap ≤ st.buf.length →
      Runs st (write_value_entries enc cap value es i st) w := by
  intro es
  induction es with
  | nil =>
    intro i st w _ h hroom hcap
    simp only [value_text, Option.some.injEq] at h
    subst h
    exact Runs.ok (Wrote.refl (by omega))
  | cons e rest ih =>
    intro i st w hd h hroom hcap
    have hget : value.entries[i]? = some e := by
      have := congrArg List.head? hd
      simpa [List.head?_drop] using this
    have hrest : value.entries.drop (i + 1) = rest := by
      have := congrArg List.tail hd
      simpa [List.tail_drop] using this
    simp only [value_text] at h
    cases hr : e.string enc with
    | none => simp [hr] at h
    | some r =>
      cases hw : value_text enc value.type rest with
      | none => simp [hr, hw] at h
      | some w' =>
        simp only [hr, hw, Option.some.injEq] at h
        subst h
        simp only [write_value_entries, ValueEntry.string_size, hr, Option.map_some']
        have hes : value_entry_string enc (some value) i = some r := by
          simp only [value_entry_string, hget, hr]
        by_cases hgt : r.length + 1 > 1
        · simp only [hgt, if_true] at hroom ⊢
          simp only [List.length_append] at hroom
          by_cases ht : is_time_type value.type = true
          · simp only [ht, if_true] at hroom ⊢
            simp only [List.length_cons, List.length_nil] at hroom
            rw [List.append_assoc]
            refine Runs.andThen (copy_value_runs hes (by omega) hcap) ?_
            intro st1 s1
            have l1 : cap ≤ st1.buf.length := by rw [s1.length_eq]; exact hcap
            have i1 := s1.index_eq
            apply Runs.room (by omega)
            have s2 := store_wrote cap st1 90 (by omega) l1
            exact Runs.pre s2 (ih (i + 1) _ w' hrest hw (by simp; omega)
              (by rw [s2.length_eq]; exact l1))
          · have ht' : is_time_type value.type = false := by simpa using ht
            simp only [ht', Bool.false_eq_true, if_false] at hroom ⊢
            simp only [List.length_nil] at hroom
            rw [List.append_nil]
            refine Runs.andThen (copy_value_runs hes (by omega) hcap) ?_
            intro st1 s1
            have l1 : cap ≤ st1.buf.length := by rw [s1.length_eq]; exact hcap
            have i1 := s1.index_eq
            exact ih (i + 1) _ w' hrest hw (by omega) l1
        · simp only [hgt, if_false] at hroom ⊢
          rw [List.nil_append] at hroom ⊢
          exact ih (i + 1) _ w' hrest hw hroom hcap

theorem start_wrote (cap : Nat) (st : WState) (L : Nat) (h : st.index + (L * 2 + 1) ≤ cap)
    (hcap : cap ≤ st.buf.length) :
    Wrote st (store cap (indent cap L st) 60) (List.replicate (L * 2) 32 ++ [60]) := by
  have h1 := indent_wrote cap L st (by omega) hcap
  have h2 := store_wrote cap (indent cap L st) 60 (by simp; omega)
    (by rw [h1.length_eq]; exact hcap)
  exact Wrote.trans h1 h2

theorem xml_text_ends_with_nul (enc : Encoding) (t : XmlTag) (L : Nat) (w : List Nat)
    (h : xml_text enc t L = some w) : w = w.dropLast ++ [0] := by
  cases t with
  | mk type name value attrs elems =>
    rw [xml_text_eq] at h
    have key : ∀ (x : List Nat), x ++ [62, 10, 0] = (x ++ [62, 10, 0]).dropLast ++ [0] := by
      intro x
      have : x ++ [62, 10, 0] = (x ++ [62, 10]) ++ [0] := by simp
      rw [this, List.dropLast_concat]
    cases type with
    | NODE =>
      simp only at h
      cases hn : value_entry_string enc name 0 with
      | none => simp [hn] at h
      | some n =>
        cases ha : attributes_text enc attrs with
        | none => simp [hn, ha] at h
        | some a =>
          simp only [hn, ha] at h
          cases value with
          | some v =>
            simp only at h
            cases hv : value_text enc v.type v.entries with
            | none => simp [hv] at h
            | some text =>
              simp only [hv] at h
              split at h <;> (simp only [Option.some.injEq] at h; subst h; exact key _)
          | none =>
            simp only at h
            cases elems with
            | nil => simp only [Option.some.injEq] at h; subst h; exact key _
            | cons e es =>
              simp only at h
              cases hk : elements_text enc (e :: es) (L + 1) with
              | none => simp [hk] at h
              | some k => simp only [hk, Option.some.injEq] at h; subst h; exact key _
    | CDATA =>
      simp only at h
      cases hv : value_entry_string enc value 0 with
      | none => simp [hv] at h
      | some p => simp only [hv, Option.some.injEq] at h; subst h; exact key _
    | PI =>
      simp only at h
      cases hn : value_entry_string enc name 0 with
      | none => simp [hn] at h
      | some n =>
        cases hv : value_entry_string enc value 0 with
        | none => simp [hn, hv] at h
        | some b => simp only [hn, hv, Option.some.injEq] at h; subst h; exact key _


theorem xml_string_with_index_runs_both (enc : Encoding) :
    (∀ (t : XmlTag) (L cap : Nat) (st : WState) (w : List Nat),
      xml_text enc t L = some w → st.index + w.length ≤ cap → cap ≤ SSIZE_MAX →
      cap ≤ st.buf.length → Runs st (xml_string_with_index enc t L cap st) w)
    ∧ (∀ (es : List (Option XmlTag)) (L cap : Nat) (st : WState) (w : List Nat),
      elements_text enc es L = some w → st.index + w.length + 1 ≤ cap → cap ≤ SSIZE_MAX →
      cap ≤ st.buf.length → Runs st (write_elements enc es L cap st) w) := by
  apply XmlTag.induct
  · intro type name value attrs elems IH L cap st w h hroom hmax hcap
    rw [xml_text_eq] at h
    rw [xml_string_with_index_eq, if_neg (by omega)]
    cases type with
    | NODE =>
      simp only at h ⊢
      cases hn : value_entry_string enc name 0 with
      | none => simp [hn] at h
      | some n =>
        cases ha : attributes_text enc attrs with
        | none => simp [hn, ha] at h
        | some a =>
          simp only [hn, ha] at h
          cases value with
          | some v =>
            simp only at h ⊢
            cases hv : value_text enc v.type v.entries with
            | none => simp [hv] at h
            | some text =>
              simp only [hv] at h
              have hvs : value_string_size enc v.type v.entries 0 = some text.length := by
                rw [value_string_size_eq, hv]; simp
              simp only [hvs]
              by_cases hp : text.length > 0
              · simp only [hp, if_true, Option.some.injEq] at h ⊢
                have e : w = (List.replicate (L * 2) 32 ++ [60]) ++ (n ++ (a
                    ++ (([62] ++ (text ++ ([60, 47] ++ n))) ++ [62, 10, 0]))) := by
                  rw [← h]; simp
                rw [e] at hroom ⊢
                simp only [List.length_append, List.length_cons, List.length_nil,
                  List.length_replicate] at hroom
                apply Runs.room (by omega)
                have s0 := start_wrote cap st L (by omega) hcap
                have i0 := s0.index_eq
                simp only [List.length_append, List.length_cons, List.length_nil,
                  List.length_replicate] at i0
                refine Runs.pre s0 (Runs.andThen (copy_value_runs hn (by omega)
                  (by rw [s0.length_eq]; exact hcap)) ?_)
                intro st1 s1
                have i1 := s1.index_eq
                have l1 : cap ≤ st1.buf.length := by
                  rw [s1.length_eq, s0.length_eq]; exact hcap
                refine Runs.andThen (write_attributes_runs enc cap attrs st1 a ha (by omega) l1) ?_
                intro st2 s2
                have i2 := s2.index_eq
                have l2 : cap ≤ st2.buf.length := by rw [s2.length_eq]; exact l1
                refine Runs.andThen ?_ ?_
                · apply Runs.room (by omega)
                  have s3 := store_wrote cap st2 62 (by omega) l2
                  have l3 : cap ≤ (store cap st2 62).buf.length := by
                    rw [s3.length_eq]; exact l2
                  refine Runs.pre s3 (Runs.andThen (write_value_entries_runs enc cap v v.entries
                    0 _ text (by simp) hv (by simp; omega) l3) ?_)
                  intro st4 s4
                  have i4 := s4.index_eq
                  simp only [store_index] at i4
                  have l4 : cap ≤ st4.buf.length := by rw [s4.length_eq]; exact l3
                  apply Runs.room (by omega)
                  have s5 := store2_wrote cap st4 60 47 (by omega) l4
                  exact Runs.pre s5 (copy_value_runs hn (by simp; omega)
                    (by rw [s5.length_eq]; exact l4))
                · intro st6 s6
                  have i6 := s6.index_eq
                  simp only [List.length_append, List.length_cons, List.length_nil] at i6
                  have l6 : cap ≤ st6.buf.length := by rw [s6.length_eq]; exact l2
                  apply Runs.room (by omega)
                  exact Runs.ok (write_trailer_wrote (by omega) l6)
              · simp only [hp, if_false, Option.some.injEq] at h ⊢
                have e : w = (List.replicate (L * 2) 32 ++ [60]) ++ (n ++ (a
                    ++ ([47] ++ [62, 10, 0]))) := by
                  rw [← h]; simp
                rw [e] at hroom ⊢
                simp only [List.length_append, List.length_cons, List.length_nil,
                  List.length_replicate] at hroom
                apply Runs.room (by omega)
                have s0 := start_wrote cap st L (by omega) hcap
                have i0 := s0.index_eq
                simp only [List.length_append, List.length_cons, List.length_nil,
                  List.length_replicate] at i0
                refine Runs.pre s0 (Runs.andThen (copy_value_runs hn (by omega)
                  (by rw [s0.length_eq]; exact hcap)) ?_)
                intro st1 s1
                have i1 := s1.index_eq
                have l1 : cap ≤ st1.buf.length := by
                  rw [s1.length_eq, s0.length_eq]; exact hcap
                refine Runs.andThen (write_attributes_runs enc cap attrs st1 a ha (by omega) l1) ?_
                intro st2 s2
                have i2 := s2.index_eq
                have l2 : cap ≤ st2.buf.length := by rw [s2.length_eq]; exact l1
                refine Runs.andThen ?_ ?_
                · apply Runs.room (by omega)
                  exact Runs.ok (store_wrote cap st2 47 (by omega) l2)
                · intro st6 s6
                  have i6 := s6.index_eq
                  simp only [List.length_cons, List.length_nil] at i6
                  have l6 : cap ≤ st6.buf.length := by rw [s6.length_eq]; exact l2
                  apply Runs.room (by omega)
                  exact Runs.ok (write_trailer_wrote (by omega) l6)
          | none =>
            simp only at h ⊢
            cases elems with
            | nil =>
              simp only [Option.some.injEq] at h ⊢
              have e : w = (List.replicate (L * 2) 32 ++ [60]) ++ (n ++ (a
                  ++ ([47] ++ [62, 10, 0]))) := by
                rw [← h]; simp
              rw [e] at hroom ⊢
              simp only [List.length_append, List.length_cons, List.length_nil,
                List.length_replicate] at hroom
              apply Runs.room (by omega)
              have s0 := start_wrote cap st L (by omega) hcap
              have i0 := s0.index_eq
              simp only [List.length_append, List.length_cons, List.length_nil,
                List.length_replicate] at i0
              refine Runs.pre s0 (Runs.andThen (copy_value_runs hn (by omega)
                (by rw [s0.length_eq]; exact hcap)) ?_)
              intro st1 s1
              have i1 := s1.index_eq
              have l1 : cap ≤ st1.buf.length := by
                rw [s1.length_eq, s0.length_eq]; exact hcap
              refine Runs.andThen (write_attributes_runs enc cap attrs st1 a ha (by omega) l1) ?_
              intro st2 s2
              have i2 := s2.index_eq
              have l2 : cap ≤ st2.buf.length := by rw [s2.length_eq]; exact l1
              refine Runs.andThen ?_ ?_
              · apply Runs.room (by omega)
                exact Runs.ok (store_wrote cap st2 47 (by omega) l2)
              · intro st6 s6
                have i6 := s6.index_eq
                simp only [List.length_cons, List.length_nil] at i6
                have l6 : cap ≤ st6.buf.length := by rw [s6.length_eq]; exact l2
                apply Runs.room (by omega)
                exact Runs.ok (write_trailer_wrote (by omega) l6)
            | cons c cs =>
              simp only at h ⊢
              cases hk : elements_text enc (c :: cs) (L + 1) with
              | none => simp [hk] at h
              | some k =>
                simp only [hk, Option.some.injEq] at h
                have e : w = (List.replicate (L * 2) 32 ++ [60]) ++ (n ++ (a
                    ++ (([62, 10] ++ (k ++ (List.replicate (L * 2) 32 ++ ([60, 47] ++ n))))
                      ++ [62, 10, 0]))) := by
                  rw [← h]; simp
                rw [e] at hroom ⊢
                simp only [List.length_append, List.length_cons, List.length_nil,
                  List.length_replicate] at hroom
                apply Runs.room (by omega)
                have s0 := start_wrote cap st L (by omega) hcap
                have i0 := s0.index_eq
                simp only [List.length_append, List.length_cons, List.length_nil,
                  List.length_replicate] at i0
                refine Runs.pre s0 (Runs.andThen (copy_value_runs hn (by omega)
                  (by rw [s0.length_eq]; exact hcap)) ?_)
                intro st1 s1
                have i1 := s1.index_eq
                have l1 : cap ≤ st1.buf.length := by
                  rw [s1.length_eq, s0.length_eq]; exact hcap
                refine Runs.andThen (write_attributes_runs enc cap attrs st1 a ha (by omega) l1) ?_
                intro st2 s2
                have i2 := s2.index_eq
                have l2 : cap ≤ st2.buf.length := by rw [s2.length_eq]; exact l1
                refine Runs.andThen ?_ ?_
                · apply Runs.room (by omega)
                  have s3 := store2_wrote cap st2 62 10 (by omega) l2
                  have l3 : cap ≤ (store cap (store cap st2 62) 10).buf.length := by
                    rw [s3.length_eq]; exact l2
                  refine Runs.pre s3 (Runs.andThen (IH (L + 1) cap _ k hk (by simp; omega)
                    hmax l3) ?_)
                  intro st4 s4
                  have i4 := s4.index_eq
                  simp only [store_index] at i4
                  have l4 : cap ≤ st4.buf.length := by rw [s4.length_eq]; exact l3
                  apply Runs.room (by omega)
                  have s5 := indent_wrote cap L st4 (by omega) l4
                  have l5 : cap ≤ (indent cap L st4).buf.length := by
                    rw [s5.length_eq]; exact l4
                  refine Runs.pre s5 ?_
                  apply Runs.room (by simp; omega)
                  have s6 := store2_wrote cap (indent cap L st4) 60 47
                    (by simp; omega) l5
                  exact Runs.pre s6 (copy_value_runs hn (by simp; omega)
                    (by rw [s6.length_eq]; exact l5))
                · intro st6 s6
                  have i6 := s6.index_eq
                  simp only [List.length_append, List.length_cons, List.length_nil,
                    List.length_replicate] at i6
                  have l6 : cap ≤ st6.buf.length := by rw [s6.length_eq]; exact l2
                  apply Runs.room (by omega)
                  exact Runs.ok (write_trailer_wrote (by omega) l6)
    | CDATA =>
      simp only at h ⊢
      cases hv : value_entry_string enc value 0 with
      | none => simp [hv] at h
      | some p =>
        simp only [hv, Option.some.injEq] at h
        have e : w = (List.replicate (L * 2) 32 ++ [60]) ++ ([33, 91, 67, 68, 65, 84, 65, 91]
            ++ (p ++ ([93, 93] ++ [62, 10, 0]))) := by
          rw [← h]; simp
        rw [e] at hroom ⊢
        simp only [List.length_append, List.length_cons, List.length_nil,
          List.length_replicate] at hroom
        apply Runs.room (by omega)
        have s0 := start_wrote cap st L (by omega) hcap
        have i0 := s0.index_eq
        simp only [List.length_append, List.length_cons, List.length_nil,
          List.length_replicate] at i0
        have l0 : cap ≤ (store cap (indent cap L st) 60).buf.length := by
          rw [s0.length_eq]; exact hcap
        refine Runs.pre s0 ?_
        apply Runs.room (by omega)
        have s1 := store_list_wrote cap [33, 91, 67, 68, 65, 84, 65, 91] _
          (by simp only [List.length_cons, List.length_nil]; omega) l0
        have i1 := s1.index_eq
        simp only [List.length_cons, List.length_nil] at i1
        have l1 := s1.length_eq
        refine Runs.pre s1 (Runs.andThen (copy_value_runs hv (by omega)
          (by rw [l1]; exact l0)) ?_)
        intro st2 s2
        have i2 := s2.index_eq
        have l2 : cap ≤ st2.buf.length := by rw [s2.length_eq, l1]; exact l0
        apply Runs.room (by omega)
        have s3 := store2_wrote cap st2 93 93 (by omega) l2
        exact Runs.ok (Wrote.trans s3 (write_trailer_wrote (by simp; omega)
          (by rw [s3.length_eq]; exact l2)))
    | PI =>
      simp only at h ⊢
      cases hn : value_entry_string enc name 0 with
      | none => simp [hn] at h
      | some n =>
        cases hv : value_entry_string enc value 0 with
        | none => simp [hn, hv] at h
        | some b =>
          simp only [hn, hv, Option.some.injEq] at h
          have e : w = (List.replicate (L * 2) 32 ++ [60]) ++ ([63] ++ (n ++ ([32] ++ (b
              ++ ([63] ++ [62, 10, 0]))))) := by
            rw [← h]; simp
          rw [e] at hroom ⊢
          simp only [List.length_append, List.length_cons, List.length_nil,
            List.length_replicate] at hroom
          apply Runs.room (by omega)
          have s0 := start_wrote cap st L (by omega) hcap
          have i0 := s0.index_eq
          simp only [List.length_append, List.length_cons, List.length_nil,
            List.length_replicate] at i0
          have l0 : cap ≤ (store cap (indent cap L st) 60).buf.length := by
            rw [s0.length_eq]; exact hcap
          refine Runs.pre s0 ?_
          apply Runs.room (by omega)
          have s1 := store_wrote cap (store cap (indent cap L st) 60) 63
            (by omega) l0
          have l1 := s1.length_eq
          have j1 : (store cap (store cap (indent cap L st) 60) 63).index
              = st.index + (L * 2 + 1) + 1 := by
            rw [s1.index_eq, i0]; rfl
          refine Runs.pre s1 (Runs.andThen (copy_value_runs hn (by omega)
            (by rw [l1]; exact l0)) ?_)
          intro st2 s2
          have i2 : st2.index = st.index + (L * 2 + 1) + 1 + n.length := by
            rw [s2.index_eq, j1]
          have l2 : cap ≤ st2.buf.length := by rw [s2.length_eq, l1]; exact l0
          apply Runs.room (by omega)
          have s3 := store_wrote cap st2 32 (by omega) l2
          have l3 := s3.length_eq
          have j3 : (store cap st2 32).index = st.index + (L * 2 + 1) + 1 + n.length + 1 := by
            rw [s3.index_eq, i2]; rfl
          refine Runs.pre s3 (Runs.andThen (copy_value_runs hv (by omega)
            (by rw [l3]; exact l2)) ?_)
          intro st4 s4
          have i4 : st4.index = st.index + (L * 2 + 1) + 1 + n.length + 1 + b.length := by
            rw [s4.index_eq, j3]
          have l4 : cap ≤ st4.buf.length := by rw [s4.length_eq, l3]; exact l2
          apply Runs.room (by omega)
          have s5 := store_wrote cap st4 63 (by omega) l4
          have j5 : (store cap st4 63).index
              = st.index + (L * 2 + 1) + 1 + n.length + 1 + b.length + 1 := by
            rw [s5.index_eq, i4]; rfl
          exact Runs.ok (Wrote.trans s5 (write_trailer_wrote (by omega)
            (by rw [s5.length_eq]; exact l4)))
  · intro L cap st w h hroom hmax hcap
    rw [elements_text_nil] at h
    simp only [Option.some.injEq] at h
    subst h
    rw [write_elements_nil]
    exact Runs.ok (Wrote.refl (by omega))
  · intro rest _ L cap st w h
    rw [elements_text_cons, xml_text_entry_none] at h
    simp at h
  · intro t rest IHt IHrest L cap st w h hroom hmax hcap
    rw [elements_text_cons, xml_text_entry_some] at h
    cases ht : xml_text enc t L with
    | none => simp [ht] at h
    | some wt =>
      cases hk : elements_text enc rest L with
      | none => simp [ht, hk] at h
      | some k =>
        simp only [ht, hk, Option.some.injEq] at h
        subst h
        have hnul := xml_text_ends_with_nul enc t L wt ht
        have hlen : wt.length = wt.dropLast.length + 1 := by
          conv_lhs => rw [hnul]
          simp
        simp only [List.length_append] at hroom
        obtain ⟨st1, hr, hw⟩ := IHt L cap st wt ht (by omega) hmax hcap
        rw [write_elements_cons, xml_string_with_index_entry_some, hr]
        simp only
        rw [hnul] at hw
        have hw2 := rewind_wrote hw
        exact Runs.pre hw2 (IHrest L cap _ k hk (by rw [hw2.index_eq]; omega) hmax
          (by rw [hw2.length_eq]; exact hcap))


/-! ## The writer as a caller sees it -/

theorem get_xml_string_with_index_of_ok {enc : Encoding} {t : XmlTag} {L cap i0 : Nat}
    {buf : List Nat} {st1 : WState}
    (h : xml_string_with_index enc t L cap { buf := buf, index := i0, oob := false } = .ok st1) :
    get_xml_string_with_index enc t L buf cap i0
      = { status := 1, error := none, string := st1.buf, string_index := st1.index,
          oob := st1.oob } := by
  unfold get_xml_string_with_index
  rw [h]

theorem get_xml_string_with_index_status {enc : Encoding} {t : XmlTag} {L cap i0 : Nat}
    {buf : List Nat} (h : (get_xml_string_with_index enc t L buf cap i0).status = 1) :
    ∃ st1, xml_string_with_index enc t L cap { buf := buf, index := i0, oob := false }
      = .ok st1 := by
  unfold get_xml_string_with_index at h
  cases hr : xml_string_with_index enc t L cap { buf := buf, index := i0, oob := false } with
  | ok st1 => exact ⟨st1, rfl⟩
  | error e =>
    rw [hr] at h
    cases e
    simp at h

theorem write_index_generic (enc : Encoding) (t : XmlTag) (L : Nat) (buf : List Nat)
    (cap i0 : Nat) (h : (get_xml_string_with_index enc t L buf cap i0).status = 1) :
    ∃ s, xml_string_size enc t L = some s
      ∧ (get_xml_string_with_index enc t L buf cap i0).string_index = i0 + s := by
  obtain ⟨st1, hr⟩ := get_xml_string_with_index_status h
  obtain ⟨s, hs, hidx, -⟩ := (xml_string_with_index_index_both enc).1 t L cap _ st1 hr
  exact ⟨s, hs, by rw [get_xml_string_with_index_of_ok hr]; exact hidx⟩

/-- C2 (the code departs from it): for the CData section of scenario (e) the size
computation returns 20, yet the writer returns 1 for the capacities 19, 18
and 17, having stored units at or beyond the capacity; likewise for the
processing instruction of scenario (f), of size 23, with capacity 20, and for
the UTF-16 writer. -/
theorem cdata_and_pi_write_succeed_below_size :
    libevtx_xml_tag_get_utf8_xml_string_size cdata_tag 0 = some 20
    ∧ (libevtx_xml_tag_get_utf8_xml_string_with_index cdata_tag 0 (List.replicate 19 0) 19
        0).status = 1
    ∧ (libevtx_xml_tag_get_utf8_xml_string_with_index cdata_tag 0 (List.replicate 19 0) 19
        0).oob = true
    ∧ (libevtx_xml_tag_get_utf8_xml_string_with_index cdata_tag 0 (List.replicate 17 0) 17
        0).status = 1
    ∧ libevtx_xml_tag_get_utf8_xml_string_size pi_tag 0 = some 23
    ∧ (libevtx_xml_tag_get_utf8_xml_string_with_index pi_tag 0 (List.replicate 20 0) 20
        0).status = 1
    ∧ libevtx_xml_tag_get_utf16_xml_string_size cdata_tag 0 = some 20
    ∧ (libevtx_xml_tag_get_utf16_xml_string_with_index cdata_tag 0 (List.replicate 19 0) 19
        0).status = 1 := by
  decide

/-- C3 (the code departs from it): writing the element `T` with a FILETIME
attribute into 14 units returns -1 after a store at index 14: the closing
quote after `Z` is stored without a bounds check of its own.  Writing the CData
section of scenario (e) into 19 units returns 1 after the NUL of the final
`>`, newline, NUL was stored at index 19. -/
theorem writer_stores_beyond_capacity :
    (libevtx_xml_tag_get_utf8_xml_string_with_index time_tag 0 (List.replicate 14 0) 14
        0).status = -1
    ∧ (libevtx_xml_tag_get_utf8_xml_string_with_index time_tag 0 (List.replicate 14 0) 14
        0).oob = true
    ∧ (libevtx_xml_tag_get_utf8_xml_string_with_index time_tag 0 (List.replicate 14 0) 14
        0).string = units "<T Time=\"2020Z"
    ∧ (libevtx_xml_tag_get_utf16_xml_string_with_index time_tag 0 (List.replicate 14 0) 14
        0).oob = true
    ∧ (libevtx_xml_tag_get_utf8_xml_string_with_index cdata_tag 0 (List.replicate 19 0) 19
        0).oob = true
    ∧ (libevtx_xml_tag_get_utf8_xml_string_with_index cdata_tag 0 (List.replicate 19 0) 19
        0).string = units "<![CDATA[x<y&z]]]>\n" := by
  decide

/-! ## Writing into a buffer of exactly the computed size -/

theorem Wrote.buf_eq_of_exact {buf : List Nat} {st1 : WState} {w : List Nat}
    (h : Wrote { buf := buf, index := 0, oob := false } st1 w) (hlen : buf.length = w.length) :
    st1.buf = w ∧ st1.index = w.length ∧ st1.oob = false := by
  obtain ⟨a, b, c, d, _⟩ := h
  simp only [Nat.zero_add, List.take_zero, List.nil_append] at a b c d
  refine ⟨?_, a, d⟩
  rw [← b, a, List.take_of_length_le]
  omega

theorem write_exact_generic (enc : Encoding) (t : XmlTag) (L s : Nat) (buf : List Nat)
    (hs : xml_string_size enc t L = some s) (hmax : s ≤ SSIZE_MAX) (hbuf : buf.length = s) :
    ∃ w, xml_text enc t L = some w ∧ w.length = s
      ∧ get_xml_string_with_index enc t L buf s 0
        = { status := 1, error := none, string := w, string_index := s, oob := false } := by
  rw [(xml_string_size_eq_text_both enc).1] at hs
  cases hw : xml_text enc t L with
  | none => simp [hw] at hs
  | some w =>
    simp only [hw, Option.map_some', Option.some.injEq] at hs
    obtain ⟨st1, hr, hwr⟩ := (xml_string_with_index_runs_both enc).1 t L s
      { buf := buf, index := 0, oob := false } w hw (by simp; omega) hmax (by simp; omega)
    obtain ⟨e1, e2, e3⟩ := hwr.buf_eq_of_exact (by omega)
    refine ⟨w, rfl, hs, ?_⟩
    rw [get_xml_string_with_index_of_ok hr, e1, e2, e3, hs]

theorem xml_string_with_index_exceeds (enc : Encoding) (t : XmlTag) (L cap : Nat) (st : WState)
    (h : cap > SSIZE_MAX) :
    xml_string_with_index enc t L cap st
      = .error (ErrorCode.ARGUMENT_VALUE_EXCEEDS_MAXIMUM, st) := by
  cases t with
  | mk type name value attrs elems => rw [xml_string_with_index_eq, if_pos h]

/-! ## The lookups -/

theorem trailing_test_of_short (data : List Nat) (h : data.length < 2) :
    (trailing_test data).trailing_nul = none := by
  unfold trailing_test
  have h1 : data[size_t_difference data.length 2]? = none := by
    apply List.getElem?_eq_none
    unfold size_t_difference
    rw [if_pos h]
    omega
  rw [h1]

theorem trailing_test_of_long (data : List Nat) (h : ¬ data.length < 2) :
    (trailing_test data).trailing_nul
      = some (decide (data.getD (data.length - 2) 0 = 0 ∧ data.getD (data.length - 1) 0 = 0))
    ∧ (if data.getD (data.length - 2) 0 = 0 ∧ data.getD (data.length - 1) 0 = 0 then
        data.length - 2 else data.length) = trimmed_size data := by
  refine ⟨?_, rfl⟩
  have e2 : size_t_difference data.length 2 = data.length - 2 := by
    unfold size_t_difference
    rw [if_neg h]
  have e1 : size_t_difference data.length 1 = data.length - 1 := by
    unfold size_t_difference
    rw [if_neg (by omega)]
  have g2 : data[data.length - 2]? = some (data.getD (data.length - 2) 0) := by
    rw [List.getD_eq_getElem?_getD, List.getElem?_eq_getElem (by omega)]
    rfl
  have g1 : data[data.length - 1]? = some (data.getD (data.length - 1) 0) := by
    rw [List.getD_eq_getElem?_getD, List.getElem?_eq_getElem (by omega)]
    rfl
  unfold trailing_test
  rw [e2, e1, g2]
  generalize data.getD (data.length - 2) 0 = x at g2 ⊢
  generalize data.getD (data.length - 1) 0 = y at g1 ⊢
  simp only
  by_cases hz : x = 0
  · rw [if_neg (by simpa using hz), g1]
    simp [hz]
  · rw [if_pos hz]
    simp [hz]

theorem compare_name_eq (towupper : Nat → Nat) (name_decoder string_decoder : Decoder)
    (name : Option Value) (string : List Nat) (string_length : Nat) :
    compare_name towupper name_decoder string_decoder name string string_length
      = match libfvalue_value_get_type name with
        | none => .failed ErrorCode.RUNTIME_GET_FAILED
        | some value_type =>
          if value_type ≠ ValueType.STRING_UTF16 then
            .failed ErrorCode.RUNTIME_UNSUPPORTED_VALUE
          else
            match libfvalue_value_get_entry_data name 0 with
            | none => .failed ErrorCode.RUNTIME_GET_FAILED
            | some value_entry_data =>
              if value_entry_data.length < 2 then .undefined
              else
                match name_compare_loop towupper name_decoder string_decoder value_entry_data
                    (trimmed_size value_entry_data) string string_length
                    (trimmed_size value_entry_data) 0 0 with
                | .error code => .failed code
                | .ok (name_index, string_index) =>
                  if name_index = trimmed_size value_entry_data
                      ∧ string_index = string_length then
                    .accepted
                  else .rejected := by
  unfold compare_name
  cases libfvalue_value_get_type name with
  | none => rfl
  | some value_type =>
    simp only
    split
    · rfl
    · cases libfvalue_value_get_entry_data name 0 with
      | none => rfl
      | some data =>
        simp only
        by_cases h : data.length < 2
        · rw [trailing_test_of_short data h, if_pos h]
        · rw [(trailing_test_of_long data h).1, if_neg h]
          simp only [decide_eq_true_eq]
          unfold trimmed_size
          rfl

theorem get_entry_by_name_valid (towupper : Nat → Nat) (nd sd : Decoder)
    (array : List (Option XmlTag)) (string : List Nat) (string_length : Nat)
    (h : string_length ≤ SSIZE_MAX) :
    get_entry_by_name towupper nd sd array string string_length none
      = lookup_loop towupper nd sd string string_length array := by
  unfold get_entry_by_name
  rw [if_neg (by omega)]
  cases array with
  | nil => rfl
  | cons e rest => rfl

theorem get_entry_by_name_exceeds (towupper : Nat → Nat) (nd sd : Decoder)
    (array : List (Option XmlTag)) (string : List Nat) (string_length : Nat)
    (out : Option XmlTag) (h : string_length > SSIZE_MAX) :
    get_entry_by_name towupper nd sd array string string_length out
      = some { status := -1, error := some ErrorCode.RUNTIME_VALUE_EXCEEDS_MAXIMUM,
               out := out } := by
  unfold get_entry_by_name
  rw [if_pos h]

theorem lookup_loop_skip (towupper : Nat → Nat) (nd sd : Decoder) (string : List Nat)
    (string_length : Nat) :
    ∀ (before rest : List (Option XmlTag)),
      (∀ e ∈ before, examine_entry towupper nd sd string string_length e = .rejected) →
      lookup_loop towupper nd sd string string_length (before ++ rest)
        = lookup_loop towupper nd sd string string_length rest := by
  intro before
  induction before with
  | nil => intro rest _; rfl
  | cons e before ih =>
    intro rest h
    have he := h e (List.mem_cons_self _ _)
    simp only [List.cons_append, lookup_loop, he]
    exact ih rest (fun x hx => h x (List.mem_cons_of_mem _ hx))

theorem lookup_loop_all_rejected (towupper : Nat → Nat) (nd sd : Decoder) (string : List Nat)
    (string_length : Nat) (array : List (Option XmlTag))
    (h : ∀ e ∈ array, examine_entry towupper nd sd string string_length e = .rejected) :
    lookup_loop towupper nd sd string string_length array
      = some { status := 0, error := none, out := none } := by
  have := lookup_loop_skip towupper nd sd string string_length array [] h
  rw [List.append_nil] at this
  rw [this]
  rfl

theorem lookup_loop_accepted (towupper : Nat → Nat) (nd sd : Decoder) (string : List Nat)
    (string_length : Nat) (before after : List (Option XmlTag)) (e : Option XmlTag)
    (h : ∀ x ∈ before, examine_entry towupper nd sd string string_length x = .rejected)
    (he : examine_entry towupper nd sd string string_length e = .accepted) :
    lookup_loop towupper nd sd string string_length (before ++ e :: after)
      = some { status := 1, error := none, out := e } := by
  rw [lookup_loop_skip towupper nd sd string string_length before _ h]
  simp only [lookup_loop, he]

theorem lookup_loop_failed (towupper : Nat → Nat) (nd sd : Decoder) (string : List Nat)
    (string_length : Nat) (before after : List (Option XmlTag)) (e : Option XmlTag)
    (code : ErrorCode)
    (h : ∀ x ∈ before, examine_entry towupper nd sd string string_length x = .rejected)
    (he : examine_entry towupper nd sd string string_length e = .failed code) :
    lookup_loop towupper nd sd string string_length (before ++ e :: after)
      = some { status := -1, error := some code, out := e } := by
  rw [lookup_loop_skip towupper nd sd string string_length before _ h]
  simp only [lookup_loop, he]

/-- C5 (the code departs from it): the attribute stored as `Fox` is
returned, with status 1, for the needle `Foo`, by each of the four lookups
(attributes and elements, UTF-8 and UTF-16 needle): a difference in the last
code point is not seen. -/
theorem lookup_accepts_name_differing_in_last_code_point :
    libevtx_xml_tag_get_attribute_by_utf8_name reference_externals
        (node "T" [some (attribute_tag "Fox" .STRING_UTF16 "1")] []) (units "Foo") 3 none
      = some { status := 1, error := none,
               out := some (attribute_tag "Fox" .STRING_UTF16 "1") }
    ∧ libevtx_xml_tag_get_attribute_by_utf16_name reference_externals
        (node "T" [some (attribute_tag "Fox" .STRING_UTF16 "1")] []) (units "Foo") 3 none
      = some { status := 1, error := none,
               out := some (attribute_tag "Fox" .STRING_UTF16 "1") }
    ∧ libevtx_xml_tag_get_element_by_utf8_name reference_externals
        (node "T" [] [some (node "Fox" [] [])]) (units "Foo") 3 none
      = some { status := 1, error := none, out := some (node "Fox" [] []) }
    ∧ libevtx_xml_tag_get_element_by_utf16_name reference_externals
        (node "T" [] [some (node "Fox" [] [])]) (units "Foo") 3 none
      = some { status := 1, error := none, out := some (node "Fox" [] []) } :=
  ⟨rfl, rfl, rfl, rfl⟩

theorem lookup_all_rejected_generic (towupper : Nat → Nat) (nd sd : Decoder)
    (array : List (Option XmlTag)) (string : List Nat) (string_length : Nat)
    (hlen : string_length ≤ SSIZE_MAX)
    (h : ∀ e ∈ array, examine_entry towupper nd sd string string_length e = .rejected) :
    get_entry_by_name towupper nd sd array string string_length none
      = some { status := 0, error := none, out := none } := by
  rw [get_entry_by_name_valid _ _ _ _ _ _ hlen]
  exact lookup_loop_all_rejected towupper nd sd string string_length array h

/-- C8, as amended: for a needle length of at most SSIZE_MAX and an
out-parameter that is NULL at entry, when the loop body rejects every attribute
(resp. element), the lookup returns 0, sets no error and leaves the
out-parameter NULL; for each of the four lookups.  This holds in particular
for a tag with no attribute (resp. element). -/
theorem lookup_not_found_returns_zero (E : Externals) (xml_tag : XmlTag) (string : List Nat)
    (string_length : Nat) (hlen : string_length ≤ SSIZE_MAX) :
    ((∀ e ∈ xml_tag.attributes_array, examine_utf8 E string string_length e = .rejected) →
      libevtx_xml_tag_get_attribute_by_utf8_name E xml_tag string string_length none
        = some { status := 0, error := none, out := none })
    ∧ ((∀ e ∈ xml_tag.attributes_array, examine_utf16 E string string_length e = .rejected) →
      libevtx_xml_tag_get_attribute_by_utf16_name E xml_tag string string_length none
        = some { status := 0, error := none, out := none })
    ∧ ((∀ e ∈ xml_tag.elements_array, examine_utf8 E string string_length e = .rejected) →
      libevtx_xml_tag_get_element_by_utf8_name E xml_tag string string_length none
        = some { status := 0, error := none, out := none })
    ∧ ((∀ e ∈ xml_tag.elements_array, examine_utf16 E string string_length e = .rejected) →
      libevtx_xml_tag_get_element_by_utf16_name E xml_tag string string_length none
        = some { status := 0, error := none, out := none }) :=
  ⟨lookup_all_rejected_generic _ _ _ _ _ _ hlen, lookup_all_rejected_generic _ _ _ _ _ _ hlen,
   lookup_all_rejected_generic _ _ _ _ _ _ hlen, lookup_all_rejected_generic _ _ _ _ _ _ hlen⟩

/-- Witness for C8: the element `T` with the attributes `Time` and `Name` has
no attribute for the needle `Other`, and the empty element `Event` has none for
the needle `Name`. -/
theorem lookup_not_found_returns_zero_witness :
    5 ≤ SSIZE_MAX
    ∧ (∀ e ∈ (node "T" [some (attribute_tag "Time" .FILETIME "2020"),
          some (attribute_tag "Name" .STRING_UTF16 "Id")] []).attributes_array,
        examine_utf8 reference_externals (units "Other") 5 e = .rejected)
    ∧ libevtx_xml_tag_get_attribute_by_utf8_name reference_externals
        (node "T" [some (attribute_tag "Time" .FILETIME "2020"),
          some (attribute_tag "Name" .STRING_UTF16 "Id")] []) (units "Other") 5 none
        = some { status := 0, error := none, out := none }
    ∧ libevtx_xml_tag_get_attribute_by_utf8_name reference_externals event_tag
        (units "Name") 4 none = some { status := 0, error := none, out := none } :=
  ⟨by decide, by decide,
   (lookup_not_found_returns_zero reference_externals _ (units "Other") 5 (by decide)).1
     (by decide),
   (lookup_not_found_returns_zero reference_externals event_tag (units "Name") 4
     (by decide)).1 (by decide)⟩

/-- Counterexample to C8 as stated: on the element `Event`, which has no
attribute and no sub element, a lookup with a needle length above SSIZE_MAX
returns -1, not 0. -/
theorem lookup_on_empty_tag_rejects_long_needle :
    event_tag.attributes_array = []
    ∧ (libevtx_xml_tag_get_attribute_by_utf8_name reference_externals event_tag []
        (SSIZE_MAX + 1) none).map (fun o => (o.status, o.error))
      = some (-1, some ErrorCode.RUNTIME_VALUE_EXCEEDS_MAXIMUM)
    ∧ (libevtx_xml_tag_get_element_by_utf16_name reference_externals event_tag []
        (SSIZE_MAX + 1) none).map (fun o => (o.status, o.error))
      = some (-1, some ErrorCode.RUNTIME_VALUE_EXCEEDS_MAXIMUM) :=
  ⟨rfl, by decide, by decide⟩

theorem examine_entry_of_unsupported (towupper : Nat → Nat) (nd sd : Decoder)
    (string : List Nat) (string_length : Nat) (e : Option XmlTag)
    (h : name_type_unsupported e = true) :
    examine_entry towupper nd sd string string_length e
      = .failed ErrorCode.RUNTIME_UNSUPPORTED_VALUE := by
  cases e with
  | none => simp [name_type_unsupported] at h
  | some a =>
    simp only [name_type_unsupported] at h
    simp only [examine_entry, compare_name_eq, libfvalue_value_get_type]
    cases hn : a.name with
    | none => simp [hn] at h
    | some v =>
      simp only [hn, decide_eq_true_eq] at h
      simp [h]

theorem lookup_unsupported_iff (towupper : Nat → Nat) (nd sd : Decoder) (string : List Nat)
    (string_length : Nat) :
    ∀ (array : List (Option XmlTag)),
      entries_readable (examine_entry towupper nd sd string string_length) array →
      (returns_unsupported (lookup_loop towupper nd sd string string_length array)
        ↔ unsupported_before_accepted (examine_entry towupper nd sd string string_length)
            array) := by
  intro array
  induction array with
  | nil =>
    intro _
    constructor
    · rintro ⟨o, ho, hs, -⟩
      simp only [lookup_loop, Option.some.injEq] at ho
      subst ho
      simp at hs
    · rintro ⟨before, e, after, h, -, -⟩
      simp at h
  | cons e rest ih =>
    intro hread
    have hrest : entries_readable (examine_entry towupper nd sd string string_length) rest :=
      fun x hx => hread x (List.mem_cons_of_mem _ hx)
    rcases hread e (List.mem_cons_self _ _) with hacc | hrej | hun
    · constructor
      · rintro ⟨o, ho, hs, -⟩
        simp only [lookup_loop, hacc, Option.some.injEq] at ho
        subst ho
        simp at hs
      · rintro ⟨before, x, after, h, hx, hb⟩
        cases before with
        | nil =>
          simp only [List.nil_append, List.cons.injEq] at h
          rw [examine_entry_of_unsupported _ _ _ _ _ _
            (show name_type_unsupported e = true by rw [h.1]; exact hx)] at hacc
          simp at hacc
        | cons b before =>
          simp only [List.cons_append, List.cons.injEq] at h
          exact absurd (h.1 ▸ hacc) (hb b (List.mem_cons_self _ _))
    · have hl : lookup_loop towupper nd sd string string_length (e :: rest)
          = lookup_loop towupper nd sd string string_length rest := by
        simp only [lookup_loop, hrej]
      rw [hl, ih hrest]
      constructor
      · rintro ⟨before, x, after, h, hx, hb⟩
        refine ⟨e :: before, x, after, by rw [h]; rfl, hx, ?_⟩
        intro y hy
        rcases List.mem_cons.1 hy with rfl | hy
        · rw [hrej]; simp
        · exact hb y hy
      · rintro ⟨before, x, after, h, hx, hb⟩
        cases before with
        | nil =>
          simp only [List.nil_append, List.cons.injEq] at h
          rw [examine_entry_of_unsupported _ _ _ _ _ _
            (show name_type_unsupported e = true by rw [h.1]; exact hx)] at hrej
          simp at hrej
        | cons b before =>
          simp only [List.cons_append, List.cons.injEq] at h
          exact ⟨before, x, after, h.2, hx, fun y hy => hb y (List.mem_cons_of_mem _ hy)⟩
    · have hf := examine_entry_of_unsupported towupper nd sd string string_length e hun
      constructor
      · intro _
        exact ⟨[], e, rest, rfl, hun, by simp⟩
      · intro _
        refine ⟨{ status := -1, error := some ErrorCode.RUNTIME_UNSUPPORTED_VALUE, out := e },
          ?_, rfl, rfl⟩
        simp only [lookup_loop, hf]

theorem get_entry_by_name_unsupported (towupper : Nat → Nat) (nd sd : Decoder)
    (array : List (Option XmlTag)) (string : List Nat) (string_length : Nat)
    (hlen : string_length ≤ SSIZE_MAX) :
    (entries_readable (examine_entry towupper nd sd string string_length) array →
      (returns_unsupported (get_entry_by_name towupper nd sd array string string_length none)
        ↔ unsupported_before_accepted (examine_entry towupper nd sd string string_length)
            array))
    ∧ (∀ before e after, array = before ++ e :: after →
        (∀ x ∈ before, examine_entry towupper nd sd string string_length x = .rejected) →
        examine_entry towupper nd sd string string_length e = .accepted →
        get_entry_by_name towupper nd sd array string string_length none
          = some { status := 1, error := none, out := e }) := by
  rw [get_entry_by_name_valid _ _ _ _ _ _ hlen]
  refine ⟨lookup_unsupported_iff towupper nd sd string string_length array, ?_⟩
  intro before e after harr hb he
  rw [harr]
  exact lookup_loop_accepted towupper nd sd string string_length before after e hb he

/-- C9, as amended: for a needle length of at most SSIZE_MAX and an
out-parameter that is NULL at entry, each of the four lookups behaves as
follows.  When every entry is readable and decodable, the lookup returns -1
with the error UNSUPPORTED_VALUE if and only if an entry whose name has a value
type other than STRING_UTF16 comes, in insertion order, before the first
accepted entry.  And when an entry is accepted after rejected ones only, the
lookup returns 1 with that entry, whatever the entries after it are. -/
theorem lookup_unsupported_name_type (E : Externals) (xml_tag : XmlTag) (string : List Nat)
    (string_length : Nat) (hlen : string_length ≤ SSIZE_MAX) :
    ((entries_readable (examine_utf8 E string string_length) xml_tag.attributes_array →
        (returns_unsupported
            (libevtx_xml_tag_get_attribute_by_utf8_name E xml_tag string string_length none)
          ↔ unsupported_before_accepted (examine_utf8 E string string_length)
              xml_tag.attributes_array))
      ∧ (∀ before e after, xml_tag.attributes_array = before ++ e :: after →
          (∀ x ∈ before, examine_utf8 E string string_length x = .rejected) →
          examine_utf8 E string string_length e = .accepted →
          libevtx_xml_tag_get_attribute_by_utf8_name E xml_tag string string_length none
            = some { status := 1, error := none, out := e }))
    ∧ ((entries_readable (examine_utf16 E string string_length) xml_tag.attributes_array →
        (returns_unsupported
            (libevtx_xml_tag_get_attribute_by_utf16_name E xml_tag string string_length none)
          ↔ unsupported_before_accepted (examine_utf16 E string string_length)
              xml_tag.attributes_array))
      ∧ (∀ before e after, xml_tag.attributes_array = before ++ e :: after →
          (∀ x ∈ before, examine_utf16 E string string_length x = .rejected) →
          examine_utf16 E string string_length e = .accepted →
          libevtx_xml_tag_get_attribute_by_utf16_name E xml_tag string string_length none
            = some { status := 1, error := none, out := e }))
    ∧ ((entries_readable (examine_utf8 E string string_length) xml_tag.elements_array →
        (returns_unsupported
            (libevtx_xml_tag_get_element_by_utf8_name E xml_tag string string_length none)
          ↔ unsupported_before_accepted (examine_utf8 E string string_length)
              xml_tag.elements_array))
      ∧ (∀ before e after, xml_tag.elements_array = before ++ e :: after →
          (∀ x ∈ before, examine_utf8 E string string_length x = .rejected) →
          examine_utf8 E string string_length e = .accepted →
          libevtx_xml_tag_get_element_by_utf8_name E xml_tag string string_length none
            = some { status := 1, error := none, out := e }))
    ∧ ((entries_readable (examine_utf16 E string string_length) xml_tag.elements_array →
        (returns_unsupported
            (libevtx_xml_tag_get_element_by_utf16_name E xml_tag string string_length none)
          ↔ unsupported_before_accepted (examine_utf16 E string string_length)
              xml_tag.elements_array))
      ∧ (∀ before e after, xml_tag.elements_array = before ++ e :: after →
          (∀ x ∈ before, examine_utf16 E string string_length x = .rejected) →
          examine_utf16 E string string_length e = .accepted →
          libevtx_xml_tag_get_element_by_utf16_name E xml_tag string string_length none
            = some { status := 1, error := none, out := e })) :=
  ⟨get_entry_by_name_unsupported _ _ _ _ _ _ hlen, get_entry_by_name_unsupported _ _ _ _ _ _ hlen,
   get_entry_by_name_unsupported _ _ _ _ _ _ hlen, get_entry_by_name_unsupported _ _ _ _ _ _ hlen⟩

/-- Witness for C9: with the attributes `Id`, then one named by a FILETIME
value, then `Name`, the needle `Name` meets the unsupported name first and the
lookup returns -1 with UNSUPPORTED_VALUE; the needle `Id` is accepted at the
first attribute and the lookup returns 1 in spite of the second attribute. -/
theorem lookup_unsupported_name_type_witness :
    4 ≤ SSIZE_MAX
    ∧ entries_readable (examine_utf8 reference_externals (units "Name") 4)
        (node "T" [some (attribute_tag "Id" .STRING_UTF16 "7"), some time_named_tag,
          some (attribute_tag "Name" .STRING_UTF16 "x")] []).attributes_array
    ∧ returns_unsupported (libevtx_xml_tag_get_attribute_by_utf8_name reference_externals
        (node "T" [some (attribute_tag "Id" .STRING_UTF16 "7"), some time_named_tag,
          some (attribute_tag "Name" .STRING_UTF16 "x")] []) (units "Name") 4 none)
    ∧ libevtx_xml_tag_get_attribute_by_utf8_name reference_externals
        (node "T" [some (attribute_tag "Id" .STRING_UTF16 "7"), some time_named_tag,
          some (attribute_tag "Name" .STRING_UTF16 "x")] []) (units "Id") 2 none
        = some { status := 1, error := none,
                 out := some (attribute_tag "Id" .STRING_UTF16 "7") } := by
  have hread : entries_readable (examine_utf8 reference_externals (units "Name") 4)
      (node "T" [some (attribute_tag "Id" .STRING_UTF16 "7"), some time_named_tag,
        some (attribute_tag "Name" .STRING_UTF16 "x")] []).attributes_array := by
    unfold entries_readable
    decide
  refine ⟨by decide, hread, ?_, ?_⟩
  · exact ((lookup_unsupported_name_type reference_externals _ (units "Name") 4
      (by decide)).1.1 hread).2
      ⟨[some (attribute_tag "Id" .STRING_UTF16 "7")], some time_named_tag,
        [some (attribute_tag "Name" .STRING_UTF16 "x")], rfl, by decide, by decide⟩
  · exact (lookup_unsupported_name_type reference_externals
      (node "T" [some (attribute_tag "Id" .STRING_UTF16 "7"), some time_named_tag,
        some (attribute_tag "Name" .STRING_UTF16 "x")] []) (units "Id") 2 (by decide)).1.2
      [] (some (attribute_tag "Id" .STRING_UTF16 "7"))
      [some time_named_tag, some (attribute_tag "Name" .STRING_UTF16 "x")] rfl
      (by decide) (by decide)

/-- Counterexample to C9 as stated: the only attribute has a name of type
FILETIME, so an entry of unsupported type comes before any accepted entry, yet
with a needle length above SSIZE_MAX the lookup returns -1 with the error
VALUE_EXCEEDS_MAXIMUM, not UNSUPPORTED_VALUE. -/
theorem lookup_long_needle_is_not_unsupported :
    entries_readable (examine_utf8 reference_externals [] (SSIZE_MAX + 1))
        (node "T" [some time_named_tag] []).attributes_array
    ∧ unsupported_before_accepted (examine_utf8 reference_externals [] (SSIZE_MAX + 1))
        (node "T" [some time_named_tag] []).attributes_array
    ∧ ¬ returns_unsupported (libevtx_xml_tag_get_attribute_by_utf8_name reference_externals
        (node "T" [some time_named_tag] []) [] (SSIZE_MAX + 1) none)
    ∧ (libevtx_xml_tag_get_attribute_by_utf8_name reference_externals
        (node "T" [some time_named_tag] []) [] (SSIZE_MAX + 1) none).map
          (fun o => (o.status, o.error))
        = some (-1, some ErrorCode.RUNTIME_VALUE_EXCEEDS_MAXIMUM) := by
  refine ⟨?_, ⟨[], some time_named_tag, [], rfl, by decide, by simp⟩, ?_, by decide⟩
  · unfold entries_readable
    decide
  · rintro ⟨o, ho, -, he⟩
    unfold libevtx_xml_tag_get_attribute_by_utf8_name at ho
    rw [get_entry_by_name_exceeds _ _ _ _ _ _ _ (by decide)] at ho
    simp only [Option.some.injEq] at ho
    subst ho
    simp at he

/-! ## Case-insensitivity of the comparison -/

theorem decode_string_cases {decoder : Decoder} {stream : List Nat} {size fuel index : Nat}
    {cs : List Nat} (h : decode_string decoder stream size fuel index = some cs) :
    (index = size ∧ cs = [])
    ∨ (index < size ∧ ∃ g c next cs', fuel = g + 1
        ∧ decoder.run stream size index = some (c, next)
        ∧ decode_string decoder stream size g next = some cs' ∧ cs = c :: cs') := by
  cases fuel with
  | zero =>
    simp only [decode_string] at h
    by_cases he : index = size
    · simp only [he, if_true, Option.some.injEq] at h
      exact Or.inl ⟨he, h.symm⟩
    · simp [he] at h
  | succ g =>
    simp only [decode_string] at h
    by_cases he : index = size
    · simp only [he, if_true, Option.some.injEq] at h
      exact Or.inl ⟨he, h.symm⟩
    · simp only [he, if_false] at h
      by_cases hgt : index > size
      · simp [hgt] at h
      · simp only [hgt, if_false] at h
        cases hr : decoder.run stream size index with
        | none => simp [hr] at h
        | some p =>
          obtain ⟨c, next⟩ := p
          simp only [hr, Option.map_eq_some'] at h
          obtain ⟨cs', hd, hcs⟩ := h
          exact Or.inr ⟨by omega, g, c, next, cs', rfl, rfl, hd, hcs.symm⟩

theorem decode_string_nil_iff {decoder : Decoder} {stream : List Nat} {size fuel index : Nat}
    {cs : List Nat} (h : decode_string decoder stream size fuel index = some cs) :
    (index = size ↔ cs = []) ∧ index ≤ size := by
  rcases decode_string_cases h with ⟨h1, h2⟩ | ⟨h1, g, c, next, cs', -, -, -, h2⟩
  · exact ⟨⟨fun _ => h2, fun _ => h1⟩, by omega⟩
  · refine ⟨⟨fun e => by omega, fun e => ?_⟩, by omega⟩
    rw [h2] at e
    simp at e

theorem name_compare_loop_congr (towupper : Nat → Nat) (nd sd : Decoder) (data : List Nat)
    (size : Nat) (s1 : List Nat) (len1 : Nat) (s2 : List Nat) (len2 : Nat) :
    ∀ (fuel ni si1 si2 f1 f2 : Nat) (cs1 cs2 : List Nat),
      decode_string sd s1 len1 f1 si1 = some cs1 →
      decode_string sd s2 len2 f2 si2 = some cs2 →
      cs1.map towupper = cs2.map towupper →
      (∃ code, name_compare_loop towupper nd sd data size s1 len1 fuel ni si1 = .error code
          ∧ name_compare_loop towupper nd sd data size s2 len2 fuel ni si2 = .error code)
      ∨ (∃ a b1 b2, name_compare_loop towupper nd sd data size s1 len1 fuel ni si1
            = .ok (a, b1)
          ∧ name_compare_loop towupper nd sd data size s2 len2 fuel ni si2 = .ok (a, b2)
          ∧ (b1 = len1 ↔ b2 = len2)) := by
  intro fuel
  induction fuel with
  | zero =>
    intro ni si1 si2 f1 f2 cs1 cs2 h1 h2 hm
    refine Or.inr ⟨ni, si1, si2, rfl, rfl, ?_⟩
    rw [(decode_string_nil_iff h1).1, (decode_string_nil_iff h2).1]
    constructor
    · intro e; rw [e] at hm; simpa using hm.symm
    · intro e; rw [e] at hm; simpa using hm
  | succ fuel ih =>
    intro ni si1 si2 f1 f2 cs1 cs2 h1 h2 hm
    have hiff : si1 = len1 ↔ si2 = len2 := by
      rw [(decode_string_nil_iff h1).1, (decode_string_nil_iff h2).1]
      constructor
      · intro e; rw [e] at hm; simpa using hm.symm
      · intro e; rw [e] at hm; simpa using hm
    have hle1 := (decode_string_nil_iff h1).2
    have hle2 := (decode_string_nil_iff h2).2
    simp only [name_compare_loop]
    by_cases hni : ni < size
    · simp only [hni, if_true]
      rcases decode_string_cases h1 with ⟨e1, -⟩ | ⟨l1, g1, c1, n1, t1, -, r1, d1, rfl⟩
      · have e2 : si2 = len2 := hiff.1 e1
        rw [if_pos (by omega), if_pos (by omega)]
        exact Or.inr ⟨ni, si1, si2, rfl, rfl, hiff⟩
      · rcases decode_string_cases h2 with ⟨e2, -⟩ | ⟨l2, g2, c2, n2, t2, -, r2, d2, rfl⟩
        · have := hiff.2 e2
          omega
        · rw [if_neg (by omega), if_neg (by omega)]
          simp only [List.map_cons, List.cons.injEq] at hm
          cases hnr : nd.run data size ni with
          | none => exact Or.inl ⟨_, rfl, rfl⟩
          | some p =>
            obtain ⟨c, ni'⟩ := p
            simp only [r1, r2]
            by_cases hc : towupper c ≠ towupper c1
            · have hc2 : towupper c ≠ towupper c2 := by rw [← hm.1]; exact hc
              rw [if_pos hc, if_pos hc2]
              refine Or.inr ⟨ni', n1, n2, rfl, rfl, ?_⟩
              rw [(decode_string_nil_iff d1).1, (decode_string_nil_iff d2).1]
              constructor
              · intro e; rw [e] at hm; simpa using hm.2.symm
              · intro e; rw [e] at hm; simpa using hm.2
            · have hc2 : ¬ towupper c ≠ towupper c2 := by rw [← hm.1]; exact hc
              rw [if_neg hc, if_neg hc2]
              exact ih ni' n1 n2 g1 g2 t1 t2 d1 d2 hm.2
    · simp only [hni, if_false]
      exact Or.inr ⟨ni, si1, si2, rfl, rfl, hiff⟩

theorem compare_name_congr (towupper : Nat → Nat) (nd sd : Decoder) (name : Option Value)
    (s1 : List Nat) (len1 : Nat) (s2 : List Nat) (len2 : Nat)
    (h : same_code_points_up_to_case towupper sd s1 len1 s2 len2) :
    compare_name towupper nd sd name s1 len1 = compare_name towupper nd sd name s2 len2 := by
  obtain ⟨f1, f2, cs1, cs2, h1, h2, hm⟩ := h
  rw [compare_name_eq, compare_name_eq]
  cases libfvalue_value_get_type name with
  | none => rfl
  | some vt =>
    simp only
    by_cases hvt : vt ≠ ValueType.STRING_UTF16
    · rw [if_pos hvt, if_pos hvt]
    · rw [if_neg hvt, if_neg hvt]
      cases libfvalue_value_get_entry_data name 0 with
      | none => rfl
      | some data =>
        simp only
        by_cases hlt : data.length < 2
        · rw [if_pos hlt, if_pos hlt]
        · rw [if_neg hlt, if_neg hlt]
          rcases name_compare_loop_congr towupper nd sd data (trimmed_size data) s1 len1 s2 len2
            (trimmed_size data) 0 0 0 f1 f2 cs1 cs2 h1 h2 hm with
            ⟨code, e1, e2⟩ | ⟨a, b1, b2, e1, e2, hb⟩
          · rw [e1, e2]
          · rw [e1, e2]
            simp only [hb]

theorem lookup_loop_congr (towupper : Nat → Nat) (nd sd : Decoder)
    (s1 : List Nat) (len1 : Nat) (s2 : List Nat) (len2 : Nat)
    (h : same_code_points_up_to_case towupper sd s1 len1 s2 len2) :
    ∀ (array : List (Option XmlTag)),
      lookup_loop towupper nd sd s1 len1 array = lookup_loop towupper nd sd s2 len2 array := by
  intro array
  induction array with
  | nil => rfl
  | cons e rest ih =>
    have he : examine_entry towupper nd sd s1 len1 e = examine_entry towupper nd sd s2 len2 e := by
      cases e with
      | none => rfl
      | some a => exact compare_name_congr towupper nd sd a.name s1 len1 s2 len2 h
    simp only [lookup_loop, he, ih]

theorem get_entry_by_name_congr (towupper : Nat → Nat) (nd sd : Decoder)
    (array : List (Option XmlTag)) (s1 : List Nat) (len1 : Nat) (s2 : List Nat) (len2 : Nat)
    (hlen1 : len1 ≤ SSIZE_MAX) (hlen2 : len2 ≤ SSIZE_MAX)
    (h : same_code_points_up_to_case towupper sd s1 len1 s2 len2) :
    get_entry_by_name towupper nd sd array s1 len1 none
      = get_entry_by_name towupper nd sd array s2 len2 none := by
  rw [get_entry_by_name_valid _ _ _ _ _ _ hlen1, get_entry_by_name_valid _ _ _ _ _ _ hlen2]
  exact lookup_loop_congr towupper nd sd s1 len1 s2 len2 h array

/-- C6, as amended: for two needles of lengths at most SSIZE_MAX that have the
same number of code points, pairwise equal after `towupper`, each of the four
lookups returns the same result (status, error and tag behind the
out-parameter) for the one needle as for the other, on every tag. -/
theorem lookup_case_insensitive (E : Externals) (xml_tag : XmlTag)
    (string1 : List Nat) (length1 : Nat) (string2 : List Nat) (length2 : Nat)
    (hlen1 : length1 ≤ SSIZE_MAX) (hlen2 : length2 ≤ SSIZE_MAX) :
    (same_code_points_up_to_case E.towupper E.copy_from_utf8 string1 length1 string2 length2 →
      libevtx_xml_tag_get_attribute_by_utf8_name E xml_tag string1 length1 none
        = libevtx_xml_tag_get_attribute_by_utf8_name E xml_tag string2 length2 none
      ∧ libevtx_xml_tag_get_element_by_utf8_name E xml_tag string1 length1 none
        = libevtx_xml_tag_get_element_by_utf8_name E xml_tag string2 length2 none)
    ∧ (same_code_points_up_to_case E.towupper E.copy_from_utf16 string1 length1 string2
        length2 →
      libevtx_xml_tag_get_attribute_by_utf16_name E xml_tag string1 length1 none
        = libevtx_xml_tag_get_attribute_by_utf16_name E xml_tag string2 length2 none
      ∧ libevtx_xml_tag_get_element_by_utf16_name E xml_tag string1 length1 none
        = libevtx_xml_tag_get_element_by_utf16_name E xml_tag string2 length2 none) :=
  ⟨fun h => ⟨get_entry_by_name_congr _ _ _ _ _ _ _ _ hlen1 hlen2 h,
      get_entry_by_name_congr _ _ _ _ _ _ _ _ hlen1 hlen2 h⟩,
   fun h => ⟨get_entry_by_name_congr _ _ _ _ _ _ _ _ hlen1 hlen2 h,
      get_entry_by_name_congr _ _ _ _ _ _ _ _ hlen1 hlen2 h⟩⟩

/-- Witness for C6: the needles `foo` and `FOO` find the same attribute `Foo`. -/
theorem lookup_case_insensitive_witness :
    3 ≤ SSIZE_MAX
    ∧ same_code_points_up_to_case reference_externals.towupper
        reference_externals.copy_from_utf8 (units "foo") 3 (units "FOO") 3
    ∧ libevtx_xml_tag_get_attribute_by_utf8_name reference_externals
        (node "T" [some (attribute_tag "Foo" .STRING_UTF16 "1")] []) (units "foo") 3 none
      = libevtx_xml_tag_get_attribute_by_utf8_name reference_externals
        (node "T" [some (attribute_tag "Foo" .STRING_UTF16 "1")] []) (units "FOO") 3 none
    ∧ libevtx_xml_tag_get_attribute_by_utf8_name reference_externals
        (node "T" [some (attribute_tag "Foo" .STRING_UTF16 "1")] []) (units "FOO") 3 none
      = some { status := 1, error := none,
               out := some (attribute_tag "Foo" .STRING_UTF16 "1") } :=
  ⟨by decide, ⟨3, 3, units "foo", units "FOO", by decide, by decide, by decide⟩,
   ((lookup_case_insensitive reference_externals
      (node "T" [some (attribute_tag "Foo" .STRING_UTF16 "1")] [])
      (units "foo") 3 (units "FOO") 3 (by decide) (by decide)).1
      ⟨3, 3, units "foo", units "FOO", by decide, by decide, by decide⟩).1,
   rfl⟩

theorem length_repeated (p : List Nat) : ∀ n, (repeated p n).length = p.length * n := by
  intro n
  induction n with
  | zero => rfl
  | succ n ih => simp [repeated, ih, Nat.mul_succ]; omega

theorem getD_repeated_one (a : Nat) : ∀ (n j : Nat), j < n → (repeated [a] n).getD j 0 = a := by
  intro n
  induction n with
  | zero => intro j h; omega
  | succ n ih =>
    intro j h
    cases j with
    | zero => simp [repeated]
    | succ j =>
      have := ih j (by omega)
      simpa [repeated] using this

theorem getD_repeated_two (a b : Nat) : ∀ (n k : Nat), k < n →
    (repeated [a, b] n).getD (2 * k) 0 = a ∧ (repeated [a, b] n).getD (2 * k + 1) 0 = b := by
  intro n
  induction n with
  | zero => intro k h; omega
  | succ n ih =>
    intro k h
    cases k with
    | zero => simp [repeated]
    | succ k =>
      have := ih k (by omega)
      have e1 : 2 * (k + 1) = (2 * k) + 1 + 1 := by omega
      rw [e1]
      simpa [repeated] using this

theorem decode_repeated_ascii (a : Nat) (ha : a < 128) (N : Nat) :
    ∀ (n j : Nat), j + n = N →
      decode_string reference_utf8 (repeated [a] N) N n j = some (List.replicate n a) := by
  intro n
  induction n with
  | zero =>
    intro j h
    simp only [decode_string]
    rw [if_pos (by omega)]
    rfl
  | succ n ih =>
    intro j h
    simp only [decode_string]
    rw [if_neg (by omega), if_neg (by omega)]
    have hg := getD_repeated_one a N j (by omega)
    have hrun : reference_utf8.run (repeated [a] N) N j = some (a, j + 1) := by
      show utf8_step (repeated [a] N) N j = some (a, j + 1)
      unfold utf8_step
      rw [if_pos (by omega), hg, if_pos ha]
    rw [hrun]
    simp only [ih (j + 1) (by omega), Option.map_some', List.replicate_succ]

theorem decode_repeated_long_s (N : Nat) :
    ∀ (n k : Nat), k + n = N →
      decode_string reference_utf8 (repeated [197, 191] N) (2 * N) n (2 * k)
        = some (List.replicate n 383) := by
  intro n
  induction n with
  | zero =>
    intro k h
    simp only [decode_string]
    rw [if_pos (by omega)]
    rfl
  | succ n ih =>
    intro k h
    simp only [decode_string]
    rw [if_neg (by omega), if_neg (by omega)]
    obtain ⟨hg0, hg1⟩ := getD_repeated_two 197 191 N k (by omega)
    have hrun : reference_utf8.run (repeated [197, 191] N) (2 * N) (2 * k)
        = some (383, 2 * (k + 1)) := by
      show utf8_step (repeated [197, 191] N) (2 * N) (2 * k) = some (383, 2 * (k + 1))
      unfold utf8_step
      rw [if_pos (by omega), hg0, hg1]
      rw [if_neg (by decide), if_pos (by decide), if_pos ⟨by omega, by decide⟩]
      simp
      omega
    rw [hrun]
    simp only [ih (k + 1) (by omega), Option.map_some', List.replicate_succ]

/-- Counterexample to C6 as stated, with `towupper` of the locale `C.UTF-8`,
which maps both `s` and the long s (U+017F, bytes C5 BF) to `S`:
`half_limit` times the letter `s` and `half_limit` times the long s are needles
with the same number of code points, pairwise equal after `towupper`; on the
element `Event` the lookup returns 0 for the first and -1 for the second,
whose length exceeds SSIZE_MAX; both lengths are values of a `size_t`. -/
theorem lookup_case_variants_differ_above_ssize_max :
    utf8_locale_towupper 115 = 83 ∧ utf8_locale_towupper 383 = 83
    ∧ same_code_points_up_to_case utf8_locale_externals.towupper
        utf8_locale_externals.copy_from_utf8
        (repeated [115] half_limit) half_limit
        (repeated [197, 191] half_limit) (2 * half_limit)
    ∧ (repeated [115] half_limit).length = half_limit
    ∧ (repeated [197, 191] half_limit).length = 2 * half_limit
    ∧ (libevtx_xml_tag_get_attribute_by_utf8_name utf8_locale_externals event_tag
        (repeated [115] half_limit) half_limit none).map (fun o => o.status) = some 0
    ∧ (libevtx_xml_tag_get_attribute_by_utf8_name utf8_locale_externals event_tag
        (repeated [197, 191] half_limit) (2 * half_limit) none).map (fun o => o.status)
        = some (-1)
    ∧ half_limit ≤ SSIZE_MAX ∧ SSIZE_MAX < 2 * half_limit ∧ 2 * half_limit ≤ SIZE_MAX := by
  have h1 : utf8_locale_towupper 115 = 83 := by decide
  have h2 : utf8_locale_towupper 383 = 83 := by decide
  refine ⟨h1, h2, ⟨half_limit, half_limit, List.replicate half_limit 115,
      List.replicate half_limit 383, ?_, ?_, ?_⟩, ?_, ?_, ?_, ?_, by decide, by decide,
    by decide⟩
  · exact decode_repeated_ascii 115 (by decide) half_limit half_limit 0 (by omega)
  · exact decode_repeated_long_s half_limit half_limit 0 (by omega)
  · rw [List.map_replicate, List.map_replicate]
    show List.replicate half_limit (utf8_locale_towupper 115)
      = List.replicate half_limit (utf8_locale_towupper 383)
    rw [h1, h2]
  · rw [length_repeated]; simp
  · rw [length_repeated]; simp
  · unfold libevtx_xml_tag_get_attribute_by_utf8_name
    rw [get_entry_by_name_valid _ _ _ _ _ _ (by decide)]
    rfl
  · unfold libevtx_xml_tag_get_attribute_by_utf8_name
    rw [get_entry_by_name_exceeds _ _ _ _ _ _ _ (by decide)]
    rfl

/-! ## Trailing NUL of a stored name -/

theorem name_compare_loop_data_congr (towupper : Nat → Nat) (nd sd : Decoder)
    (d1 d2 : List Nat) (size : Nat) (string : List Nat) (string_length : Nat)
    (h : ∀ i, nd.run d1 size i = nd.run d2 size i) :
    ∀ (fuel ni si : Nat),
      name_compare_loop towupper nd sd d1 size string string_length fuel ni si
        = name_compare_loop towupper nd sd d2 size string string_length fuel ni si := by
  intro fuel
  induction fuel with
  | zero => intro ni si; rfl
  | succ fuel ih =>
    intro ni si
    simp only [name_compare_loop, h, ih]

theorem trimmed_size_append_nul (b : List Nat) : trimmed_size (b ++ [0, 0]) = b.length := by
  unfold trimmed_size
  have e1 : (b ++ [0, 0]).length - 2 = b.length := by simp
  have e2 : (b ++ [0, 0]).length - 1 = b.length + 1 := by simp
  rw [e1, e2]
  have g1 : (b ++ [0, 0]).getD b.length 0 = 0 := by
    rw [List.getD_append_right _ _ _ _ (Nat.le_refl _)]
    simp
  have g2 : (b ++ [0, 0]).getD (b.length + 1) 0 = 0 := by
    rw [List.getD_append_right _ _ _ _ (by omega)]
    simp
  rw [g1, g2, if_pos ⟨rfl, rfl⟩]

theorem trimmed_size_of_no_nul (b : List Nat)
    (h : ¬ (b.getD (b.length - 2) 0 = 0 ∧ b.getD (b.length - 1) 0 = 0)) :
    trimmed_size b = b.length := by
  unfold trimmed_size
  rw [if_neg h]

theorem compare_name_trailing_nul (towupper : Nat → Nat) (nd sd : Decoder) (b : List Nat)
    (u8 u16 : Option (List Nat)) (value : Option Value) (string : List Nat)
    (string_length : Nat) (h2 : 2 ≤ b.length)
    (hnz : ¬ (b.getD (b.length - 2) 0 = 0 ∧ b.getD (b.length - 1) 0 = 0))
    (hloc : ∀ i, nd.run (b ++ [0, 0]) b.length i = nd.run b b.length i) :
    examine_entry towupper nd sd string string_length
        (some (attribute_named (b ++ [0, 0]) u8 u16 value))
      = examine_entry towupper nd sd string string_length
        (some (attribute_named b u8 u16 value)) := by
  simp only [examine_entry, attribute_named, XmlTag.name, compare_name_eq,
    libfvalue_value_get_type, libfvalue_value_get_entry_data, Option.map_some',
    List.getElem?_cons_zero, ne_eq, not_true_eq_false, if_false]
  rw [if_neg (by simp), if_neg (by omega), trimmed_size_append_nul,
    trimmed_size_of_no_nul b hnz,
    name_compare_loop_data_congr towupper nd sd (b ++ [0, 0]) b b.length string string_length
      hloc]

theorem decode_string_length_le (decoder : Decoder) (stream : List Nat) (size : Nat) :
    ∀ (fuel index : Nat) (cs : List Nat),
      decode_string decoder stream size fuel index = some cs → cs.length + index ≤ size := by
  intro fuel
  induction fuel with
  | zero =>
    intro index cs h
    rcases decode_string_cases h with ⟨e, rfl⟩ | ⟨-, g, _, _, _, hf, -, -, -⟩
    · simp; omega
    · omega
  | succ fuel ih =>
    intro index cs h
    rcases decode_string_cases h with ⟨e, rfl⟩ | ⟨-, g, c, next, t, hf, hr, hd, rfl⟩
    · simp; omega
    · have hg : g = fuel := by omega
      subst hg
      have := ih next t hd
      have := decoder.advances _ _ _ _ _ hr
      simp only [List.length_cons]
      omega

theorem name_compare_loop_same (towupper : Nat → Nat) (nd sd : Decoder) (data : List Nat)
    (size : Nat) (string : List Nat) (string_length : Nat) :
    ∀ (fuel ni si g f : Nat) (cs : List Nat),
      decode_string nd data size g ni = some cs →
      decode_string sd string string_length f si = some cs →
      cs.length ≤ fuel →
      name_compare_loop towupper nd sd data size string string_length fuel ni si
        = .ok (size, string_length) := by
  intro fuel
  induction fuel with
  | zero =>
    intro ni si g f cs h1 h2 hl
    have : cs = [] := List.length_eq_zero.1 (by omega)
    subst this
    have e1 := ((decode_string_nil_iff h1).1).2 rfl
    have e2 := ((decode_string_nil_iff h2).1).2 rfl
    simp only [name_compare_loop, e1, e2]
  | succ fuel ih =>
    intro ni si g f cs h1 h2 hl
    simp only [name_compare_loop]
    rcases decode_string_cases h1 with ⟨e1, rfl⟩ | ⟨l1, g1, c1, n1, t1, -, r1, d1, rfl⟩
    · have e2 := ((decode_string_nil_iff h2).1).2 rfl
      rw [if_neg (by omega), e1, e2]
    · rcases decode_string_cases h2 with ⟨-, e⟩ | ⟨l2, g2, c2, n2, t2, -, r2, d2, e⟩
      · simp at e
      · simp only [List.cons.injEq] at e
        obtain ⟨rfl, rfl⟩ := e
        rw [if_pos l1, if_neg (by omega)]
        simp only [r1, r2, ne_eq, not_true_eq_false, if_false]
        exact ih n1 n2 g1 g2 _ d1 d2 (by simp only [List.length_cons] at hl; omega)

theorem compare_name_found (towupper : Nat → Nat) (nd sd : Decoder) (b : List Nat)
    (u8 u16 : Option (List Nat)) (value : Option Value) (string : List Nat)
    (string_length : Nat) (h2 : 2 ≤ b.length)
    (hnz : ¬ (b.getD (b.length - 2) 0 = 0 ∧ b.getD (b.length - 1) 0 = 0))
    (g f : Nat) (cs : List Nat)
    (h1 : decode_string nd b b.length g 0 = some cs)
    (hs : decode_string sd string string_length f 0 = some cs) :
    examine_entry towupper nd sd string string_length
        (some (attribute_named b u8 u16 value)) = .accepted := by
  simp only [examine_entry, attribute_named, XmlTag.name, compare_name_eq,
    libfvalue_value_get_type, libfvalue_value_get_entry_data, Option.map_some',
    List.getElem?_cons_zero, ne_eq, not_true_eq_false, if_false]
  rw [if_neg (by omega), trimmed_size_of_no_nul b hnz,
    name_compare_loop_same towupper nd sd b b.length string string_length b.length 0 0 g f cs
      h1 hs (by have := decode_string_length_le nd b b.length g 0 cs h1; omega)]
  simp

theorem lookup_single_found (towupper : Nat → Nat) (nd sd : Decoder) (a : XmlTag)
    (string : List Nat) (string_length : Nat) (hlen : string_length ≤ SSIZE_MAX)
    (h : examine_entry towupper nd sd string string_length (some a) = .accepted) :
    get_entry_by_name towupper nd sd [some a] string string_length none
      = some { status := 1, error := none, out := some a } := by
  rw [get_entry_by_name_valid _ _ _ _ _ _ hlen]
  simp only [lookup_loop, h]

theorem lookup_single_congr (towupper : Nat → Nat) (nd sd : Decoder) (a a' : XmlTag)
    (string : List Nat) (string_length : Nat)
    (h : examine_entry towupper nd sd string string_length (some a)
      = examine_entry towupper nd sd string string_length (some a')) :
    get_entry_by_name towupper nd sd [some a'] string string_length none
      = (get_entry_by_name towupper nd sd [some a] string string_length none).map
          (fun o => o.with_out a') := by
  unfold get_entry_by_name
  by_cases hlen : string_length > SSIZE_MAX
  · rw [if_pos hlen, if_pos hlen]
    rfl
  · rw [if_neg hlen, if_neg hlen]
    simp only [Option.isSome_none, Bool.false_eq_true, if_false, lookup_loop, h]
    cases examine_entry towupper nd sd string string_length (some a') <;> rfl

/-- C7, as amended: let `b` be stored bytes of at least two bytes that do not
end in 00 00, and let the decoder of stored names read within the size it is
given.  On a tag whose only attribute has its name stored as `b` followed by
00 00: (1) a needle of length at most SSIZE_MAX that decodes to the code
points of `b` is found, with status 1 and that attribute; (2) for every needle
the lookup returns what it returns on the same tag with the name stored as `b`
alone, up to the attribute behind the out-parameter.  For the UTF-8 and the
UTF-16 attribute lookup. -/
theorem stored_name_trailing_nul_is_ignored (E : Externals) (type : XmlTagType)
    (name value : Option Value) (elements_array : List (Option XmlTag)) (b : List Nat)
    (u8 u16 : Option (List Nat)) (attribute_value : Option Value) (h2 : 2 ≤ b.length)
    (hnz : ¬ (b.getD (b.length - 2) 0 = 0 ∧ b.getD (b.length - 1) 0 = 0))
    (hloc : ∀ i, E.copy_from_utf16_stream.run (b ++ [0, 0]) b.length i
      = E.copy_from_utf16_stream.run b b.length i) :
    (∀ (string : List Nat) (string_length g f : Nat) (cs : List Nat),
        string_length ≤ SSIZE_MAX →
        decode_string E.copy_from_utf16_stream b b.length g 0 = some cs →
        decode_string E.copy_from_utf8 string string_length f 0 = some cs →
        libevtx_xml_tag_get_attribute_by_utf8_name E
          (.mk type name value [some (attribute_named (b ++ [0, 0]) u8 u16 attribute_value)]
            elements_array) string string_length none
          = some { status := 1, error := none,
                   out := some (attribute_named (b ++ [0, 0]) u8 u16 attribute_value) })
    ∧ (∀ (string : List Nat) (string_length g f : Nat) (cs : List Nat),
        string_length ≤ SSIZE_MAX →
        decode_string E.copy_from_utf16_stream b b.length g 0 = some cs →
        decode_string E.copy_from_utf16 string string_length f 0 = some cs →
        libevtx_xml_tag_get_attribute_by_utf16_name E
          (.mk type name value [some (attribute_named (b ++ [0, 0]) u8 u16 attribute_value)]
            elements_array) string string_length none
          = some { status := 1, error := none,
                   out := some (attribute_named (b ++ [0, 0]) u8 u16 attribute_value) })
    ∧ (∀ (string : List Nat) (string_length : Nat),
        libevtx_xml_tag_get_attribute_by_utf8_name E
          (.mk type name value [some (attribute_named b u8 u16 attribute_value)]
            elements_array) string string_length none
          = (libevtx_xml_tag_get_attribute_by_utf8_name E
              (.mk type name value
                [some (attribute_named (b ++ [0, 0]) u8 u16 attribute_value)]
                elements_array) string string_length none).map
              (fun o => o.with_out (attribute_named b u8 u16 attribute_value)))
    ∧ (∀ (string : List Nat) (string_length : Nat),
        libevtx_xml_tag_get_attribute_by_utf16_name E
          (.mk type name value [some (attribute_named b u8 u16 attribute_value)]
            elements_array) string string_length none
          = (libevtx_xml_tag_get_attribute_by_utf16_name E
              (.mk type name value
                [some (attribute_named (b ++ [0, 0]) u8 u16 attribute_value)]
                elements_array) string string_length none).map
              (fun o => o.with_out (attribute_named b u8 u16 attribute_value))) := by
  refine ⟨?_, ?_, ?_, ?_⟩
  · intro string string_length g f cs hlen h1 hs
    exact lookup_single_found _ _ _ _ _ _ hlen (by
      rw [compare_name_trailing_nul _ _ _ b u8 u16 attribute_value _ _ h2 hnz hloc]
      exact compare_name_found _ _ _ b u8 u16 attribute_value _ _ h2 hnz g f cs h1 hs)
  · intro string string_length g f cs hlen h1 hs
    exact lookup_single_found _ _ _ _ _ _ hlen (by
      rw [compare_name_trailing_nul _ _ _ b u8 u16 attribute_value _ _ h2 hnz hloc]
      exact compare_name_found _ _ _ b u8 u16 attribute_value _ _ h2 hnz g f cs h1 hs)
  · intro string string_length
    exact lookup_single_congr _ _ _ _ _ _ _
      (compare_name_trailing_nul _ _ _ b u8 u16 attribute_value _ _ h2 hnz hloc)
  · intro string string_length
    exact lookup_single_congr _ _ _ _ _ _ _
      (compare_name_trailing_nul _ _ _ b u8 u16 attribute_value _ _ h2 hnz hloc)

theorem utf16le_stream_step_local (b x : List Nat) (i : Nat) :
    utf16le_stream_step (b ++ x) b.length i = utf16le_stream_step b b.length i := by
  have hu : ∀ j, j + 2 ≤ b.length → utf16le_unit (b ++ x) j = utf16le_unit b j := by
    intro j hj
    unfold utf16le_unit
    rw [List.getD_append _ _ _ _ (by omega), List.getD_append _ _ _ _ (by omega)]
  unfold utf16le_stream_step
  by_cases h1 : i + 2 ≤ b.length
  · rw [if_pos h1, if_pos h1, hu i h1]
    by_cases h2 : i + 4 ≤ b.length
    · rw [hu (i + 2) (by omega)]
    · have e1 : ¬ (i + 4 ≤ b.length ∧ 0xDC00 ≤ utf16le_unit (b ++ x) (i + 2)
          ∧ utf16le_unit (b ++ x) (i + 2) ≤ 0xDFFF) := fun h => h2 h.1
      have e2 : ¬ (i + 4 ≤ b.length ∧ 0xDC00 ≤ utf16le_unit b (i + 2)
          ∧ utf16le_unit b (i + 2) ≤ 0xDFFF) := fun h => h2 h.1
      rw [if_neg e1, if_neg e2]
  · rw [if_neg h1, if_neg h1]

/-- Witness for C7: the name `Id`, stored as 49 00 64 00 00 00, is found by the
needle `Id`, and the needle `Name` gets the same answer with and without the
trailing 00 00. -/
theorem stored_name_trailing_nul_is_ignored_witness :
    2 ≤ [73, 0, 100, 0].length
    ∧ 2 ≤ SSIZE_MAX
    ∧ libevtx_xml_tag_get_attribute_by_utf8_name reference_externals
        (.mk .NODE none none [some (attribute_named ([73, 0, 100, 0] ++ [0, 0]) none none none)]
          []) (units "Id") 2 none
        = some { status := 1, error := none,
                 out := some (attribute_named ([73, 0, 100, 0] ++ [0, 0]) none none none) }
    ∧ libevtx_xml_tag_get_attribute_by_utf8_name reference_externals
        (.mk .NODE none none [some (attribute_named [73, 0, 100, 0] none none none)] [])
        (units "Name") 4 none
        = (libevtx_xml_tag_get_attribute_by_utf8_name reference_externals
            (.mk .NODE none none
              [some (attribute_named ([73, 0, 100, 0] ++ [0, 0]) none none none)] [])
            (units "Name") 4 none).map
            (fun o => o.with_out (attribute_named [73, 0, 100, 0] none none none)) :=
  ⟨by decide, by decide,
   (stored_name_trailing_nul_is_ignored reference_externals .NODE none none []
      [73, 0, 100, 0] none none none (by decide) (by decide)
      (fun i => utf16le_stream_step_local [73, 0, 100, 0] [0, 0] i)).1
      (units "Id") 2 2 2 [73, 100] (by decide) (by decide) (by decide),
   (stored_name_trailing_nul_is_ignored reference_externals .NODE none none []
      [73, 0, 100, 0] none none none (by decide) (by decide)
      (fun i => utf16le_stream_step_local [73, 0, 100, 0] [0, 0] i)).2.2.1
      (units "Name") 4⟩

theorem decode_repeated_utf16le (a : Nat) (ha : a < 256) (N : Nat) :
    ∀ (n k : Nat), k + n = N →
      decode_string reference_utf16_stream (repeated [a, 0] N) (2 * N) n (2 * k)
        = some (List.replicate n a) := by
  intro n
  induction n with
  | zero =>
    intro k h
    simp only [decode_string]
    rw [if_pos (by omega)]
    rfl
  | succ n ih =>
    intro k h
    simp only [decode_string]
    rw [if_neg (by omega), if_neg (by omega)]
    obtain ⟨hg0, hg1⟩ := getD_repeated_two a 0 N k (by omega)
    have hu : utf16le_unit (repeated [a, 0] N) (2 * k) = a := by
      unfold utf16le_unit
      rw [hg0, hg1]
      omega
    have hrun : reference_utf16_stream.run (repeated [a, 0] N) (2 * N) (2 * k)
        = some (a, 2 * (k + 1)) := by
      show utf16le_stream_step (repeated [a, 0] N) (2 * N) (2 * k) = some (a, 2 * (k + 1))
      unfold utf16le_stream_step
      rw [if_pos (by omega), hu, if_neg (by omega), if_neg (by omega)]
      rfl
    rw [hrun]
    simp only [ih (k + 1) (by omega), Option.map_some', List.replicate_succ]

theorem getD_repeated_three (a b c : Nat) : ∀ (n k : Nat), k < n →
    (repeated [a, b, c] n).getD (3 * k) 0 = a ∧ (repeated [a, b, c] n).getD (3 * k + 1) 0 = b
      ∧ (repeated [a, b, c] n).getD (3 * k + 2) 0 = c := by
  intro n
  induction n with
  | zero => intro k h; omega
  | succ n ih =>
    intro k h
    cases k with
    | zero => simp [repeated]
    | succ k =>
      have := ih k (by omega)
      have e1 : 3 * (k + 1) = (3 * k) + 1 + 1 + 1 := by omega
      have e3 : 3 * k + 1 + 1 + 1 + 2 = (3 * k + 2) + 1 + 1 + 1 := by omega
      rw [e1, e3]
      simpa [repeated] using this

theorem decode_repeated_euro (N : Nat) :
    ∀ (n k : Nat), k + n = N →
      decode_string reference_utf8 (repeated [226, 130, 172] N) (3 * N) n (3 * k)
        = some (List.replicate n 8364) := by
  intro n
  induction n with
  | zero =>
    intro k h
    simp only [decode_string]
    rw [if_pos (by omega)]
    rfl
  | succ n ih =>
    intro k h
    simp only [decode_string]
    rw [if_neg (by omega), if_neg (by omega)]
    obtain ⟨hg0, hg1, hg2⟩ := getD_repeated_three 226 130 172 N k (by omega)
    have hrun : reference_utf8.run (repeated [226, 130, 172] N) (3 * N) (3 * k)
        = some (8364, 3 * (k + 1)) := by
      show utf8_step (repeated [226, 130, 172] N) (3 * N) (3 * k) = some (8364, 3 * (k + 1))
      unfold utf8_step
      rw [if_pos (by omega), hg0, hg1, hg2]
      rw [if_neg (by decide), if_neg (by decide), if_pos (by decide),
        if_pos ⟨by omega, by decide, by decide⟩]
      simp
      omega
    rw [hrun]
    simp only [ih (k + 1) (by omega), Option.map_some', List.replicate_succ]

theorem decode_repeated_utf16le_euro (N : Nat) :
    ∀ (n k : Nat), k + n = N →
      decode_string reference_utf16_stream (repeated [172, 32] N) (2 * N) n (2 * k)
        = some (List.replicate n 8364) := by
  intro n
  induction n with
  | zero =>
    intro k h
    simp only [decode_string]
    rw [if_pos (by omega)]
    rfl
  | succ n ih =>
    intro k h
    simp only [decode_string]
    rw [if_neg (by omega), if_neg (by omega)]
    obtain ⟨hg0, hg1⟩ := getD_repeated_two 172 32 N k (by omega)
    have hu : utf16le_unit (repeated [172, 32] N) (2 * k) = 8364 := by
      unfold utf16le_unit
      rw [hg0, hg1]
    have hrun : reference_utf16_stream.run (repeated [172, 32] N) (2 * N) (2 * k)
        = some (8364, 2 * (k + 1)) := by
      show utf16le_stream_step (repeated [172, 32] N) (2 * N) (2 * k) = some (8364, 2 * (k + 1))
      unfold utf16le_stream_step
      rw [if_pos (by omega), hu, if_neg (by omega), if_neg (by omega)]
      rfl
    rw [hrun]
    simp only [ih (k + 1) (by omega), Option.map_some', List.replicate_succ]

/-- Counterexample to C7 as stated: the name of `third_limit` euro signs
(U+20AC), stored as UTF-16 little-endian followed by 00 00, takes
2 · third_limit + 2 bytes, which a `size_t` holds; the needle of the same euro
signs in UTF-8 takes 3 · third_limit = SSIZE_MAX + 2 bytes.  The name is not
found by this needle: the lookup returns -1, the needle length being above
SSIZE_MAX. -/
theorem stored_name_not_found_above_ssize_max :
    2 ≤ (repeated [172, 32] third_limit).length
    ∧ (repeated [172, 32] third_limit ++ [0, 0]).length ≤ SIZE_MAX
    ∧ ¬ ((repeated [172, 32] third_limit).getD
          ((repeated [172, 32] third_limit).length - 2) 0 = 0
        ∧ (repeated [172, 32] third_limit).getD
          ((repeated [172, 32] third_limit).length - 1) 0 = 0)
    ∧ decode_string reference_externals.copy_from_utf16_stream
        (repeated [172, 32] third_limit) (repeated [172, 32] third_limit).length
        third_limit 0 = some (List.replicate third_limit 8364)
    ∧ decode_string reference_externals.copy_from_utf8
        (repeated [226, 130, 172] third_limit) (3 * third_limit) third_limit 0
        = some (List.replicate third_limit 8364)
    ∧ (repeated [226, 130, 172] third_limit).length = 3 * third_limit
    ∧ 3 * third_limit = SSIZE_MAX + 2
    ∧ (libevtx_xml_tag_get_attribute_by_utf8_name reference_externals
        (.mk .NODE none none
          [some (attribute_named (repeated [172, 32] third_limit ++ [0, 0]) none none none)]
          []) (repeated [226, 130, 172] third_limit) (3 * third_limit) none).map
          (fun o => (o.status, o.error))
        = some (-1, some ErrorCode.RUNTIME_VALUE_EXCEEDS_MAXIMUM) := by
  have hl : (repeated [172, 32] third_limit).length = 2 * third_limit := by
    rw [length_repeated]; rfl
  have ht : third_limit = 3074457345618258603 := rfl
  have hs : SSIZE_MAX = 9223372036854775807 := rfl
  refine ⟨?_, ?_, ?_, ?_, ?_, ?_, ?_, ?_⟩
  · rw [hl]; omega
  · rw [List.length_append, hl]
    have : SIZE_MAX = 18446744073709551615 := rfl
    simp only [List.length_cons, List.length_nil]
    omega
  · rw [hl]
    have e : 2 * third_limit - 2 = 2 * (third_limit - 1) := by omega
    rw [e, (getD_repeated_two 172 32 third_limit (third_limit - 1) (by omega)).1]
    simp
  · rw [hl]
    exact decode_repeated_utf16le_euro third_limit third_limit 0 (by omega)
  · exact decode_repeated_euro third_limit third_limit 0 (by omega)
  · rw [length_repeated]; simp
  · omega
  · unfold libevtx_xml_tag_get_attribute_by_utf8_name
    rw [get_entry_by_name_exceeds _ _ _ _ _ _ _ (by omega)]
    rfl

/-! ## The text of the two-pass protocol -/

theorem xml_string_some_iff (enc : Encoding) (t : XmlTag) (L : Nat) (text : List Nat) :
    xml_string enc t L = some text
      ↔ xml_text enc t L = some text ∧ text.length ≤ SSIZE_MAX := by
  unfold xml_string
  rw [(xml_string_size_eq_text_both enc).1]
  cases hw : xml_text enc t L with
  | none => simp
  | some w =>
    simp only [Option.map_some']
    by_cases hmax : w.length ≤ SSIZE_MAX
    · obtain ⟨st1, hr, hwr⟩ := (xml_string_with_index_runs_both enc).1 t L w.length
        { buf := List.replicate w.length 0, index := 0, oob := false } w hw (by simp) hmax
        (by simp)
      obtain ⟨e1, -, -⟩ := hwr.buf_eq_of_exact (by simp)
      rw [hr]
      simp only [e1, Option.some.injEq]
      constructor
      · intro e; subst e; exact ⟨rfl, hmax⟩
      · intro e; exact e.1
    · rw [xml_string_with_index_exceeds enc t L w.length _ (by omega)]
      simp only [Option.some.injEq]
      constructor
      · intro e; simp at e
      · rintro ⟨e, hl⟩; subst e; omega

theorem attributes_string_eq (enc : Encoding) (attrs : List (Option XmlTag)) :
    attributes_string enc attrs = attributes_text enc attrs := by
  unfold attributes_string
  rw [attributes_string_size_eq]
  cases hw : attributes_text enc attrs with
  | none => rfl
  | some w =>
    simp only [Option.map_some', Nat.zero_add]
    obtain ⟨st1, hr, hwr⟩ := write_attributes_runs enc w.length attrs
      { buf := List.replicate w.length 0, index := 0, oob := false } w hw (by simp) (by simp)
    obtain ⟨e1, -, -⟩ := hwr.buf_eq_of_exact (by simp)
    rw [hr]
    simp only [e1]

theorem elements_text_kids (enc : Encoding) (L : Nat) :
    ∀ (es : List (Option XmlTag)) (k : List Nat),
      elements_text enc es L = some k → k.length + 1 ≤ SSIZE_MAX →
      ∃ kids : List (List Nat),
        List.Forall₂ (fun e kid => ∃ t, e = some t ∧ xml_string enc t L = some kid) es kids
        ∧ k = (kids.map List.dropLast).flatten := by
  intro es
  induction es with
  | nil =>
    intro k h _
    rw [elements_text_nil] at h
    simp only [Option.some.injEq] at h
    exact ⟨[], List.Forall₂.nil, by rw [← h]; rfl⟩
  | cons e rest ih =>
    intro k h hmax
    rw [elements_text_cons] at h
    cases e with
    | none =>
      rw [xml_text_entry_none] at h
      simp at h
    | some t =>
      rw [xml_text_entry_some] at h
      cases hw : xml_text enc t L with
      | none => simp [hw] at h
      | some w =>
        cases hk : elements_text enc rest L with
        | none => simp [hw, hk] at h
        | some k' =>
          simp only [hw, hk, Option.some.injEq] at h
          subst h
          simp only [List.length_append] at hmax
          have hnul := xml_text_ends_with_nul enc t L w hw
          have hlen : w.length = w.dropLast.length + 1 := by
            conv_lhs => rw [hnul]
            simp
          obtain ⟨kids, hk1, hk2⟩ := ih k' hk (by omega)
          refine ⟨w :: kids, List.Forall₂.cons ⟨t, rfl, ?_⟩ hk1, ?_⟩
          · exact (xml_string_some_iff enc t L w).2 ⟨hw, by omega⟩
          · simp only [List.map_cons, List.flatten_cons, hk2]

/-- C10: when the two passes succeed on a Node without value that has the sub
elements c1..cn (n at least 1) at level L, the text obtained is: 2·L spaces,
`<`, the name, the text of the attributes, `>`, newline, then for each sub
element in insertion order the text the two passes give for it at level L+1,
less its final NUL, then 2·L spaces, `<`, `/`, the name, `>`, newline, NUL. -/
theorem node_with_children_is_block_formed (enc : Encoding) (name : Option Value)
    (attributes_array : List (Option XmlTag)) (c : Option XmlTag)
    (cs : List (Option XmlTag)) (xml_tag_level : Nat) (text : List Nat)
    (h : xml_string enc (.mk .NODE name none attributes_array (c :: cs)) xml_tag_level
      = some text) :
    ∃ (n a : List Nat) (kids : List (List Nat)),
      value_entry_string enc name 0 = some n
      ∧ attributes_string enc attributes_array = some a
      ∧ List.Forall₂
          (fun e kid => ∃ t, e = some t ∧ xml_string enc t (xml_tag_level + 1) = some kid)
          (c :: cs) kids
      ∧ text = List.replicate (2 * xml_tag_level) 32 ++ [60] ++ n ++ a ++ [62, 10]
          ++ (kids.map List.dropLast).flatten
          ++ List.replicate (2 * xml_tag_level) 32 ++ [60, 47] ++ n ++ [62, 10, 0] := by
  obtain ⟨ht, hmax⟩ := (xml_string_some_iff enc _ _ _).1 h
  rw [xml_text_eq] at ht
  simp only at ht
  cases hn : value_entry_string enc name 0 with
  | none => simp [hn] at ht
  | some n =>
    cases ha : attributes_text enc attributes_array with
    | none => simp [hn, ha] at ht
    | some a =>
      cases hk : elements_text enc (c :: cs) (xml_tag_level + 1) with
      | none => simp [hn, ha, hk] at ht
      | some k =>
        simp only [hn, ha, hk, Option.some.injEq] at ht
        subst ht
        simp only [List.length_append, List.length_cons, List.length_nil,
          List.length_replicate] at hmax
        obtain ⟨kids, hk1, hk2⟩ := elements_text_kids enc (xml_tag_level + 1) (c :: cs) k hk
          (by omega)
        refine ⟨n, a, kids, rfl, by rw [attributes_string_eq, ha], hk1, ?_⟩
        rw [hk2, Nat.mul_comm]

/-- Witness for C10: scenario (c), the element `A` with the empty sub elements
`B` and `C` at level 1. -/
theorem node_with_children_is_block_formed_witness :
    xml_string Encoding.utf8 block_tag 1
      = some (units "  <A>\n    <B/>\n    <C/>\n  </A>\n" ++ [0])
    ∧ (libevtx_xml_tag_get_utf8_xml_string_with_index block_tag 1 (List.replicate 32 0) 32
        0).string = units "  <A>\n    <B/>\n    <C/>\n  </A>\n" ++ [0]
    ∧ ∃ (n a : List Nat) (kids : List (List Nat)),
      value_entry_string Encoding.utf8 (some (text_value .STRING_UTF16 "A")) 0 = some n
      ∧ attributes_string Encoding.utf8 [] = some a
      ∧ List.Forall₂
          (fun e kid => ∃ t, e = some t ∧ xml_string Encoding.utf8 t (1 + 1) = some kid)
          [some (node "B" [] []), some (node "C" [] [])] kids
      ∧ units "  <A>\n    <B/>\n    <C/>\n  </A>\n" ++ [0]
        = List.replicate (2 * 1) 32 ++ [60] ++ n ++ a ++ [62, 10]
          ++ (kids.map List.dropLast).flatten
          ++ List.replicate (2 * 1) 32 ++ [60, 47] ++ n ++ [62, 10, 0] :=
  ⟨by decide, by decide,
   node_with_children_is_block_formed Encoding.utf8 (some (text_value .STRING_UTF16 "A")) []
     (some (node "B" [] [])) [some (node "C" [] [])] 1 _ (by decide)⟩

/-! ## A successful write has stored the text of the tag -/

theorem Wrote.cut {st st1 : WState} {w : List Nat} (cap : Nat) (h : Wrote st st1 w) :
    WroteCut cap st st1 w :=
  ⟨h.1, by rw [h.2.1], h.2.2.1⟩

theorem store_cut (cap : Nat) (st : WState) (v : Nat) (hcap : cap ≤ st.buf.length) :
    WroteCut cap st (store cap st v) [v] := by
  by_cases h : st.index < cap
  · exact (store_wrote cap st v h hcap).cut cap
  · have hb : (store cap st v).buf = st.buf := by simp [store, h]
    refine ⟨rfl, ?_, by rw [hb]⟩
    rw [hb, List.take_take, List.take_append_of_le_length, List.take_take]
    · simp only [store_index]
      congr 1
      omega
    · rw [List.length_take]
      omega

theorem WroteCut.chain {cap : Nat} {st st1 st2 : WState} {w1 w2 : List Nat}
    (hcap : cap ≤ st.buf.length) (h1 : WroteCut cap st st1 w1) (h2 : WroteCut cap st1 st2 w2) :
    WroteCut cap st st2 (w1 ++ w2) := by
  obtain ⟨a1, b1, c1⟩ := h1
  obtain ⟨a2, b2, c2⟩ := h2
  refine ⟨by rw [a2, a1, List.length_append]; omega, ?_, by rw [c2, c1]⟩
  rw [b2, ← List.append_assoc, List.take_append_eq_append_take, b1,
    @List.take_append_eq_append_take _ (st.buf.take st.index ++ w1) w2 cap]
  congr 2
  simp only [List.length_take, List.length_append]
  omega

theorem write_trailer_cut (cap : Nat) (st : WState) (hcap : cap ≤ st.buf.length) :
    WroteCut cap st (write_trailer cap st) [62, 10, 0] := by
  have h1 := store_cut cap st 62 hcap
  have l1 : cap ≤ (store cap st 62).buf.length := by rw [h1.2.2]; exact hcap
  have h2 := store_cut cap (store cap st 62) 10 l1
  have l2 : cap ≤ (store cap (store cap st 62) 10).buf.length := by rw [h2.2.2]; exact l1
  have h3 := store_cut cap (store cap (store cap st 62) 10) 0 l2
  exact WroteCut.chain hcap (WroteCut.chain hcap h1 h2) h3

theorem copy_value_wrote {enc : Encoding} {value : Option Value} {i cap : Nat}
    {st st1 : WState} (h : copy_value enc value i cap st = .ok st1)
    (hcap : cap ≤ st.buf.length) :
    ∃ r, value_entry_string enc value i = some r ∧ Wrote st st1 r ∧ st1.index + 1 ≤ cap := by
  obtain ⟨sz, hsz, hidx, hroom⟩ := copy_value_ok h
  rw [get_string_size_eq] at hsz
  cases hr : value_entry_string enc value i with
  | none => simp [hr] at hsz
  | some r =>
    simp only [hr, Option.map_some', Option.some.injEq] at hsz
    obtain ⟨st2, h2, hw⟩ := copy_value_runs hr (by omega) hcap
    rw [h] at h2
    injection h2 with e
    subst e
    exact ⟨r, rfl, hw, by omega⟩

theorem node_ok_index_le {enc : Encoding} {name value : Option Value}
    {attrs elems : List (Option XmlTag)} {L cap : Nat} {st st1 : WState}
    (h : xml_string_with_index enc (.mk .NODE name value attrs elems) L cap st = .ok st1) :
    st1.index ≤ cap := by
  rw [xml_string_with_index_eq] at h
  by_cases hmax : cap > SSIZE_MAX
  · simp [hmax] at h
  simp only [hmax, if_false] at h
  obtain ⟨s0, h0, ha⟩ := andThen_ok h
  obtain ⟨s1, h1, hb⟩ := andThen_ok ha
  obtain ⟨s2, h2, hc⟩ := andThen_ok hb
  obtain ⟨s3, h3, hd⟩ := andThen_ok hc
  obtain ⟨s4, h4, he⟩ := andThen_ok hd
  obtain ⟨e4, hroom⟩ := require_room_ok h4
  simp only [Except.ok.injEq] at he
  subst he e4
  simp only [write_trailer_index]
  omega

theorem xml_string_with_index_ok_text (enc : Encoding) (t : XmlTag) (L cap : Nat)
    (st st1 : WState) (h : xml_string_with_index enc t L cap st = .ok st1)
    (hcap : cap ≤ st.buf.length) :
    ∃ w, xml_text enc t L = some w ∧ WroteCut cap st st1 w
      ∧ (st1.index ≤ cap → Wrote st st1 w) := by
  have hmax : cap ≤ SSIZE_MAX := by
    by_contra hc
    rw [xml_string_with_index_exceeds enc t L cap st (by omega)] at h
    simp at h
  obtain ⟨s, hs, hidx, -⟩ := (xml_string_with_index_index_both enc).1 t L cap st st1 h
  rw [(xml_string_size_eq_text_both enc).1] at hs
  cases hw : xml_text enc t L with
  | none => simp [hw] at hs
  | some w =>
    simp only [hw, Option.map_some', Option.some.injEq] at hs
    have hW : st1.index ≤ cap → Wrote st st1 w := by
      intro hle
      obtain ⟨st2, h2, hwr⟩ := (xml_string_with_index_runs_both enc).1 t L cap st w hw
        (by omega) hmax hcap
      rw [h] at h2
      injection h2 with e
      subst e
      exact hwr
    refine ⟨w, rfl, ?_, hW⟩
    cases t with
    | mk type name value attrs elems =>
      cases type with
      | NODE => exact (hW (node_ok_index_le h)).cut cap
      | CDATA =>
        rw [xml_string_with_index_eq, if_neg (by omega)] at h
        rw [xml_text_eq] at hw
        simp only at h hw
        obtain ⟨s0, h0, ha⟩ := andThen_ok h
        obtain ⟨e0, r0⟩ := require_room_ok h0
        subst e0
        obtain ⟨s1, h1, hb⟩ := andThen_ok ha
        obtain ⟨e1, r1⟩ := require_room_ok h1
        subst e1
        obtain ⟨s2, h2, hc⟩ := andThen_ok hb
        have w0 := start_wrote cap s0 L r0 hcap
        have l0 : cap ≤ (store cap (indent cap L s0) 60).buf.length := by
          rw [w0.length_eq]; exact hcap
        have w1 := store_list_wrote cap [33, 91, 67, 68, 65, 84, 65, 91] _
          (by simpa using r1) l0
        have l1 := l0
        rw [← w1.length_eq] at l1
        obtain ⟨p, hp, w2, -⟩ := copy_value_wrote h2 l1
        have l2 := l1
        rw [← w2.length_eq] at l2
        obtain ⟨s3, h3, hd⟩ := andThen_ok hc
        obtain ⟨e3, r3⟩ := require_room_ok h3
        subst e3
        simp only [Except.ok.injEq] at hd
        subst hd
        have w3 := store2_wrote cap _ 93 93 r3 l2
        have l3 := l2
        rw [← w3.length_eq] at l3
        have w4 := write_trailer_cut cap _ l3
        simp only [hp, Option.some.injEq] at hw
        subst hw
        have key := WroteCut.chain hcap ((w0.trans (w1.trans (w2.trans w3))).cut cap) w4
        have e : List.replicate (L * 2) 32 ++ [60] ++ [33, 91, 67, 68, 65, 84, 65, 91] ++ p
            ++ [93, 93] ++ [62, 10, 0]
          = (List.replicate (L * 2) 32 ++ [60] ++ ([33, 91, 67, 68, 65, 84, 65, 91]
            ++ (p ++ [93, 93]))) ++ [62, 10, 0] := by
          simp only [List.append_assoc]
        rw [e]
        exact key
      | PI =>
        rw [xml_string_with_index_eq, if_neg (by omega)] at h
        rw [xml_text_eq] at hw
        simp only at h hw
        obtain ⟨s0, h0, ha⟩ := andThen_ok h
        obtain ⟨e0, r0⟩ := require_room_ok h0
        subst e0
        obtain ⟨s1, h1, hb⟩ := andThen_ok ha
        obtain ⟨e1, r1⟩ := require_room_ok h1
        subst e1
        have w0 := start_wrote cap s0 L r0 hcap
        have l0 : cap ≤ (store cap (indent cap L s0) 60).buf.length := by
          rw [w0.length_eq]; exact hcap
        have w1 := store_wrote cap _ 63 (by omega) l0
        have l1 := l0
        rw [← w1.length_eq] at l1
        obtain ⟨s2, h2, hc⟩ := andThen_ok hb
        obtain ⟨n, hn, w2, -⟩ := copy_value_wrote h2 l1
        have l2 := l1
        rw [← w2.length_eq] at l2
        obtain ⟨s3, h3, hd⟩ := andThen_ok hc
        obtain ⟨e3, r3⟩ := require_room_ok h3
        subst e3
        have w3 := store_wrote cap _ 32 (by omega) l2
        have l3 := l2
        rw [← w3.length_eq] at l3
        obtain ⟨s4, h4, he⟩ := andThen_ok hd
        obtain ⟨b, hb', w4, -⟩ := copy_value_wrote h4 l3
        have l4 := l3
        rw [← w4.length_eq] at l4
        obtain ⟨s5, h5, hf⟩ := andThen_ok he
        obtain ⟨e5, r5⟩ := require_room_ok h5
        subst e5
        simp only [Except.ok.injEq] at hf
        subst hf
        have w5 := store_wrote cap _ 63 (by omega) l4
        have l5 := l4
        rw [← w5.length_eq] at l5
        have w6 := write_trailer_cut cap _ l5
        simp only [hn, hb', Option.some.injEq] at hw
        subst hw
        have key := WroteCut.chain hcap
          ((w0.trans (w1.trans (w2.trans (w3.trans (w4.trans w5))))).cut cap) w6
        have e : List.replicate (L * 2) 32 ++ [60] ++ [63] ++ n ++ [32] ++ b ++ [63]
            ++ [62, 10, 0]
          = (List.replicate (L * 2) 32 ++ [60] ++ ([63] ++ (n ++ ([32] ++ (b ++ [63])))))
            ++ [62, 10, 0] := by
          simp only [List.append_assoc]
        rw [e]
        exact key

theorem get_xml_string_with_index_text (enc : Encoding) (t : XmlTag) (L : Nat) (buf : List Nat)
    (cap i0 : Nat) (hbuf : cap ≤ buf.length)
    (h : (get_xml_string_with_index enc t L buf cap i0).status = 1) :
    ∃ w, xml_text enc t L = some w
      ∧ (get_xml_string_with_index enc t L buf cap i0).string_index = i0 + w.length
      ∧ ((get_xml_string_with_index enc t L buf cap i0).string.take (i0 + w.length)).take cap
          = (buf.take i0 ++ w).take cap
      ∧ (i0 + w.length ≤ cap →
          (get_xml_string_with_index enc t L buf cap i0).string.take (i0 + w.length)
            = buf.take i0 ++ w) := by
  obtain ⟨st1, hr⟩ := get_xml_string_with_index_status h
  obtain ⟨w, hw, hc, hW⟩ := xml_string_with_index_ok_text enc t L cap _ st1 hr hbuf
  rw [get_xml_string_with_index_of_ok hr]
  obtain ⟨c1, c2, -⟩ := hc
  simp only at c1 c2 ⊢
  refine ⟨w, hw, c1, by rw [← c1]; exact c2, ?_⟩
  intro hle
  have := (hW (by rw [c1]; exact hle)).2.1
  rw [← c1]
  exact this

theorem node_write_text (enc : Encoding) (name value : Option Value)
    (attrs elems : List (Option XmlTag)) (L : Nat) (buf : List Nat) (cap i0 : Nat)
    (hbuf : cap ≤ buf.length)
    (h : (get_xml_string_with_index enc (.mk .NODE name value attrs elems) L buf cap
      i0).status = 1) :
    ∃ w, xml_text enc (.mk .NODE name value attrs elems) L = some w
      ∧ i0 + w.length ≤ cap
      ∧ (get_xml_string_with_index enc (.mk .NODE name value attrs elems) L buf cap
          i0).string_index = i0 + w.length
      ∧ (get_xml_string_with_index enc (.mk .NODE name value attrs elems) L buf cap
          i0).string.take (i0 + w.length) = buf.take i0 ++ w := by
  obtain ⟨w, hw, hidx, -, hfull⟩ := get_xml_string_with_index_text enc _ L buf cap i0 hbuf h
  obtain ⟨st1, hr⟩ := get_xml_string_with_index_status h
  have hle := node_ok_index_le hr
  rw [get_xml_string_with_index_of_ok hr] at hidx
  simp only at hidx
  have hroom : i0 + w.length ≤ cap := by omega
  exact ⟨w, hw, hroom, by rw [get_xml_string_with_index_of_ok hr]; exact hidx, hfull hroom⟩

theorem get_xml_string_with_index_of_runs {enc : Encoding} {t : XmlTag} {L cap i0 : Nat}
    {buf w : List Nat}
    (h : Runs { buf := buf, index := i0, oob := false } (xml_string_with_index enc t L cap
      { buf := buf, index := i0, oob := false }) w) :
    (get_xml_string_with_index enc t L buf cap i0).status = 1 := by
  obtain ⟨st1, hr, -⟩ := h
  rw [get_xml_string_with_index_of_ok hr]

theorem attributes_text_nil (enc : Encoding) : attributes_text enc [] = some [] := by
  rw [attributes_text]

theorem xml_text_empty_node (enc : Encoding) (name : Option Value) (n : List Nat) (L : Nat)
    (hn : value_entry_string enc name 0 = some n) :
    xml_text enc (.mk .NODE name none [] []) L
      = some (List.replicate (2 * L) 32 ++ [60] ++ n ++ [47, 62, 10, 0]) := by
  rw [xml_text_eq]
  simp only [hn, attributes_text_nil, Nat.mul_comm L 2, List.append_nil, List.append_assoc]
  rfl

theorem empty_element_generic (enc : Encoding) (name : Option Value) (n : List Nat)
    (xml_tag_level : Nat) (hn : value_entry_string enc name 0 = some n) :
    xml_string_size enc (.mk .NODE name none [] []) xml_tag_level
      = some (2 * xml_tag_level + n.length + 5)
    ∧ (∀ (string : List Nat) (string_size string_index : Nat),
        string_size ≤ string.length →
        (get_xml_string_with_index enc (.mk .NODE name none [] []) xml_tag_level string
          string_size string_index).status = 1 →
        (get_xml_string_with_index enc (.mk .NODE name none [] []) xml_tag_level string
            string_size string_index).string_index
          = string_index + (2 * xml_tag_level + n.length + 5)
        ∧ (get_xml_string_with_index enc (.mk .NODE name none [] []) xml_tag_level string
            string_size string_index).string.take
              (string_index + (2 * xml_tag_level + n.length + 5))
          = string.take string_index
            ++ (List.replicate (2 * xml_tag_level) 32 ++ [60] ++ n ++ [47, 62, 10, 0]))
    ∧ (∀ (string : List Nat) (string_size string_index : Nat),
        string_size ≤ string.length → string_size ≤ SSIZE_MAX →
        string_index + (2 * xml_tag_level + n.length + 5) ≤ string_size →
        (get_xml_string_with_index enc (.mk .NODE name none [] []) xml_tag_level string
          string_size string_index).status = 1) := by
  have ht := xml_text_empty_node enc name n xml_tag_level hn
  have hlen : (List.replicate (2 * xml_tag_level) 32 ++ [60] ++ n ++ [47, 62, 10, 0]).length
      = 2 * xml_tag_level + n.length + 5 := by
    simp only [List.length_append, List.length_replicate, List.length_cons, List.length_nil]
    omega
  refine ⟨?_, ?_, ?_⟩
  · rw [(xml_string_size_eq_text_both enc).1, ht, Option.map_some', hlen]
  · intro string string_size string_index hbuf h
    obtain ⟨w, hw, -, hidx, htake⟩ :=
      node_write_text enc name none [] [] xml_tag_level string string_size string_index hbuf h
    rw [ht] at hw
    simp only [Option.some.injEq] at hw
    subst hw
    rw [hlen] at hidx htake
    exact ⟨hidx, htake⟩
  · intro string string_size string_index hbuf hmax hroom
    apply get_xml_string_with_index_of_runs
    exact (xml_string_with_index_runs_both enc).1 _ xml_tag_level string_size _ _ ht
      (by rw [hlen]; exact hroom) hmax hbuf

/-- Counterexample to C13 as stated: for scenario (b) the size computation does
not return 28. -/
theorem scenario_b_size_is_not_28 :
    libevtx_xml_tag_get_utf8_xml_string_size data_tag 0 ≠ some 28 := by
  decide

/-- C13, as amended: for scenario (b), the element `Data` with the attribute
`Name="Id"` and the single value entry `42` at level 0, the size computation
returns 27, in both encodings; this is the number of units the writer stores,
the 26 units of the text line and the NUL. -/
theorem scenario_b_size_is_27 :
    libevtx_xml_tag_get_utf8_xml_string_size data_tag 0 = some 27
    ∧ libevtx_xml_tag_get_utf16_xml_string_size data_tag 0 = some 27
    ∧ (libevtx_xml_tag_get_utf8_xml_string_with_index data_tag 0 (List.replicate 27 0) 27 0)
      = { status := 1, error := none,
          string := units "<Data Name=\"Id\">42</Data>\n" ++ [0],
          string_index := 27, oob := false }
    ∧ (units "<Data Name=\"Id\">42</Data>\n" ++ [0]).length = 27 := by
  decide

/-! ## The text of a tag in the forms of the specification -/

/-- C18: for a Node whose value is present, the size computation and the writer
do the same as for the same Node with its array of sub elements emptied,
whatever the sub elements are: the same size or failure, and for every buffer,
capacity and entry index the same return value, error code, buffer and index. -/
theorem value_wins_over_children (enc : Encoding) (name : Option Value) (v : Value)
    (attributes_array elements_array : List (Option XmlTag)) (xml_tag_level : Nat) :
    xml_string_size enc (.mk .NODE name (some v) attributes_array elements_array) xml_tag_level
      = xml_string_size enc (.mk .NODE name (some v) attributes_array []) xml_tag_level
    ∧ ∀ (string : List Nat) (string_size string_index : Nat),
        get_xml_string_with_index enc (.mk .NODE name (some v) attributes_array elements_array)
            xml_tag_level string string_size string_index
          = get_xml_string_with_index enc (.mk .NODE name (some v) attributes_array [])
            xml_tag_level string string_size string_index := by
  constructor
  · rw [xml_string_size_eq, xml_string_size_eq]
  · intro string string_size string_index
    unfold get_xml_string_with_index
    rw [xml_string_with_index_eq, xml_string_with_index_eq]

/-- C20: when the writer does not return 1 it returns -1, and the index behind
the index pointer of the caller still has the value it had at entry, for every
tag, level, buffer, capacity and entry index; this includes a failure inside a
sub element, whose call works on the local index of its parent. -/
theorem failure_keeps_caller_index (enc : Encoding) (xml_tag : XmlTag) (xml_tag_level : Nat)
    (string : List Nat) (string_size string_index : Nat)
    (h : (get_xml_string_with_index enc xml_tag xml_tag_level string string_size
      string_index).status ≠ 1) :
    (get_xml_string_with_index enc xml_tag xml_tag_level string string_size
        string_index).status = -1
    ∧ (get_xml_string_with_index enc xml_tag xml_tag_level string string_size
        string_index).string_index = string_index := by
  unfold get_xml_string_with_index at h ⊢
  cases hr : xml_string_with_index enc xml_tag xml_tag_level string_size
      { buf := string, index := string_index, oob := false } with
  | ok st1 =>
    rw [hr] at h
    simp at h
  | error e =>
    cases e
    exact ⟨rfl, rfl⟩

/-- Witness for C20: the block of scenario (c) written at index 1 with capacity
12 fails inside a sub element; the index of the caller is still 1. -/
theorem failure_keeps_caller_index_witness :
    (libevtx_xml_tag_get_utf8_xml_string_with_index block_tag 0 (List.replicate 12 0) 12
        1).error = some ErrorCode.RUNTIME_COPY_FAILED
    ∧ (get_xml_string_with_index Encoding.utf8 block_tag 0 (List.replicate 12 0) 12
        1).status = -1
    ∧ (get_xml_string_with_index Encoding.utf8 block_tag 0 (List.replicate 12 0) 12
        1).string_index = 1 :=
  ⟨by decide,
   failure_keeps_caller_index Encoding.utf8 block_tag 0 (List.replicate 12 0) 12 1
     (by decide)⟩

/-- C22: when `libevtx_xml_tag_initialize` returns 1 on a slot that holds NULL,
the slot holds a tag of the Node kind without name and without value whose
arrays of attributes and of sub elements have no entries; and it returns 1
whenever the four allocating calls succeed. -/
theorem initialized_tag_is_empty_node (allocator : Allocator) :
    (( libevtx_xml_tag_initialize allocator (some none)).status = 1 →
      ∃ tag, ( libevtx_xml_tag_initialize allocator (some none)).slot = some (some tag)
        ∧ tag.type = XmlTagType.NODE ∧ tag.name = none ∧ tag.value = none
        ∧ tag.attributes_array = [] ∧ tag.elements_array = []
        ∧ tag.attributes_array.length = 0 ∧ tag.elements_array.length = 0)
    ∧ (allocator.memory_allocate_structure = true → allocator.memory_set = true →
        allocator.attributes_array_created = true →
        allocator.elements_array_created = true →
        ( libevtx_xml_tag_initialize allocator (some none)).status = 1) := by
  obtain ⟨a, b, c, d⟩ := allocator
  cases a <;> cases b <;> cases c <;> cases d <;>
    simp [ libevtx_xml_tag_initialize, libevtx_array_initialize, zeroed_tag_type,
      XmlTag.type, XmlTag.name, XmlTag.value, XmlTag.attributes_array, XmlTag.elements_array]

/-- Witness for C22: with an allocator that succeeds, the call on a slot that
holds NULL returns 1 and leaves an empty Node. -/
theorem initialized_tag_is_empty_node_witness :
    ( libevtx_xml_tag_initialize
        { memory_allocate_structure := true, memory_set := true,
          attributes_array_created := true, elements_array_created := true }
        (some none)).status = 1
    ∧ ∃ tag, ( libevtx_xml_tag_initialize
          { memory_allocate_structure := true, memory_set := true,
            attributes_array_created := true, elements_array_created := true }
          (some none)).slot = some (some tag)
        ∧ tag.type = XmlTagType.NODE ∧ tag.name = none ∧ tag.value = none
        ∧ tag.attributes_array = [] ∧ tag.elements_array = []
        ∧ tag.attributes_array.length = 0 ∧ tag.elements_array.length = 0 :=
  ⟨rfl,
   (initialized_tag_is_empty_node
     { memory_allocate_structure := true, memory_set := true,
       attributes_array_created := true, elements_array_created := true }).1 rfl⟩

theorem append_attributes_eq (type : XmlTagType) (name value : Option Value)
    (elements_array : List (Option XmlTag)) :
    ∀ (entries attributes_array : List (Option XmlTag)),
      append_attributes (some (.mk type name value attributes_array elements_array)) entries
        = some (.mk type name value (attributes_array ++ entries) elements_array) := by
  intro entries
  induction entries with
  | nil => intro A; simp [append_attributes]
  | cons x rest ih =>
    intro A
    show append_attributes (libevtx_xml_tag_append_attribute
      (some (.mk type name value A elements_array)) x).xml_tag rest = _
    have e : (libevtx_xml_tag_append_attribute
        (some (.mk type name value A elements_array)) x).xml_tag
        = some (.mk type name value (A ++ [x]) elements_array) := rfl
    rw [e, ih, List.append_assoc]
    rfl

theorem append_elements_eq (type : XmlTagType) (name value : Option Value)
    (attributes_array : List (Option XmlTag)) :
    ∀ (entries elements_array : List (Option XmlTag)),
      append_elements (some (.mk type name value attributes_array elements_array)) entries
        = some (.mk type name value attributes_array (elements_array ++ entries)) := by
  intro entries
  induction entries with
  | nil => intro C; simp [append_elements]
  | cons x rest ih =>
    intro C
    show append_elements (libevtx_xml_tag_append_element
      (some (.mk type name value attributes_array C)) x).xml_tag rest = _
    have e : (libevtx_xml_tag_append_element
        (some (.mk type name value attributes_array C)) x).xml_tag
        = some (.mk type name value attributes_array (C ++ [x])) := rfl
    rw [e, ih, List.append_assoc]
    rfl

/-- C23: on a tag with attributes A and sub elements C,
`libevtx_xml_tag_append_attribute` returns 1 and leaves the attributes A
followed by the new entry, with sub elements, name, value and kind unchanged;
`libevtx_xml_tag_append_element` returns 1 and leaves the sub elements C
followed by the new entry, with attributes, name, value and kind unchanged; so
after appending x1..xn in that order to a tag without entries the sequence
reads x1..xn. -/
theorem append_adds_at_the_tail (type : XmlTagType) (name value : Option Value)
    (attributes_array elements_array : List (Option XmlTag)) (entry : Option XmlTag)
    (entries : List (Option XmlTag)) :
    (libevtx_xml_tag_append_attribute
        (some (.mk type name value attributes_array elements_array)) entry).status = 1
    ∧ (libevtx_xml_tag_append_attribute
        (some (.mk type name value attributes_array elements_array)) entry).xml_tag
      = some (.mk type name value (attributes_array ++ [entry]) elements_array)
    ∧ (libevtx_xml_tag_append_element
        (some (.mk type name value attributes_array elements_array)) entry).status = 1
    ∧ (libevtx_xml_tag_append_element
        (some (.mk type name value attributes_array elements_array)) entry).xml_tag
      = some (.mk type name value attributes_array (elements_array ++ [entry]))
    ∧ append_attributes (some (.mk type name value [] elements_array)) entries
      = some (.mk type name value entries elements_array)
    ∧ append_elements (some (.mk type name value attributes_array [])) entries
      = some (.mk type name value attributes_array entries) :=
  ⟨rfl, rfl, rfl, rfl, append_attributes_eq type name value elements_array entries [],
   append_elements_eq type name value attributes_array entries []⟩

theorem get_entry_by_name_already_set (towupper : Nat → Nat) (nd sd : Decoder)
    (array : List (Option XmlTag)) (string : List Nat) (length : Nat) (tag : XmlTag) :
    get_entry_by_name towupper nd sd array string length (some tag)
      = some { status := -1
               error := some (if length > SSIZE_MAX then ErrorCode.RUNTIME_VALUE_EXCEEDS_MAXIMUM
                 else ErrorCode.RUNTIME_VALUE_ALREADY_SET)
               out := some tag } := by
  unfold get_entry_by_name
  by_cases h : length > SSIZE_MAX
  · simp [h]
  · simp [h]

/-- C25: `libevtx_xml_tag_initialize` on a slot that already holds a tag returns
-1 and leaves the slot holding that tag; each of the four lookups called with
an out-parameter that already holds a tag returns -1 with the out-parameter
unchanged, whatever the tag and its entries are: none of them is examined.
The error code is VALUE_ALREADY_SET, or VALUE_EXCEEDS_MAXIMUM when the length
of the needle is above SSIZE_MAX. -/
theorem set_slot_is_refused (allocator : Allocator) (E : Externals) (tag xml_tag : XmlTag)
    (string : List Nat) (length : Nat) :
    ( libevtx_xml_tag_initialize allocator (some (some tag))).status = -1
    ∧ ( libevtx_xml_tag_initialize allocator (some (some tag))).error
      = some ErrorCode.RUNTIME_VALUE_ALREADY_SET
    ∧ ( libevtx_xml_tag_initialize allocator (some (some tag))).slot = some (some tag)
    ∧ libevtx_xml_tag_get_attribute_by_utf8_name E xml_tag string length (some tag)
      = some { status := -1
               error := some (if length > SSIZE_MAX then ErrorCode.RUNTIME_VALUE_EXCEEDS_MAXIMUM
                 else ErrorCode.RUNTIME_VALUE_ALREADY_SET)
               out := some tag }
    ∧ libevtx_xml_tag_get_attribute_by_utf16_name E xml_tag string length (some tag)
      = some { status := -1
               error := some (if length > SSIZE_MAX then ErrorCode.RUNTIME_VALUE_EXCEEDS_MAXIMUM
                 else ErrorCode.RUNTIME_VALUE_ALREADY_SET)
               out := some tag }
    ∧ libevtx_xml_tag_get_element_by_utf8_name E xml_tag string length (some tag)
      = some { status := -1
               error := some (if length > SSIZE_MAX then ErrorCode.RUNTIME_VALUE_EXCEEDS_MAXIMUM
                 else ErrorCode.RUNTIME_VALUE_ALREADY_SET)
               out := some tag }
    ∧ libevtx_xml_tag_get_element_by_utf16_name E xml_tag string length (some tag)
      = some { status := -1
               error := some (if length > SSIZE_MAX then ErrorCode.RUNTIME_VALUE_EXCEEDS_MAXIMUM
                 else ErrorCode.RUNTIME_VALUE_ALREADY_SET)
               out := some tag } :=
  ⟨rfl, rfl, rfl, get_entry_by_name_already_set _ _ _ _ _ _ _,
   get_entry_by_name_already_set _ _ _ _ _ _ _, get_entry_by_name_already_set _ _ _ _ _ _ _,
   get_entry_by_name_already_set _ _ _ _ _ _ _⟩

/-- Induction over a tag and over its two arrays at once. -/
theorem XmlTag.induct_arrays {P : XmlTag → Prop} {Q : List (Option XmlTag) → Prop}
    (hmk : ∀ ty n v a e, Q a → Q e → P (.mk ty n v a e))
    (hnil : Q [])
    (hnone : ∀ rest, Q rest → Q (none :: rest))
    (hsome : ∀ t rest, P t → Q rest → Q (some t :: rest)) :
    (∀ t, P t) ∧ (∀ es, Q es) := by
  have key : ∀ t, P t := fun t =>
    @XmlTag.rec (fun t => P t) (fun es => Q es) (fun o => ∀ t, o = some t → P t)
      (fun ty n v a e iha ihe => hmk ty n v a e iha ihe)
      hnil
      (fun head tail ihh iht => by
        cases head with
        | none => exact hnone tail iht
        | some t => exact hsome t tail (ihh t rfl) iht)
      (fun t h => by cases h)
      (fun val ih t h => by cases h; exact ih)
      t
  refine ⟨key, ?_⟩
  intro es
  induction es with
  | nil => exact hnil
  | cons e rest ih =>
    cases e with
    | none => exact hnone rest ih
    | some t => exact hsome t rest (key t) ih

theorem xml_tag_free_contents_eq (vf : Value → Bool) (type : XmlTagType)
    (name value : Option Value) (attrs elems : List (Option XmlTag)) :
    xml_tag_free_contents vf (.mk type name value attrs elems)
      = { result :=
            if (libevtx_array_free vf elems).result ≠ 1
                ∨ (libevtx_array_free vf attrs).result ≠ 1
                ∨ (value_free_trace vf value).result ≠ 1
                ∨ (value_free_trace vf name).result ≠ 1 then -1
            else 1
          freed := (libevtx_array_free vf elems).freed ++ (libevtx_array_free vf attrs).freed
            ++ (value_free_trace vf value).freed ++ (value_free_trace vf name).freed } := by
  rw [xml_tag_free_contents]

theorem libevtx_array_free_nil (vf : Value → Bool) :
    libevtx_array_free vf [] = { result := 1, freed := [] } := by
  rw [libevtx_array_free]

theorem libevtx_array_free_none (vf : Value → Bool) (rest : List (Option XmlTag)) :
    libevtx_array_free vf (none :: rest)
      = { result := if (1 : Int) ≠ 1 ∨ (libevtx_array_free vf rest).result ≠ 1 then -1 else 1
          freed := [] ++ (libevtx_array_free vf rest).freed } := by
  rw [libevtx_array_free, xml_tag_free_entry]

theorem libevtx_array_free_some (vf : Value → Bool) (t : XmlTag) (rest : List (Option XmlTag)) :
    libevtx_array_free vf (some t :: rest)
      = { result :=
            if (xml_tag_free_contents vf t).result ≠ 1
                ∨ (libevtx_array_free vf rest).result ≠ 1 then -1
            else 1
          freed := (xml_tag_free_contents vf t).freed ++ (libevtx_array_free vf rest).freed } := by
  rw [libevtx_array_free, xml_tag_free_entry]

theorem value_free_trace_freed (vf vf' : Value → Bool) (value : Option Value) :
    (value_free_trace vf value).freed = (value_free_trace vf' value).freed := by
  cases value <;> rfl

theorem value_free_trace_result (vf : Value → Bool) (value : Option Value)
    (h : ∀ v ∈ (value_free_trace vf value).freed, vf v = true) :
    (value_free_trace vf value).result = 1 := by
  cases value with
  | none => rfl
  | some v =>
    have := h v (by simp [value_free_trace])
    simp [value_free_trace, this]

theorem free_attempts_both (vf vf' : Value → Bool) :
    (∀ t, (xml_tag_free_contents vf t).freed = (xml_tag_free_contents vf' t).freed)
    ∧ (∀ es, (libevtx_array_free vf es).freed = (libevtx_array_free vf' es).freed) := by
  apply XmlTag.induct_arrays
  · intro ty n v a e iha ihe
    rw [xml_tag_free_contents_eq, xml_tag_free_contents_eq]
    simp only [iha, ihe, value_free_trace_freed vf vf']
  · rw [libevtx_array_free_nil, libevtx_array_free_nil]
  · intro rest ih
    rw [libevtx_array_free_none, libevtx_array_free_none]
    simp only [ih]
  · intro t rest iht ih
    rw [libevtx_array_free_some, libevtx_array_free_some]
    simp only [iht, ih]

theorem free_result_both (vf : Value → Bool) :
    (∀ t, ((∀ v ∈ (xml_tag_free_contents vf t).freed, vf v = true) →
        (xml_tag_free_contents vf t).result = 1)
      ∧ ((xml_tag_free_contents vf t).result = 1 ∨ (xml_tag_free_contents vf t).result = -1))
    ∧ (∀ es, ((∀ v ∈ (libevtx_array_free vf es).freed, vf v = true) →
        (libevtx_array_free vf es).result = 1)
      ∧ ((libevtx_array_free vf es).result = 1 ∨ (libevtx_array_free vf es).result = -1)) := by
  apply XmlTag.induct_arrays
  · intro ty n v a e iha ihe
    rw [xml_tag_free_contents_eq]
    constructor
    · intro h
      simp only [List.mem_append] at h
      have h1 := ihe.1 (fun x hx => h x (Or.inl (Or.inl (Or.inl hx))))
      have h2 := iha.1 (fun x hx => h x (Or.inl (Or.inl (Or.inr hx))))
      have h3 := value_free_trace_result vf v (fun x hx => h x (Or.inl (Or.inr hx)))
      have h4 := value_free_trace_result vf n (fun x hx => h x (Or.inr hx))
      simp [h1, h2, h3, h4]
    · simp only
      split
      · exact Or.inr rfl
      · exact Or.inl rfl
  · rw [libevtx_array_free_nil]
    exact ⟨fun _ => rfl, Or.inl rfl⟩
  · intro rest ih
    rw [libevtx_array_free_none]
    constructor
    · intro h
      have h1 := ih.1 (fun x hx => h x (by simpa using hx))
      simp [h1]
    · simp only
      split
      · exact Or.inr rfl
      · exact Or.inl rfl
  · intro t rest iht ih
    rw [libevtx_array_free_some]
    constructor
    · intro h
      simp only [List.mem_append] at h
      have h1 := iht.1 (fun x hx => h x (Or.inl hx))
      have h2 := ih.1 (fun x hx => h x (Or.inr hx))
      simp [h1, h2]
    · simp only
      split
      · exact Or.inr rfl
      · exact Or.inl rfl

theorem held_values_eq (type : XmlTagType) (name value : Option Value)
    (attrs elems : List (Option XmlTag)) :
    held_values (.mk type name value attrs elems)
      = array_held_values elems ++ array_held_values attrs ++ value.toList ++ name.toList := by
  rw [held_values]

theorem array_held_values_nil : array_held_values [] = [] := by
  rw [array_held_values]

theorem array_held_values_none (rest : List (Option XmlTag)) :
    array_held_values (none :: rest) = [] ++ array_held_values rest := by
  rw [array_held_values, entry_held_values]

theorem array_held_values_some (t : XmlTag) (rest : List (Option XmlTag)) :
    array_held_values (some t :: rest) = held_values t ++ array_held_values rest := by
  rw [array_held_values, entry_held_values]

theorem value_free_trace_spec (vf : Value → Bool) (value : Option Value) :
    (value_free_trace vf value).freed = value.toList
    ∧ ((value_free_trace vf value).result = 1 ↔ ∀ v ∈ value.toList, vf v = true)
    ∧ ((value_free_trace vf value).result = 1 ∨ (value_free_trace vf value).result = -1) := by
  cases value with
  | none => simp [value_free_trace]
  | some v =>
    by_cases h : vf v = true
    · simp [value_free_trace, h]
    · simp [value_free_trace, h]

theorem free_trace_both (vf : Value → Bool) :
    (∀ t, (xml_tag_free_contents vf t).freed = held_values t
      ∧ ((xml_tag_free_contents vf t).result = 1 ↔ ∀ v ∈ held_values t, vf v = true))
    ∧ (∀ es, (libevtx_array_free vf es).freed = array_held_values es
      ∧ ((libevtx_array_free vf es).result = 1 ↔ ∀ v ∈ array_held_values es, vf v = true)) := by
  apply XmlTag.induct_arrays
  · intro ty n v a e iha ihe
    rw [xml_tag_free_contents_eq, held_values_eq]
    obtain ⟨fv, rv, -⟩ := value_free_trace_spec vf v
    obtain ⟨fn, rn, -⟩ := value_free_trace_spec vf n
    refine ⟨by simp only [iha.1, ihe.1, fv, fn], ?_⟩
    simp only [List.mem_append]
    constructor
    · intro h
      by_cases hc : (libevtx_array_free vf e).result ≠ 1 ∨ (libevtx_array_free vf a).result ≠ 1
          ∨ (value_free_trace vf v).result ≠ 1 ∨ (value_free_trace vf n).result ≠ 1
      · rw [if_pos hc] at h
        cases h
      · simp only [not_or, not_not] at hc
        obtain ⟨h1, h2, h3, h4⟩ := hc
        intro x hx
        rcases hx with ((hx | hx) | hx) | hx
        · exact ihe.2.1 h1 x hx
        · exact iha.2.1 h2 x hx
        · exact rv.1 h3 x hx
        · exact rn.1 h4 x hx
    · intro h
      have h1 := ihe.2.2 (fun x hx => h x (Or.inl (Or.inl (Or.inl hx))))
      have h2 := iha.2.2 (fun x hx => h x (Or.inl (Or.inl (Or.inr hx))))
      have h3 := rv.2 (fun x hx => h x (Or.inl (Or.inr hx)))
      have h4 := rn.2 (fun x hx => h x (Or.inr hx))
      simp [h1, h2, h3, h4]
  · rw [libevtx_array_free_nil, array_held_values_nil]
    simp
  · intro rest ih
    rw [libevtx_array_free_none, array_held_values_none]
    refine ⟨by simp only [ih.1], ?_⟩
    simp only [List.nil_append]
    constructor
    · intro h
      by_cases hc : (libevtx_array_free vf rest).result = 1
      · exact ih.2.1 hc
      · simp [hc] at h
    · intro h
      have := ih.2.2 h
      simp [this]
  · intro t rest iht ih
    rw [libevtx_array_free_some, array_held_values_some]
    refine ⟨by simp only [iht.1, ih.1], ?_⟩
    simp only [List.mem_append]
    constructor
    · intro h
      by_cases hc : (xml_tag_free_contents vf t).result ≠ 1
          ∨ (libevtx_array_free vf rest).result ≠ 1
      · rw [if_pos hc] at h
        cases h
      · simp only [not_or, not_not] at hc
        intro x hx
        rcases hx with hx | hx
        · exact iht.2.1 hc.1 x hx
        · exact ih.2.1 hc.2 x hx
    · intro h
      have h1 := iht.2.2 (fun x hx => h x (Or.inl hx))
      have h2 := ih.2.2 (fun x hx => h x (Or.inr hx))
      simp [h1, h2]

/-- C24: `libevtx_xml_tag_free` returns 1 on a freshly initialized empty tag.  On
a slot that holds a tag it calls `libfvalue_value_free` on every value the tag
holds at every depth, those of the sub elements first, then those of the
attributes, then the value and the name, whether or not some of these calls
fail; it returns 1 if and only if every one of these calls returns 1, and -1
if and only if one of them fails.  Whenever the pointer to the slot is not
NULL the slot holds NULL afterwards, also when -1 is returned.  A second
call, on the slot that now holds NULL, returns 1, attempts no free and leaves
NULL in the slot. -/
theorem free_is_total_and_idempotent (value_free other_value_free : Value → Bool)
    (slot : Option XmlTag) :
    libevtx_xml_tag_free value_free (some (some (.mk zeroed_tag_type none none [] [])))
      = { status := 1, error := none, slot := some none, freed := [] }
    ∧ (libevtx_xml_tag_free value_free (some slot)).freed = entry_held_values slot
    ∧ ((libevtx_xml_tag_free value_free (some slot)).status = 1
        ↔ ∀ v ∈ entry_held_values slot, value_free v = true)
    ∧ ((libevtx_xml_tag_free value_free (some slot)).status = -1
        ↔ ∃ v ∈ entry_held_values slot, value_free v = false)
    ∧ (libevtx_xml_tag_free value_free (some slot)).slot = some none
    ∧ (libevtx_xml_tag_free value_free (some slot)).freed
      = (libevtx_xml_tag_free other_value_free (some slot)).freed
    ∧ libevtx_xml_tag_free value_free (libevtx_xml_tag_free value_free (some slot)).slot
      = { status := 1, error := none, slot := some none, freed := [] } := by
  have hfreed : ∀ vf, (libevtx_xml_tag_free vf (some slot)).freed = entry_held_values slot := by
    intro vf
    cases slot with
    | none => simp [libevtx_xml_tag_free, entry_held_values]
    | some t =>
      simp only [libevtx_xml_tag_free, entry_held_values]
      exact ((free_trace_both vf).1 t).1
  have hone : (libevtx_xml_tag_free value_free (some slot)).status = 1
      ↔ ∀ v ∈ entry_held_values slot, value_free v = true := by
    cases slot with
    | none => simp [libevtx_xml_tag_free, entry_held_values]
    | some t =>
      simp only [libevtx_xml_tag_free, entry_held_values]
      exact ((free_trace_both value_free).1 t).2
  have htwo : (libevtx_xml_tag_free value_free (some slot)).status = 1
      ∨ (libevtx_xml_tag_free value_free (some slot)).status = -1 := by
    cases slot with
    | none => exact Or.inl rfl
    | some t => exact ((free_result_both value_free).1 t).2
  refine ⟨?_, hfreed value_free, hone, ?_, ?_, ?_, ?_⟩
  · simp only [libevtx_xml_tag_free, xml_tag_free_contents_eq, libevtx_array_free_nil]
    rfl
  · constructor
    · intro h
      by_contra hc
      simp only [not_exists, not_and, Bool.not_eq_false] at hc
      have := hone.2 hc
      rw [this] at h
      cases h
    · rintro ⟨v, hv, hf⟩
      rcases htwo with h1 | h1
      · have := hone.1 h1 v hv
        rw [hf] at this
        cases this
      · exact h1
  · cases slot <;> rfl
  · rw [hfreed value_free, hfreed other_value_free]
  · cases slot <;> rfl

/-- Witness for C24: the element `A` with an attribute and the sub elements `B`
and `C`; `libfvalue_value_free` fails on the value `x` of the sub element `B`
only.  The call returns -1, all six values have been handed to
`libfvalue_value_free`, those of the sub elements first, and the slot holds
NULL. -/
theorem free_is_total_and_idempotent_witness :
    (∃ v ∈ entry_held_values (some family_tag),
        (fun v => decide (v ≠ text_value .STRING_UTF16 "x")) v = false)
    ∧ (libevtx_xml_tag_free (fun v => decide (v ≠ text_value .STRING_UTF16 "x"))
        (some (some family_tag))).status = -1
    ∧ (libevtx_xml_tag_free (fun v => decide (v ≠ text_value .STRING_UTF16 "x"))
        (some (some family_tag))).freed
      = [text_value .STRING_UTF16 "x", text_value .STRING_UTF16 "B",
         text_value .STRING_UTF16 "C", text_value .STRING_UTF16 "v",
         text_value .STRING_UTF16 "k", text_value .STRING_UTF16 "A"]
    ∧ (libevtx_xml_tag_free (fun v => decide (v ≠ text_value .STRING_UTF16 "x"))
        (some (some family_tag))).slot = some none :=
  have h : ∃ v ∈ entry_held_values (some family_tag),
      (fun v => decide (v ≠ text_value .STRING_UTF16 "x")) v = false :=
    ⟨text_value .STRING_UTF16 "x", by decide, by decide⟩
  ⟨h,
   (free_is_total_and_idempotent (fun v => decide (v ≠ text_value .STRING_UTF16 "x"))
      (fun _ => true) (some family_tag)).2.2.2.1.2 h,
   by decide, rfl⟩

/-! ## The units of a successful write -/

theorem get_xml_string_with_index_units (enc : Encoding) (t : XmlTag) (L : Nat)
    (buf : List Nat) (cap i0 : Nat) (hbuf : cap ≤ buf.length)
    (h : (get_xml_string_with_index enc t L buf cap i0).status = 1) :
    ∃ w, xml_text enc t L = some w
      ∧ (get_xml_string_with_index enc t L buf cap i0).string_index = i0 + w.length
      ∧ ∀ j, j < w.length → i0 + j < cap →
          (get_xml_string_with_index enc t L buf cap i0).string[i0 + j]? = w[j]? := by
  obtain ⟨w, hw, hidx, hcut, -⟩ := get_xml_string_with_index_text enc t L buf cap i0 hbuf h
  refine ⟨w, hw, hidx, ?_⟩
  intro j hj hc
  have hpre : (buf.take i0).length = i0 := by
    rw [List.length_take]
    omega
  rw [← List.getElem?_take_of_lt (by omega : i0 + j < i0 + w.length),
    ← List.getElem?_take_of_lt hc, hcut, List.getElem?_take_of_lt hc,
    List.getElem?_append_right (by rw [hpre]; omega), hpre]
  congr 1
  omega

theorem leaf_sizes_generic (enc : Encoding) (name value : Option Value)
    (attributes_array elements_array : List (Option XmlTag)) (xml_tag_level : Nat)
    (string : List Nat) (string_size string_index : Nat) :
    xml_string_size enc (.mk .CDATA name value attributes_array elements_array) xml_tag_level
      = (libfvalue_value_get_string_size enc value 0).map
          (fun value_size => 2 * xml_tag_level + 1 + value_size + 9 + 3)
    ∧ xml_string_size enc (.mk .PI name value attributes_array elements_array) xml_tag_level
      = (libfvalue_value_get_string_size enc name 0).bind (fun name_size =>
          (libfvalue_value_get_string_size enc value 0).map
            (fun value_size => 2 * xml_tag_level + 1 + name_size + value_size + 1 + 3))
    ∧ ((get_xml_string_with_index enc (.mk .CDATA name value attributes_array elements_array)
          xml_tag_level string string_size string_index).status = 1 →
        ∃ value_size, libfvalue_value_get_string_size enc value 0 = some value_size
          ∧ (get_xml_string_with_index enc
              (.mk .CDATA name value attributes_array elements_array)
              xml_tag_level string string_size string_index).string_index
            = string_index + (2 * xml_tag_level + 1 + value_size + 9 + 3))
    ∧ ((get_xml_string_with_index enc (.mk .PI name value attributes_array elements_array)
          xml_tag_level string string_size string_index).status = 1 →
        ∃ name_size value_size, libfvalue_value_get_string_size enc name 0 = some name_size
          ∧ libfvalue_value_get_string_size enc value 0 = some value_size
          ∧ (get_xml_string_with_index enc
              (.mk .PI name value attributes_array elements_array)
              xml_tag_level string string_size string_index).string_index
            = string_index + (2 * xml_tag_level + 1 + name_size + value_size + 1 + 3)) := by
  have hc : xml_string_size enc (.mk .CDATA name value attributes_array elements_array)
      xml_tag_level
      = (libfvalue_value_get_string_size enc value 0).map
          (fun value_size => 2 * xml_tag_level + 1 + value_size + 9 + 3) := by
    rw [xml_string_size_eq]
    cases libfvalue_value_get_string_size enc value 0 with
    | none => rfl
    | some sz =>
      simp only [Option.map_some', Option.some.injEq]
      omega
  have hp : xml_string_size enc (.mk .PI name value attributes_array elements_array)
      xml_tag_level
      = (libfvalue_value_get_string_size enc name 0).bind (fun name_size =>
          (libfvalue_value_get_string_size enc value 0).map
            (fun value_size => 2 * xml_tag_level + 1 + name_size + value_size + 1 + 3)) := by
    rw [xml_string_size_eq]
    cases libfvalue_value_get_string_size enc name 0 with
    | none => rfl
    | some nsz =>
      cases libfvalue_value_get_string_size enc value 0 with
      | none => rfl
      | some sz =>
        simp only [Option.map_some', Option.some_bind, Option.some.injEq]
        omega
  refine ⟨hc, hp, ?_, ?_⟩
  · intro h
    obtain ⟨s, hs, hidx⟩ := write_index_generic enc _ xml_tag_level string string_size
      string_index h
    rw [hc] at hs
    cases hv : libfvalue_value_get_string_size enc value 0 with
    | none => simp [hv] at hs
    | some sz =>
      simp only [hv, Option.map_some', Option.some.injEq] at hs
      exact ⟨sz, rfl, by rw [hidx, hs]⟩
  · intro h
    obtain ⟨s, hs, hidx⟩ := write_index_generic enc _ xml_tag_level string string_size
      string_index h
    rw [hp] at hs
    cases hn : libfvalue_value_get_string_size enc name 0 with
    | none => simp [hn] at hs
    | some nsz =>
      cases hv : libfvalue_value_get_string_size enc value 0 with
      | none => simp [hn, hv] at hs
      | some sz =>
        simp only [hn, hv, Option.map_some', Option.some_bind, Option.some.injEq] at hs
        exact ⟨nsz, sz, rfl, rfl, by rw [hidx, hs]⟩

/-! ## The size of a Node as a closed formula -/

theorem attributes_string_size_sum (enc : Encoding) :
    ∀ (attrs : List (Option XmlTag)) (sizes : List AttributeSizes),
      List.Forall₂ (attribute_sizes enc) attrs sizes → ∀ acc,
      attributes_string_size enc attrs acc
        = some (acc + (sizes.map
            (fun a => a.name_size + 2 + a.value_size + (if a.time then 1 else 0))).sum) := by
  intro attrs sizes h
  induction h with
  | nil => intro acc; simp [attributes_string_size]
  | cons hhead _ ih =>
    intro acc
    obtain ⟨a, vt, e, hn, hty, htime, hv⟩ := hhead
    subst e
    simp only [attributes_string_size, hn, hty, hv, ih, List.map_cons, List.sum_cons, htime,
      Option.some.injEq]
    by_cases ht : is_time_type vt = true <;> simp [ht] <;> omega

theorem value_string_size_sum (enc : Encoding) (vt : ValueType) :
    ∀ (es : List ValueEntry) (sizes : List Nat),
      List.Forall₂ (fun e sz => ValueEntry.string_size enc e = some sz) es sizes → ∀ acc,
      value_string_size enc vt es acc
        = some (acc + reference_value_size (is_time_type vt) sizes) := by
  intro es sizes h
  induction h with
  | nil => intro acc; simp [value_string_size, reference_value_size]
  | @cons e sz es sizes hhead _ ih =>
    intro acc
    simp only [value_string_size, hhead, ih, Option.some.injEq]
    unfold reference_value_size
    simp only [List.map_cons, List.sum_cons]
    by_cases hs : sz > 1 <;> simp only [hs, if_true, if_false] <;> omega

theorem elements_string_size_sum (enc : Encoding) (L : Nat) :
    ∀ (es : List (Option XmlTag)) (sizes : List Nat),
      List.Forall₂ (fun e s => xml_string_size_entry enc e L = some s) es sizes → ∀ acc,
      elements_string_size enc es L acc
        = some (acc + (sizes.map (fun s => s - 1)).sum) := by
  intro es sizes h
  induction h with
  | nil => intro acc; rw [elements_string_size_nil]; simp
  | cons hhead _ ih =>
    intro acc
    rw [elements_string_size_cons, hhead]
    simp only [ih, List.map_cons, List.sum_cons, Option.some.injEq]
    omega

theorem node_size_generic (enc : Encoding) (name value : Option Value)
    (attributes_array elements_array : List (Option XmlTag)) (xml_tag_level : Nat)
    (name_size : Nat) (attributes : List AttributeSizes) (value_size : Option Nat)
    (child_sizes : List Nat)
    (hn : libfvalue_value_get_string_size enc name 0 = some name_size)
    (ha : List.Forall₂ (attribute_sizes enc) attributes_array attributes)
    (hv : value_sizes enc value value_size)
    (hc : value = none →
      List.Forall₂ (fun e s => xml_string_size_entry enc e (xml_tag_level + 1) = some s)
        elements_array child_sizes) :
    xml_string_size enc (.mk .NODE name value attributes_array elements_array) xml_tag_level
      = some (node_size xml_tag_level name_size attributes
          (reference_tail xml_tag_level name_size value_size child_sizes)) := by
  rw [xml_string_size_eq]
  simp only [hn, attributes_string_size_sum enc attributes_array attributes ha]
  cases value with
  | some v =>
    obtain ⟨entry_sizes, he, hvs⟩ := hv
    subst hvs
    simp only [value_string_size_sum enc v.type v.entries entry_sizes he, Nat.zero_add,
      reference_tail, node_size]
    by_cases hp : reference_value_size (is_time_type v.type) entry_sizes > 0
    · simp only [hp, if_true, Option.some.injEq]
      omega
    · simp only [hp, if_false, Option.some.injEq]
      omega
  | none =>
    have hvs : value_size = none := hv
    subst hvs
    have hkids := hc rfl
    cases hkids with
    | nil =>
      simp only [reference_tail, node_size, List.length_nil, Nat.lt_irrefl, if_false,
        Option.some.injEq]
      omega
    | @cons e s es ss h1 h2 =>
      simp only [elements_string_size_sum enc (xml_tag_level + 1) (e :: es) (s :: ss)
        (List.Forall₂.cons h1 h2), reference_tail, node_size, List.length_cons,
        Nat.succ_pos, if_true, Option.some.injEq]
      omega

/-! ## The two encodings -/

theorem every_entry_eq (p : ValueEntry → Bool) (type : XmlTagType) (name value : Option Value)
    (attrs elems : List (Option XmlTag)) :
    every_entry p (.mk type name value attrs elems)
      = (value_every p name && value_every p value
        && attributes_every p attrs && elements_every p elems) := by
  rw [every_entry]

theorem elements_every_cons_some (p : ValueEntry → Bool) (t : XmlTag)
    (rest : List (Option XmlTag)) :
    elements_every p (some t :: rest) = (every_entry p t && elements_every p rest) := by
  rw [elements_every, every_entry_of]

theorem value_every_entry {p : ValueEntry → Bool} {v : Value}
    (h : value_every p (some v) = true) : ∀ e ∈ v.entries, p e = true := by
  simpa [value_every, List.all_eq_true] using h

theorem get_string_size_same {value : Option Value}
    (h : value_every ValueEntry.same_string_size value = true) (i : Nat) :
    libfvalue_value_get_string_size Encoding.utf8 value i
      = libfvalue_value_get_string_size Encoding.utf16 value i := by
  unfold libfvalue_value_get_string_size
  cases value with
  | none => rfl
  | some v =>
    simp only
    cases he : v.entries[i]? with
    | none => rfl
    | some e =>
      have := value_every_entry h e (List.getElem?_mem he)
      simpa [ValueEntry.same_string_size] using this

theorem attributes_string_size_same :
    ∀ (attrs : List (Option XmlTag)),
      attributes_every ValueEntry.same_string_size attrs = true → ∀ acc,
      attributes_string_size Encoding.utf8 attrs acc
        = attributes_string_size Encoding.utf16 attrs acc := by
  intro attrs
  induction attrs with
  | nil => intro _ acc; simp [attributes_string_size]
  | cons x rest ih =>
    intro h acc
    cases x with
    | none => simp [attributes_string_size]
    | some a =>
      simp only [attributes_every, Bool.and_eq_true] at h
      obtain ⟨⟨h1, h2⟩, h3⟩ := h
      simp only [attributes_string_size, get_string_size_same h1, get_string_size_same h2,
        ih h3]

theorem value_string_size_same (vt : ValueType) :
    ∀ (es : List ValueEntry), (∀ e ∈ es, ValueEntry.same_string_size e = true) → ∀ acc,
      value_string_size Encoding.utf8 vt es acc = value_string_size Encoding.utf16 vt es acc := by
  intro es
  induction es with
  | nil => intro _ acc; simp [value_string_size]
  | cons e rest ih =>
    intro h acc
    have he : ValueEntry.string_size Encoding.utf8 e = ValueEntry.string_size Encoding.utf16 e := by
      simpa [ValueEntry.same_string_size] using h e (List.mem_cons_self _ _)
    simp only [value_string_size, he, ih (fun x hx => h x (List.mem_cons_of_mem _ hx))]

theorem xml_string_size_same_both :
    (∀ (t : XmlTag), every_entry ValueEntry.same_string_size t = true → ∀ L,
      xml_string_size Encoding.utf8 t L = xml_string_size Encoding.utf16 t L)
    ∧ (∀ (es : List (Option XmlTag)),
      elements_every ValueEntry.same_string_size es = true → ∀ L acc,
      elements_string_size Encoding.utf8 es L acc
        = elements_string_size Encoding.utf16 es L acc) := by
  apply XmlTag.induct
  · intro type name value attrs elems IH h L
    rw [every_entry_eq] at h
    simp only [Bool.and_eq_true] at h
    obtain ⟨⟨⟨h1, h2⟩, h3⟩, h4⟩ := h
    rw [xml_string_size_eq, xml_string_size_eq]
    cases type with
    | NODE =>
      simp only [get_string_size_same h1, attributes_string_size_same attrs h3]
      cases value with
      | some v =>
        simp only [value_string_size_same v.type v.entries (value_every_entry h2)]
      | none =>
        cases elems with
        | nil => rfl
        | cons e es => simp only [IH h4]
    | CDATA => simp only [get_string_size_same h2]
    | PI => simp only [get_string_size_same h1, get_string_size_same h2]
  · intro _ L acc
    rw [elements_string_size_nil, elements_string_size_nil]
  · intro rest _ _ L acc
    rw [elements_string_size_cons, elements_string_size_cons, xml_string_size_entry_none,
      xml_string_size_entry_none]
  · intro t rest IHt IHrest h L acc
    rw [elements_every_cons_some] at h
    simp only [Bool.and_eq_true] at h
    rw [elements_string_size_cons, elements_string_size_cons, xml_string_size_entry_some,
      xml_string_size_entry_some, IHt h.1 L]
    simp only [IHrest h.2]

/-- C28: when every entry of the names and values of a tag, of its attributes
and of its sub elements at every depth reports the same string size through
the UTF-8 and through the UTF-16 size primitive, the two size computations
return the same status and the same size at every level. -/
theorem utf8_and_utf16_sizes_agree (xml_tag : XmlTag) (xml_tag_level : Nat)
    (h : every_entry ValueEntry.same_string_size xml_tag = true) :
    libevtx_xml_tag_get_utf8_xml_string_size xml_tag xml_tag_level
      = libevtx_xml_tag_get_utf16_xml_string_size xml_tag xml_tag_level :=
  xml_string_size_same_both.1 xml_tag h xml_tag_level

/-- Witness for C28: the block of scenario (c) has size 32 at level 1 in both
encodings. -/
theorem utf8_and_utf16_sizes_agree_witness :
    every_entry ValueEntry.same_string_size block_tag = true
    ∧ libevtx_xml_tag_get_utf8_xml_string_size block_tag 1 = some 32
    ∧ libevtx_xml_tag_get_utf8_xml_string_size block_tag 1
      = libevtx_xml_tag_get_utf16_xml_string_size block_tag 1 :=
  ⟨by decide, by decide, utf8_and_utf16_sizes_agree block_tag 1 (by decide)⟩

/-! ## The writer apart from the buffer, in the two encodings -/

theorem outline_eq_iff {st st' : WState} :
    st.outline = st'.outline ↔ st.index = st'.index ∧ st.oob = st'.oob := by
  simp [WState.outline]

theorem store_outline (cap v : Nat) {st st' : WState} (h : st.outline = st'.outline) :
    (store cap st v).outline = (store cap st' v).outline := by
  obtain ⟨h1, h2⟩ := outline_eq_iff.1 h
  simp [WState.outline, store, h1, h2]

theorem store_list_outline (cap : Nat) : ∀ (l : List Nat) {st st' : WState},
    st.outline = st'.outline → (store_list cap st l).outline = (store_list cap st' l).outline := by
  intro l
  induction l with
  | nil => intro st st' h; exact h
  | cons a l ih =>
    intro st st' h
    show (store_list cap (store cap st a) l).outline = (store_list cap (store cap st' a) l).outline
    exact ih (store_outline cap a h)

theorem indent_outline (cap : Nat) : ∀ (n : Nat) {st st' : WState},
    st.outline = st'.outline → (indent cap n st).outline = (indent cap n st').outline := by
  intro n
  induction n with
  | zero => intro st st' h; simpa [indent] using h
  | succ n ih =>
    intro st st' h
    simp only [indent]
    exact ih (store_outline cap 32 (store_outline cap 32 h))

theorem rewind_outline {st st' : WState} (h : st.outline = st'.outline) :
    (rewind st).outline = (rewind st').outline := by
  obtain ⟨h1, h2⟩ := outline_eq_iff.1 h
  simp [WState.outline, rewind, h1, h2]

theorem write_trailer_outline (cap : Nat) {st st' : WState} (h : st.outline = st'.outline) :
    (write_trailer cap st).outline = (write_trailer cap st').outline :=
  store_outline cap 0 (store_outline cap 10 (store_outline cap 62 h))

theorem ok_outline {st st' : WState} (h : st.outline = st'.outline) :
    WResult.outline (.ok st) = WResult.outline (.ok st') := by
  simp [WResult.outline, h]

theorem error_outline (code : ErrorCode) {st st' : WState} (h : st.outline = st'.outline) :
    WResult.outline (.error (code, st)) = WResult.outline (.error (code, st')) := by
  simp [WResult.outline, h]

theorem require_room_outline (cap n : Nat) {st st' : WState} (h : st.outline = st'.outline) :
    (require_room cap n st).outline = (require_room cap n st').outline := by
  obtain ⟨h1, -⟩ := outline_eq_iff.1 h
  unfold require_room
  rw [h1]
  split
  · exact error_outline _ h
  · exact ok_outline h

theorem andThen_outline {r r' : WResult} {f f' : WState → WResult}
    (h : r.outline = r'.outline)
    (hf : ∀ s s' : WState, s.outline = s'.outline → (f s).outline = (f' s').outline) :
    (r.andThen f).outline = (r'.andThen f').outline := by
  cases r with
  | ok s =>
    cases r' with
    | ok s' =>
      simp only [WResult.outline, Except.ok.injEq] at h
      exact hf s s' h
    | error e => cases e; simp [WResult.outline] at h
  | error e =>
    cases r' with
    | ok s' => cases e; simp [WResult.outline] at h
    | error e' => exact h

theorem same_rendering_size {e : ValueEntry} (h : ValueEntry.same_rendering e = true) :
    ValueEntry.string_size Encoding.utf8 e = ValueEntry.string_size Encoding.utf16 e := by
  have : ValueEntry.string Encoding.utf8 e = ValueEntry.string Encoding.utf16 e := by
    simpa [ValueEntry.same_rendering] using h
  simp only [ValueEntry.string_size, this]

theorem copy_value_outline {value : Option Value}
    (hv : value_every ValueEntry.same_rendering value = true) (i cap : Nat)
    {st st' : WState} (h : st.outline = st'.outline) :
    (copy_value Encoding.utf8 value i cap st).outline
      = (copy_value Encoding.utf16 value i cap st').outline := by
  obtain ⟨h1, -⟩ := outline_eq_iff.1 h
  unfold copy_value libfvalue_value_copy_to_string_with_index
  cases value with
  | none => exact error_outline _ h
  | some v =>
    simp only
    cases he : v.entries[i]? with
    | none => exact error_outline _ h
    | some e =>
      have hr : ValueEntry.string Encoding.utf8 e = ValueEntry.string Encoding.utf16 e := by
        simpa [ValueEntry.same_rendering] using
          value_every_entry hv e (List.getElem?_mem he)
      simp only [hr]
      cases ValueEntry.string Encoding.utf16 e with
      | none => exact error_outline _ h
      | some r =>
        simp only [h1]
        by_cases hc : st'.index + (r.length + 1) > cap
        · simp only [hc, if_true]
          exact error_outline _ h
        · simp only [hc, if_false]
          exact ok_outline (rewind_outline (store_list_outline cap _ h))

theorem write_attributes_outline (cap : Nat) :
    ∀ (attrs : List (Option XmlTag)),
      attributes_every ValueEntry.same_rendering attrs = true →
      ∀ {st st' : WState}, st.outline = st'.outline →
      (write_attributes Encoding.utf8 cap attrs st).outline
        = (write_attributes Encoding.utf16 cap attrs st').outline := by
  intro attrs
  induction attrs with
  | nil => intro _ st st' h; simpa [write_attributes] using ok_outline h
  | cons x rest ih =>
    intro hall st st' h
    cases x with
    | none => simpa [write_attributes] using error_outline _ h
    | some a =>
      simp only [attributes_every, Bool.and_eq_true] at hall
      obtain ⟨⟨f1, f2⟩, f3⟩ := hall
      simp only [write_attributes]
      apply andThen_outline (require_room_outline cap 1 h)
      intro s s' hs
      apply andThen_outline (copy_value_outline f1 0 cap (store_outline cap 32 hs))
      intro s s' hs
      apply andThen_outline (require_room_outline cap 2 hs)
      intro s s' hs
      cases libfvalue_value_get_type a.value with
      | none => exact error_outline _ (store_outline cap 34 (store_outline cap 61 hs))
      | some vt =>
        simp only
        apply andThen_outline
          (copy_value_outline f2 0 cap (store_outline cap 34 (store_outline cap 61 hs)))
        intro s s' hs
        apply andThen_outline (require_room_outline cap 1 hs)
        intro s s' hs
        split
        · apply andThen_outline (require_room_outline cap 1 hs)
          intro s s' hs
          exact ih f3 (store_outline cap 34 (store_outline cap 90 hs))
        · exact ih f3 (store_outline cap 34 hs)

theorem write_value_entries_outline (cap : Nat) (value : Value)
    (hv : value_every ValueEntry.same_rendering (some value) = true) :
    ∀ (es : List ValueEntry), (∀ e ∈ es, ValueEntry.same_rendering e = true) →
      ∀ (i : Nat) {st st' : WState}, st.outline = st'.outline →
      (write_value_entries Encoding.utf8 cap value es i st).outline
        = (write_value_entries Encoding.utf16 cap value es i st').outline := by
  intro es
  induction es with
  | nil => intro _ i st st' h; simpa [write_value_entries] using ok_outline h
  | cons e rest ih =>
    intro hall i st st' h
    have he := same_rendering_size (hall e (List.mem_cons_self _ _))
    have hrest : ∀ x ∈ rest, ValueEntry.same_rendering x = true :=
      fun x hx => hall x (List.mem_cons_of_mem _ hx)
    simp only [write_value_entries, he]
    cases ValueEntry.string_size Encoding.utf16 e with
    | none => exact error_outline _ h
    | some sz =>
      simp only
      split
      · apply andThen_outline (copy_value_outline hv i cap h)
        intro s s' hs
        split
        · apply andThen_outline (require_room_outline cap 1 hs)
          intro s s' hs
          exact ih hrest (i + 1) (store_outline cap 90 hs)
        · exact ih hrest (i + 1) hs
      · exact ih hrest (i + 1) h

theorem value_string_size_same_rendering (v : Value)
    (hv : value_every ValueEntry.same_rendering (some v) = true) :
    value_string_size Encoding.utf8 v.type v.entries 0
      = value_string_size Encoding.utf16 v.type v.entries 0 :=
  value_string_size_same v.type v.entries
    (fun e he => by
      have := same_rendering_size (value_every_entry hv e he)
      simpa [ValueEntry.same_string_size] using this) 0

theorem xml_string_with_index_outline_both :
    (∀ (t : XmlTag), every_entry ValueEntry.same_rendering t = true →
      ∀ (L cap : Nat) (st st' : WState), st.outline = st'.outline →
      (xml_string_with_index Encoding.utf8 t L cap st).outline
        = (xml_string_with_index Encoding.utf16 t L cap st').outline)
    ∧ (∀ (es : List (Option XmlTag)), elements_every ValueEntry.same_rendering es = true →
      ∀ (L cap : Nat) (st st' : WState), st.outline = st'.outline →
      (write_elements Encoding.utf8 es L cap st).outline
        = (write_elements Encoding.utf16 es L cap st').outline) := by
  apply XmlTag.induct
  · intro type name value attrs elems IH hall L cap st st' h
    rw [every_entry_eq] at hall
    simp only [Bool.and_eq_true] at hall
    obtain ⟨⟨⟨f1, f2⟩, f3⟩, f4⟩ := hall
    rw [xml_string_with_index_eq, xml_string_with_index_eq]
    by_cases hmax : cap > SSIZE_MAX
    · rw [if_pos hmax, if_pos hmax]
      exact error_outline _ h
    rw [if_neg hmax, if_neg hmax]
    apply andThen_outline (require_room_outline cap _ h)
    intro s s' hs
    have h0 : (store cap (indent cap L s) 60).outline = (store cap (indent cap L s') 60).outline :=
      store_outline cap 60 (indent_outline cap L hs)
    cases type with
    | NODE =>
      simp only
      apply andThen_outline (copy_value_outline f1 0 cap h0)
      intro s s' hs
      apply andThen_outline (write_attributes_outline cap attrs f3 hs)
      intro s s' hs
      apply andThen_outline
      · cases value with
        | some v =>
          simp only [value_string_size_same_rendering v f2]
          cases value_string_size Encoding.utf16 v.type v.entries 0 with
          | none => exact error_outline _ hs
          | some value_size =>
            simp only
            split
            · apply andThen_outline (require_room_outline cap 1 hs)
              intro s s' hs
              apply andThen_outline
                (write_value_entries_outline cap v f2 v.entries (value_every_entry f2) 0
                  (store_outline cap 62 hs))
              intro s s' hs
              apply andThen_outline (require_room_outline cap 2 hs)
              intro s s' hs
              exact copy_value_outline f1 0 cap (store_outline cap 47 (store_outline cap 60 hs))
            · apply andThen_outline (require_room_outline cap 1 hs)
              intro s s' hs
              exact ok_outline (store_outline cap 47 hs)
        | none =>
          cases elems with
          | nil =>
            simp only
            apply andThen_outline (require_room_outline cap 1 hs)
            intro s s' hs
            exact ok_outline (store_outline cap 47 hs)
          | cons e es =>
            simp only
            apply andThen_outline (require_room_outline cap 2 hs)
            intro s s' hs
            apply andThen_outline
              (IH f4 (L + 1) cap _ _ (store_outline cap 10 (store_outline cap 62 hs)))
            intro s s' hs
            apply andThen_outline (require_room_outline cap (L * 2) hs)
            intro s s' hs
            apply andThen_outline (require_room_outline cap 2 (indent_outline cap L hs))
            intro s s' hs
            exact copy_value_outline f1 0 cap (store_outline cap 47 (store_outline cap 60 hs))
      · intro s s' hs
        apply andThen_outline (require_room_outline cap 3 hs)
        intro s s' hs
        exact ok_outline (write_trailer_outline cap hs)
    | CDATA =>
      simp only
      apply andThen_outline (require_room_outline cap 8 h0)
      intro s s' hs
      apply andThen_outline (copy_value_outline f2 0 cap (store_list_outline cap _ hs))
      intro s s' hs
      apply andThen_outline (require_room_outline cap 2 hs)
      intro s s' hs
      exact ok_outline (write_trailer_outline cap (store_outline cap 93 (store_outline cap 93 hs)))
    | PI =>
      simp only
      apply andThen_outline (require_room_outline cap 1 h0)
      intro s s' hs
      apply andThen_outline (copy_value_outline f1 0 cap (store_outline cap 63 hs))
      intro s s' hs
      apply andThen_outline (require_room_outline cap 1 hs)
      intro s s' hs
      apply andThen_outline (copy_value_outline f2 0 cap (store_outline cap 32 hs))
      intro s s' hs
      apply andThen_outline (require_room_outline cap 1 hs)
      intro s s' hs
      exact ok_outline (write_trailer_outline cap (store_outline cap 63 hs))
  · intro _ L cap st st' h
    rw [write_elements_nil, write_elements_nil]
    exact ok_outline h
  · intro rest _ _ L cap st st' h
    rw [write_elements_cons, write_elements_cons, xml_string_with_index_entry_none,
      xml_string_with_index_entry_none]
    exact error_outline _ h
  · intro t rest IHt IHrest hall L cap st st' h
    rw [elements_every_cons_some] at hall
    simp only [Bool.and_eq_true] at hall
    rw [write_elements_cons, write_elements_cons, xml_string_with_index_entry_some,
      xml_string_with_index_entry_some]
    have key := IHt hall.1 L cap st st' h
    cases h8 : xml_string_with_index Encoding.utf8 t L cap st with
    | ok s =>
      cases h16 : xml_string_with_index Encoding.utf16 t L cap st' with
      | ok s' =>
        rw [h8, h16] at key
        simp only [WResult.outline, Except.ok.injEq] at key
        exact IHrest hall.2 L cap _ _ (rewind_outline key)
      | error e =>
        rw [h8, h16] at key
        cases e
        simp [WResult.outline] at key
    | error e =>
      cases e with
      | mk c s =>
        cases h16 : xml_string_with_index Encoding.utf16 t L cap st' with
        | ok s' =>
          rw [h8, h16] at key
          simp [WResult.outline] at key
        | error e' =>
          cases e' with
          | mk c' s' =>
            rw [h8, h16] at key
            simp only [WResult.outline, Except.error.injEq, Prod.mk.injEq] at key
            exact error_outline _ key.2

theorem value_entry_string_same {value : Option Value}
    (h : value_every ValueEntry.same_rendering value = true) (i : Nat) :
    value_entry_string Encoding.utf8 value i = value_entry_string Encoding.utf16 value i := by
  unfold value_entry_string
  cases value with
  | none => rfl
  | some v =>
    simp only
    cases he : v.entries[i]? with
    | none => rfl
    | some e =>
      have := value_every_entry h e (List.getElem?_mem he)
      simpa [ValueEntry.same_rendering] using this

theorem attributes_text_same :
    ∀ (attrs : List (Option XmlTag)),
      attributes_every ValueEntry.same_rendering attrs = true →
      attributes_text Encoding.utf8 attrs = attributes_text Encoding.utf16 attrs := by
  intro attrs
  induction attrs with
  | nil => intro _; simp [attributes_text]
  | cons x rest ih =>
    intro h
    cases x with
    | none => simp [attributes_text]
    | some a =>
      simp only [attributes_every, Bool.and_eq_true] at h
      obtain ⟨⟨h1, h2⟩, h3⟩ := h
      simp only [attributes_text, value_entry_string_same h1, value_entry_string_same h2,
        ih h3]

theorem value_text_same (vt : ValueType) :
    ∀ (es : List ValueEntry), (∀ e ∈ es, ValueEntry.same_rendering e = true) →
      value_text Encoding.utf8 vt es = value_text Encoding.utf16 vt es := by
  intro es
  induction es with
  | nil => intro _; simp [value_text]
  | cons e rest ih =>
    intro h
    have he : ValueEntry.string Encoding.utf8 e = ValueEntry.string Encoding.utf16 e := by
      simpa [ValueEntry.same_rendering] using h e (List.mem_cons_self _ _)
    simp only [value_text, he, ih (fun x hx => h x (List.mem_cons_of_mem _ hx))]

theorem xml_text_same_both :
    (∀ (t : XmlTag), every_entry ValueEntry.same_rendering t = true → ∀ L,
      xml_text Encoding.utf8 t L = xml_text Encoding.utf16 t L)
    ∧ (∀ (es : List (Option XmlTag)), elements_every ValueEntry.same_rendering es = true →
      ∀ L, elements_text Encoding.utf8 es L = elements_text Encoding.utf16 es L) := by
  apply XmlTag.induct
  · intro type name value attrs elems IH h L
    rw [every_entry_eq] at h
    simp only [Bool.and_eq_true] at h
    obtain ⟨⟨⟨h1, h2⟩, h3⟩, h4⟩ := h
    rw [xml_text_eq, xml_text_eq]
    cases type with
    | NODE =>
      simp only [value_entry_string_same h1, attributes_text_same attrs h3]
      cases value with
      | some v => simp only [value_text_same v.type v.entries (value_every_entry h2)]
      | none =>
        cases elems with
        | nil => rfl
        | cons e es => simp only [IH h4]
    | CDATA => simp only [value_entry_string_same h2]
    | PI => simp only [value_entry_string_same h1, value_entry_string_same h2]
  · intro _ L
    rw [elements_text_nil, elements_text_nil]
  · intro rest _ _ L
    rw [elements_text_cons, elements_text_cons, xml_text_entry_none, xml_text_entry_none]
  · intro t rest IHt IHrest h L
    rw [elements_every_cons_some] at h
    simp only [Bool.and_eq_true] at h
    rw [elements_text_cons, elements_text_cons, xml_text_entry_some, xml_text_entry_some,
      IHt h.1 L, IHrest h.2 L]

theorem get_xml_string_with_index_outline {enc enc' : Encoding} {t : XmlTag} {L cap i0 : Nat}
    {buf buf' : List Nat}
    (h : (xml_string_with_index enc t L cap { buf := buf, index := i0, oob := false }).outline
      = (xml_string_with_index enc' t L cap { buf := buf', index := i0, oob := false }).outline) :
    (get_xml_string_with_index enc t L buf cap i0).status
        = (get_xml_string_with_index enc' t L buf' cap i0).status
    ∧ (get_xml_string_with_index enc t L buf cap i0).error
        = (get_xml_string_with_index enc' t L buf' cap i0).error
    ∧ (get_xml_string_with_index enc t L buf cap i0).string_index
        = (get_xml_string_with_index enc' t L buf' cap i0).string_index
    ∧ (get_xml_string_with_index enc t L buf cap i0).oob
        = (get_xml_string_with_index enc' t L buf' cap i0).oob := by
  unfold get_xml_string_with_index
  cases h1 : xml_string_with_index enc t L cap { buf := buf, index := i0, oob := false } with
  | ok s =>
    cases h2 : xml_string_with_index enc' t L cap { buf := buf', index := i0, oob := false } with
    | ok s' =>
      rw [h1, h2] at h
      simp only [WResult.outline, Except.ok.injEq] at h
      obtain ⟨e1, e2⟩ := outline_eq_iff.1 h
      exact ⟨rfl, rfl, e1, e2⟩
    | error e =>
      rw [h1, h2] at h
      cases e
      simp [WResult.outline] at h
  | error e =>
    cases e with
    | mk c s =>
      cases h2 : xml_string_with_index enc' t L cap { buf := buf', index := i0, oob := false } with
      | ok s' =>
        rw [h1, h2] at h
        simp [WResult.outline] at h
      | error e' =>
        cases e' with
        | mk c' s' =>
          rw [h1, h2] at h
          simp only [WResult.outline, Except.error.injEq, Prod.mk.injEq] at h
          obtain ⟨hc, ho⟩ := h
          subst hc
          obtain ⟨-, e2⟩ := outline_eq_iff.1 ho
          exact ⟨rfl, rfl, rfl, e2⟩

/-- C29: when for every entry of the names and values of a tag, of its
attributes and of its sub elements at every depth the two copy primitives
write the same unit values (and so report the same sizes, or fail both), the
UTF-8 and the UTF-16 writer, called with the same level, capacity and entry
index on buffers with any contents, return the same status and error code
and store back the same index; and after a return of 1 on buffers that have
the capacity, the units from the entry index up to the new index have the
same values in both buffers, position by position below the capacity. -/
theorem utf8_and_utf16_writers_agree (xml_tag : XmlTag) (xml_tag_level : Nat)
    (utf8_string utf16_string : List Nat) (string_size string_index : Nat)
    (h : every_entry ValueEntry.same_rendering xml_tag = true) :
    (libevtx_xml_tag_get_utf8_xml_string_with_index xml_tag xml_tag_level utf8_string
        string_size string_index).status
      = (libevtx_xml_tag_get_utf16_xml_string_with_index xml_tag xml_tag_level utf16_string
        string_size string_index).status
    ∧ (libevtx_xml_tag_get_utf8_xml_string_with_index xml_tag xml_tag_level utf8_string
        string_size string_index).error
      = (libevtx_xml_tag_get_utf16_xml_string_with_index xml_tag xml_tag_level utf16_string
        string_size string_index).error
    ∧ (libevtx_xml_tag_get_utf8_xml_string_with_index xml_tag xml_tag_level utf8_string
        string_size string_index).string_index
      = (libevtx_xml_tag_get_utf16_xml_string_with_index xml_tag xml_tag_level utf16_string
        string_size string_index).string_index
    ∧ (string_size ≤ utf8_string.length → string_size ≤ utf16_string.length →
        (libevtx_xml_tag_get_utf8_xml_string_with_index xml_tag xml_tag_level utf8_string
          string_size string_index).status = 1 →
        ∀ j, string_index ≤ j →
          j < (libevtx_xml_tag_get_utf8_xml_string_with_index xml_tag xml_tag_level
            utf8_string string_size string_index).string_index →
          j < string_size →
          (libevtx_xml_tag_get_utf8_xml_string_with_index xml_tag xml_tag_level utf8_string
            string_size string_index).string[j]?
          = (libevtx_xml_tag_get_utf16_xml_string_with_index xml_tag xml_tag_level
            utf16_string string_size string_index).string[j]?) := by
  have hout := get_xml_string_with_index_outline
    (xml_string_with_index_outline_both.1 xml_tag h xml_tag_level string_size
      { buf := utf8_string, index := string_index, oob := false }
      { buf := utf16_string, index := string_index, oob := false } rfl)
  unfold libevtx_xml_tag_get_utf8_xml_string_with_index
    libevtx_xml_tag_get_utf16_xml_string_with_index
  refine ⟨hout.1, hout.2.1, hout.2.2.1, ?_⟩
  intro hb8 hb16 hs j hj1 hj2 hj3
  have hs16 : (get_xml_string_with_index Encoding.utf16 xml_tag xml_tag_level utf16_string
      string_size string_index).status = 1 := by rw [← hout.1]; exact hs
  obtain ⟨w, hw, hidx, hu⟩ := get_xml_string_with_index_units Encoding.utf8 xml_tag
    xml_tag_level utf8_string string_size string_index hb8 hs
  obtain ⟨w', hw', -, hu'⟩ := get_xml_string_with_index_units Encoding.utf16 xml_tag
    xml_tag_level utf16_string string_size string_index hb16 hs16
  rw [← xml_text_same_both.1 xml_tag h xml_tag_level, hw] at hw'
  simp only [Option.some.injEq] at hw'
  subst hw'
  rw [hidx] at hj2
  have e : j = string_index + (j - string_index) := by omega
  rw [e, hu _ (by omega) (by omega), hu' _ (by omega) (by omega)]

/-- Witness for C29: scenario (b), written by the UTF-8 writer into a zeroed
buffer and by the UTF-16 writer into a buffer holding 7. -/
theorem utf8_and_utf16_writers_agree_witness :
    every_entry ValueEntry.same_rendering data_tag = true
    ∧ (libevtx_xml_tag_get_utf8_xml_string_with_index data_tag 0 (List.replicate 27 0) 27
        0).string = units "<Data Name=\"Id\">42</Data>\n" ++ [0]
    ∧ (libevtx_xml_tag_get_utf16_xml_string_with_index data_tag 0 (List.replicate 30 7) 27
        0).string = units "<Data Name=\"Id\">42</Data>\n" ++ [0, 7, 7, 7]
    ∧ (libevtx_xml_tag_get_utf8_xml_string_with_index data_tag 0 (List.replicate 27 0) 27
        0).status
      = (libevtx_xml_tag_get_utf16_xml_string_with_index data_tag 0 (List.replicate 30 7) 27
        0).status :=
  ⟨by decide, by decide, by decide,
   (utf8_and_utf16_writers_agree data_tag 0 (List.replicate 27 0) (List.replicate 30 7) 27 0
     (by decide)).1⟩

/-! ## Debug print and writer -/

/-- C30 (the code departs from it): for the element `T` whose FILETIME value has
the entries `2020` and an empty one, the writer stores `<T>2020Z</T>`, newline,
NUL, and the debug print sends `<T>2020ZZ</T>`, newline, to the sink: one `Z`
more, after the empty entry.  For the string value with the entries `a`, empty
and `b` both give `<T>ab</T>` and newline. -/
theorem debug_print_adds_z_after_empty_entry :
    libevtx_xml_tag_get_utf8_xml_string_with_index empty_entry_time_tag 0
        (List.replicate 14 0) 14 0
      = { status := 1, error := none, string := units "<T>2020Z</T>\n" ++ [0],
          string_index := 14, oob := false }
    ∧ libevtx_xml_tag_debug_print empty_entry_time_tag 0
      = { status := 1, error := none, sink := units "<T>2020ZZ</T>\n" }
    ∧ (libevtx_xml_tag_debug_print empty_entry_time_tag 0).sink
      ≠ (libevtx_xml_tag_get_utf8_xml_string_with_index empty_entry_time_tag 0
          (List.replicate 14 0) 14 0).string.dropLast
    ∧ libevtx_xml_tag_get_utf8_xml_string_with_index empty_entry_text_tag 0
        (List.replicate 11 0) 11 0
      = { status := 1, error := none, string := units "<T>ab</T>\n" ++ [0],
          string_index := 11, oob := false }
    ∧ libevtx_xml_tag_debug_print empty_entry_text_tag 0
      = { status := 1, error := none, sink := units "<T>ab</T>\n" } := by
  decide

/-! ## The acceptance condition of the name comparison -/

theorem dropLast_map_cons_iff (f : Nat → Nat) (a b : Nat) (s t : List Nat)
    (hl : s.length = t.length) :
    (a :: s).dropLast.map f = (b :: t).dropLast.map f
      ↔ (s = [] ∧ t = []) ∨ (s ≠ [] ∧ f a = f b ∧ s.dropLast.map f = t.dropLast.map f) := by
  cases s with
  | nil =>
    cases t with
    | nil => simp
    | cons y t => simp at hl
  | cons x s =>
    cases t with
    | nil => simp at hl
    | cons y t => simp [List.dropLast]

theorem decode_string_at_end (decoder : Decoder) (stream : List Nat) (size fuel : Nat) :
    decode_string decoder stream size fuel size = some [] := by
  cases fuel <;> simp [decode_string]

theorem decode_string_step {decoder : Decoder} {stream : List Nat} {size index c next : Nat}
    {fuel : Nat} {cs : List Nat} (hlt : index < size)
    (hr : decoder.run stream size index = some (c, next))
    (hd : decode_string decoder stream size fuel next = some cs) :
    decode_string decoder stream size (fuel + 1) index = some (c :: cs) := by
  simp only [decode_string]
  rw [if_neg (by omega), if_neg (by omega), hr]
  simp only [hd, Option.map_some']

theorem name_compare_loop_accepts (towupper : Nat → Nat) (nd sd : Decoder) (data : List Nat)
    (size : Nat) (string : List Nat) (len : Nat) :
    ∀ (fuel ni si f1 f2 : Nat) (cn cs : List Nat),
      decode_string nd data size f1 ni = some cn →
      decode_string sd string len f2 si = some cs →
      cn.length = cs.length →
      cn.dropLast.map towupper = cs.dropLast.map towupper →
      size ≤ ni + fuel →
      name_compare_loop towupper nd sd data size string len fuel ni si = .ok (size, len) := by
  intro fuel
  induction fuel with
  | zero =>
    intro ni si f1 f2 cn cs h1 h2 hl hm hf
    have hle := (decode_string_nil_iff h1).2
    have e1 : ni = size := by omega
    have c1 : cn = [] := (decode_string_nil_iff h1).1.1 e1
    have c2 : cs = [] := by
      rw [c1] at hl
      exact List.length_eq_zero.1 hl.symm
    have e2 : si = len := (decode_string_nil_iff h2).1.2 c2
    simp only [name_compare_loop, e1, e2]
  | succ fuel ih =>
    intro ni si f1 f2 cn cs h1 h2 hl hm hf
    simp only [name_compare_loop]
    rcases decode_string_cases h1 with ⟨e1, c1⟩ | ⟨l1, g1, a, n1, t1, -, r1, d1, rfl⟩
    · have c2 : cs = [] := by
        rw [c1] at hl
        exact List.length_eq_zero.1 hl.symm
      have e2 : si = len := (decode_string_nil_iff h2).1.2 c2
      rw [if_neg (by omega), e1, e2]
    · rcases decode_string_cases h2 with ⟨e2, c2⟩ | ⟨l2, g2, b, n2, t2, -, r2, d2, rfl⟩
      · rw [c2] at hl
        simp at hl
      · rw [if_pos l1, if_neg (by omega)]
        simp only [r1, r2]
        simp only [List.length_cons, Nat.add_right_cancel_iff] at hl
        have hcases := (dropLast_map_cons_iff towupper a b t1 t2 hl).1 hm
        by_cases hc : towupper a ≠ towupper b
        · rw [if_pos hc]
          rcases hcases with ⟨z1, z2⟩ | ⟨-, hab, -⟩
          · have e1 : n1 = size := (decode_string_nil_iff d1).1.2 z1
            have e2 : n2 = len := (decode_string_nil_iff d2).1.2 z2
            rw [e1, e2]
          · exact absurd hab hc
        · rw [if_neg hc]
          have hadv := nd.advances _ _ _ _ _ r1
          apply ih n1 n2 g1 g2 t1 t2 d1 d2 hl ?_ (by omega)
          rcases hcases with ⟨z1, z2⟩ | ⟨-, -, hrest⟩
          · rw [z1, z2]
          · exact hrest

theorem name_compare_loop_accepted (towupper : Nat → Nat) (nd sd : Decoder) (data : List Nat)
    (size : Nat) (string : List Nat) (len : Nat) :
    ∀ (fuel ni si : Nat),
      name_compare_loop towupper nd sd data size string len fuel ni si = .ok (size, len) →
      ∃ f1 f2 cn cs,
        decode_string nd data size f1 ni = some cn
        ∧ decode_string sd string len f2 si = some cs
        ∧ cn.length = cs.length
        ∧ cn.dropLast.map towupper = cs.dropLast.map towupper := by
  intro fuel
  induction fuel with
  | zero =>
    intro ni si h
    simp only [name_compare_loop, Except.ok.injEq, Prod.mk.injEq] at h
    obtain ⟨e1, e2⟩ := h
    subst e1 e2
    exact ⟨0, 0, [], [], decode_string_at_end _ _ _ _, decode_string_at_end _ _ _ _, rfl, rfl⟩
  | succ fuel ih =>
    intro ni si h
    simp only [name_compare_loop] at h
    by_cases hni : ni < size
    · rw [if_pos hni] at h
      by_cases hsi : si ≥ len
      · rw [if_pos hsi] at h
        simp only [Except.ok.injEq, Prod.mk.injEq] at h
        omega
      · rw [if_neg hsi] at h
        cases r1 : nd.run data size ni with
        | none => simp [r1] at h
        | some p =>
          obtain ⟨a, n1⟩ := p
          simp only [r1] at h
          cases r2 : sd.run string len si with
          | none => simp [r2] at h
          | some q =>
            obtain ⟨b, n2⟩ := q
            simp only [r2] at h
            by_cases hc : towupper a ≠ towupper b
            · rw [if_pos hc] at h
              simp only [Except.ok.injEq, Prod.mk.injEq] at h
              obtain ⟨e1, e2⟩ := h
              subst e1 e2
              exact ⟨1, 1, [a], [b],
                decode_string_step hni r1 (decode_string_at_end _ _ _ _),
                decode_string_step (by omega) r2 (decode_string_at_end _ _ _ _), rfl, rfl⟩
            · rw [if_neg hc] at h
              obtain ⟨f1, f2, cn, cs, d1, d2, hl, hm⟩ := ih n1 n2 h
              refine ⟨f1 + 1, f2 + 1, a :: cn, b :: cs, decode_string_step hni r1 d1,
                decode_string_step (by omega) r2 d2, by simp [hl], ?_⟩
              rw [dropLast_map_cons_iff towupper a b cn cs hl]
              by_cases hz : cn = []
              · left
                refine ⟨hz, ?_⟩
                rw [hz] at hl
                exact List.length_eq_zero.1 hl.symm
              · right
                exact ⟨hz, by simpa using hc, hm⟩
    · rw [if_neg hni] at h
      simp only [Except.ok.injEq, Prod.mk.injEq] at h
      obtain ⟨e1, e2⟩ := h
      subst e1 e2
      exact ⟨0, 0, [], [], decode_string_at_end _ _ _ _, decode_string_at_end _ _ _ _, rfl, rfl⟩

theorem comparable_name_spec {entry : Option XmlTag} {data : List Nat}
    (h : comparable_name entry = some data) :
    ∃ t, entry = some t ∧ libfvalue_value_get_type t.name = some ValueType.STRING_UTF16
      ∧ libfvalue_value_get_entry_data t.name 0 = some data ∧ 2 ≤ data.length := by
  cases entry with
  | none => simp [comparable_name] at h
  | some t =>
    simp only [comparable_name] at h
    by_cases ht : libfvalue_value_get_type t.name = some ValueType.STRING_UTF16
    · rw [if_pos ht] at h
      cases hd : libfvalue_value_get_entry_data t.name 0 with
      | none => simp [hd] at h
      | some d =>
        simp only [hd] at h
        by_cases h2 : 2 ≤ d.length
        · rw [if_pos h2] at h
          simp only [Option.some.injEq] at h
          subst h
          exact ⟨t, rfl, ht, hd, h2⟩
        · simp [h2] at h
    · simp [ht] at h

theorem examine_entry_accepted_iff (towupper : Nat → Nat) (nd sd : Decoder) (string : List Nat)
    (len : Nat) (entry : Option XmlTag) (data : List Nat)
    (h : comparable_name entry = some data) :
    examine_entry towupper nd sd string len entry = .accepted
      ↔ equal_up_to_last_code_point towupper nd sd data (trimmed_size data) string len := by
  obtain ⟨t, rfl, ht, hd, h2⟩ := comparable_name_spec h
  simp only [examine_entry]
  rw [compare_name_eq]
  simp only [ht, hd, ne_eq, not_true_eq_false, if_false]
  rw [if_neg (by omega)]
  constructor
  · intro hacc
    cases hr : name_compare_loop towupper nd sd data (trimmed_size data) string len
        (trimmed_size data) 0 0 with
    | error code => simp [hr] at hacc
    | ok p =>
      obtain ⟨a, b⟩ := p
      rw [hr] at hacc
      simp only at hacc
      by_cases hab : a = trimmed_size data ∧ b = len
      · obtain ⟨rfl, rfl⟩ := hab
        exact name_compare_loop_accepted towupper nd sd data _ string _ _ 0 0 hr
      · rw [if_neg hab] at hacc
        cases hacc
  · rintro ⟨f1, f2, cn, cs, d1, d2, hl, hm⟩
    rw [name_compare_loop_accepts towupper nd sd data (trimmed_size data) string len
      (trimmed_size data) 0 0 f1 f2 cn cs d1 d2 hl hm (by omega)]
    simp

theorem lookup_loop_status_one (towupper : Nat → Nat) (nd sd : Decoder) (string : List Nat)
    (len : Nat) :
    ∀ (array : List (Option XmlTag)) (o : LookupOutcome),
      lookup_loop towupper nd sd string len array = some o → o.status = 1 →
      ∃ before after, array = before ++ o.out :: after
        ∧ (∀ x ∈ before, examine_entry towupper nd sd string len x = .rejected)
        ∧ examine_entry towupper nd sd string len o.out = .accepted := by
  intro array
  induction array with
  | nil =>
    intro o h hs
    simp only [lookup_loop, Option.some.injEq] at h
    subst h
    simp at hs
  | cons e rest ih =>
    intro o h hs
    simp only [lookup_loop] at h
    cases hx : examine_entry towupper nd sd string len e with
    | failed code =>
      simp only [hx, Option.some.injEq] at h
      subst h
      simp at hs
    | accepted =>
      simp only [hx, Option.some.injEq] at h
      subst h
      exact ⟨[], rest, rfl, by simp, hx⟩
    | rejected =>
      simp only [hx] at h
      obtain ⟨before, after, harr, hb, ha⟩ := ih o h hs
      refine ⟨e :: before, after, by rw [harr]; rfl, ?_, ha⟩
      intro x hxm
      rcases List.mem_cons.1 hxm with rfl | hm
      · exact hx
      · exact hb x hm
    | undefined => simp [hx] at h

theorem get_entry_by_name_first_accepted (towupper : Nat → Nat) (nd sd : Decoder)
    (array : List (Option XmlTag)) (string : List Nat) (len : Nat) (hlen : len ≤ SSIZE_MAX) :
    returns_first_accepted (examine_entry towupper nd sd string len) array
      (get_entry_by_name towupper nd sd array string len none) := by
  rw [get_entry_by_name_valid _ _ _ _ _ _ hlen]
  constructor
  · intro before e after harr hb he
    rw [harr]
    exact lookup_loop_accepted towupper nd sd string len before after e hb he
  · intro o h hs
    exact lookup_loop_status_one towupper nd sd string len array o h hs

theorem examine_entry_one_code_point (towupper : Nat → Nat) (nd sd : Decoder)
    (string : List Nat) (len : Nat) (entry : Option XmlTag) (data : List Nat)
    (h : comparable_name entry = some data) (f1 f2 a b : Nat)
    (h1 : decode_string nd data (trimmed_size data) f1 0 = some [a])
    (h2 : decode_string sd string len f2 0 = some [b]) :
    examine_entry towupper nd sd string len entry = .accepted :=
  (examine_entry_accepted_iff towupper nd sd string len entry data h).2
    ⟨f1, f2, [a], [b], h1, h2, rfl, rfl⟩

theorem examine_entry_empty_name (towupper : Nat → Nat) (nd sd : Decoder)
    (string : List Nat) (len : Nat) (entry : Option XmlTag) (data : List Nat)
    (h : comparable_name entry = some data) (h0 : trimmed_size data = 0) :
    examine_entry towupper nd sd string len entry = .accepted ↔ len = 0 := by
  rw [examine_entry_accepted_iff towupper nd sd string len entry data h, h0]
  constructor
  · rintro ⟨f1, f2, cn, cs, d1, d2, hl, -⟩
    have c1 : cn = [] := (decode_string_nil_iff d1).1.1 rfl
    rw [c1] at hl
    have c2 : cs = [] := List.length_eq_zero.1 hl.symm
    exact ((decode_string_nil_iff d2).1.2 c2).symm
  · intro e
    subst e
    exact ⟨0, 0, [], [], decode_string_at_end _ _ _ _, decode_string_at_end _ _ _ _, rfl, rfl⟩

/-- C31, as amended: the acceptance condition of the name comparison.  An
entry whose name has the type STRING_UTF16 and at least 2 stored bytes is
accepted by the loop body if and only if the trimmed stored name and the needle
decode completely into the same number of code points and, apart from the last
code point of each, the code points are pairwise equal under `towupper`; this
holds with a UTF-8 and with a UTF-16 needle.  So a name of one code point is
accepted for every needle of one code point, and a name whose trimmed size is 0
is accepted exactly for the needle of length 0.  For a needle length of at
most SSIZE_MAX and an out-parameter that is NULL at entry, each of the four
lookups returns 1 with the first entry that is accepted after rejected entries
only, and returns 1 in no other case. -/
theorem acceptance_condition_of_name_comparison (E : Externals) (xml_tag : XmlTag)
    (string : List Nat) (string_length : Nat) :
    (∀ entry data, comparable_name entry = some data →
      ((examine_utf8 E string string_length entry = .accepted
          ↔ equal_up_to_last_code_point E.towupper E.copy_from_utf16_stream E.copy_from_utf8
              data (trimmed_size data) string string_length)
        ∧ (examine_utf16 E string string_length entry = .accepted
          ↔ equal_up_to_last_code_point E.towupper E.copy_from_utf16_stream E.copy_from_utf16
              data (trimmed_size data) string string_length)))
    ∧ (∀ entry data fuel_name fuel_string a b, comparable_name entry = some data →
        decode_string E.copy_from_utf16_stream data (trimmed_size data) fuel_name 0
          = some [a] →
        (decode_string E.copy_from_utf8 string string_length fuel_string 0 = some [b] →
          examine_utf8 E string string_length entry = .accepted)
        ∧ (decode_string E.copy_from_utf16 string string_length fuel_string 0 = some [b] →
          examine_utf16 E string string_length entry = .accepted))
    ∧ (∀ entry data, comparable_name entry = some data → trimmed_size data = 0 →
        (examine_utf8 E string string_length entry = .accepted ↔ string_length = 0)
        ∧ (examine_utf16 E string string_length entry = .accepted ↔ string_length = 0))
    ∧ (string_length ≤ SSIZE_MAX →
        returns_first_accepted (examine_utf8 E string string_length) xml_tag.attributes_array
          (libevtx_xml_tag_get_attribute_by_utf8_name E xml_tag string string_length none)
        ∧ returns_first_accepted (examine_utf16 E string string_length)
          xml_tag.attributes_array
          (libevtx_xml_tag_get_attribute_by_utf16_name E xml_tag string string_length none)
        ∧ returns_first_accepted (examine_utf8 E string string_length) xml_tag.elements_array
          (libevtx_xml_tag_get_element_by_utf8_name E xml_tag string string_length none)
        ∧ returns_first_accepted (examine_utf16 E string string_length) xml_tag.elements_array
          (libevtx_xml_tag_get_element_by_utf16_name E xml_tag string string_length none)) :=
  ⟨fun entry data h =>
      ⟨examine_entry_accepted_iff _ _ _ _ _ entry data h,
       examine_entry_accepted_iff _ _ _ _ _ entry data h⟩,
   fun entry data f1 f2 a b h h1 =>
      ⟨fun h2 => examine_entry_one_code_point _ _ _ _ _ entry data h f1 f2 a b h1 h2,
       fun h2 => examine_entry_one_code_point _ _ _ _ _ entry data h f1 f2 a b h1 h2⟩,
   fun entry data h h0 =>
      ⟨examine_entry_empty_name _ _ _ _ _ entry data h h0,
       examine_entry_empty_name _ _ _ _ _ entry data h h0⟩,
   fun hlen =>
      ⟨get_entry_by_name_first_accepted _ _ _ _ _ _ hlen,
       get_entry_by_name_first_accepted _ _ _ _ _ _ hlen,
       get_entry_by_name_first_accepted _ _ _ _ _ _ hlen,
       get_entry_by_name_first_accepted _ _ _ _ _ _ hlen⟩⟩

/-- Witness for C31: the stored name `Fox` and the needle `Foo` decode into 3
code points each and agree on the first 2, so the attribute `Fox` is accepted
for the needle `Foo`; among the attributes `Id`, `Fox`, `Foo` the lookup of
`Foo` returns 1 with the attribute `Fox`. -/
theorem acceptance_condition_of_name_comparison_witness :
    comparable_name (some (attribute_tag "Fox" .STRING_UTF16 "1"))
        = some (utf16le (units "Fox") ++ [0, 0])
    ∧ equal_up_to_last_code_point reference_externals.towupper
        reference_externals.copy_from_utf16_stream reference_externals.copy_from_utf8
        (utf16le (units "Fox") ++ [0, 0]) (trimmed_size (utf16le (units "Fox") ++ [0, 0]))
        (units "Foo") 3
    ∧ examine_utf8 reference_externals (units "Foo") 3
        (some (attribute_tag "Fox" .STRING_UTF16 "1")) = .accepted
    ∧ 3 ≤ SSIZE_MAX
    ∧ libevtx_xml_tag_get_attribute_by_utf8_name reference_externals
        (node "T" [some (attribute_tag "Id" .STRING_UTF16 "7"),
          some (attribute_tag "Fox" .STRING_UTF16 "1"),
          some (attribute_tag "Foo" .STRING_UTF16 "2")] []) (units "Foo") 3 none
      = some { status := 1, error := none,
               out := some (attribute_tag "Fox" .STRING_UTF16 "1") } := by
  have hc : equal_up_to_last_code_point reference_externals.towupper
      reference_externals.copy_from_utf16_stream reference_externals.copy_from_utf8
      (utf16le (units "Fox") ++ [0, 0]) (trimmed_size (utf16le (units "Fox") ++ [0, 0]))
      (units "Foo") 3 :=
    ⟨3, 3, [70, 111, 120], [70, 111, 111], by decide, by decide, by decide, by decide⟩
  have ha : examine_utf8 reference_externals (units "Foo") 3
      (some (attribute_tag "Fox" .STRING_UTF16 "1")) = .accepted :=
    ((acceptance_condition_of_name_comparison reference_externals event_tag (units "Foo") 3).1
      (some (attribute_tag "Fox" .STRING_UTF16 "1")) (utf16le (units "Fox") ++ [0, 0])
      (by decide)).1.2 hc
  exact ⟨by decide, hc, ha, by decide,
    ((acceptance_condition_of_name_comparison reference_externals
      (node "T" [some (attribute_tag "Id" .STRING_UTF16 "7"),
        some (attribute_tag "Fox" .STRING_UTF16 "1"),
        some (attribute_tag "Foo" .STRING_UTF16 "2")] []) (units "Foo") 3).2.2.2
      (by decide)).1.1 [some (attribute_tag "Id" .STRING_UTF16 "7")]
      (some (attribute_tag "Fox" .STRING_UTF16 "1"))
      [some (attribute_tag "Foo" .STRING_UTF16 "2")] rfl (by decide) ha⟩

/-- Counterexample to C31 as stated: of the attributes named by a FILETIME
value and `Foo`, the second satisfies the acceptance condition for the needle
`Foo` and the first, whose stored name is `When`, does not; yet the lookup does
not return the second attribute: it returns -1 with UNSUPPORTED_VALUE at the
first one. -/
theorem lookup_misses_first_entry_satisfying_condition :
    equal_up_to_last_code_point reference_externals.towupper
        reference_externals.copy_from_utf16_stream reference_externals.copy_from_utf8
        (utf16le (units "Foo") ++ [0, 0]) (trimmed_size (utf16le (units "Foo") ++ [0, 0]))
        (units "Foo") 3
    ∧ libfvalue_value_get_entry_data time_named_tag.name 0
        = some (utf16le (units "When") ++ [0, 0])
    ∧ ¬ equal_up_to_last_code_point reference_externals.towupper
        reference_externals.copy_from_utf16_stream reference_externals.copy_from_utf8
        (utf16le (units "When") ++ [0, 0]) (trimmed_size (utf16le (units "When") ++ [0, 0]))
        (units "Foo") 3
    ∧ 3 ≤ SSIZE_MAX
    ∧ (libevtx_xml_tag_get_attribute_by_utf8_name reference_externals
        (node "T" [some time_named_tag, some (attribute_tag "Foo" .STRING_UTF16 "2")] [])
        (units "Foo") 3 none).map (fun o => (o.status, o.error))
      = some (-1, some ErrorCode.RUNTIME_UNSUPPORTED_VALUE) := by
  refine ⟨⟨3, 3, [70, 111, 111], [70, 111, 111], by decide, by decide, by decide, by decide⟩,
    by decide, ?_, by decide, by decide⟩
  intro hc
  have ha := (examine_entry_accepted_iff reference_externals.towupper
    reference_externals.copy_from_utf16_stream reference_externals.copy_from_utf8
    (units "Foo") 3 (some (attribute_tag "When" .STRING_UTF16 "1"))
    (utf16le (units "When") ++ [0, 0]) (by decide)).2 hc
  revert ha
  decide

/-! ## The capacity check of a Node -/

theorem node_capacity_generic (enc : Encoding) (name value : Option Value)
    (attrs elems : List (Option XmlTag)) (L s : Nat) (buf : List Nat) (cap i0 : Nat)
    (hs : xml_string_size enc (.mk .NODE name value attrs elems) L = some s)
    (hbuf : cap ≤ buf.length) :
    (get_xml_string_with_index enc (.mk .NODE name value attrs elems) L buf cap i0).status = 1
      ↔ i0 + s ≤ cap ∧ cap ≤ SSIZE_MAX := by
  rw [(xml_string_size_eq_text_both enc).1] at hs
  constructor
  · intro h
    obtain ⟨w, hw, hroom, -, -⟩ := node_write_text enc name value attrs elems L buf cap i0 hbuf h
    rw [hw] at hs
    simp only [Option.map_some', Option.some.injEq] at hs
    refine ⟨by omega, ?_⟩
    by_contra hc
    obtain ⟨st1, hr⟩ := get_xml_string_with_index_status h
    rw [xml_string_with_index_exceeds enc _ L cap _ (by omega)] at hr
    cases hr
  · rintro ⟨hroom, hmax⟩
    cases hw : xml_text enc (.mk .NODE name value attrs elems) L with
    | none => simp [hw] at hs
    | some w =>
      rw [hw] at hs
      simp only [Option.map_some', Option.some.injEq] at hs
      exact get_xml_string_with_index_of_runs
        ((xml_string_with_index_runs_both enc).1 _ L cap
          { buf := buf, index := i0, oob := false } w hw (by simp only; omega) hmax hbuf)

/-! ## Attribute values are rendered from entry 0 -/

theorem libfvalue_value_get_string_size_first (enc : Encoding) (value : Option Value) :
    libfvalue_value_get_string_size enc value 0
      = (first_entry value).bind (fun e => e.string_size enc) := by
  unfold libfvalue_value_get_string_size first_entry
  cases value with
  | none => rfl
  | some v =>
    simp only [Option.some_bind]
    cases v.entries[0]? <;> rfl

theorem libfvalue_value_copy_first (enc : Encoding) (value value' : Option Value)
    (h : first_entry value = first_entry value') (cap : Nat) (st : WState) :
    libfvalue_value_copy_to_string_with_index enc value 0 cap st
      = libfvalue_value_copy_to_string_with_index enc value' 0 cap st := by
  unfold first_entry at h
  unfold libfvalue_value_copy_to_string_with_index
  cases value with
  | none =>
    cases value' with
    | none => rfl
    | some v' =>
      simp only [Option.none_bind, Option.some_bind] at h
      simp only [← h]
  | some v =>
    cases value' with
    | none =>
      simp only [Option.none_bind, Option.some_bind] at h
      simp only [h]
    | some v' =>
      simp only [Option.some_bind] at h
      simp only [h]

theorem copy_value_first (enc : Encoding) (value value' : Option Value)
    (h : first_entry value = first_entry value') (cap : Nat) (st : WState) :
    copy_value enc value 0 cap st = copy_value enc value' 0 cap st := by
  unfold copy_value
  rw [libfvalue_value_copy_first enc value value' h]

theorem attributes_string_size_later_entries (enc : Encoding)
    {attrs attrs' : List (Option XmlTag)}
    (h : List.Forall₂ same_up_to_later_entries attrs attrs') :
    ∀ acc, attributes_string_size enc attrs acc = attributes_string_size enc attrs' acc := by
  induction h with
  | nil => intro acc; rfl
  | @cons a b rest rest' hab _ ih =>
    intro acc
    cases a with
    | none =>
      cases b with
      | none => simp only [attributes_string_size]
      | some b => exact absurd hab (by simp [same_up_to_later_entries])
    | some a =>
      cases b with
      | none => exact absurd hab (by simp [same_up_to_later_entries])
      | some b =>
        obtain ⟨hn, ht, hv⟩ := hab
        simp only [attributes_string_size, hn, ht, libfvalue_value_get_string_size_first enc a.value,
          libfvalue_value_get_string_size_first enc b.value, hv, ih]

theorem write_attributes_later_entries (enc : Encoding) (cap : Nat)
    {attrs attrs' : List (Option XmlTag)}
    (h : List.Forall₂ same_up_to_later_entries attrs attrs') :
    ∀ st, write_attributes enc cap attrs st = write_attributes enc cap attrs' st := by
  induction h with
  | nil => intro st; rfl
  | @cons a b rest rest' hab _ ih =>
    intro st
    cases a with
    | none =>
      cases b with
      | none => simp only [write_attributes]
      | some b => exact absurd hab (by simp [same_up_to_later_entries])
    | some a =>
      cases b with
      | none => exact absurd hab (by simp [same_up_to_later_entries])
      | some b =>
        obtain ⟨hn, ht, hv⟩ := hab
        have hc : ∀ s, copy_value enc a.value 0 cap s = copy_value enc b.value 0 cap s :=
          copy_value_first enc a.value b.value hv cap
        simp only [write_attributes, hn, ht, hc, ih]

theorem value_string_size_append (enc : Encoding) (value_type : ValueType) (e : ValueEntry) :
    ∀ (entries : List ValueEntry) (acc : Nat),
      value_string_size enc value_type (entries ++ [e]) acc
        = (value_string_size enc value_type entries acc).bind (fun size =>
            (e.string_size enc).map (fun string_size =>
              if string_size > 1 then
                size + (string_size - 1) + (if is_time_type value_type then 1 else 0)
              else size)) := by
  intro entries
  induction entries with
  | nil =>
    intro acc
    simp only [List.nil_append, value_string_size, Option.some_bind]
    cases e.string_size enc <;> rfl
  | cons x rest ih =>
    intro acc
    simp only [List.cons_append, value_string_size]
    cases x.string_size enc with
    | none => rfl
    | some sz => exact ih _

theorem node_later_entries_generic (enc : Encoding) (name value : Option Value)
    (attrs attrs' elems : List (Option XmlTag)) (L : Nat)
    (h : List.Forall₂ same_up_to_later_entries attrs attrs') :
    xml_string_size enc (.mk .NODE name value attrs elems) L
        = xml_string_size enc (.mk .NODE name value attrs' elems) L
    ∧ ∀ string string_size string_index,
        get_xml_string_with_index enc (.mk .NODE name value attrs elems) L string string_size
            string_index
          = get_xml_string_with_index enc (.mk .NODE name value attrs' elems) L string
            string_size string_index := by
  constructor
  · rw [xml_string_size_eq, xml_string_size_eq]
    simp only [attributes_string_size_later_entries enc h]
  · intro string string_size string_index
    unfold get_xml_string_with_index
    rw [xml_string_with_index_eq, xml_string_with_index_eq]
    have hw : write_attributes enc string_size attrs = write_attributes enc string_size attrs' :=
      funext (write_attributes_later_entries enc string_size h)
    rw [hw]

/-- C33: attribute values are rendered from entry 0 only.  When the attributes
of a Node are replaced by attributes with the same names, the same value types
and the same entry 0 of each value, whatever the entries 1.. are, the size
computation returns the same result and the writer returns the same status,
buffer and index, in both encodings.  The size of an element value, in
contrast, counts every entry: an entry added at the end with a string size
above 1 adds that size less one, and one more for a time type. -/
theorem attribute_values_render_entry_0_only (name value : Option Value)
    (attributes_array attributes_array' elements_array : List (Option XmlTag))
    (xml_tag_level : Nat)
    (h : List.Forall₂ same_up_to_later_entries attributes_array attributes_array') :
    libevtx_xml_tag_get_utf8_xml_string_size
        (.mk .NODE name value attributes_array elements_array) xml_tag_level
      = libevtx_xml_tag_get_utf8_xml_string_size
        (.mk .NODE name value attributes_array' elements_array) xml_tag_level
    ∧ libevtx_xml_tag_get_utf16_xml_string_size
        (.mk .NODE name value attributes_array elements_array) xml_tag_level
      = libevtx_xml_tag_get_utf16_xml_string_size
        (.mk .NODE name value attributes_array' elements_array) xml_tag_level
    ∧ (∀ string string_size string_index,
        libevtx_xml_tag_get_utf8_xml_string_with_index
            (.mk .NODE name value attributes_array elements_array) xml_tag_level string
            string_size string_index
          = libevtx_xml_tag_get_utf8_xml_string_with_index
            (.mk .NODE name value attributes_array' elements_array) xml_tag_level string
            string_size string_index)
    ∧ (∀ string string_size string_index,
        libevtx_xml_tag_get_utf16_xml_string_with_index
            (.mk .NODE name value attributes_array elements_array) xml_tag_level string
            string_size string_index
          = libevtx_xml_tag_get_utf16_xml_string_with_index
            (.mk .NODE name value attributes_array' elements_array) xml_tag_level string
            string_size string_index)
    ∧ (∀ enc value_type entries e acc,
        value_string_size enc value_type (entries ++ [e]) acc
          = (value_string_size enc value_type entries acc).bind (fun size =>
              (ValueEntry.string_size enc e).map (fun string_size =>
                if string_size > 1 then
                  size + (string_size - 1) + (if is_time_type value_type then 1 else 0)
                else size))) :=
  ⟨(node_later_entries_generic Encoding.utf8 name value attributes_array attributes_array'
      elements_array xml_tag_level h).1,
   (node_later_entries_generic Encoding.utf16 name value attributes_array attributes_array'
      elements_array xml_tag_level h).1,
   (node_later_entries_generic Encoding.utf8 name value attributes_array attributes_array'
      elements_array xml_tag_level h).2,
   (node_later_entries_generic Encoding.utf16 name value attributes_array attributes_array'
      elements_array xml_tag_level h).2,
   fun enc value_type entries e acc => value_string_size_append enc value_type e entries acc⟩

/-- Witness for C33: the attribute `k` with the entries `ab`, `cd` and the
attribute `k` with the entries `ab`, `xyz`, `q` give the same size 13 and
the same text `<T k="ab"/>`; as the value of the element `T` the entries
`ab`, `cd` are written as `<T>abcd</T>`, the entry `ab` alone as
`<T>ab</T>`. -/
theorem attribute_values_render_entry_0_only_witness :
    List.Forall₂ same_up_to_later_entries (attribute_holder two_entry_value).attributes_array
        (attribute_holder altered_entry_value).attributes_array
    ∧ libevtx_xml_tag_get_utf8_xml_string_size (attribute_holder two_entry_value) 0
      = libevtx_xml_tag_get_utf8_xml_string_size (attribute_holder altered_entry_value) 0
    ∧ libevtx_xml_tag_get_utf8_xml_string_size (attribute_holder altered_entry_value) 0
      = some 13
    ∧ (libevtx_xml_tag_get_utf8_xml_string_with_index (attribute_holder altered_entry_value) 0
        (List.replicate 14 0) 14 0).string = units "<T k=\"ab\"/>\n" ++ [0, 0]
    ∧ (libevtx_xml_tag_get_utf8_xml_string_with_index (value_holder two_entry_value) 0
        (List.replicate 14 0) 14 0).string = units "<T>abcd</T>\n" ++ [0, 0]
    ∧ (libevtx_xml_tag_get_utf8_xml_string_with_index (value_holder one_entry_value) 0
        (List.replicate 14 0) 14 0).string = units "<T>ab</T>\n" ++ [0, 0, 0, 0] := by
  have h : List.Forall₂ same_up_to_later_entries
      (attribute_holder two_entry_value).attributes_array
      (attribute_holder altered_entry_value).attributes_array :=
    List.Forall₂.cons ⟨rfl, rfl, rfl⟩ List.Forall₂.nil
  exact ⟨h,
    (attribute_values_render_entry_0_only (some (text_value .STRING_UTF16 "T")) none _ _ [] 0
      h).1, by decide, by decide, by decide, by decide⟩

/-! ## The lookups with a UTF-8 and with a UTF-16 needle -/

theorem name_compare_loop_decoders (towupper : Nat → Nat) (nd sd1 sd2 : Decoder)
    (data : List Nat) (size : Nat) (s1 : List Nat) (len1 : Nat) (s2 : List Nat) (len2 : Nat) :
    ∀ (fuel ni si1 si2 f1 f2 : Nat) (cs1 cs2 : List Nat),
      decode_string sd1 s1 len1 f1 si1 = some cs1 →
      decode_string sd2 s2 len2 f2 si2 = some cs2 →
      cs1.map towupper = cs2.map towupper →
      (∃ code, name_compare_loop towupper nd sd1 data size s1 len1 fuel ni si1 = .error code
          ∧ name_compare_loop towupper nd sd2 data size s2 len2 fuel ni si2 = .error code)
      ∨ (∃ a b1 b2, name_compare_loop towupper nd sd1 data size s1 len1 fuel ni si1
            = .ok (a, b1)
          ∧ name_compare_loop towupper nd sd2 data size s2 len2 fuel ni si2 = .ok (a, b2)
          ∧ (b1 = len1 ↔ b2 = len2)) := by
  intro fuel
  induction fuel with
  | zero =>
    intro ni si1 si2 f1 f2 cs1 cs2 h1 h2 hm
    refine Or.inr ⟨ni, si1, si2, rfl, rfl, ?_⟩
    rw [(decode_string_nil_iff h1).1, (decode_string_nil_iff h2).1]
    constructor
    · intro e; rw [e] at hm; simpa using hm.symm
    · intro e; rw [e] at hm; simpa using hm
  | succ fuel ih =>
    intro ni si1 si2 f1 f2 cs1 cs2 h1 h2 hm
    have hiff : si1 = len1 ↔ si2 = len2 := by
      rw [(decode_string_nil_iff h1).1, (decode_string_nil_iff h2).1]
      constructor
      · intro e; rw [e] at hm; simpa using hm.symm
      · intro e; rw [e] at hm; simpa using hm
    have hle1 := (decode_string_nil_iff h1).2
    have hle2 := (decode_string_nil_iff h2).2
    simp only [name_compare_loop]
    by_cases hni : ni < size
    · simp only [hni, if_true]
      rcases decode_string_cases h1 with ⟨e1, -⟩ | ⟨l1, g1, c1, n1, t1, -, r1, d1, rfl⟩
      · have e2 : si2 = len2 := hiff.1 e1
        rw [if_pos (by omega), if_pos (by omega)]
        exact Or.inr ⟨ni, si1, si2, rfl, rfl, hiff⟩
      · rcases decode_string_cases h2 with ⟨e2, -⟩ | ⟨l2, g2, c2, n2, t2, -, r2, d2, rfl⟩
        · have := hiff.2 e2
          omega
        · rw [if_neg (by omega), if_neg (by omega)]
          simp only [List.map_cons, List.cons.injEq] at hm
          cases hnr : nd.run data size ni with
          | none => exact Or.inl ⟨_, rfl, rfl⟩
          | some p =>
            obtain ⟨c, ni'⟩ := p
            simp only [r1, r2]
            by_cases hc : towupper c ≠ towupper c1
            · have hc2 : towupper c ≠ towupper c2 := by rw [← hm.1]; exact hc
              rw [if_pos hc, if_pos hc2]
              refine Or.inr ⟨ni', n1, n2, rfl, rfl, ?_⟩
              rw [(decode_string_nil_iff d1).1, (decode_string_nil_iff d2).1]
              constructor
              · intro e; rw [e] at hm; simpa using hm.2.symm
              · intro e; rw [e] at hm; simpa using hm.2
            · have hc2 : ¬ towupper c ≠ towupper c2 := by rw [← hm.1]; exact hc
              rw [if_neg hc, if_neg hc2]
              exact ih ni' n1 n2 g1 g2 t1 t2 d1 d2 hm.2
    · simp only [hni, if_false]
      exact Or.inr ⟨ni, si1, si2, rfl, rfl, hiff⟩

theorem compare_name_decoders (towupper : Nat → Nat) (nd sd1 sd2 : Decoder)
    (name : Option Value) (s1 : List Nat) (len1 : Nat) (s2 : List Nat) (len2 : Nat)
    (f1 f2 : Nat) (cs : List Nat)
    (h1 : decode_string sd1 s1 len1 f1 0 = some cs)
    (h2 : decode_string sd2 s2 len2 f2 0 = some cs) :
    compare_name towupper nd sd1 name s1 len1 = compare_name towupper nd sd2 name s2 len2 := by
  rw [compare_name_eq, compare_name_eq]
  cases libfvalue_value_get_type name with
  | none => rfl
  | some vt =>
    simp only
    by_cases hvt : vt ≠ ValueType.STRING_UTF16
    · rw [if_pos hvt, if_pos hvt]
    · rw [if_neg hvt, if_neg hvt]
      cases libfvalue_value_get_entry_data name 0 with
      | none => rfl
      | some data =>
        simp only
        by_cases hlt : data.length < 2
        · rw [if_pos hlt, if_pos hlt]
        · rw [if_neg hlt, if_neg hlt]
          rcases name_compare_loop_decoders towupper nd sd1 sd2 data (trimmed_size data) s1 len1
            s2 len2 (trimmed_size data) 0 0 0 f1 f2 cs cs h1 h2 rfl with
            ⟨code, e1, e2⟩ | ⟨a, b1, b2, e1, e2, hb⟩
          · rw [e1, e2]
          · rw [e1, e2]
            simp only [hb]

theorem lookup_loop_decoders (towupper : Nat → Nat) (nd sd1 sd2 : Decoder)
    (s1 : List Nat) (len1 : Nat) (s2 : List Nat) (len2 : Nat) (f1 f2 : Nat) (cs : List Nat)
    (h1 : decode_string sd1 s1 len1 f1 0 = some cs)
    (h2 : decode_string sd2 s2 len2 f2 0 = some cs) :
    ∀ (array : List (Option XmlTag)),
      lookup_loop towupper nd sd1 s1 len1 array = lookup_loop towupper nd sd2 s2 len2 array := by
  intro array
  induction array with
  | nil => rfl
  | cons e rest ih =>
    have he : examine_entry towupper nd sd1 s1 len1 e
        = examine_entry towupper nd sd2 s2 len2 e := by
      cases e with
      | none => rfl
      | some a =>
        exact compare_name_decoders towupper nd sd1 sd2 a.name s1 len1 s2 len2 f1 f2 cs h1 h2
    simp only [lookup_loop, he, ih]

theorem get_entry_by_name_decoders (towupper : Nat → Nat) (nd sd1 sd2 : Decoder)
    (array : List (Option XmlTag)) (s1 : List Nat) (len1 : Nat) (s2 : List Nat) (len2 : Nat)
    (out : Option XmlTag) (hlen1 : len1 ≤ SSIZE_MAX) (hlen2 : len2 ≤ SSIZE_MAX)
    (f1 f2 : Nat) (cs : List Nat)
    (h1 : decode_string sd1 s1 len1 f1 0 = some cs)
    (h2 : decode_string sd2 s2 len2 f2 0 = some cs) :
    get_entry_by_name towupper nd sd1 array s1 len1 out
      = get_entry_by_name towupper nd sd2 array s2 len2 out := by
  cases out with
  | none =>
    rw [get_entry_by_name_valid _ _ _ _ _ _ hlen1, get_entry_by_name_valid _ _ _ _ _ _ hlen2]
    exact lookup_loop_decoders towupper nd sd1 sd2 s1 len1 s2 len2 f1 f2 cs h1 h2 array
  | some tag =>
    rw [get_entry_by_name_already_set, get_entry_by_name_already_set,
      if_neg (by omega), if_neg (by omega)]

theorem decode_repeated_utf16_unit (a : Nat) (ha : a < 0xD800) (N : Nat) :
    ∀ (n j : Nat), j + n = N →
      decode_string reference_utf16 (repeated [a] N) N n j = some (List.replicate n a) := by
  intro n
  induction n with
  | zero =>
    intro j h
    simp only [decode_string]
    rw [if_pos (by omega)]
    rfl
  | succ n ih =>
    intro j h
    simp only [decode_string]
    rw [if_neg (by omega), if_neg (by omega)]
    have hg := getD_repeated_one a N j (by omega)
    have hrun : reference_utf16.run (repeated [a] N) N j = some (a, j + 1) := by
      show utf16_step (repeated [a] N) N j = some (a, j + 1)
      unfold utf16_step
      rw [if_pos (by omega), hg, if_neg (by omega), if_neg (by omega)]
    rw [hrun]
    simp only [ih (j + 1) (by omega), Option.map_some', List.replicate_succ]

/-- C34, as amended: when a UTF-8 string and a UTF-16 string encode the same
sequence of code points and both lengths are at most SSIZE_MAX, the attribute
lookup by the UTF-8 name and the attribute lookup by the UTF-16 name return the
same result on every tag (status, error and the tag behind the out-parameter),
and so do the two element lookups. -/
theorem utf8_and_utf16_lookups_agree (E : Externals) (xml_tag : XmlTag)
    (utf8_string : List Nat) (utf8_string_length : Nat)
    (utf16_string : List Nat) (utf16_string_length : Nat) (out : Option XmlTag)
    (h8 : utf8_string_length ≤ SSIZE_MAX) (h16 : utf16_string_length ≤ SSIZE_MAX)
    (h : encode_same_code_points E utf8_string utf8_string_length utf16_string
      utf16_string_length) :
    libevtx_xml_tag_get_attribute_by_utf8_name E xml_tag utf8_string utf8_string_length out
      = libevtx_xml_tag_get_attribute_by_utf16_name E xml_tag utf16_string utf16_string_length
        out
    ∧ libevtx_xml_tag_get_element_by_utf8_name E xml_tag utf8_string utf8_string_length out
      = libevtx_xml_tag_get_element_by_utf16_name E xml_tag utf16_string utf16_string_length
        out := by
  obtain ⟨f1, f2, cs, h1, h2⟩ := h
  exact ⟨get_entry_by_name_decoders _ _ _ _ _ _ _ _ _ out h8 h16 f1 f2 cs h1 h2,
    get_entry_by_name_decoders _ _ _ _ _ _ _ _ _ out h8 h16 f1 f2 cs h1 h2⟩

/-- Witness for C34: the code points of `Straße` take 7 bytes in UTF-8 and 6
units in UTF-16; on a tag with the attributes `Id` and `Straße` both lookups
return 1 with the second attribute. -/
theorem utf8_and_utf16_lookups_agree_witness :
    7 ≤ SSIZE_MAX ∧ 6 ≤ SSIZE_MAX
    ∧ encode_same_code_points reference_externals [83, 116, 114, 97, 195, 159, 101] 7
        [83, 116, 114, 97, 223, 101] 6
    ∧ libevtx_xml_tag_get_attribute_by_utf8_name reference_externals
        (node "T" [some (attribute_tag "Id" .STRING_UTF16 "7"),
          some (attribute_named [83, 0, 116, 0, 114, 0, 97, 0, 223, 0, 101, 0] none none none)]
          []) [83, 116, 114, 97, 195, 159, 101] 7 none
      = libevtx_xml_tag_get_attribute_by_utf16_name reference_externals
        (node "T" [some (attribute_tag "Id" .STRING_UTF16 "7"),
          some (attribute_named [83, 0, 116, 0, 114, 0, 97, 0, 223, 0, 101, 0] none none none)]
          []) [83, 116, 114, 97, 223, 101] 6 none
    ∧ (libevtx_xml_tag_get_attribute_by_utf16_name reference_externals
        (node "T" [some (attribute_tag "Id" .STRING_UTF16 "7"),
          some (attribute_named [83, 0, 116, 0, 114, 0, 97, 0, 223, 0, 101, 0] none none none)]
          []) [83, 116, 114, 97, 223, 101] 6 none).map (fun o => o.status) = some 1 :=
  ⟨by decide, by decide, ⟨7, 7, [83, 116, 114, 97, 223, 101], by decide, by decide⟩,
   (utf8_and_utf16_lookups_agree reference_externals _ [83, 116, 114, 97, 195, 159, 101] 7
      [83, 116, 114, 97, 223, 101] 6 none (by decide) (by decide)
      ⟨7, 7, [83, 116, 114, 97, 223, 101], by decide, by decide⟩).1,
   by decide⟩

/-- Counterexample to C34 as stated: 2^62 times the code point U+017F takes
2^63 bytes in UTF-8 and 2^62 units in UTF-16.  On the element `Event`, which
has no attributes, the lookup by the UTF-8 name returns -1, because the length
is above SSIZE_MAX, and the lookup by the UTF-16 name returns 0. -/
theorem utf8_and_utf16_lookups_differ_above_ssize_max :
    encode_same_code_points reference_externals
        (repeated [197, 191] half_limit) (2 * half_limit)
        (repeated [383] half_limit) half_limit
    ∧ (repeated [197, 191] half_limit).length = 2 * half_limit
    ∧ (repeated [383] half_limit).length = half_limit
    ∧ (libevtx_xml_tag_get_attribute_by_utf8_name reference_externals event_tag
        (repeated [197, 191] half_limit) (2 * half_limit) none).map (fun o => o.status)
        = some (-1)
    ∧ (libevtx_xml_tag_get_attribute_by_utf16_name reference_externals event_tag
        (repeated [383] half_limit) half_limit none).map (fun o => o.status) = some 0 := by
  refine ⟨⟨half_limit, half_limit, List.replicate half_limit 383, ?_, ?_⟩, ?_, ?_, ?_, ?_⟩
  · exact decode_repeated_long_s half_limit half_limit 0 (by omega)
  · exact decode_repeated_utf16_unit 383 (by decide) half_limit half_limit 0 (by omega)
  · rw [length_repeated]; simp
  · rw [length_repeated]; simp
  · unfold libevtx_xml_tag_get_attribute_by_utf8_name
    rw [get_entry_by_name_exceeds _ _ _ _ _ _ _ (by decide)]
    rfl
  · unfold libevtx_xml_tag_get_attribute_by_utf16_name
    rw [get_entry_by_name_valid _ _ _ _ _ _ (by decide)]
    rfl

/-! ## The reads of the stored name -/

theorem trimmed_size_le (data : List Nat) : trimmed_size data ≤ data.length := by
  unfold trimmed_size
  split <;> omega

theorem name_compare_loop_name_decoder (towupper : Nat → Nat) (nd nd' sd : Decoder)
    (data : List Nat) (size : Nat) (string : List Nat) (string_length : Nat)
    (h : ∀ index, index < size → nd'.run data size index = nd.run data size index) :
    ∀ fuel ni si,
      name_compare_loop towupper nd' sd data size string string_length fuel ni si
        = name_compare_loop towupper nd sd data size string string_length fuel ni si := by
  intro fuel
  induction fuel with
  | zero => intro ni si; rfl
  | succ fuel ih =>
    intro ni si
    simp only [name_compare_loop]
    by_cases hn : ni < size
    · simp only [hn, if_true, h ni hn, ih]
    · simp only [hn, if_false]

theorem compare_name_name_decoder (towupper : Nat → Nat) (nd nd' sd : Decoder)
    (name : Option Value) (data : List Nat) (string : List Nat) (string_length : Nat)
    (hd : libfvalue_value_get_entry_data name 0 = some data)
    (h : ∀ index, index < trimmed_size data →
      nd'.run data (trimmed_size data) index = nd.run data (trimmed_size data) index) :
    compare_name towupper nd' sd name string string_length
      = compare_name towupper nd sd name string string_length := by
  rw [compare_name_eq, compare_name_eq]
  simp only [hd, name_compare_loop_name_decoder towupper nd nd' sd data (trimmed_size data)
    string string_length h]

theorem compare_name_undefined_iff (towupper : Nat → Nat) (nd sd : Decoder)
    (name : Option Value) (string : List Nat) (string_length : Nat) :
    compare_name towupper nd sd name string string_length = .undefined
      ↔ libfvalue_value_get_type name = some ValueType.STRING_UTF16
        ∧ ∃ data, libfvalue_value_get_entry_data name 0 = some data ∧ data.length < 2 := by
  rw [compare_name_eq]
  cases ht : libfvalue_value_get_type name with
  | none => simp
  | some ty =>
    by_cases hty : ty = ValueType.STRING_UTF16
    · subst hty
      cases hd : libfvalue_value_get_entry_data name 0 with
      | none => simp
      | some data =>
        by_cases hl : data.length < 2
        · simp [hl]
        · simp only [ne_eq, not_true_eq_false, if_false, hl, Option.some.injEq, true_and,
            exists_eq_left', iff_false]
          cases name_compare_loop towupper nd sd data (trimmed_size data) string string_length
              (trimmed_size data) 0 0 with
          | error code => simp
          | ok p =>
            obtain ⟨a, b⟩ := p
            simp only
            split <;> simp
    · simp [hty]

theorem lookup_loop_defined (towupper : Nat → Nat) (nd sd : Decoder) (string : List Nat)
    (string_length : Nat) :
    ∀ (array : List (Option XmlTag)), names_have_two_bytes array →
      (lookup_loop towupper nd sd string string_length array).isSome = true := by
  intro array
  induction array with
  | nil => intro _; rfl
  | cons e rest ih =>
    intro h
    have hrest : names_have_two_bytes rest := fun x hx => h x (List.mem_cons_of_mem _ hx)
    have hne : examine_entry towupper nd sd string string_length e ≠ .undefined := by
      cases e with
      | none => simp [examine_entry]
      | some t =>
        simp only [examine_entry]
        intro hu
        obtain ⟨-, data, hd, hl⟩ := (compare_name_undefined_iff _ _ _ _ _ _).1 hu
        have := h (some t) (List.mem_cons_self _ _) t rfl data hd
        omega
    simp only [lookup_loop]
    cases hx : examine_entry towupper nd sd string string_length e with
    | failed code => rfl
    | accepted => rfl
    | rejected => exact ih hrest
    | undefined => exact absurd hx hne

theorem get_entry_by_name_defined (towupper : Nat → Nat) (nd sd : Decoder)
    (array : List (Option XmlTag)) (string : List Nat) (string_length : Nat)
    (out : Option XmlTag) (h : names_have_two_bytes array) :
    (get_entry_by_name towupper nd sd array string string_length out).isSome = true := by
  unfold get_entry_by_name
  split
  · rfl
  · split
    · rfl
    · cases array with
      | nil => rfl
      | cons e rest => exact lookup_loop_defined towupper nd sd string string_length _ h

theorem trailing_test_reads_of_long (data : List Nat) (h : 2 ≤ data.length) :
    ((trailing_test data).reads = [data.length - 2]
      ∨ (trailing_test data).reads = [data.length - 2, data.length - 1])
    ∧ (trailing_test data).trailing_nul ≠ none := by
  have e2 : size_t_difference data.length 2 = data.length - 2 := by
    unfold size_t_difference
    rw [if_neg (by omega)]
  have e1 : size_t_difference data.length 1 = data.length - 1 := by
    unfold size_t_difference
    rw [if_neg (by omega)]
  have g2 : data[data.length - 2]? = some (data.getD (data.length - 2) 0) := by
    rw [List.getD_eq_getElem?_getD, List.getElem?_eq_getElem (by omega)]
    rfl
  have g1 : data[data.length - 1]? = some (data.getD (data.length - 1) 0) := by
    rw [List.getD_eq_getElem?_getD, List.getElem?_eq_getElem (by omega)]
    rfl
  unfold trailing_test
  rw [e2, e1, g2]
  simp only
  split
  · exact ⟨Or.inl rfl, by simp⟩
  · rw [g1]
    exact ⟨Or.inr rfl, by simp⟩

theorem trailing_test_reads_of_short (data : List Nat) (h : data.length < 2) :
    (trailing_test data).reads = [data.length + 18446744073709551616 - 2]
    ∧ data.length ≤ data.length + 18446744073709551616 - 2
    ∧ (trailing_test data).trailing_nul = none := by
  have e2 : size_t_difference data.length 2 = data.length + 18446744073709551616 - 2 := by
    unfold size_t_difference
    rw [if_pos h]
  have g2 : data[data.length + 18446744073709551616 - 2]? = none :=
    List.getElem?_eq_none (by omega)
  unfold trailing_test
  rw [e2, g2]
  exact ⟨rfl, by omega, rfl⟩

/-- C35: the reads of the stored name by a lookup.  The trailing test reads the
stored name at `size - 2` and, when that byte is zero, at `size - 1`, without
testing the size before.  For a stored name of at least 2 bytes these reads
are at the offsets size - 2 and size - 1 of the name, the test has an outcome,
the size handed to the decoder is at most the number of bytes of the name, and
the comparison loop calls the decoder of the name only at an index below that
size: the outcome of the loop body does not change when the decoder is
replaced by one that agrees with it at those indices.  When every entry of
the array has a stored name of at least 2 bytes, each of the four lookups has
a defined result.  For a stored name of fewer than 2 bytes the test reads at
the offset size + 2^64 - 2, which is outside the name, and has no outcome; the
loop body has no defined result exactly when the name has the type
STRING_UTF16 and fewer than 2 bytes. -/
theorem trailing_test_reads_within_two_byte_names (E : Externals) (xml_tag : XmlTag)
    (string : List Nat) (string_length : Nat) (out : Option XmlTag) :
    (∀ data : List Nat, 2 ≤ data.length →
        ((trailing_test data).reads = [data.length - 2]
          ∨ (trailing_test data).reads = [data.length - 2, data.length - 1])
        ∧ (∀ o ∈ (trailing_test data).reads, o < data.length)
        ∧ (trailing_test data).trailing_nul ≠ none
        ∧ trimmed_size data ≤ data.length)
    ∧ (∀ (nd sd : Decoder) name data,
        libfvalue_value_get_entry_data name 0 = some data →
        (∀ index, index < trimmed_size data →
          nd.run data (trimmed_size data) index
            = E.copy_from_utf16_stream.run data (trimmed_size data) index) →
        compare_name E.towupper nd sd name string string_length
          = compare_name E.towupper E.copy_from_utf16_stream sd name string string_length)
    ∧ (names_have_two_bytes xml_tag.attributes_array →
        (libevtx_xml_tag_get_attribute_by_utf8_name E xml_tag string string_length
            out).isSome = true
        ∧ (libevtx_xml_tag_get_attribute_by_utf16_name E xml_tag string string_length
            out).isSome = true)
    ∧ (names_have_two_bytes xml_tag.elements_array →
        (libevtx_xml_tag_get_element_by_utf8_name E xml_tag string string_length
            out).isSome = true
        ∧ (libevtx_xml_tag_get_element_by_utf16_name E xml_tag string string_length
            out).isSome = true)
    ∧ (∀ data : List Nat, data.length < 2 →
        (trailing_test data).reads = [data.length + 18446744073709551616 - 2]
        ∧ data.length ≤ data.length + 18446744073709551616 - 2
        ∧ (trailing_test data).trailing_nul = none)
    ∧ (∀ (sd : Decoder) name,
        compare_name E.towupper E.copy_from_utf16_stream sd name string string_length
            = .undefined
          ↔ libfvalue_value_get_type name = some ValueType.STRING_UTF16
            ∧ ∃ data, libfvalue_value_get_entry_data name 0 = some data
              ∧ data.length < 2) := by
  refine ⟨?_, ?_, ?_, ?_, ?_, ?_⟩
  · intro data h2
    obtain ⟨hr, hd⟩ := trailing_test_reads_of_long data h2
    refine ⟨hr, ?_, hd, trimmed_size_le data⟩
    intro o ho
    rcases hr with e | e
    · rw [e] at ho
      simp only [List.mem_singleton] at ho
      omega
    · rw [e] at ho
      simp only [List.mem_cons, List.mem_singleton, List.not_mem_nil, or_false] at ho
      omega
  · intro nd sd name data hd h
    exact compare_name_name_decoder E.towupper E.copy_from_utf16_stream nd sd name data string
      string_length hd h
  · intro h
    exact ⟨get_entry_by_name_defined _ _ _ _ _ _ _ h, get_entry_by_name_defined _ _ _ _ _ _ _ h⟩
  · intro h
    exact ⟨get_entry_by_name_defined _ _ _ _ _ _ _ h, get_entry_by_name_defined _ _ _ _ _ _ _ h⟩
  · intro data h
    exact trailing_test_reads_of_short data h
  · intro _ _
    exact compare_name_undefined_iff _ _ _ _ _ _

/-- Witness for C35: the stored name `Id` has 6 bytes, the trailing test reads
the offsets 4 and 5 and the size handed to the decoder is 4; the lookup of `Id`
among the attributes `Id` and `Name` has a defined result.  A stored name of
1 byte makes the trailing test read the offset 2^64 - 1, and the lookup has no
defined result. -/
theorem trailing_test_reads_within_two_byte_names_witness :
    2 ≤ (utf16le (units "Id") ++ [0, 0]).length
    ∧ (((trailing_test (utf16le (units "Id") ++ [0, 0])).reads
          = [(utf16le (units "Id") ++ [0, 0]).length - 2]
        ∨ (trailing_test (utf16le (units "Id") ++ [0, 0])).reads
          = [(utf16le (units "Id") ++ [0, 0]).length - 2,
             (utf16le (units "Id") ++ [0, 0]).length - 1])
      ∧ (∀ o ∈ (trailing_test (utf16le (units "Id") ++ [0, 0])).reads,
          o < (utf16le (units "Id") ++ [0, 0]).length)
      ∧ (trailing_test (utf16le (units "Id") ++ [0, 0])).trailing_nul ≠ none
      ∧ trimmed_size (utf16le (units "Id") ++ [0, 0]) ≤ (utf16le (units "Id") ++ [0, 0]).length)
    ∧ trailing_test (utf16le (units "Id") ++ [0, 0])
      = { reads := [4, 5], trailing_nul := some true }
    ∧ trimmed_size (utf16le (units "Id") ++ [0, 0]) = 4
    ∧ (libevtx_xml_tag_get_attribute_by_utf8_name reference_externals
        (node "T" [some (attribute_tag "Id" .STRING_UTF16 "7"),
          some (attribute_tag "Name" .STRING_UTF16 "x")] []) (units "Id") 2 none).isSome = true
    ∧ trailing_test [65] = { reads := [18446744073709551615], trailing_nul := none }
    ∧ (libevtx_xml_tag_get_attribute_by_utf8_name reference_externals
        (node "T" [some (attribute_named [65] none none none)] []) (units "A") 1
        none).isSome = false :=
  ⟨by decide,
   (trailing_test_reads_within_two_byte_names reference_externals event_tag [] 0 none).1
     (utf16le (units "Id") ++ [0, 0]) (by decide),
   by decide, by decide,
   ((trailing_test_reads_within_two_byte_names reference_externals
      (node "T" [some (attribute_tag "Id" .STRING_UTF16 "7"),
        some (attribute_tag "Name" .STRING_UTF16 "x")] []) (units "Id") 2 none).2.2.1
      (by
        intro e he t ht data hd
        simp only [node, XmlTag.attributes_array, List.mem_cons, List.mem_singleton,
          List.not_mem_nil, or_false] at he
        rcases he with rfl | rfl
        · cases ht
          cases hd
          decide
        · cases ht
          cases hd
          decide)).1,
   by decide, by decide⟩

/-! ## The writer leaves the buffer before the entry index alone -/

theorem take_set_above (l : List Nat) (i0 i v : Nat) (h : i0 ≤ i) :
    (l.set i v).take i0 = l.take i0 := by
  rw [List.set_take]
  exact List.set_eq_of_length_le (by rw [List.length_take]; omega)

theorem store_kept (cap v : Nat) {i0 : Nat} {pre : List Nat} {st : WState}
    (h : Kept i0 pre st) : Kept i0 pre (store cap st v) := by
  obtain ⟨h1, h2⟩ := h
  refine ⟨by simp only [store]; omega, ?_⟩
  simp only [store]
  split
  · rw [take_set_above _ _ _ _ h1]
    exact h2
  · exact h2

theorem store_list_kept (cap : Nat) {i0 : Nat} {pre : List Nat} :
    ∀ (l : List Nat) {st : WState}, Kept i0 pre st → Kept i0 pre (store_list cap st l) := by
  intro l
  induction l with
  | nil => intro st h; exact h
  | cons a l ih =>
    intro st h
    show Kept i0 pre (store_list cap (store cap st a) l)
    exact ih (store_kept cap a h)

theorem indent_kept (cap : Nat) {i0 : Nat} {pre : List Nat} :
    ∀ (n : Nat) {st : WState}, Kept i0 pre st → Kept i0 pre (indent cap n st) := by
  intro n
  induction n with
  | zero => intro st h; simpa [indent] using h
  | succ n ih =>
    intro st h
    simp only [indent]
    exact ih (store_kept cap 32 (store_kept cap 32 h))

theorem write_trailer_kept (cap : Nat) {i0 : Nat} {pre : List Nat} {st : WState}
    (h : Kept i0 pre st) : Kept i0 pre (write_trailer cap st) :=
  store_kept cap 0 (store_kept cap 10 (store_kept cap 62 h))

theorem require_room_kept (cap n : Nat) {i0 : Nat} {pre : List Nat} {st : WState}
    (h : Kept i0 pre st) : Kept i0 pre (WResult.state (require_room cap n st)) := by
  unfold require_room
  split <;> exact h

theorem andThen_kept {i0 : Nat} {pre : List Nat} {r : WResult} {f : WState → WResult}
    (h : Kept i0 pre (WResult.state r))
    (hf : ∀ s, Kept i0 pre s → Kept i0 pre (WResult.state (f s))) :
    Kept i0 pre (WResult.state (r.andThen f)) := by
  cases r with
  | ok s => exact hf s h
  | error e => exact h

theorem copy_value_kept (enc : Encoding) (value : Option Value) (i cap : Nat) {i0 : Nat}
    {pre : List Nat} {st : WState} (h : Kept i0 pre st) :
    Kept i0 pre (WResult.state (copy_value enc value i cap st)) := by
  unfold copy_value libfvalue_value_copy_to_string_with_index
  cases value with
  | none => exact h
  | some v =>
    simp only
    cases v.entries[i]? with
    | none => exact h
    | some e =>
      simp only
      cases e.string enc with
      | none => exact h
      | some r =>
        by_cases hc : st.index + (r.length + 1) > cap
        · simp only [hc, if_true]
          exact h
        · simp only [hc, if_false]
          have hk := store_list_kept cap (r ++ [0]) h
          refine ⟨?_, hk.2⟩
          simp only [WResult.state, rewind, store_list_index, List.length_append,
            List.length_cons, List.length_nil]
          have := h.1
          omega

theorem write_attributes_kept (enc : Encoding) (cap : Nat) {i0 : Nat} {pre : List Nat} :
    ∀ (attrs : List (Option XmlTag)) {st : WState}, Kept i0 pre st →
      Kept i0 pre (WResult.state (write_attributes enc cap attrs st)) := by
  intro attrs
  induction attrs with
  | nil => intro st h; simpa [write_attributes] using h
  | cons x rest ih =>
    intro st h
    cases x with
    | none => simpa [write_attributes] using h
    | some a =>
      simp only [write_attributes]
      apply andThen_kept (require_room_kept cap 1 h)
      intro s hs
      apply andThen_kept (copy_value_kept enc a.name 0 cap (store_kept cap 32 hs))
      intro s hs
      apply andThen_kept (require_room_kept cap 2 hs)
      intro s hs
      cases libfvalue_value_get_type a.value with
      | none => exact store_kept cap 34 (store_kept cap 61 hs)
      | some vt =>
        simp only
        apply andThen_kept
          (copy_value_kept enc a.value 0 cap (store_kept cap 34 (store_kept cap 61 hs)))
        intro s hs
        apply andThen_kept (require_room_kept cap 1 hs)
        intro s hs
        split
        · apply andThen_kept (require_room_kept cap 1 hs)
          intro s hs
          exact ih (store_kept cap 34 (store_kept cap 90 hs))
        · exact ih (store_kept cap 34 hs)

theorem write_value_entries_kept (enc : Encoding) (cap : Nat) (value : Value) {i0 : Nat}
    {pre : List Nat} :
    ∀ (es : List ValueEntry) (i : Nat) {st : WState}, Kept i0 pre st →
      Kept i0 pre (WResult.state (write_value_entries enc cap value es i st)) := by
  intro es
  induction es with
  | nil => intro i st h; simpa [write_value_entries] using h
  | cons e rest ih =>
    intro i st h
    simp only [write_value_entries]
    cases ValueEntry.string_size enc e with
    | none => exact h
    | some sz =>
      simp only
      split
      · apply andThen_kept (copy_value_kept enc (some value) i cap h)
        intro s hs
        split
        · apply andThen_kept (require_room_kept cap 1 hs)
          intro s hs
          exact ih (i + 1) (store_kept cap 90 hs)
        · exact ih (i + 1) hs
      · exact ih (i + 1) h

theorem xml_string_with_index_kept_both (enc : Encoding) (i0 : Nat) (pre : List Nat) :
    (∀ (t : XmlTag) (L cap : Nat) (st : WState), Kept i0 pre st →
      Kept i0 pre (WResult.state (xml_string_with_index enc t L cap st)))
    ∧ (∀ (es : List (Option XmlTag)) (L cap : Nat) (st : WState), Kept i0 pre st →
      Kept i0 pre (WResult.state (write_elements enc es L cap st))) := by
  apply XmlTag.induct
  · intro type name value attrs elems IH L cap st h
    rw [xml_string_with_index_eq]
    by_cases hmax : cap > SSIZE_MAX
    · rw [if_pos hmax]
      exact h
    rw [if_neg hmax]
    apply andThen_kept (require_room_kept cap _ h)
    intro s hs
    have h0 : Kept i0 pre (store cap (indent cap L s) 60) :=
      store_kept cap 60 (indent_kept cap L hs)
    cases type with
    | NODE =>
      simp only
      apply andThen_kept (copy_value_kept enc name 0 cap h0)
      intro s hs
      apply andThen_kept (write_attributes_kept enc cap attrs hs)
      intro s hs
      apply andThen_kept
      · cases value with
        | some v =>
          simp only
          cases value_string_size enc v.type v.entries 0 with
          | none => exact hs
          | some value_size =>
            simp only
            split
            · apply andThen_kept (require_room_kept cap 1 hs)
              intro s hs
              apply andThen_kept
                (write_value_entries_kept enc cap v v.entries 0 (store_kept cap 62 hs))
              intro s hs
              apply andThen_kept (require_room_kept cap 2 hs)
              intro s hs
              exact copy_value_kept enc name 0 cap (store_kept cap 47 (store_kept cap 60 hs))
            · apply andThen_kept (require_room_kept cap 1 hs)
              intro s hs
              exact store_kept cap 47 hs
        | none =>
          cases elems with
          | nil =>
            simp only
            apply andThen_kept (require_room_kept cap 1 hs)
            intro s hs
            exact store_kept cap 47 hs
          | cons e es =>
            simp only
            apply andThen_kept (require_room_kept cap 2 hs)
            intro s hs
            apply andThen_kept (IH (L + 1) cap _ (store_kept cap 10 (store_kept cap 62 hs)))
            intro s hs
            apply andThen_kept (require_room_kept cap (L * 2) hs)
            intro s hs
            apply andThen_kept (require_room_kept cap 2 (indent_kept cap L hs))
            intro s hs
            exact copy_value_kept enc name 0 cap (store_kept cap 47 (store_kept cap 60 hs))
      · intro s hs
        apply andThen_kept (require_room_kept cap 3 hs)
        intro s hs
        exact write_trailer_kept cap hs
    | CDATA =>
      simp only
      apply andThen_kept (require_room_kept cap 8 h0)
      intro s hs
      apply andThen_kept (copy_value_kept enc value 0 cap (store_list_kept cap _ hs))
      intro s hs
      apply andThen_kept (require_room_kept cap 2 hs)
      intro s hs
      exact write_trailer_kept cap (store_kept cap 93 (store_kept cap 93 hs))
    | PI =>
      simp only
      apply andThen_kept (require_room_kept cap 1 h0)
      intro s hs
      apply andThen_kept (copy_value_kept enc name 0 cap (store_kept cap 63 hs))
      intro s hs
      apply andThen_kept (require_room_kept cap 1 hs)
      intro s hs
      apply andThen_kept (copy_value_kept enc value 0 cap (store_kept cap 32 hs))
      intro s hs
      apply andThen_kept (require_room_kept cap 1 hs)
      intro s hs
      exact write_trailer_kept cap (store_kept cap 63 hs)
  · intro L cap st h
    rw [write_elements_nil]
    exact h
  · intro rest _ L cap st h
    rw [write_elements_cons, xml_string_with_index_entry_none]
    exact h
  · intro t rest IHt IHrest L cap st h
    rw [write_elements_cons, xml_string_with_index_entry_some]
    have hk := IHt L cap st h
    cases hr : xml_string_with_index enc t L cap st with
    | error e =>
      obtain ⟨code, s1⟩ := e
      rw [hr] at hk
      exact hk
    | ok s1 =>
      rw [hr] at hk
      obtain ⟨s, -, hidx, hpos⟩ := (xml_string_with_index_index_both enc).1 t L cap st s1 hr
      simp only
      apply IHrest
      refine ⟨?_, hk.2⟩
      simp only [rewind]
      have := h.1
      omega

theorem wrote_last_nul {st st1 : WState} {w : List Nat} (h : Wrote st st1 (w ++ [0])) :
    st.index + 1 ≤ st1.index ∧ st1.buf[st1.index - 1]? = some 0 := by
  obtain ⟨hi, hb, hl, -, hle⟩ := h
  simp only [List.length_append, List.length_cons, List.length_nil] at hi
  have hpre : (st.buf.take st.index).length = st.index := by
    rw [List.length_take]
    omega
  refine ⟨by omega, ?_⟩
  have h1 : (st1.buf.take st1.index)[st1.index - 1]? = st1.buf[st1.index - 1]? := by
    rw [List.getElem?_take]
    rw [if_pos (by omega)]
  rw [← h1, hb, ← List.append_assoc]
  have hlen : (List.take st.index st.buf ++ w).length = st1.index - 1 := by
    rw [List.length_append, hpre]
    omega
  rw [← hlen, List.getElem?_append_right (Nat.le_refl _)]
  simp

theorem copy_value_steps_over_nul {enc : Encoding} {value : Option Value} {i cap : Nat}
    {st st1 : WState} (h : copy_value enc value i cap st = .ok st1)
    (hcap : cap ≤ st.buf.length) :
    st.index ≤ st1.index ∧ st1.buf[st1.index]? = some 0 := by
  unfold copy_value libfvalue_value_copy_to_string_with_index at h
  cases value with
  | none => simp at h
  | some v =>
    simp only at h
    cases he : v.entries[i]? with
    | none => simp [he] at h
    | some e =>
      simp only [he] at h
      cases hr : e.string enc with
      | none => simp [hr] at h
      | some r =>
        simp only [hr] at h
        by_cases hc : st.index + (r.length + 1) > cap
        · simp [hc] at h
        · simp only [hc, if_false, Except.ok.injEq] at h
          have hw := store_list_wrote cap (r ++ [0]) st
            (by simp only [List.length_append, List.length_cons, List.length_nil]; omega) hcap
          obtain ⟨h1, h2⟩ := wrote_last_nul hw
          subst h
          simp only [rewind]
          exact ⟨by omega, h2⟩

theorem child_steps_over_nul {enc : Encoding} {t : XmlTag} {L cap : Nat} {st st1 : WState}
    (h : xml_string_with_index enc t L cap st = .ok st1)
    (hcap : cap ≤ st.buf.length) (hin : st1.index ≤ cap) :
    st.index ≤ (rewind st1).index ∧ st1.buf[(rewind st1).index]? = some 0 := by
  obtain ⟨w, hw, -, hwrote⟩ := xml_string_with_index_ok_text enc t L cap st st1 h hcap
  have hW := hwrote hin
  rw [xml_text_ends_with_nul enc t L w hw] at hW
  obtain ⟨h1, h2⟩ := wrote_last_nul hW
  simp only [rewind]
  exact ⟨by omega, h2⟩

theorem get_xml_string_with_index_string (enc : Encoding) (t : XmlTag) (L : Nat)
    (buf : List Nat) (cap i0 : Nat) :
    (get_xml_string_with_index enc t L buf cap i0).string
      = (WResult.state (xml_string_with_index enc t L cap
          { buf := buf, index := i0, oob := false })).buf := by
  unfold get_xml_string_with_index
  cases xml_string_with_index enc t L cap { buf := buf, index := i0, oob := false } with
  | ok s => rfl
  | error e => rfl

theorem get_xml_string_with_index_frame (enc : Encoding) (t : XmlTag) (L : Nat)
    (buf : List Nat) (cap i0 j : Nat) (hj : j < i0) :
    (get_xml_string_with_index enc t L buf cap i0).string[j]? = buf[j]? := by
  rw [get_xml_string_with_index_string]
  have hk := (xml_string_with_index_kept_both enc i0 (buf.take i0)).1 t L cap
    { buf := buf, index := i0, oob := false } ⟨Nat.le_refl _, rfl⟩
  have h2 := congrArg (fun l => l[j]?) hk.2
  simp only [List.getElem?_take, hj, if_true] at h2
  exact h2

/-! ## The out-parameter of a lookup that fails -/

theorem get_entry_by_name_out (towupper : Nat → Nat) (nd sd : Decoder)
    (array : List (Option XmlTag)) (string : List Nat) (string_length : Nat)
    (hlen : string_length ≤ SSIZE_MAX) :
    (∀ before e after code, array = before ++ e :: after →
        (∀ x ∈ before, examine_entry towupper nd sd string string_length x = .rejected) →
        examine_entry towupper nd sd string string_length e = .failed code →
        get_entry_by_name towupper nd sd array string string_length none
          = some { status := -1, error := some code, out := e })
    ∧ ((∀ x ∈ array, examine_entry towupper nd sd string string_length x = .rejected) →
        get_entry_by_name towupper nd sd array string string_length none
          = some { status := 0, error := none, out := none }) := by
  rw [get_entry_by_name_valid _ _ _ _ _ _ hlen]
  refine ⟨?_, lookup_loop_all_rejected towupper nd sd string string_length array⟩
  intro before e after code harr hb he
  rw [harr]
  exact lookup_loop_failed towupper nd sd string string_length before after e code hb he

/-- C36: a lookup that ends in an error while it examines an entry leaves the
out-parameter on that entry.  For a needle length of at most SSIZE_MAX and an
out-parameter that is NULL at entry, in each of the four lookups: when the
entries before entry e are rejected and the loop body fails at e with an error
code (unsupported name type, unreadable entry data, a code point that fails to
decode), the lookup returns -1 with that code and the out-parameter refers to
e; when every entry is rejected, the lookup returns 0 and the out-parameter is
NULL. -/
theorem failed_lookup_leaves_out_parameter_set (E : Externals) (xml_tag : XmlTag)
    (string : List Nat) (string_length : Nat) (hlen : string_length ≤ SSIZE_MAX) :
    ((∀ before e after code, xml_tag.attributes_array = before ++ e :: after →
          (∀ x ∈ before, examine_utf8 E string string_length x = .rejected) →
          examine_utf8 E string string_length e = .failed code →
          libevtx_xml_tag_get_attribute_by_utf8_name E xml_tag string string_length none
            = some { status := -1, error := some code, out := e })
      ∧ ((∀ x ∈ xml_tag.attributes_array, examine_utf8 E string string_length x = .rejected) →
          libevtx_xml_tag_get_attribute_by_utf8_name E xml_tag string string_length none
            = some { status := 0, error := none, out := none }))
    ∧ ((∀ before e after code, xml_tag.attributes_array = before ++ e :: after →
          (∀ x ∈ before, examine_utf16 E string string_length x = .rejected) →
          examine_utf16 E string string_length e = .failed code →
          libevtx_xml_tag_get_attribute_by_utf16_name E xml_tag string string_length none
            = some { status := -1, error := some code, out := e })
      ∧ ((∀ x ∈ xml_tag.attributes_array, examine_utf16 E string string_length x = .rejected) →
          libevtx_xml_tag_get_attribute_by_utf16_name E xml_tag string string_length none
            = some { status := 0, error := none, out := none }))
    ∧ ((∀ before e after code, xml_tag.elements_array = before ++ e :: after →
          (∀ x ∈ before, examine_utf8 E string string_length x = .rejected) →
          examine_utf8 E string string_length e = .failed code →
          libevtx_xml_tag_get_element_by_utf8_name E xml_tag string string_length none
            = some { status := -1, error := some code, out := e })
      ∧ ((∀ x ∈ xml_tag.elements_array, examine_utf8 E string string_length x = .rejected) →
          libevtx_xml_tag_get_element_by_utf8_name E xml_tag string string_length none
            = some { status := 0, error := none, out := none }))
    ∧ ((∀ before e after code, xml_tag.elements_array = before ++ e :: after →
          (∀ x ∈ before, examine_utf16 E string string_length x = .rejected) →
          examine_utf16 E string string_length e = .failed code →
          libevtx_xml_tag_get_element_by_utf16_name E xml_tag string string_length none
            = some { status := -1, error := some code, out := e })
      ∧ ((∀ x ∈ xml_tag.elements_array, examine_utf16 E string string_length x = .rejected) →
          libevtx_xml_tag_get_element_by_utf16_name E xml_tag string string_length none
            = some { status := 0, error := none, out := none })) :=
  ⟨get_entry_by_name_out _ _ _ _ _ _ hlen, get_entry_by_name_out _ _ _ _ _ _ hlen,
   get_entry_by_name_out _ _ _ _ _ _ hlen, get_entry_by_name_out _ _ _ _ _ _ hlen⟩

/-- Witness for C36: with the attributes `Id`, then one named by a FILETIME
value, the needle `Name` is rejected at `Id` and fails at the second attribute
with UNSUPPORTED_VALUE: the lookup returns -1 and the out-parameter refers to
the second attribute.  With the attribute `Id` alone the same needle is not
found and the out-parameter is NULL. -/
theorem failed_lookup_leaves_out_parameter_set_witness :
    4 ≤ SSIZE_MAX
    ∧ libevtx_xml_tag_get_attribute_by_utf8_name reference_externals
        (node "T" [some (attribute_tag "Id" .STRING_UTF16 "7"), some time_named_tag] [])
        (units "Name") 4 none
      = some { status := -1, error := some ErrorCode.RUNTIME_UNSUPPORTED_VALUE,
               out := some time_named_tag }
    ∧ libevtx_xml_tag_get_attribute_by_utf8_name reference_externals
        (node "T" [some (attribute_tag "Id" .STRING_UTF16 "7")] []) (units "Name") 4 none
      = some { status := 0, error := none, out := none } :=
  ⟨by decide,
   (failed_lookup_leaves_out_parameter_set reference_externals
      (node "T" [some (attribute_tag "Id" .STRING_UTF16 "7"), some time_named_tag] [])
      (units "Name") 4 (by decide)).1.1
      [some (attribute_tag "Id" .STRING_UTF16 "7")] (some time_named_tag) [] _ rfl
      (by decide) (by decide),
   (failed_lookup_leaves_out_parameter_set reference_externals
      (node "T" [some (attribute_tag "Id" .STRING_UTF16 "7")] [])
      (units "Name") 4 (by decide)).1.2 (by decide)⟩

/-! ## Indentation -/

theorem lines_eq (type : XmlTagType) (name value : Option Value)
    (attrs elems : List (Option XmlTag)) :
    lines (.mk type name value attrs elems)
      = match type with
        | .NODE =>
          match value with
          | some _ => 1
          | none =>
            match elems with
            | [] => 1
            | e :: es => 2 + elements_lines (e :: es)
        | .CDATA => 1
        | .PI => 1 := by
  cases type <;> cases value <;> cases elems <;> rw [lines]

theorem elements_lines_nil : elements_lines [] = 0 := by
  rw [elements_lines]

theorem elements_lines_cons_some (t : XmlTag) (rest : List (Option XmlTag)) :
    elements_lines (some t :: rest) = lines t + elements_lines rest := by
  rw [elements_lines, entry_lines]

theorem attributes_string_size_shift (enc : Encoding) :
    ∀ (attrs : List (Option XmlTag)) (acc total d : Nat),
      attributes_string_size enc attrs acc = some total →
      attributes_string_size enc attrs (acc + d) = some (total + d) := by
  intro attrs acc total d h
  rw [attributes_string_size_eq] at h ⊢
  cases ha : attributes_text enc attrs with
  | none => simp [ha] at h
  | some a =>
    simp only [ha, Option.map_some', Option.some.injEq] at h ⊢
    omega

theorem xml_string_size_level_both (enc : Encoding) :
    (∀ (t : XmlTag) (L s : Nat), xml_string_size enc t L = some s →
      xml_string_size enc t (L + 1) = some (s + 2 * lines t) ∧ 1 ≤ s)
    ∧ (∀ (es : List (Option XmlTag)) (L acc total d : Nat),
      elements_string_size enc es L acc = some total →
      elements_string_size enc es (L + 1) (acc + d)
        = some (total + d + 2 * elements_lines es)) := by
  apply XmlTag.induct
  · intro type name value attrs elems IH L s h
    rw [xml_string_size_eq] at h ⊢
    rw [lines_eq]
    cases type with
    | NODE =>
      simp only at h ⊢
      cases hn : libfvalue_value_get_string_size enc name 0 with
      | none => simp [hn] at h
      | some nsz =>
        simp only [hn] at h ⊢
        cases ha : attributes_string_size enc attrs (L * 2 + 1 + (nsz - 1)) with
        | none => simp [ha] at h
        | some asz =>
          have ha' : attributes_string_size enc attrs ((L + 1) * 2 + 1 + (nsz - 1))
              = some (asz + 2) := by
            have := attributes_string_size_shift enc attrs _ asz 2 ha
            rw [← this]
            congr 1
            omega
          simp only [ha, ha'] at h ⊢
          cases value with
          | some v =>
            simp only at h ⊢
            cases hv : value_string_size enc v.type v.entries 0 with
            | none => simp [hv] at h
            | some vsz =>
              simp only [hv] at h ⊢
              by_cases hp : vsz > 0
              · simp only [hp, if_true, Option.some.injEq] at h ⊢
                omega
              · simp only [hp, if_false, Option.some.injEq] at h ⊢
                omega
          | none =>
            simp only at h ⊢
            cases elems with
            | nil =>
              simp only [Option.some.injEq] at h ⊢
              omega
            | cons e es =>
              simp only at h ⊢
              cases hk : elements_string_size enc (e :: es) (L + 1) asz with
              | none => simp [hk] at h
              | some tot =>
                have hk' := IH (L + 1) asz tot 2 hk
                simp only [hk, hk', Option.some.injEq] at h ⊢
                omega
    | CDATA =>
      simp only at h ⊢
      cases hv : libfvalue_value_get_string_size enc value 0 with
      | none => simp [hv] at h
      | some sz =>
        simp only [hv, Option.some.injEq] at h ⊢
        omega
    | PI =>
      simp only at h ⊢
      cases hn : libfvalue_value_get_string_size enc name 0 with
      | none => simp [hn] at h
      | some nsz =>
        cases hv : libfvalue_value_get_string_size enc value 0 with
        | none => simp [hn, hv] at h
        | some sz =>
          simp only [hn, hv, Option.some.injEq] at h ⊢
          omega
  · intro L acc total d h
    rw [elements_string_size_nil] at h ⊢
    rw [elements_lines_nil]
    simp only [Option.some.injEq] at h ⊢
    omega
  · intro rest _ L acc total d h
    rw [elements_string_size_cons, xml_string_size_entry_none] at h
    simp at h
  · intro t rest IHt IHrest L acc total d h
    rw [elements_string_size_cons, xml_string_size_entry_some] at h ⊢
    rw [elements_lines_cons_some]
    cases hs : xml_string_size enc t L with
    | none => simp [hs] at h
    | some s =>
      obtain ⟨hs', hpos⟩ := IHt L s hs
      simp only [hs, hs'] at h ⊢
      have := IHrest L (acc + (s - 1)) total (d + 2 * lines t) h
      rw [← Nat.add_assoc] at this
      have e : acc + d + (s + 2 * lines t - 1) = acc + (s - 1) + d + 2 * lines t := by omega
      rw [e, this]
      congr 1
      omega

/-! ## The arithmetic of the code and the count in natural numbers -/

theorem size_t_of_le {n : Nat} (h : n ≤ SIZE_MAX) : size_t n = n := by
  unfold size_t
  have : SIZE_MAX = 18446744073709551615 := rfl
  exact Nat.mod_eq_of_lt (by omega)

theorem size_t_difference_one {n : Nat} (h : 1 ≤ n) : size_t_difference n 1 = n - 1 := by
  unfold size_t_difference
  rw [if_neg (by omega)]

theorem int_result_of_small {z : Int} (h0 : 0 ≤ z) (h1 : z ≤ 2147483647) :
    int_result z = z := by
  unfold int_result
  omega

theorem to_size_t_of_nat (n : Nat) (h : n ≤ SIZE_MAX) : to_size_t (n : Int) = n := by
  unfold to_size_t
  have : SIZE_MAX = 18446744073709551615 := rfl
  omega

theorem level_first_of_fit {L : Nat} (h : L < 1073741824) :
    to_size_t (int_result (int_result ((L : Int) * 2) + 1)) = L * 2 + 1 := by
  have e1 : int_result ((L : Int) * 2) = (L : Int) * 2 :=
    int_result_of_small (by omega) (by omega)
  have e2 : int_result ((L : Int) * 2 + 1) = (L : Int) * 2 + 1 :=
    int_result_of_small (by omega) (by omega)
  rw [e1, e2]
  have e : (L : Int) * 2 + 1 = ((L * 2 + 1 : Nat) : Int) := by push_cast; rfl
  rw [e, to_size_t_of_nat _ (by have : SIZE_MAX = 18446744073709551615 := rfl; omega)]

theorem level_units_of_fit {L : Nat} (h : L < 1073741824) :
    Machine.level_units (L : Int) = L * 2 := by
  unfold Machine.level_units
  rw [int_result_of_small (by omega) (by omega)]
  have e : (L : Int) * 2 = ((L * 2 : Nat) : Int) := by push_cast; rfl
  rw [e, to_size_t_of_nat _ (by have : SIZE_MAX = 18446744073709551615 := rfl; omega)]

theorem level_next_of_fit {L : Nat} (h : L < 1073741824) :
    int_result ((L : Int) + 1) = ((L + 1 : Nat) : Int) := by
  rw [int_result_of_small (by omega) (by omega)]
  push_cast
  rfl

theorem attributes_string_size_le (enc : Encoding) (attrs : List (Option XmlTag))
    (acc total : Nat) (h : attributes_string_size enc attrs acc = some total) : acc ≤ total := by
  rw [attributes_string_size_eq] at h
  cases ha : attributes_text enc attrs with
  | none => simp [ha] at h
  | some w =>
    simp only [ha, Option.map_some', Option.some.injEq] at h
    omega

theorem value_string_size_le (enc : Encoding) (vt : ValueType) (es : List ValueEntry)
    (acc total : Nat) (h : value_string_size enc vt es acc = some total) : acc ≤ total := by
  rw [value_string_size_eq] at h
  cases ha : value_text enc vt es with
  | none => simp [ha] at h
  | some w =>
    simp only [ha, Option.map_some', Option.some.injEq] at h
    omega

theorem elements_string_size_le (enc : Encoding) (es : List (Option XmlTag))
    (L acc total : Nat) (h : elements_string_size enc es L acc = some total) : acc ≤ total := by
  rw [(xml_string_size_eq_text_both enc).2] at h
  cases ha : elements_text enc es L with
  | none => simp [ha] at h
  | some w =>
    simp only [ha, Option.map_some', Option.some.injEq] at h
    omega

theorem xml_string_size_pos (enc : Encoding) (t : XmlTag) (L s : Nat)
    (h : xml_string_size enc t L = some s) : 1 ≤ s :=
  ((xml_string_size_level_both enc).1 t L s h).2

theorem machine_attributes_string_size_of_fit (enc : Encoding) :
    ∀ (attrs : List (Option XmlTag)) (acc total : Nat),
      attributes_string_size enc attrs acc = some total → total ≤ SIZE_MAX →
      Machine.attributes_string_size enc attrs acc = some total := by
  intro attrs
  induction attrs with
  | nil => intro acc total h _; simpa [attributes_string_size, Machine.attributes_string_size] using h
  | cons a rest ih =>
    intro acc total h hfit
    cases a with
    | none => simp [attributes_string_size] at h
    | some a =>
      simp only [attributes_string_size] at h
      simp only [Machine.attributes_string_size]
      cases hn : libfvalue_value_get_string_size enc a.name 0 with
      | none => simp [hn] at h
      | some nsz =>
        simp only [hn] at h ⊢
        cases ht : libfvalue_value_get_type a.value with
        | none => simp [ht] at h
        | some vt =>
          simp only [ht] at h ⊢
          cases hv : libfvalue_value_get_string_size enc a.value 0 with
          | none => simp [hv] at h
          | some vsz =>
            simp only [hv] at h ⊢
            have hle := attributes_string_size_le enc rest _ total h
            rw [size_t_of_le (by omega)]
            exact ih _ total h hfit

theorem machine_value_string_size_of_fit (enc : Encoding) (vt : ValueType) :
    ∀ (es : List ValueEntry) (acc total : Nat),
      value_string_size enc vt es acc = some total → total ≤ SIZE_MAX →
      Machine.value_string_size enc vt es acc = some total := by
  intro es
  induction es with
  | nil => intro acc total h _; simpa [value_string_size, Machine.value_string_size] using h
  | cons e rest ih =>
    intro acc total h hfit
    simp only [value_string_size] at h
    simp only [Machine.value_string_size]
    cases he : ValueEntry.string_size enc e with
    | none => simp [he] at h
    | some sz =>
      simp only [he] at h ⊢
      have hle := value_string_size_le enc vt rest _ total h
      by_cases h1 : sz > 1
      · simp only [h1, if_true] at h hle ⊢
        rw [size_t_of_le (by omega)]
        exact ih _ total h hfit
      · simp only [h1, if_false] at h hle ⊢
        exact ih _ total h hfit

theorem machine_value_string_size_none (enc : Encoding) (vt : ValueType) :
    ∀ (es : List ValueEntry) (acc acc' : Nat),
      value_string_size enc vt es acc = none →
      Machine.value_string_size enc vt es acc' = none := by
  intro es
  induction es with
  | nil => intro acc acc' h; simp [value_string_size] at h
  | cons e rest ih =>
    intro acc acc' h
    simp only [value_string_size] at h
    simp only [Machine.value_string_size]
    cases he : ValueEntry.string_size enc e with
    | none => rfl
    | some sz =>
      simp only [he] at h ⊢
      exact ih _ _ h

theorem machine_xml_string_size_eq (enc : Encoding) (type : XmlTagType)
    (name value : Option Value) (attributes_array elements_array : List (Option XmlTag))
    (xml_tag_level : Int) :
    Machine.xml_string_size enc (.mk type name value attributes_array elements_array)
      xml_tag_level =
    match type with
    | .NODE =>
      match libfvalue_value_get_string_size enc name 0 with
      | none => none
      | some name_size =>
        match Machine.attributes_string_size enc attributes_array
            (size_t (to_size_t (int_result (int_result (xml_tag_level * 2) + 1))
              + size_t_difference name_size 1)) with
        | none => none
        | some string_size =>
          match value with
          | some v =>
            match Machine.value_string_size enc v.type v.entries 0 with
            | none => none
            | some value_size =>
              if value_size > 0 then
                some (size_t (size_t (string_size + (value_size + name_size + 2)) + 3))
              else
                some (size_t (size_t (string_size + 1) + 3))
          | none =>
            match elements_array with
            | [] => some (size_t (size_t (string_size + 1) + 3))
            | e :: es =>
              match Machine.elements_string_size enc (e :: es)
                  (int_result (xml_tag_level + 1)) string_size with
              | none => none
              | some string_size =>
                some (size_t (size_t (string_size
                  + (Machine.level_units xml_tag_level + name_size + 3)) + 3))
    | .CDATA =>
      match libfvalue_value_get_string_size enc value 0 with
      | none => none
      | some string_size =>
        some (size_t (size_t (to_size_t (int_result (int_result (xml_tag_level * 2) + 1))
          + (string_size + 9)) + 3))
    | .PI =>
      match libfvalue_value_get_string_size enc name 0 with
      | none => none
      | some name_size =>
        match libfvalue_value_get_string_size enc value 0 with
        | none => none
        | some string_size =>
          some (size_t (size_t (size_t
            (to_size_t (int_result (int_result (xml_tag_level * 2) + 1)) + name_size)
            + (string_size + 1)) + 3)) := by
  cases type <;> rw [Machine.xml_string_size]

theorem machine_elements_string_size_nil (enc : Encoding) (L : Int) (acc : Nat) :
    Machine.elements_string_size enc [] L acc = some acc := by
  rw [Machine.elements_string_size]

theorem machine_elements_string_size_cons_none (enc : Encoding)
    (rest : List (Option XmlTag)) (L : Int) (acc : Nat) :
    Machine.elements_string_size enc (none :: rest) L acc = none := by
  rw [Machine.elements_string_size, Machine.xml_string_size_entry]

theorem machine_elements_string_size_cons_some (enc : Encoding) (t : XmlTag)
    (rest : List (Option XmlTag)) (L : Int) (acc : Nat) :
    Machine.elements_string_size enc (some t :: rest) L acc =
      match Machine.xml_string_size enc t L with
      | none => none
      | some element_size =>
        Machine.elements_string_size enc rest L
          (size_t (acc + size_t_difference element_size 1)) := by
  rw [Machine.elements_string_size, Machine.xml_string_size_entry]

theorem nesting_eq (type : XmlTagType) (name value : Option Value)
    (attrs elems : List (Option XmlTag)) :
    nesting (.mk type name value attrs elems)
      = match type with
        | .NODE =>
          match value with
          | some _ => 0
          | none => elements_nesting elems
        | .CDATA => 0
        | .PI => 0 := by
  cases type <;> cases value <;> rw [nesting]

theorem elements_nesting_nil : elements_nesting [] = 0 := by
  rw [elements_nesting]

theorem elements_nesting_cons_some (t : XmlTag) (rest : List (Option XmlTag)) :
    elements_nesting (some t :: rest) = max (nesting t + 1) (elements_nesting rest) := by
  rw [elements_nesting, entry_nesting]

theorem machine_xml_string_size_of_fit_both (enc : Encoding) :
    (∀ (t : XmlTag) (L s : Nat), xml_string_size enc t L = some s → s ≤ SIZE_MAX →
      L + nesting t < 1073741824 → Machine.xml_string_size enc t (L : Int) = some s)
    ∧ (∀ (es : List (Option XmlTag)) (L acc total : Nat), 1 ≤ acc →
      elements_string_size enc es (L + 1) acc = some total → total ≤ SIZE_MAX →
      L + elements_nesting es < 1073741824 →
      Machine.elements_string_size enc es ((L + 1 : Nat) : Int) acc = some total) := by
  apply XmlTag.induct
  · intro type name value attrs elems IH L s h hfit hlev
    rw [xml_string_size_eq] at h
    rw [machine_xml_string_size_eq]
    rw [nesting_eq] at hlev
    have hL : L < 1073741824 := by omega
    cases type with
    | NODE =>
      simp only at h hlev ⊢
      cases hn : libfvalue_value_get_string_size enc name 0 with
      | none => simp [hn] at h
      | some nsz =>
        have hpos := get_string_size_pos hn
        simp only [hn] at h ⊢
        rw [level_first_of_fit hL, size_t_difference_one hpos]
        cases ha : attributes_string_size enc attrs (L * 2 + 1 + (nsz - 1)) with
        | none => simp [ha] at h
        | some asz =>
          have hale := attributes_string_size_le enc attrs _ asz ha
          simp only [ha] at h
          cases value with
          | some v =>
            simp only at h
            cases hv : value_string_size enc v.type v.entries 0 with
            | none => simp [hv] at h
            | some vsz =>
              simp only [hv] at h
              by_cases hp : vsz > 0
              · simp only [hp, if_true, Option.some.injEq] at h
                rw [size_t_of_le (by omega),
                  machine_attributes_string_size_of_fit enc attrs _ asz ha (by omega)]
                simp only
                rw [machine_value_string_size_of_fit enc v.type v.entries 0 vsz hv (by omega)]
                simp only [hp, if_true]
                rw [size_t_of_le (show asz + (vsz + nsz + 2) ≤ SIZE_MAX by omega),
                  size_t_of_le (by omega), h]
              · simp only [hp, if_false, Option.some.injEq] at h
                rw [size_t_of_le (by omega),
                  machine_attributes_string_size_of_fit enc attrs _ asz ha (by omega)]
                simp only
                rw [machine_value_string_size_of_fit enc v.type v.entries 0 vsz hv (by omega)]
                simp only [hp, if_false]
                rw [size_t_of_le (show asz + 1 ≤ SIZE_MAX by omega),
                  size_t_of_le (by omega), h]
          | none =>
            simp only at h hlev
            cases elems with
            | nil =>
              simp only [Option.some.injEq] at h
              rw [size_t_of_le (by omega),
                machine_attributes_string_size_of_fit enc attrs _ asz ha (by omega)]
              simp only
              rw [size_t_of_le (show asz + 1 ≤ SIZE_MAX by omega),
                size_t_of_le (by omega), h]
            | cons e es =>
              simp only at h
              cases hk : elements_string_size enc (e :: es) (L + 1) asz with
              | none => simp [hk] at h
              | some tot =>
                have hkle := elements_string_size_le enc _ _ _ _ hk
                simp only [hk, Option.some.injEq] at h
                rw [size_t_of_le (by omega),
                  machine_attributes_string_size_of_fit enc attrs _ asz ha (by omega)]
                simp only
                rw [level_next_of_fit hL, IH L asz tot (by omega) hk (by omega) hlev]
                simp only
                rw [level_units_of_fit hL,
                  size_t_of_le (show tot + (L * 2 + nsz + 3) ≤ SIZE_MAX by omega),
                  size_t_of_le (by omega), h]
    | CDATA =>
      simp only at h ⊢
      cases hv : libfvalue_value_get_string_size enc value 0 with
      | none => simp [hv] at h
      | some sz =>
        simp only [hv, Option.some.injEq] at h ⊢
        rw [level_first_of_fit hL,
          size_t_of_le (show L * 2 + 1 + (sz + 9) ≤ SIZE_MAX by omega),
          size_t_of_le (by omega)]
        exact h
    | PI =>
      simp only at h ⊢
      cases hn : libfvalue_value_get_string_size enc name 0 with
      | none => simp [hn] at h
      | some nsz =>
        cases hv : libfvalue_value_get_string_size enc value 0 with
        | none => simp [hn, hv] at h
        | some sz =>
          simp only [hn, hv, Option.some.injEq] at h ⊢
          rw [level_first_of_fit hL,
            size_t_of_le (show L * 2 + 1 + nsz ≤ SIZE_MAX by omega),
            size_t_of_le (show L * 2 + 1 + nsz + (sz + 1) ≤ SIZE_MAX by omega),
            size_t_of_le (by omega)]
          exact h
  · intro L acc total _ h _ _
    rw [elements_string_size_nil] at h
    rw [machine_elements_string_size_nil]
    exact h
  · intro rest _ L acc total _ h _ _
    rw [elements_string_size_cons, xml_string_size_entry_none] at h
    simp at h
  · intro t rest IHt IHrest L acc total hacc h hfit hlev
    rw [elements_string_size_cons, xml_string_size_entry_some] at h
    rw [machine_elements_string_size_cons_some]
    rw [elements_nesting_cons_some] at hlev
    cases hs : xml_string_size enc t (L + 1) with
    | none => simp [hs] at h
    | some s =>
      simp only [hs] at h
      have hpos := xml_string_size_pos enc t (L + 1) s hs
      have hle := elements_string_size_le enc rest (L + 1) _ total h
      rw [IHt (L + 1) s hs (by omega) (by omega)]
      simp only
      rw [size_t_difference_one hpos, size_t_of_le (by omega)]
      exact IHrest L _ total (by omega) h hfit (by omega)

/-! ## The writer in the arithmetic of the code -/

theorem machine_store_eq (cap u : Nat) (st : WState) (h : st.index + 1 ≤ SIZE_MAX) :
    Machine.store cap st u = store cap st u := by
  unfold Machine.store store
  rw [size_t_of_le h]

theorem machine_store_list_eq (cap : Nat) : ∀ (l : List Nat) {st : WState},
    st.index + l.length ≤ SIZE_MAX → Machine.store_list cap st l = store_list cap st l := by
  intro l
  induction l with
  | nil => intro st _; rfl
  | cons a l ih =>
    intro st h
    simp only [List.length_cons] at h
    show Machine.store_list cap (Machine.store cap st a) l = store_list cap (store cap st a) l
    rw [machine_store_eq cap a st (by omega)]
    exact ih (by simp only [store_index]; omega)

theorem machine_indent_eq (cap : Nat) : ∀ (n : Nat) {st : WState},
    st.index + n * 2 ≤ SIZE_MAX → Machine.indent cap n st = indent cap n st := by
  intro n
  induction n with
  | zero => intro st _; rfl
  | succ n ih =>
    intro st h
    simp only [Machine.indent, indent]
    rw [machine_store_eq cap 32 st (by omega),
      machine_store_eq cap 32 (store cap st 32) (by simp only [store_index]; omega)]
    exact ih (by simp only [store_index]; omega)

theorem machine_write_trailer_eq (cap : Nat) {st : WState} (h : st.index + 3 ≤ SIZE_MAX) :
    Machine.write_trailer cap st = write_trailer cap st := by
  unfold Machine.write_trailer write_trailer
  rw [machine_store_eq cap 62 st (by omega),
    machine_store_eq cap 10 (store cap st 62) (by simp only [store_index]; omega),
    machine_store_eq cap 0 (store cap (store cap st 62) 10) (by simp only [store_index]; omega)]

theorem machine_rewind_eq {st : WState} (h : 1 ≤ st.index) : Machine.rewind st = rewind st := by
  unfold Machine.rewind rewind
  rw [size_t_difference_one h]

theorem machine_require_room_eq (cap n : Nat) {st : WState} (h : st.index + n ≤ SIZE_MAX) :
    Machine.require_room cap n st = require_room cap n st := by
  unfold Machine.require_room require_room
  rw [size_t_of_le h]

theorem machine_copy_value_eq (enc : Encoding) (value : Option Value) (i cap : Nat)
    (st : WState) : Machine.copy_value enc value i cap st = copy_value enc value i cap st := by
  unfold Machine.copy_value copy_value
  cases h : libfvalue_value_copy_to_string_with_index enc value i cap st with
  | none => rfl
  | some st1 =>
    simp only
    rw [machine_rewind_eq]
    unfold libfvalue_value_copy_to_string_with_index at h
    cases value with
    | none => simp at h
    | some v =>
      simp only at h
      cases he : v.entries[i]? with
      | none => simp [he] at h
      | some e =>
        simp only [he] at h
        cases hr : e.string enc with
        | none => simp [hr] at h
        | some r =>
          simp only [hr] at h
          by_cases hc : st.index + (r.length + 1) > cap
          · simp [hc] at h
          · simp only [hc, if_false, Option.some.injEq] at h
            subst h
            simp only [store_list_index, List.length_append, List.length_cons, List.length_nil]
            omega

theorem Same.mono {cap k k' : Nat} {rm ri : WResult} (h : Same cap k rm ri) (hk : k ≤ k') :
    Same cap k' rm ri :=
  ⟨h.1, fun st hs => by have := h.2 st hs; omega⟩

theorem Same.sequence {cap k k' : Nat} {rm ri : WResult} {fm fi : WState → WResult}
    (h : Same cap k rm ri)
    (hf : ∀ s, ri = .ok s → s.index ≤ cap + k → Same cap k' (fm s) (fi s)) :
    Same cap k' (rm.andThen fm) (ri.andThen fi) := by
  obtain ⟨e, hk⟩ := h
  subst e
  cases rm with
  | error x => exact ⟨rfl, fun st hs => by cases hs⟩
  | ok s => exact hf s rfl (hk s rfl)

theorem same_require_room (cap n : Nat) {st : WState} (h : st.index + n ≤ SIZE_MAX) :
    Same cap 0 (Machine.require_room cap n st) (require_room cap n st) := by
  refine ⟨machine_require_room_eq cap n h, ?_⟩
  intro s hs
  obtain ⟨e, hr⟩ := require_room_ok hs
  subst e
  omega

theorem same_copy_value (enc : Encoding) (value : Option Value) (i cap : Nat) {sm st : WState}
    (h : sm = st) :
    Same cap 0 (Machine.copy_value enc value i cap sm) (copy_value enc value i cap st) := by
  subst h
  refine ⟨machine_copy_value_eq enc value i cap sm, ?_⟩
  intro s hs
  obtain ⟨sz, -, h1, h2⟩ := copy_value_ok hs
  omega

theorem same_ok {cap k : Nat} {sm st : WState} (h : sm = st) (hk : st.index ≤ cap + k) :
    Same cap k (.ok sm) (.ok st) := by
  subst h
  exact ⟨rfl, fun s hs => by cases hs; exact hk⟩

theorem same_error {cap k : Nat} {sm st : WState} (code : ErrorCode) (h : sm = st) :
    Same cap k (.error (code, sm)) (.error (code, st)) := by
  subst h
  exact ⟨rfl, fun s hs => by cases hs⟩

theorem same_write_attributes (enc : Encoding) (cap : Nat) (hcap : cap ≤ SSIZE_MAX) :
    ∀ (attrs : List (Option XmlTag)) (st : WState), st.index ≤ cap + 1 →
      Same cap 1 (Machine.write_attributes enc cap attrs st)
        (write_attributes enc cap attrs st) := by
  have hS : SIZE_MAX = 18446744073709551615 := rfl
  have hSS : SSIZE_MAX = 9223372036854775807 := rfl
  intro attrs
  induction attrs with
  | nil => intro st h; exact same_ok rfl h
  | cons x rest ih =>
    intro st h
    cases x with
    | none => exact same_error _ rfl
    | some a =>
      simp only [Machine.write_attributes, write_attributes]
      apply Same.sequence (same_require_room cap 1 (by omega))
      intro s _ hs
      apply Same.sequence (same_copy_value enc a.name 0 cap (machine_store_eq cap 32 _ (by omega)))
      intro s _ hs
      apply Same.sequence (same_require_room cap 2 (by omega))
      intro s _ hs
      have e1 : Machine.store cap (Machine.store cap s 61) 34 = store cap (store cap s 61) 34 := by
        rw [machine_store_eq cap 61 s (by omega),
          machine_store_eq cap 34 (store cap s 61) (by simp only [store_index]; omega)]
      cases libfvalue_value_get_type a.value with
      | none => exact same_error _ e1
      | some vt =>
        simp only
        apply Same.sequence (same_copy_value enc a.value 0 cap e1)
        intro s _ hs
        apply Same.sequence (same_require_room cap 1 (by omega))
        intro s hs0 hs
        obtain ⟨-, hroom⟩ := require_room_ok hs0
        split
        · apply Same.sequence (same_require_room cap 1 (by omega))
          intro s2 hs2 _
          have hi2 : s2.index + 1 ≤ cap := by
            obtain ⟨e2, h2⟩ := require_room_ok hs2
            rw [e2]
            exact h2
          have e3 : Machine.store cap (Machine.store cap s2 90) 34
              = store cap (store cap s2 90) 34 := by
            rw [machine_store_eq cap 90 s2 (by omega),
              machine_store_eq cap 34 (store cap s2 90) (by simp only [store_index]; omega)]
          rw [e3]
          exact ih _ (by simp only [store_index]; omega)
        · rw [machine_store_eq cap 34 s (by omega)]
          exact ih _ (by simp only [store_index]; omega)

theorem same_write_value_entries (enc : Encoding) (cap : Nat) (hcap : cap ≤ SSIZE_MAX)
    (value : Value) :
    ∀ (es : List ValueEntry) (i : Nat) (st : WState), st.index ≤ cap + 1 →
      Same cap 1 (Machine.write_value_entries enc cap value es i st)
        (write_value_entries enc cap value es i st) := by
  have hS : SIZE_MAX = 18446744073709551615 := rfl
  have hSS : SSIZE_MAX = 9223372036854775807 := rfl
  intro es
  induction es with
  | nil => intro i st h; exact same_ok rfl h
  | cons e rest ih =>
    intro i st h
    simp only [Machine.write_value_entries, write_value_entries]
    cases ValueEntry.string_size enc e with
    | none => exact same_error _ rfl
    | some sz =>
      simp only
      split
      · apply Same.sequence (same_copy_value enc (some value) i cap rfl)
        intro s _ hs
        split
        · apply Same.sequence (same_require_room cap 1 (by omega))
          intro s2 hs2 _
          have hi2 : s2.index + 1 ≤ cap := by
            obtain ⟨e2, h2⟩ := require_room_ok hs2
            rw [e2]
            exact h2
          rw [machine_store_eq cap 90 s2 (by omega)]
          exact ih (i + 1) _ (by simp only [store_index]; omega)
        · exact ih (i + 1) s (by omega)
      · exact ih (i + 1) st h

theorem machine_xml_string_with_index_eq (enc : Encoding) (type : XmlTagType)
    (name value : Option Value) (attributes_array elements_array : List (Option XmlTag))
    (xml_tag_level : Int) (cap : Nat) (st : WState) :
    Machine.xml_string_with_index enc (.mk type name value attributes_array elements_array)
      xml_tag_level cap st =
    if cap > SSIZE_MAX then .error (ErrorCode.ARGUMENT_VALUE_EXCEEDS_MAXIMUM, st)
    else
    (Machine.require_room cap (Machine.level_units xml_tag_level + 1) st).andThen fun st =>
    match type with
    | .NODE =>
      (Machine.copy_value enc name 0 cap
        (Machine.store cap (Machine.indent cap xml_tag_level.toNat st) 60)).andThen fun st =>
      (Machine.write_attributes enc cap attributes_array st).andThen fun st =>
      WResult.andThen (match value with
        | some v =>
          match Machine.value_string_size enc v.type v.entries 0 with
          | none => .error (ErrorCode.RUNTIME_GET_FAILED, st)
          | some value_size =>
            if value_size > 0 then
              (Machine.require_room cap 1 st).andThen fun st =>
              (Machine.write_value_entries enc cap v v.entries 0
                (Machine.store cap st 62)).andThen fun st =>
              (Machine.require_room cap 2 st).andThen fun st =>
              Machine.copy_value enc name 0 cap
                (Machine.store cap (Machine.store cap st 60) 47)
            else
              (Machine.require_room cap 1 st).andThen fun st =>
              .ok (Machine.store cap st 47)
        | none =>
          match elements_array with
          | [] =>
            (Machine.require_room cap 1 st).andThen fun st => .ok (Machine.store cap st 47)
          | e :: es =>
            (Machine.require_room cap 2 st).andThen fun st =>
            (Machine.write_elements enc (e :: es) (int_result (xml_tag_level + 1)) cap
              (Machine.store cap (Machine.store cap st 62) 10)).andThen fun st =>
            (Machine.require_room cap (Machine.level_units xml_tag_level) st).andThen fun st =>
            (Machine.require_room cap 2
              (Machine.indent cap xml_tag_level.toNat st)).andThen fun st =>
            Machine.copy_value enc name 0 cap
              (Machine.store cap (Machine.store cap st 60) 47)) fun st =>
      (Machine.require_room cap 3 st).andThen fun st => .ok (Machine.write_trailer cap st)
    | .CDATA =>
      (Machine.require_room cap 8
        (Machine.store cap (Machine.indent cap xml_tag_level.toNat st) 60)).andThen fun st =>
      (Machine.copy_value enc value 0 cap
        (Machine.store_list cap st [33, 91, 67, 68, 65, 84, 65, 91])).andThen fun st =>
      (Machine.require_room cap 2 st).andThen fun st =>
      .ok (Machine.write_trailer cap (Machine.store cap (Machine.store cap st 93) 93))
    | .PI =>
      (Machine.require_room cap 1
        (Machine.store cap (Machine.indent cap xml_tag_level.toNat st) 60)).andThen fun st =>
      (Machine.copy_value enc name 0 cap (Machine.store cap st 63)).andThen fun st =>
      (Machine.require_room cap 1 st).andThen fun st =>
      (Machine.copy_value enc value 0 cap (Machine.store cap st 32)).andThen fun st =>
      (Machine.require_room cap 1 st).andThen fun st =>
      .ok (Machine.write_trailer cap (Machine.store cap st 63)) := by
  rw [Machine.xml_string_with_index]

theorem machine_write_elements_nil (enc : Encoding) (L : Int) (cap : Nat) (st : WState) :
    Machine.write_elements enc [] L cap st = .ok st := by
  rw [Machine.write_elements]

theorem machine_write_elements_cons_none (enc : Encoding) (rest : List (Option XmlTag))
    (L : Int) (cap : Nat) (st : WState) :
    Machine.write_elements enc (none :: rest) L cap st
      = .error (ErrorCode.RUNTIME_COPY_FAILED, st) := by
  rw [Machine.write_elements, Machine.xml_string_with_index_entry]

theorem machine_write_elements_cons_some (enc : Encoding) (t : XmlTag)
    (rest : List (Option XmlTag)) (L : Int) (cap : Nat) (st : WState) :
    Machine.write_elements enc (some t :: rest) L cap st =
      match Machine.xml_string_with_index enc t L cap st with
      | .error (_, st1) => .error (ErrorCode.RUNTIME_COPY_FAILED, st1)
      | .ok st1 => Machine.write_elements enc rest L cap (Machine.rewind st1) := by
  rw [Machine.write_elements, Machine.xml_string_with_index_entry]

theorem value_sizes_fit_eq (enc : Encoding) (type : XmlTagType) (name value : Option Value)
    (attrs elems : List (Option XmlTag)) :
    value_sizes_fit enc (.mk type name value attrs elems)
      = match type with
        | .NODE =>
          match value with
          | some v =>
            match value_string_size enc v.type v.entries 0 with
            | none => true
            | some value_size => decide (value_size ≤ SIZE_MAX)
          | none => elements_value_sizes_fit enc elems
        | .CDATA => true
        | .PI => true := by
  cases type <;> cases value <;> rw [value_sizes_fit]

theorem elements_value_sizes_fit_cons_some (enc : Encoding) (t : XmlTag)
    (rest : List (Option XmlTag)) :
    elements_value_sizes_fit enc (some t :: rest)
      = (value_sizes_fit enc t && elements_value_sizes_fit enc rest) := by
  rw [elements_value_sizes_fit, entry_value_sizes_fit]

theorem same_xml_string_with_index_both (enc : Encoding) :
    (∀ (t : XmlTag) (L cap : Nat) (st : WState), value_sizes_fit enc t = true →
      L + nesting t < 1073741824 → cap ≤ SSIZE_MAX → st.index + (L * 2 + 1) ≤ SIZE_MAX →
      Same cap 3 (Machine.xml_string_with_index enc t (L : Int) cap st)
        (xml_string_with_index enc t L cap st))
    ∧ (∀ (es : List (Option XmlTag)) (L cap : Nat) (st : WState),
      elements_value_sizes_fit enc es = true →
      L + elements_nesting es < 1073741824 → cap ≤ SSIZE_MAX → st.index ≤ cap + 3 →
      Same cap 3 (Machine.write_elements enc es ((L + 1 : Nat) : Int) cap st)
        (write_elements enc es (L + 1) cap st)) := by
  have hS : SIZE_MAX = 18446744073709551615 := rfl
  have hSS : SSIZE_MAX = 9223372036854775807 := rfl
  apply XmlTag.induct
  · intro type name value attrs elems IH L cap st hfit hlev hcap hidx
    rw [machine_xml_string_with_index_eq, xml_string_with_index_eq]
    rw [value_sizes_fit_eq] at hfit
    rw [nesting_eq] at hlev
    have hL : L < 1073741824 := by omega
    rw [if_neg (by omega), if_neg (by omega), level_units_of_fit hL, Int.toNat_ofNat]
    apply Same.sequence (same_require_room cap (L * 2 + 1) hidx)
    intro s hs0 _
    have hroom : s.index + (L * 2 + 1) ≤ cap := by
      obtain ⟨e, h⟩ := require_room_ok hs0
      rw [e]
      exact h
    have e0 : Machine.store cap (Machine.indent cap L s) 60 = store cap (indent cap L s) 60 := by
      rw [machine_indent_eq cap L (by omega),
        machine_store_eq cap 60 _ (by simp only [indent_index]; omega)]
    have i0 : (store cap (indent cap L s) 60).index ≤ cap := by
      simp only [store_index, indent_index]
      omega
    rw [e0]
    cases type with
    | NODE =>
      simp only at hfit hlev ⊢
      apply Same.sequence (same_copy_value enc name 0 cap rfl)
      intro s _ hs
      apply Same.sequence (same_write_attributes enc cap hcap attrs s (by omega))
      intro s _ hs
      apply Same.sequence (k := 1)
      · cases value with
        | some v =>
          simp only at hfit ⊢
          cases hv : value_string_size enc v.type v.entries 0 with
          | none =>
            rw [machine_value_string_size_none enc v.type v.entries 0 0 hv]
            exact same_error _ rfl
          | some value_size =>
            rw [hv] at hfit
            simp only [decide_eq_true_eq] at hfit
            rw [machine_value_string_size_of_fit enc v.type v.entries 0 value_size hv hfit]
            simp only
            split
            · apply Same.sequence (same_require_room cap 1 (by omega))
              intro s hs0 hs
              have hr1 : s.index + 1 ≤ cap := by
                obtain ⟨e, h⟩ := require_room_ok hs0
                rw [e]
                exact h
              rw [machine_store_eq cap 62 s (by omega)]
              apply Same.sequence
                (same_write_value_entries enc cap hcap v v.entries 0 _
                  (by simp only [store_index]; omega))
              intro s _ hs
              apply Same.sequence (same_require_room cap 2 (by omega))
              intro s _ hs
              have e1 : Machine.store cap (Machine.store cap s 60) 47
                  = store cap (store cap s 60) 47 := by
                rw [machine_store_eq cap 60 s (by omega),
                  machine_store_eq cap 47 (store cap s 60) (by simp only [store_index]; omega)]
              exact (same_copy_value enc name 0 cap e1).mono (by omega)
            · apply Same.sequence (same_require_room cap 1 (by omega))
              intro s hs0 hs
              have hr1 : s.index + 1 ≤ cap := by
                obtain ⟨e, h⟩ := require_room_ok hs0
                rw [e]
                exact h
              exact same_ok (machine_store_eq cap 47 s (by omega))
                (by simp only [store_index]; omega)
        | none =>
          simp only at hfit hlev ⊢
          cases elems with
          | nil =>
            simp only
            apply Same.sequence (same_require_room cap 1 (by omega))
            intro s hs0 hs
            have hr1 : s.index + 1 ≤ cap := by
              obtain ⟨e, h⟩ := require_room_ok hs0
              rw [e]
              exact h
            exact same_ok (machine_store_eq cap 47 s (by omega))
              (by simp only [store_index]; omega)
          | cons e es =>
            simp only
            apply Same.sequence (same_require_room cap 2 (by omega))
            intro s hs0 hs
            have hr2 : s.index + 2 ≤ cap := by
              obtain ⟨e, h⟩ := require_room_ok hs0
              rw [e]
              exact h
            have e1 : Machine.store cap (Machine.store cap s 62) 10
                = store cap (store cap s 62) 10 := by
              rw [machine_store_eq cap 62 s (by omega),
                machine_store_eq cap 10 (store cap s 62) (by simp only [store_index]; omega)]
            rw [e1, level_next_of_fit hL]
            apply Same.sequence
              (IH L cap _ hfit hlev hcap (by simp only [store_index]; omega))
            intro s _ hs
            apply Same.sequence (same_require_room cap (L * 2) (by omega))
            intro s hs0 hs
            have hr3 : s.index + L * 2 ≤ cap := by
              obtain ⟨e, h⟩ := require_room_ok hs0
              rw [e]
              exact h
            rw [machine_indent_eq cap L (by omega)]
            apply Same.sequence
              (same_require_room cap 2 (by simp only [indent_index]; omega))
            intro s _ hs
            have e2 : Machine.store cap (Machine.store cap s 60) 47
                = store cap (store cap s 60) 47 := by
              rw [machine_store_eq cap 60 s (by omega),
                machine_store_eq cap 47 (store cap s 60) (by simp only [store_index]; omega)]
            exact (same_copy_value enc name 0 cap e2).mono (by omega)
      · intro s _ hs
        apply Same.sequence (same_require_room cap 3 (by omega))
        intro s hs0 hs
        have hr3 : s.index + 3 ≤ cap := by
          obtain ⟨e, h⟩ := require_room_ok hs0
          rw [e]
          exact h
        exact same_ok (machine_write_trailer_eq cap (by omega))
          (by simp only [write_trailer_index]; omega)
    | CDATA =>
      simp only
      apply Same.sequence (same_require_room cap 8 (by omega))
      intro s hs0 hs
      have hr8 : s.index + 8 ≤ cap := by
        obtain ⟨e, h⟩ := require_room_ok hs0
        rw [e]
        exact h
      apply Same.sequence
        (same_copy_value enc value 0 cap
          (machine_store_list_eq cap _ (by simp only [List.length_cons, List.length_nil]; omega)))
      intro s _ hs
      apply Same.sequence (same_require_room cap 2 (by omega))
      intro s hs0 hs
      have hr2 : s.index + 2 ≤ cap := by
        obtain ⟨e, h⟩ := require_room_ok hs0
        rw [e]
        exact h
      have e1 : Machine.store cap (Machine.store cap s 93) 93
          = store cap (store cap s 93) 93 := by
        rw [machine_store_eq cap 93 s (by omega),
          machine_store_eq cap 93 (store cap s 93) (by simp only [store_index]; omega)]
      rw [e1]
      exact same_ok (machine_write_trailer_eq cap (by simp only [store_index]; omega))
        (by simp only [write_trailer_index, store_index]; omega)
    | PI =>
      simp only
      apply Same.sequence (same_require_room cap 1 (by omega))
      intro s hs0 hs
      have hr1 : s.index + 1 ≤ cap := by
        obtain ⟨e, h⟩ := require_room_ok hs0
        rw [e]
        exact h
      apply Same.sequence (same_copy_value enc name 0 cap (machine_store_eq cap 63 s (by omega)))
      intro s _ hs
      apply Same.sequence (same_require_room cap 1 (by omega))
      intro s hs0 hs
      have hr1 : s.index + 1 ≤ cap := by
        obtain ⟨e, h⟩ := require_room_ok hs0
        rw [e]
        exact h
      apply Same.sequence (same_copy_value enc value 0 cap (machine_store_eq cap 32 s (by omega)))
      intro s _ hs
      apply Same.sequence (same_require_room cap 1 (by omega))
      intro s hs0 hs
      have hr1 : s.index + 1 ≤ cap := by
        obtain ⟨e, h⟩ := require_room_ok hs0
        rw [e]
        exact h
      rw [machine_store_eq cap 63 s (by omega)]
      exact same_ok (machine_write_trailer_eq cap (by simp only [store_index]; omega))
        (by simp only [write_trailer_index, store_index]; omega)
  · intro L cap st _ _ _ h
    rw [machine_write_elements_nil, write_elements_nil]
    exact same_ok rfl h
  · intro rest _ L cap st _ _ _ h
    rw [machine_write_elements_cons_none, write_elements_cons, xml_string_with_index_entry_none]
    exact same_error _ rfl
  · intro t rest IHt IHrest L cap st hfit hlev hcap h
    rw [machine_write_elements_cons_some, write_elements_cons, xml_string_with_index_entry_some]
    rw [elements_value_sizes_fit_cons_some, Bool.and_eq_true] at hfit
    rw [elements_nesting_cons_some] at hlev
    obtain ⟨hm, hk⟩ := IHt (L + 1) cap st hfit.1 (by omega) hcap (by omega)
    rw [hm]
    cases hr : xml_string_with_index enc t (L + 1) cap st with
    | error e =>
      obtain ⟨code, s1⟩ := e
      exact same_error _ rfl
    | ok s1 =>
      simp only
      have hk1 := hk s1 hr
      obtain ⟨sz, -, hidx, hpos⟩ := (xml_string_with_index_index_both enc).1 t (L + 1) cap st s1 hr
      rw [machine_rewind_eq (by omega)]
      exact IHrest L cap (rewind s1) hfit.2 (by omega) hcap (by simp only [rewind_index]; omega)

theorem machine_get_xml_string_with_index_of_fit (enc : Encoding) (t : XmlTag) (L : Nat)
    (buf : List Nat) (cap i0 : Nat) (hr : in_range enc t L)
    (hidx : i0 + (2 * L + 1) ≤ SIZE_MAX) :
    Machine.get_xml_string_with_index enc t (L : Int) buf cap i0
        = get_xml_string_with_index enc t L buf cap i0
    ∧ (cap ≤ SSIZE_MAX → ∀ st1, xml_string_with_index enc t L cap
        { buf := buf, index := i0, oob := false } = .ok st1 → st1.index ≤ cap + 3) := by
  obtain ⟨hlev, hfit⟩ := hr
  by_cases hcap : cap ≤ SSIZE_MAX
  · obtain ⟨he, hk⟩ := (same_xml_string_with_index_both enc).1 t L cap
      { buf := buf, index := i0, oob := false } hfit hlev hcap (by simp only; omega)
    refine ⟨?_, fun _ => hk⟩
    unfold Machine.get_xml_string_with_index get_xml_string_with_index
    rw [he]
  · refine ⟨?_, fun h => absurd h hcap⟩
    unfold Machine.get_xml_string_with_index get_xml_string_with_index
    cases t with
    | mk type name value attrs elems =>
      rw [machine_xml_string_with_index_eq, xml_string_with_index_eq,
        if_pos (by omega), if_pos (by omega)]

theorem value_sizes_fit_of_size_both (enc : Encoding) :
    (∀ (t : XmlTag) (L s : Nat), xml_string_size enc t L = some s → s ≤ SIZE_MAX →
      value_sizes_fit enc t = true)
    ∧ (∀ (es : List (Option XmlTag)) (L acc total : Nat), 1 ≤ acc →
      elements_string_size enc es L acc = some total → total ≤ SIZE_MAX →
      elements_value_sizes_fit enc es = true) := by
  apply XmlTag.induct
  · intro type name value attrs elems IH L s h hfit
    rw [xml_string_size_eq] at h
    rw [value_sizes_fit_eq]
    cases type with
    | NODE =>
      simp only at h ⊢
      cases hn : libfvalue_value_get_string_size enc name 0 with
      | none => simp [hn] at h
      | some nsz =>
        simp only [hn] at h
        cases ha : attributes_string_size enc attrs (L * 2 + 1 + (nsz - 1)) with
        | none => simp [ha] at h
        | some asz =>
          simp only [ha] at h
          cases value with
          | some v =>
            simp only at h ⊢
            cases hv : value_string_size enc v.type v.entries 0 with
            | none => rfl
            | some vsz =>
              simp only [hv] at h ⊢
              rw [decide_eq_true_eq]
              by_cases hp : vsz > 0
              · simp only [hp, if_true, Option.some.injEq] at h
                omega
              · omega
          | none =>
            simp only at h ⊢
            cases elems with
            | nil => rw [elements_value_sizes_fit]
            | cons e es =>
              simp only at h
              cases hk : elements_string_size enc (e :: es) (L + 1) asz with
              | none => simp [hk] at h
              | some tot =>
                simp only [hk, Option.some.injEq] at h
                have hale := attributes_string_size_le enc attrs _ asz ha
                exact IH (L + 1) asz tot (by omega) hk (by omega)
    | CDATA => rfl
    | PI => rfl
  · intro L acc total _ _ _
    rw [elements_value_sizes_fit]
  · intro rest _ L acc total _ h _
    rw [elements_string_size_cons, xml_string_size_entry_none] at h
    simp at h
  · intro t rest IHt IHrest L acc total hacc1 h hfit
    rw [elements_string_size_cons, xml_string_size_entry_some] at h
    rw [elements_value_sizes_fit_cons_some, Bool.and_eq_true]
    cases hs : xml_string_size enc t L with
    | none => simp [hs] at h
    | some s =>
      simp only [hs] at h
      have hle := elements_string_size_le enc rest L _ total h
      exact ⟨IHt L s hs (by omega), IHrest L _ total (by omega) h hfit⟩

theorem machine_xml_string_size_of_fit (enc : Encoding) (t : XmlTag) (L s : Nat)
    (h : xml_string_size enc t L = some s) (hfit : s ≤ SIZE_MAX)
    (hlev : L + nesting t < level_limit) :
    Machine.xml_string_size enc t (L : Int) = some s :=
  (machine_xml_string_size_of_fit_both enc).1 t L s h hfit hlev

/-! ## Sizes and indices in the arithmetic of the code -/

theorem status_one_within_ssize_max {enc : Encoding} {t : XmlTag} {L cap i0 : Nat}
    {buf : List Nat} (h : (get_xml_string_with_index enc t L buf cap i0).status = 1) :
    cap ≤ SSIZE_MAX := by
  by_contra hc
  obtain ⟨st1, hr⟩ := get_xml_string_with_index_status h
  rw [xml_string_with_index_exceeds enc t L cap _ (by omega)] at hr
  cases hr

theorem machine_write_index_generic (enc : Encoding) (t : XmlTag) (L : Nat) (buf : List Nat)
    (cap i0 : Nat) (hr : in_range enc t L) (hidx : i0 + (2 * L + 1) ≤ SIZE_MAX)
    (h : (Machine.get_xml_string_with_index enc t (L : Int) buf cap i0).status = 1) :
    ∃ s, Machine.xml_string_size enc t (L : Int) = some s
      ∧ xml_string_size enc t L = some s
      ∧ (Machine.get_xml_string_with_index enc t (L : Int) buf cap i0).string_index
        = i0 + s := by
  have hS : SIZE_MAX = 18446744073709551615 := rfl
  have hSS : SSIZE_MAX = 9223372036854775807 := rfl
  obtain ⟨he, hk⟩ := machine_get_xml_string_with_index_of_fit enc t L buf cap i0 hr hidx
  rw [he] at h ⊢
  have hcap := status_one_within_ssize_max h
  obtain ⟨st1, hok⟩ := get_xml_string_with_index_status h
  obtain ⟨s, hs, hi, -⟩ := (xml_string_with_index_index_both enc).1 t L cap _ st1 hok
  have hb := hk hcap st1 hok
  simp only at hi
  refine ⟨s, machine_xml_string_size_of_fit enc t L s hs (by omega) hr.1, hs, ?_⟩
  rw [get_xml_string_with_index_of_ok hok]
  exact hi

theorem machine_empty_element_eq (enc : Encoding) (name : Option Value) (L cap : Nat)
    (st : WState) (hcap : cap ≤ SSIZE_MAX)
    (hfirst : Machine.require_room cap (Machine.level_units (L : Int) + 1) st
      = require_room cap (L * 2 + 1) st) :
    Machine.xml_string_with_index enc (.mk .NODE name none [] []) (L : Int) cap st
      = xml_string_with_index enc (.mk .NODE name none [] []) L cap st := by
  have hS : SIZE_MAX = 18446744073709551615 := rfl
  have hSS : SSIZE_MAX = 9223372036854775807 := rfl
  rw [machine_xml_string_with_index_eq, xml_string_with_index_eq]
  rw [if_neg (by omega), if_neg (by omega), Int.toNat_ofNat]
  have h0 : Same cap 0 (Machine.require_room cap (Machine.level_units (L : Int) + 1) st)
      (require_room cap (L * 2 + 1) st) := by
    refine ⟨hfirst, ?_⟩
    intro s hs
    obtain ⟨e, hr⟩ := require_room_ok hs
    subst e
    omega
  refine (@Same.sequence cap 0 3 _ _ _ _ h0 ?_).1
  intro s hs0 _
  have hroom : s.index + (L * 2 + 1) ≤ cap := by
    obtain ⟨e, h⟩ := require_room_ok hs0
    rw [e]
    exact h
  have e0 : Machine.store cap (Machine.indent cap L s) 60 = store cap (indent cap L s) 60 := by
    rw [machine_indent_eq cap L (by omega),
      machine_store_eq cap 60 _ (by simp only [indent_index]; omega)]
  have i0 : (store cap (indent cap L s) 60).index ≤ cap := by
    simp only [store_index, indent_index]
    omega
  simp only
  rw [e0]
  apply Same.sequence (same_copy_value enc name 0 cap rfl)
  intro s _ hs
  apply Same.sequence (same_write_attributes enc cap hcap [] s (by omega))
  intro s _ hs
  apply Same.sequence (k := 1)
  · apply Same.sequence (same_require_room cap 1 (by omega))
    intro s hs0 hs
    have hr1 : s.index + 1 ≤ cap := by
      obtain ⟨e, h⟩ := require_room_ok hs0
      rw [e]
      exact h
    exact same_ok (machine_store_eq cap 47 s (by omega))
      (by simp only [store_index]; omega)
  · intro s _ hs
    apply Same.sequence (same_require_room cap 3 (by omega))
    intro s hs0 hs
    have hr3 : s.index + 3 ≤ cap := by
      obtain ⟨e, h⟩ := require_room_ok hs0
      rw [e]
      exact h
    exact same_ok (machine_write_trailer_eq cap (by omega))
      (by simp only [write_trailer_index]; omega)

/-- C1, as amended: when no computation on levels, sizes and indices leaves the
range of its type (every level reached is below 2^30, the value sizes fit a
`size_t`, and the entry index plus 2·L + 1 is at most SIZE_MAX), a call of the
writer that returns 1 stores back the entry index plus the size that the size
computation returns for the same tag and level; for the UTF-8 pair and for the
UTF-16 pair, whatever the buffer and the capacity are. -/
theorem write_success_advances_index_by_size (xml_tag : XmlTag) (xml_tag_level : Nat)
    (string : List Nat) (string_size string_index : Nat)
    (hidx : string_index + (2 * xml_tag_level + 1) ≤ SIZE_MAX) :
    (in_range Encoding.utf8 xml_tag xml_tag_level →
      (Machine.libevtx_xml_tag_get_utf8_xml_string_with_index xml_tag xml_tag_level string
        string_size string_index).status = 1 →
      ∃ s, Machine.libevtx_xml_tag_get_utf8_xml_string_size xml_tag xml_tag_level = some s
        ∧ (Machine.libevtx_xml_tag_get_utf8_xml_string_with_index xml_tag xml_tag_level string
            string_size string_index).string_index = string_index + s)
    ∧ (in_range Encoding.utf16 xml_tag xml_tag_level →
      (Machine.libevtx_xml_tag_get_utf16_xml_string_with_index xml_tag xml_tag_level string
        string_size string_index).status = 1 →
      ∃ s, Machine.libevtx_xml_tag_get_utf16_xml_string_size xml_tag xml_tag_level = some s
        ∧ (Machine.libevtx_xml_tag_get_utf16_xml_string_with_index xml_tag xml_tag_level string
            string_size string_index).string_index = string_index + s) := by
  constructor
  · intro hr h
    obtain ⟨s, hm, -, hi⟩ := machine_write_index_generic Encoding.utf8 xml_tag xml_tag_level
      string string_size string_index hr hidx h
    exact ⟨s, hm, hi⟩
  · intro hr h
    obtain ⟨s, hm, -, hi⟩ := machine_write_index_generic Encoding.utf16 xml_tag xml_tag_level
      string string_size string_index hr hidx h
    exact ⟨s, hm, hi⟩

/-- Witness for C1: the block of scenario (c), written at level 1 at index 3 of
a buffer of 40 units, ends at index 3 + 32. -/
theorem write_success_advances_index_by_size_witness :
    3 + (2 * 1 + 1) ≤ SIZE_MAX
    ∧ in_range Encoding.utf8 block_tag 1
    ∧ (Machine.libevtx_xml_tag_get_utf8_xml_string_with_index block_tag (1 : Nat)
        (List.replicate 40 0) 40 3).status = 1
    ∧ Machine.libevtx_xml_tag_get_utf8_xml_string_size block_tag (1 : Nat) = some 32
    ∧ ∃ s, Machine.libevtx_xml_tag_get_utf8_xml_string_size block_tag (1 : Nat) = some s
        ∧ (Machine.libevtx_xml_tag_get_utf8_xml_string_with_index block_tag (1 : Nat)
            (List.replicate 40 0) 40 3).string_index = 3 + s :=
  ⟨by decide, ⟨by decide, by decide⟩, by decide, by decide,
   (write_success_advances_index_by_size block_tag 1 (List.replicate 40 0) 40 3
      (by decide)).1 ⟨by decide, by decide⟩ (by decide)⟩

theorem machine_get_empty_element_eq (enc : Encoding) (name : Option Value) (L : Nat)
    (string : List Nat) (cap i0 : Nat) (hcap : cap ≤ SSIZE_MAX)
    (hfirst : Machine.require_room cap (Machine.level_units (L : Int) + 1)
        { buf := string, index := i0, oob := false }
      = require_room cap (L * 2 + 1) { buf := string, index := i0, oob := false }) :
    Machine.get_xml_string_with_index enc (.mk .NODE name none [] []) (L : Int) string cap i0
      = get_xml_string_with_index enc (.mk .NODE name none [] []) L string cap i0 := by
  unfold Machine.get_xml_string_with_index get_xml_string_with_index
  rw [machine_empty_element_eq enc name L cap _ hcap hfirst]

/-- Counterexample to C1 as stated: at level 2^30 the size computation returns
2^64 - 2^31 + 10 for the element `Event`, because `( xml_tag_level * 2 ) + 1`
leaves the range of `int`; the writer, called at the entry index 2^31 with a
capacity of 2^33, returns 1 and stores back the index 2^32 + 10, which is not
the entry index plus that size, neither in natural numbers nor modulo 2^64. -/
theorem write_at_wrapped_level_advances_by_other_size :
    Machine.libevtx_xml_tag_get_utf8_xml_string_size event_tag 1073741824
      = some 18446744071562067978
    ∧ (Machine.libevtx_xml_tag_get_utf8_xml_string_with_index event_tag 1073741824
        (List.replicate 8589934592 0) 8589934592 2147483648).status = 1
    ∧ (Machine.libevtx_xml_tag_get_utf8_xml_string_with_index event_tag 1073741824
        (List.replicate 8589934592 0) 8589934592 2147483648).string_index = 4294967306
    ∧ 4294967306 ≠ 2147483648 + 18446744071562067978
    ∧ 4294967306 ≠ size_t (2147483648 + 18446744071562067978) := by
  have hl : Machine.level_units ((1073741824 : Nat) : Int) = 18446744071562067968 := by decide
  have hfirst : Machine.require_room 8589934592
      (Machine.level_units ((1073741824 : Nat) : Int) + 1)
      { buf := List.replicate 8589934592 0, index := 2147483648, oob := false }
      = require_room 8589934592 (1073741824 * 2 + 1)
      { buf := List.replicate 8589934592 0, index := 2147483648, oob := false } := by
    rw [hl]
    unfold Machine.require_room require_room
    rw [if_neg (by decide), if_neg (by decide)]
  have hm := machine_get_empty_element_eq Encoding.utf8
    (some (text_value .STRING_UTF16 "Event")) 1073741824 (List.replicate 8589934592 0)
    8589934592 2147483648 (by decide) hfirst
  rw [Nat.cast_ofNat] at hm
  obtain ⟨-, h2, h3⟩ := empty_element_generic Encoding.utf8
    (some (text_value .STRING_UTF16 "Event")) (units "Event") 1073741824 (by decide)
  have hst := h3 (List.replicate 8589934592 0) 8589934592 2147483648
    (by rw [List.length_replicate]) (by decide) (by decide)
  have hix := (h2 (List.replicate 8589934592 0) 8589934592 2147483648
    (by rw [List.length_replicate]) hst).1
  unfold Machine.libevtx_xml_tag_get_utf8_xml_string_with_index event_tag node
  refine ⟨by decide, ?_, ?_, by decide, by decide⟩
  · rw [hm]
    exact hst
  · rw [hm, hix]
    decide

theorem in_range_of_size {enc : Encoding} {t : XmlTag} {L s : Nat}
    (hs : xml_string_size enc t L = some s) (hfit : s ≤ SIZE_MAX)
    (hlev : L + nesting t < level_limit) : in_range enc t L :=
  ⟨hlev, (value_sizes_fit_of_size_both enc).1 t L s hs hfit⟩

theorem machine_write_exact_generic (enc : Encoding) (t : XmlTag) (L s : Nat) (buf : List Nat)
    (hs : xml_string_size enc t L = some s) (hmax : s ≤ SSIZE_MAX)
    (hlev : L + nesting t < level_limit) (hbuf : buf.length = s) :
    Machine.xml_string_size enc t (L : Int) = some s
    ∧ (Machine.get_xml_string_with_index enc t (L : Int) buf s 0).status = 1 := by
  have hS : SIZE_MAX = 18446744073709551615 := rfl
  have hSS : SSIZE_MAX = 9223372036854775807 := rfl
  have hl : level_limit = 1073741824 := rfl
  have hfit : s ≤ SIZE_MAX := by omega
  refine ⟨machine_xml_string_size_of_fit enc t L s hs hfit hlev, ?_⟩
  rw [(machine_get_xml_string_with_index_of_fit enc t L buf s 0
    (in_range_of_size hs hfit hlev) (by omega)).1]
  obtain ⟨w, -, -, hr⟩ := write_exact_generic enc t L s buf hs hmax hbuf
  rw [hr]

/-- C4, as amended: when every level reached is below 2^30 and the units of the
text, counted without wrap-around, are a number `s` that does not exceed
SSIZE_MAX, the size computation returns `s` and the writer called with entry
index 0 on a buffer of exactly `s` units returns 1; for the UTF-8 pair and for
the UTF-16 pair, in the arithmetic of the code. -/
theorem write_into_exact_size_succeeds (xml_tag : XmlTag) (xml_tag_level s : Nat)
    (string : List Nat) (hlen : string.length = s) (hmax : s ≤ SSIZE_MAX)
    (hlev : xml_tag_level + nesting xml_tag < level_limit) :
    (xml_string_size Encoding.utf8 xml_tag xml_tag_level = some s →
      Machine.libevtx_xml_tag_get_utf8_xml_string_size xml_tag xml_tag_level = some s
      ∧ (Machine.libevtx_xml_tag_get_utf8_xml_string_with_index xml_tag xml_tag_level string s
        0).status = 1)
    ∧ (xml_string_size Encoding.utf16 xml_tag xml_tag_level = some s →
      Machine.libevtx_xml_tag_get_utf16_xml_string_size xml_tag xml_tag_level = some s
      ∧ (Machine.libevtx_xml_tag_get_utf16_xml_string_with_index xml_tag xml_tag_level string s
        0).status = 1) :=
  ⟨fun hs => machine_write_exact_generic Encoding.utf8 xml_tag xml_tag_level s string hs hmax
      hlev hlen,
   fun hs => machine_write_exact_generic Encoding.utf16 xml_tag xml_tag_level s string hs hmax
      hlev hlen⟩

/-- Witness for C4: the block of scenario (c) at level 1 has size 32 and is
written into 32 units. -/
theorem write_into_exact_size_succeeds_witness :
    (List.replicate 32 0).length = 32 ∧ 32 ≤ SSIZE_MAX
    ∧ 1 + nesting block_tag < level_limit
    ∧ xml_string_size Encoding.utf8 block_tag 1 = some 32
    ∧ Machine.libevtx_xml_tag_get_utf8_xml_string_size block_tag (1 : Nat) = some 32
    ∧ (Machine.libevtx_xml_tag_get_utf8_xml_string_with_index block_tag (1 : Nat)
        (List.replicate 32 0) 32 0).status = 1 :=
  ⟨by decide, by decide, by decide, by decide,
   (write_into_exact_size_succeeds block_tag 1 32 (List.replicate 32 0) (by decide)
      (by decide) (by decide)).1 (by decide)⟩

theorem huge_tag_size :
    xml_string_size Encoding.utf8 huge_tag 0 = some (SSIZE_MAX + 5) := by
  unfold huge_tag
  rw [xml_string_size_eq]
  simp [libfvalue_value_get_string_size, ValueEntry.string_size, ValueEntry.string,
    attributes_string_size]
  omega

/-- Counterexample to C4 as stated, at both ends of the range. At level
INT_MAX the size computation returns 8 for the element `Event`, because
`( xml_tag_level * 2 ) + 1` leaves the range of `int`, and the writer called
with a buffer of exactly 8 units returns -1. For a Node whose name renders as
SSIZE_MAX units the size computation returns SSIZE_MAX + 5 at level 0, and the
writer called with a buffer of exactly that capacity returns -1: it refuses a
capacity above SSIZE_MAX. -/
theorem write_into_exact_size_fails_out_of_range :
    (Machine.libevtx_xml_tag_get_utf8_xml_string_size event_tag 2147483647 = some 8
      ∧ (List.replicate 8 0).length = 8
      ∧ (Machine.libevtx_xml_tag_get_utf8_xml_string_with_index event_tag 2147483647
          (List.replicate 8 0) 8 0).status = -1)
    ∧ (Machine.libevtx_xml_tag_get_utf8_xml_string_size huge_tag 0 = some (SSIZE_MAX + 5)
      ∧ (List.replicate (SSIZE_MAX + 5) 0).length = SSIZE_MAX + 5
      ∧ (Machine.libevtx_xml_tag_get_utf8_xml_string_with_index huge_tag 0
          (List.replicate (SSIZE_MAX + 5) 0) (SSIZE_MAX + 5) 0).status = -1
      ∧ (Machine.libevtx_xml_tag_get_utf8_xml_string_with_index huge_tag 0
          (List.replicate (SSIZE_MAX + 5) 0) (SSIZE_MAX + 5) 0).error
          = some ErrorCode.ARGUMENT_VALUE_EXCEEDS_MAXIMUM) := by
  have hSS : SSIZE_MAX = 9223372036854775807 := rfl
  have hS : SIZE_MAX = 18446744073709551615 := rfl
  have hm := machine_xml_string_size_of_fit Encoding.utf8 huge_tag 0
    (SSIZE_MAX + 5) huge_tag_size (by omega) (by decide)
  rw [Nat.cast_zero] at hm
  have hw : Machine.xml_string_with_index Encoding.utf8 huge_tag 0 (SSIZE_MAX + 5)
      { buf := List.replicate (SSIZE_MAX + 5) 0, index := 0, oob := false }
      = .error (ErrorCode.ARGUMENT_VALUE_EXCEEDS_MAXIMUM,
        { buf := List.replicate (SSIZE_MAX + 5) 0, index := 0, oob := false }) := by
    unfold huge_tag
    rw [machine_xml_string_with_index_eq, if_pos (by omega)]
  refine ⟨⟨by decide, by decide, by decide⟩, hm, List.length_replicate _ _, ?_, ?_⟩
  · unfold Machine.libevtx_xml_tag_get_utf8_xml_string_with_index
      Machine.get_xml_string_with_index
    rw [hw]
  · unfold Machine.libevtx_xml_tag_get_utf8_xml_string_with_index
      Machine.get_xml_string_with_index
    rw [hw]

theorem nesting_leaf (name : Option Value) (attrs : List (Option XmlTag)) :
    nesting (.mk .NODE name none attrs []) = 0 := by
  rw [nesting_eq]
  rfl

/-- C12, as amended: a Node without attributes, without value and without sub
elements whose name renders as `n`, at a level L below 2^30 with
2·L + len(n) + 5 at most SIZE_MAX, in the arithmetic of the code: the size
computation returns 2·L + len(n) + 5; every call of the writer at an entry
index with index + 2·L + 1 at most SIZE_MAX that returns 1 has stored 2·L
spaces, `<`, `n`, `/`, `>`, newline, NUL from the entry index on and has
advanced the index by that size; and the writer returns 1 whenever that many
units fit between the entry index and a capacity of at most SSIZE_MAX. -/
theorem empty_element_is_self_closed (enc : Encoding) (name : Option Value) (n : List Nat)
    (xml_tag_level : Nat) (hn : value_entry_string enc name 0 = some n)
    (hlev : xml_tag_level < level_limit)
    (hfit : 2 * xml_tag_level + n.length + 5 ≤ SIZE_MAX) :
    Machine.xml_string_size enc (.mk .NODE name none [] []) xml_tag_level
      = some (2 * xml_tag_level + n.length + 5)
    ∧ (∀ (string : List Nat) (string_size string_index : Nat),
        string_size ≤ string.length →
        string_index + (2 * xml_tag_level + 1) ≤ SIZE_MAX →
        (Machine.get_xml_string_with_index enc (.mk .NODE name none [] []) xml_tag_level
          string string_size string_index).status = 1 →
        (Machine.get_xml_string_with_index enc (.mk .NODE name none [] []) xml_tag_level
            string string_size string_index).string_index
          = string_index + (2 * xml_tag_level + n.length + 5)
        ∧ (Machine.get_xml_string_with_index enc (.mk .NODE name none [] []) xml_tag_level
            string string_size string_index).string.take
              (string_index + (2 * xml_tag_level + n.length + 5))
          = string.take string_index
            ++ (List.replicate (2 * xml_tag_level) 32 ++ [60] ++ n ++ [47, 62, 10, 0]))
    ∧ (∀ (string : List Nat) (string_size string_index : Nat),
        string_size ≤ string.length → string_size ≤ SSIZE_MAX →
        string_index + (2 * xml_tag_level + n.length + 5) ≤ string_size →
        (Machine.get_xml_string_with_index enc (.mk .NODE name none [] []) xml_tag_level
          string string_size string_index).status = 1) := by
  have hS : SIZE_MAX = 18446744073709551615 := rfl
  have hSS : SSIZE_MAX = 9223372036854775807 := rfl
  obtain ⟨h1, h2, h3⟩ := empty_element_generic enc name n xml_tag_level hn
  have hl : xml_tag_level + nesting (.mk .NODE name none [] []) < level_limit := by
    rw [nesting_leaf]
    exact hlev
  have hr := in_range_of_size h1 hfit hl
  refine ⟨machine_xml_string_size_of_fit enc _ xml_tag_level _ h1 hfit hl, ?_, ?_⟩
  · intro string string_size string_index hbuf hidx h
    rw [(machine_get_xml_string_with_index_of_fit enc _ xml_tag_level string string_size
      string_index hr hidx).1] at h ⊢
    exact h2 string string_size string_index hbuf h
  · intro string string_size string_index hbuf hmax hroom
    rw [(machine_get_xml_string_with_index_of_fit enc _ xml_tag_level string string_size
      string_index hr (by omega)).1]
    exact h3 string string_size string_index hbuf hmax hroom

/-- Witness for C12: the element `Event` at level 0 has size 10 and the text
`<Event/>`, newline, NUL. -/
theorem empty_element_is_self_closed_witness :
    value_entry_string Encoding.utf8 (some (text_value .STRING_UTF16 "Event")) 0
      = some (units "Event")
    ∧ 0 < level_limit ∧ 2 * 0 + (units "Event").length + 5 ≤ SIZE_MAX
    ∧ Machine.libevtx_xml_tag_get_utf8_xml_string_size event_tag 0 = some 10
    ∧ (Machine.libevtx_xml_tag_get_utf8_xml_string_with_index event_tag 0
        (List.replicate 10 0) 10 0).string = units "<Event/>\n" ++ [0]
    ∧ Machine.xml_string_size Encoding.utf8
        (.mk .NODE (some (text_value .STRING_UTF16 "Event")) none [] []) (0 : Nat)
      = some (2 * 0 + (units "Event").length + 5) :=
  ⟨by decide, by decide, by decide, by decide, by decide,
   (empty_element_is_self_closed Encoding.utf8 (some (text_value .STRING_UTF16 "Event"))
     (units "Event") 0 (by decide) (by decide) (by decide)).1⟩

/-- Counterexample to C12 as stated: at level 2^30 the size computation returns
2^64 - 2^31 + 10 for the element `Event`, not 2·2^30 + 5 + 5, because
`( xml_tag_level * 2 ) + 1` leaves the range of `int`; and the writer called at
index 0 with a capacity of 2^31 + 10 units, which would hold the text, returns
-1 at its first check. -/
theorem empty_element_size_wraps_at_level_limit :
    value_entry_string Encoding.utf8 (some (text_value .STRING_UTF16 "Event")) 0
      = some (units "Event")
    ∧ Machine.libevtx_xml_tag_get_utf8_xml_string_size event_tag 1073741824
      = some 18446744071562067978
    ∧ Machine.libevtx_xml_tag_get_utf8_xml_string_size event_tag 1073741824
      ≠ some (2 * 1073741824 + (units "Event").length + 5)
    ∧ 0 + (2 * 1073741824 + (units "Event").length + 5) ≤ 2147483658
    ∧ 2147483658 ≤ SSIZE_MAX
    ∧ (Machine.libevtx_xml_tag_get_utf8_xml_string_with_index event_tag 1073741824
        (List.replicate 2147483658 0) 2147483658 0).status = -1 := by
  decide

/-- C27, as amended: at a level L below 2^30, in the arithmetic of the code,
the size computation returns 2·L + 1 + size(value) + 9 + 3 for a CData tag and
2·L + 1 + size(name) + size(value) + 1 + 3 for a PI tag whenever that number is
at most SIZE_MAX, where size is the reported string size of entry 0 with its
NUL, and it fails when that size is not reported; a call of the writer at an
entry index with index + 2·L + 1 at most SIZE_MAX that returns 1 has advanced
the index by exactly this number of units, which is then the size the size
computation returns. -/
theorem leaf_sizes (enc : Encoding) (name value : Option Value)
    (attributes_array elements_array : List (Option XmlTag)) (xml_tag_level : Nat)
    (string : List Nat) (string_size string_index : Nat)
    (hlev : xml_tag_level < level_limit)
    (hidx : string_index + (2 * xml_tag_level + 1) ≤ SIZE_MAX) :
    (∀ value_size, libfvalue_value_get_string_size enc value 0 = some value_size →
      2 * xml_tag_level + 1 + value_size + 9 + 3 ≤ SIZE_MAX →
      Machine.xml_string_size enc (.mk .CDATA name value attributes_array elements_array)
        xml_tag_level = some (2 * xml_tag_level + 1 + value_size + 9 + 3))
    ∧ (libfvalue_value_get_string_size enc value 0 = none →
      Machine.xml_string_size enc (.mk .CDATA name value attributes_array elements_array)
        xml_tag_level = none)
    ∧ (∀ name_size value_size, libfvalue_value_get_string_size enc name 0 = some name_size →
      libfvalue_value_get_string_size enc value 0 = some value_size →
      2 * xml_tag_level + 1 + name_size + value_size + 1 + 3 ≤ SIZE_MAX →
      Machine.xml_string_size enc (.mk .PI name value attributes_array elements_array)
        xml_tag_level = some (2 * xml_tag_level + 1 + name_size + value_size + 1 + 3))
    ∧ (libfvalue_value_get_string_size enc name 0 = none
        ∨ libfvalue_value_get_string_size enc value 0 = none →
      Machine.xml_string_size enc (.mk .PI name value attributes_array elements_array)
        xml_tag_level = none)
    ∧ ((Machine.get_xml_string_with_index enc
          (.mk .CDATA name value attributes_array elements_array)
          xml_tag_level string string_size string_index).status = 1 →
        ∃ value_size, libfvalue_value_get_string_size enc value 0 = some value_size
          ∧ Machine.xml_string_size enc
              (.mk .CDATA name value attributes_array elements_array) xml_tag_level
            = some (2 * xml_tag_level + 1 + value_size + 9 + 3)
          ∧ (Machine.get_xml_string_with_index enc
              (.mk .CDATA name value attributes_array elements_array)
              xml_tag_level string string_size string_index).string_index
            = string_index + (2 * xml_tag_level + 1 + value_size + 9 + 3))
    ∧ ((Machine.get_xml_string_with_index enc
          (.mk .PI name value attributes_array elements_array)
          xml_tag_level string string_size string_index).status = 1 →
        ∃ name_size value_size, libfvalue_value_get_string_size enc name 0 = some name_size
          ∧ libfvalue_value_get_string_size enc value 0 = some value_size
          ∧ Machine.xml_string_size enc
              (.mk .PI name value attributes_array elements_array) xml_tag_level
            = some (2 * xml_tag_level + 1 + name_size + value_size + 1 + 3)
          ∧ (Machine.get_xml_string_with_index enc
              (.mk .PI name value attributes_array elements_array)
              xml_tag_level string string_size string_index).string_index
            = string_index + (2 * xml_tag_level + 1 + name_size + value_size + 1 + 3)) := by
  obtain ⟨hc, hp, -, -⟩ := leaf_sizes_generic enc name value attributes_array elements_array
    xml_tag_level string string_size string_index
  have hlc : xml_tag_level
      + nesting (.mk .CDATA name value attributes_array elements_array) < level_limit := by
    rw [nesting_eq]
    exact hlev
  have hlp : xml_tag_level
      + nesting (.mk .PI name value attributes_array elements_array) < level_limit := by
    rw [nesting_eq]
    exact hlev
  refine ⟨?_, ?_, ?_, ?_, ?_, ?_⟩
  · intro value_size hv hfit
    apply machine_xml_string_size_of_fit enc _ xml_tag_level _ _ hfit hlc
    rw [hc, hv, Option.map_some']
  · intro hv
    rw [machine_xml_string_size_eq]
    simp only [hv]
  · intro name_size value_size hnm hv hfit
    apply machine_xml_string_size_of_fit enc _ xml_tag_level _ _ hfit hlp
    rw [hp, hnm, hv, Option.some_bind, Option.map_some']
  · intro h
    rw [machine_xml_string_size_eq]
    rcases h with h | h
    · simp only [h]
    · cases hnm : libfvalue_value_get_string_size enc name 0 with
      | none => rfl
      | some name_size => simp only [h]
  · intro h
    obtain ⟨s, hm, hs, hi⟩ := machine_write_index_generic enc _ xml_tag_level string
      string_size string_index ⟨hlc, by rw [value_sizes_fit_eq]⟩ hidx h
    rw [hc] at hs
    cases hv : libfvalue_value_get_string_size enc value 0 with
    | none => simp [hv] at hs
    | some sz =>
      simp only [hv, Option.map_some', Option.some.injEq] at hs
      exact ⟨sz, rfl, by rw [hm, hs], by rw [hi, hs]⟩
  · intro h
    obtain ⟨s, hm, hs, hi⟩ := machine_write_index_generic enc _ xml_tag_level string
      string_size string_index ⟨hlp, by rw [value_sizes_fit_eq]⟩ hidx h
    rw [hp] at hs
    cases hnm : libfvalue_value_get_string_size enc name 0 with
    | none => simp [hnm] at hs
    | some nsz =>
      cases hv : libfvalue_value_get_string_size enc value 0 with
      | none => simp [hnm, hv] at hs
      | some sz =>
        simp only [hnm, hv, Option.map_some', Option.some_bind, Option.some.injEq] at hs
        exact ⟨nsz, sz, rfl, rfl, by rw [hm, hs], by rw [hi, hs]⟩

/-- Witness for C27: the CData section of scenario (e) has size 20 = 1 + 7 + 9 + 3
and the writer advances the index by 20; the processing instruction of
scenario (f) has size 23 = 1 + 4 + 14 + 1 + 3. -/
theorem leaf_sizes_witness :
    0 < level_limit ∧ 0 + (2 * 0 + 1) ≤ SIZE_MAX
    ∧ Machine.libevtx_xml_tag_get_utf8_xml_string_size cdata_tag 0 = some 20
    ∧ Machine.libevtx_xml_tag_get_utf8_xml_string_size pi_tag 0 = some 23
    ∧ (Machine.get_xml_string_with_index Encoding.utf8 cdata_tag (0 : Nat)
        (List.replicate 20 0) 20 0).status = 1
    ∧ ∃ value_size,
        libfvalue_value_get_string_size Encoding.utf8
          (some (text_value .STRING_UTF16 "x<y&z]")) 0 = some value_size
        ∧ Machine.xml_string_size Encoding.utf8 cdata_tag (0 : Nat)
          = some (2 * 0 + 1 + value_size + 9 + 3)
        ∧ (Machine.get_xml_string_with_index Encoding.utf8 cdata_tag (0 : Nat)
            (List.replicate 20 0) 20 0).string_index = 0 + (2 * 0 + 1 + value_size + 9 + 3) :=
  ⟨by decide, by decide, by decide, by decide, by decide,
   (leaf_sizes Encoding.utf8 none (some (text_value .STRING_UTF16 "x<y&z]")) [] [] 0
     (List.replicate 20 0) 20 0 (by decide) (by decide)).2.2.2.2.1 (by decide)⟩

/-- Counterexample to C27 as stated: at level 2^30 the size computation does
not return 2·L + 1 + size(value) + 9 + 3 for the CData section of scenario (e)
nor 2·L + 1 + size(name) + size(value) + 1 + 3 for the processing instruction
of scenario (f): `( xml_tag_level * 2 ) + 1` leaves the range of `int` and the
sizes returned are 2^64 - 2^31 + 20 and 2^64 - 2^31 + 23. -/
theorem leaf_sizes_wrap_at_level_limit :
    libfvalue_value_get_string_size Encoding.utf8 cdata_tag.value 0 = some 7
    ∧ Machine.libevtx_xml_tag_get_utf8_xml_string_size cdata_tag 1073741824
      = some 18446744071562067988
    ∧ Machine.libevtx_xml_tag_get_utf8_xml_string_size cdata_tag 1073741824
      ≠ some (2 * 1073741824 + 1 + 7 + 9 + 3)
    ∧ libfvalue_value_get_string_size Encoding.utf8 pi_tag.name 0 = some 4
    ∧ libfvalue_value_get_string_size Encoding.utf8 pi_tag.value 0 = some 14
    ∧ Machine.libevtx_xml_tag_get_utf8_xml_string_size pi_tag 1073741824
      = some 18446744071562067991
    ∧ Machine.libevtx_xml_tag_get_utf8_xml_string_size pi_tag 1073741824
      ≠ some (2 * 1073741824 + 1 + 4 + 14 + 1 + 3) := by
  decide

/-- C38, as amended: when every level reached from L + 1 is below 2^30, the
units of the text at level L, counted without wrap-around, are a number `s`,
and s + 2 · lines(t) is at most SIZE_MAX, the size computation returns `s` at
level L and s + 2 · lines(t) at level L + 1, in both encodings and in the
arithmetic of the code, where lines(t) is 1 for a CData tag, a PI tag and a
Node with a value or without sub elements, and 2 + the sum of the lines of the
sub elements for a Node without value that has sub elements. -/
theorem indentation_is_two_units_per_line (xml_tag : XmlTag) (xml_tag_level : Nat)
    (hlev : xml_tag_level + 1 + nesting xml_tag < level_limit) :
    (∀ s, xml_string_size Encoding.utf8 xml_tag xml_tag_level = some s →
      s + 2 * lines xml_tag ≤ SIZE_MAX →
      Machine.libevtx_xml_tag_get_utf8_xml_string_size xml_tag xml_tag_level = some s
      ∧ Machine.libevtx_xml_tag_get_utf8_xml_string_size xml_tag ((xml_tag_level + 1 : Nat) : Int)
        = some (s + 2 * lines xml_tag))
    ∧ (∀ s, xml_string_size Encoding.utf16 xml_tag xml_tag_level = some s →
      s + 2 * lines xml_tag ≤ SIZE_MAX →
      Machine.libevtx_xml_tag_get_utf16_xml_string_size xml_tag xml_tag_level = some s
      ∧ Machine.libevtx_xml_tag_get_utf16_xml_string_size xml_tag ((xml_tag_level + 1 : Nat) : Int)
        = some (s + 2 * lines xml_tag)) := by
  have hl : level_limit = 1073741824 := rfl
  constructor
  · intro s h hfit
    have h1 := ((xml_string_size_level_both Encoding.utf8).1 xml_tag xml_tag_level s h).1
    exact ⟨machine_xml_string_size_of_fit Encoding.utf8 xml_tag xml_tag_level s h (by omega)
        (by omega),
      machine_xml_string_size_of_fit Encoding.utf8 xml_tag (xml_tag_level + 1) _ h1 hfit
        (by omega)⟩
  · intro s h hfit
    have h1 := ((xml_string_size_level_both Encoding.utf16).1 xml_tag xml_tag_level s h).1
    exact ⟨machine_xml_string_size_of_fit Encoding.utf16 xml_tag xml_tag_level s h (by omega)
        (by omega),
      machine_xml_string_size_of_fit Encoding.utf16 xml_tag (xml_tag_level + 1) _ h1 hfit
        (by omega)⟩

/-- Witness for C38: the block of scenario (c) has 4 lines, size 24 at level 0
and size 32 at level 1. -/
theorem indentation_is_two_units_per_line_witness :
    0 + 1 + nesting block_tag < level_limit
    ∧ lines block_tag = 4
    ∧ xml_string_size Encoding.utf8 block_tag 0 = some 24
    ∧ 24 + 2 * lines block_tag ≤ SIZE_MAX
    ∧ Machine.libevtx_xml_tag_get_utf8_xml_string_size block_tag (0 : Nat) = some 24
    ∧ Machine.libevtx_xml_tag_get_utf8_xml_string_size block_tag ((0 + 1 : Nat) : Int)
      = some (24 + 2 * lines block_tag) :=
  ⟨by decide, by decide, by decide, by decide,
   (indentation_is_two_units_per_line block_tag 0 (by decide)).1 24 (by decide) (by decide)⟩

/-- Counterexample to C38 as stated: the element `Event` has one line; at level
2^30 - 1 the size computation returns 2^31 + 8 and at level 2^30 it returns
2^64 - 2^31 + 10, not 2^31 + 8 + 2, because `( xml_tag_level * 2 ) + 1` leaves
the range of `int`. -/
theorem indentation_step_wraps_at_level_limit :
    lines event_tag = 1
    ∧ Machine.libevtx_xml_tag_get_utf8_xml_string_size event_tag 1073741823
      = some 2147483656
    ∧ Machine.libevtx_xml_tag_get_utf8_xml_string_size event_tag (1073741823 + 1)
      = some 18446744071562067978
    ∧ Machine.libevtx_xml_tag_get_utf8_xml_string_size event_tag (1073741823 + 1)
      ≠ some (2147483656 + 2 * lines event_tag) := by
  decide

theorem sum_map_ge_of_mem (f : Nat → Nat) :
    ∀ (l : List Nat) (x : Nat), x ∈ l → f x ≤ (l.map f).sum := by
  intro l
  induction l with
  | nil => intro x hx; cases hx
  | cons a rest ih =>
    intro x hx
    rw [List.map_cons, List.sum_cons]
    rcases List.mem_cons.1 hx with h | h
    · rw [h]
      omega
    · have := ih x h
      omega

theorem machine_children_sizes (enc : Encoding) (L : Nat) :
    ∀ (es : List (Option XmlTag)) (sizes : List Nat),
      List.Forall₂ (fun e s => xml_string_size_entry enc e (L + 1) = some s) es sizes →
      (∀ s, s ∈ sizes → s ≤ SIZE_MAX) → L + elements_nesting es < level_limit →
      List.Forall₂
        (fun e s => Machine.xml_string_size_entry enc e ((L + 1 : Nat) : Int) = some s)
        es sizes := by
  have hl : level_limit = 1073741824 := rfl
  intro es sizes h
  induction h with
  | nil => intro _ _; exact List.Forall₂.nil
  | @cons e s es ss hhead _ ih =>
    intro hfit hlev
    cases e with
    | none =>
      rw [xml_string_size_entry] at hhead
      cases hhead
    | some t =>
      rw [xml_string_size_entry] at hhead
      rw [elements_nesting_cons_some] at hlev
      have hm : nesting t + 1 ≤ max (nesting t + 1) (elements_nesting es) := le_max_left _ _
      have hr : elements_nesting es ≤ max (nesting t + 1) (elements_nesting es) :=
        le_max_right _ _
      refine List.Forall₂.cons ?_
        (ih (fun x hx => hfit x (List.mem_cons_of_mem _ hx)) (by omega))
      rw [Machine.xml_string_size_entry]
      exact machine_xml_string_size_of_fit enc t (L + 1) s hhead
        (hfit s (List.mem_cons_self _ _)) (by omega)

/-- C26, as amended: for a Node at level L whose name reports the string size
`name_size`, whose attributes report the sizes `attributes`, whose value, if
present, has the quantity `value_size` and whose sub elements, if the value
is absent, have the sizes `child_sizes` at level L + 1, when every level
reached is below 2^30 and the number
2·L + 1 + (size(name) - 1) + the sum over the attributes of
[size(a.name) + 2 + size(a.value) + (1 for FILETIME or SYSTEMTIME)] + tail + 3,
with the tail of the specification, is at most SIZE_MAX, the size computation
returns that number in the arithmetic of the code, and `child_sizes` are the
sizes it returns for the sub elements at level L + 1. -/
theorem node_size_formula (enc : Encoding) (name value : Option Value)
    (attributes_array elements_array : List (Option XmlTag)) (xml_tag_level : Nat)
    (name_size : Nat) (attributes : List AttributeSizes) (value_size : Option Nat)
    (child_sizes : List Nat)
    (hn : libfvalue_value_get_string_size enc name 0 = some name_size)
    (ha : List.Forall₂ (attribute_sizes enc) attributes_array attributes)
    (hv : value_sizes enc value value_size)
    (hc : value = none →
      List.Forall₂ (fun e s => xml_string_size_entry enc e (xml_tag_level + 1) = some s)
        elements_array child_sizes)
    (hlev : xml_tag_level + nesting (.mk .NODE name value attributes_array elements_array)
      < level_limit)
    (hfit : node_size xml_tag_level name_size attributes
      (reference_tail xml_tag_level name_size value_size child_sizes) ≤ SIZE_MAX) :
    Machine.xml_string_size enc (.mk .NODE name value attributes_array elements_array)
        xml_tag_level
      = some (node_size xml_tag_level name_size attributes
          (reference_tail xml_tag_level name_size value_size child_sizes))
    ∧ (value = none →
      List.Forall₂
        (fun e s => Machine.xml_string_size_entry enc e ((xml_tag_level + 1 : Nat) : Int)
          = some s)
        elements_array child_sizes) := by
  have hS : SIZE_MAX = 18446744073709551615 := rfl
  have hs := node_size_generic enc name value attributes_array elements_array xml_tag_level
    name_size attributes value_size child_sizes hn ha hv hc
  refine ⟨machine_xml_string_size_of_fit enc _ xml_tag_level _ hs hfit hlev, ?_⟩
  intro hnone
  subst hnone
  have hvs : value_size = none := hv
  subst hvs
  rw [nesting_eq] at hlev
  apply machine_children_sizes enc xml_tag_level elements_array child_sizes (hc rfl) ?_ hlev
  intro s hmem
  have hpos : child_sizes.length > 0 := List.length_pos_of_mem hmem
  have hsum := sum_map_ge_of_mem (fun s => s - 1) child_sizes s hmem
  simp only [node_size, reference_tail, hpos, if_true] at hfit
  simp only at hsum
  omega

/-- Witness for C26: scenario (b), with name size 5, one attribute of sizes 5
and 3 and one value entry of size 3, has the size 1 + 4 + 10 + 9 + 3 = 27. -/
theorem node_size_formula_witness :
    0 + nesting data_tag < level_limit
    ∧ Machine.libevtx_xml_tag_get_utf8_xml_string_size data_tag 0 = some 27
    ∧ node_size 0 5 [{ name_size := 5, value_size := 3, time := false }]
        (reference_tail 0 5 (some (reference_value_size false [3])) []) = 27
    ∧ Machine.xml_string_size Encoding.utf8 data_tag (0 : Nat)
      = some (node_size 0 5 [{ name_size := 5, value_size := 3, time := false }]
          (reference_tail 0 5 (some (reference_value_size false [3])) [])) :=
  ⟨by decide, by decide, by decide,
   (node_size_formula Encoding.utf8 (some (text_value .STRING_UTF16 "Data"))
     (some (text_value .STRING_UTF16 "42")) [some (attribute_tag "Name" .STRING_UTF16 "Id")] []
     0 5 [{ name_size := 5, value_size := 3, time := false }]
     (some (reference_value_size false [3])) []
     (by decide)
     (List.Forall₂.cons
       ⟨attribute_tag "Name" .STRING_UTF16 "Id", ValueType.STRING_UTF16, rfl, by decide, rfl,
        rfl, by decide⟩
       List.Forall₂.nil)
     ⟨[3], List.Forall₂.cons (by decide) List.Forall₂.nil, rfl⟩
     (fun h => by cases h) (by decide) (by decide)).1⟩

/-- Counterexample to C26 as stated. For scenario (b) the formula of the
specification, evaluated on the sizes the name (5), the attribute (5 and 3)
and the value entry (3) report, gives 28, and the size computation returns 27.
And at level 2^30 the size computation returns 2^64 - 2^31 + 27 for the same
tag, not the 2^31 + 27 of the formula with the attribute term of the code,
because `( xml_tag_level * 2 ) + 1` leaves the range of `int`. -/
theorem spec_node_size_overcounts_attributes :
    libfvalue_value_get_string_size Encoding.utf8 data_tag.name 0 = some 5
    ∧ attribute_sizes Encoding.utf8 (some (attribute_tag "Name" .STRING_UTF16 "Id"))
        { name_size := 5, value_size := 3, time := false }
    ∧ value_sizes Encoding.utf8 data_tag.value (some (reference_value_size false [3]))
    ∧ spec_node_size 0 5 [{ name_size := 5, value_size := 3, time := false }]
        (reference_tail 0 5 (some (reference_value_size false [3])) []) = 28
    ∧ Machine.libevtx_xml_tag_get_utf8_xml_string_size data_tag 0 = some 27
    ∧ Machine.libevtx_xml_tag_get_utf8_xml_string_size data_tag 0
      ≠ some (spec_node_size 0 5 [{ name_size := 5, value_size := 3, time := false }]
          (reference_tail 0 5 (some (reference_value_size false [3])) []))
    ∧ Machine.libevtx_xml_tag_get_utf8_xml_string_size data_tag 1073741824
      = some 18446744071562067995
    ∧ Machine.libevtx_xml_tag_get_utf8_xml_string_size data_tag 1073741824
      ≠ some (node_size 1073741824 5 [{ name_size := 5, value_size := 3, time := false }]
          (reference_tail 1073741824 5 (some (reference_value_size false [3])) [])) :=
  ⟨by decide,
   ⟨attribute_tag "Name" .STRING_UTF16 "Id", ValueType.STRING_UTF16, rfl, by decide, rfl, rfl,
    by decide⟩,
   ⟨[3], List.Forall₂.cons (by decide) List.Forall₂.nil, rfl⟩,
   by decide, by decide, by decide, by decide, by decide⟩

theorem machine_node_capacity_generic (enc : Encoding) (name value : Option Value)
    (attrs elems : List (Option XmlTag)) (L s : Nat) (buf : List Nat) (cap i0 : Nat)
    (hs : xml_string_size enc (.mk .NODE name value attrs elems) L = some s)
    (hbuf : cap ≤ buf.length)
    (hlev : L + nesting (.mk .NODE name value attrs elems) < level_limit)
    (hfit : s ≤ SIZE_MAX) (hidx : i0 + (2 * L + 1) ≤ SIZE_MAX) :
    Machine.xml_string_size enc (.mk .NODE name value attrs elems) (L : Int) = some s
    ∧ ((Machine.get_xml_string_with_index enc (.mk .NODE name value attrs elems) (L : Int)
        buf cap i0).status = 1
      ↔ i0 + s ≤ cap ∧ cap ≤ SSIZE_MAX) := by
  refine ⟨machine_xml_string_size_of_fit enc _ L s hs hfit hlev, ?_⟩
  rw [(machine_get_xml_string_with_index_of_fit enc _ L buf cap i0
    (in_range_of_size hs hfit hlev) hidx).1]
  exact node_capacity_generic enc name value attrs elems L s buf cap i0 hs hbuf

/-- C32, as amended: for a Node at a level from which every level reached is
below 2^30, whose text, counted without wrap-around, has `s` units with `s` at
most SIZE_MAX, a buffer that has the declared capacity, and an entry index with
index + 2·L + 1 at most SIZE_MAX, in the arithmetic of the code: the size
computation returns `s`, and the writer returns 1 if and only if the entry
index plus `s` is at most the capacity and the capacity is at most SSIZE_MAX;
in both encodings, whatever the kinds of the sub elements are. -/
theorem node_capacity_check_is_exact (name value : Option Value)
    (attributes_array elements_array : List (Option XmlTag)) (xml_tag_level s : Nat)
    (string : List Nat) (string_size string_index : Nat)
    (hbuf : string_size ≤ string.length)
    (hlev : xml_tag_level + nesting (.mk .NODE name value attributes_array elements_array)
      < level_limit)
    (hfit : s ≤ SIZE_MAX) (hidx : string_index + (2 * xml_tag_level + 1) ≤ SIZE_MAX) :
    (xml_string_size Encoding.utf8
        (.mk .NODE name value attributes_array elements_array) xml_tag_level = some s →
      Machine.libevtx_xml_tag_get_utf8_xml_string_size
        (.mk .NODE name value attributes_array elements_array) xml_tag_level = some s
      ∧ ((Machine.libevtx_xml_tag_get_utf8_xml_string_with_index
          (.mk .NODE name value attributes_array elements_array) xml_tag_level string
          string_size string_index).status = 1
        ↔ string_index + s ≤ string_size ∧ string_size ≤ SSIZE_MAX))
    ∧ (xml_string_size Encoding.utf16
        (.mk .NODE name value attributes_array elements_array) xml_tag_level = some s →
      Machine.libevtx_xml_tag_get_utf16_xml_string_size
        (.mk .NODE name value attributes_array elements_array) xml_tag_level = some s
      ∧ ((Machine.libevtx_xml_tag_get_utf16_xml_string_with_index
          (.mk .NODE name value attributes_array elements_array) xml_tag_level string
          string_size string_index).status = 1
        ↔ string_index + s ≤ string_size ∧ string_size ≤ SSIZE_MAX)) :=
  ⟨fun hs => machine_node_capacity_generic Encoding.utf8 name value attributes_array
      elements_array xml_tag_level s string string_size string_index hs hbuf hlev hfit hidx,
   fun hs => machine_node_capacity_generic Encoding.utf16 name value attributes_array
      elements_array xml_tag_level s string string_size string_index hs hbuf hlev hfit hidx⟩

/-- Witness for C32: the Node `A` with a CData sub element and a PI sub
element has size 55 at level 0; written at entry index 2 it needs a capacity of
57: the writer returns 1 for the capacity 57 and not for the capacity 56. -/
theorem node_capacity_check_is_exact_witness :
    57 ≤ (List.replicate 57 0).length
    ∧ 0 + nesting (.mk .NODE (some (text_value .STRING_UTF16 "A")) none []
        [some cdata_tag, some pi_tag]) < level_limit
    ∧ 55 ≤ SIZE_MAX ∧ 2 + (2 * 0 + 1) ≤ SIZE_MAX
    ∧ xml_string_size Encoding.utf8
        (.mk .NODE (some (text_value .STRING_UTF16 "A")) none [] [some cdata_tag, some pi_tag])
        0 = some 55
    ∧ Machine.libevtx_xml_tag_get_utf8_xml_string_size
        (.mk .NODE (some (text_value .STRING_UTF16 "A")) none [] [some cdata_tag, some pi_tag])
        (0 : Nat) = some 55
    ∧ (Machine.libevtx_xml_tag_get_utf8_xml_string_with_index
        (.mk .NODE (some (text_value .STRING_UTF16 "A")) none [] [some cdata_tag, some pi_tag])
        (0 : Nat) (List.replicate 57 0) 57 2).status = 1
    ∧ (Machine.libevtx_xml_tag_get_utf8_xml_string_with_index
        (.mk .NODE (some (text_value .STRING_UTF16 "A")) none [] [some cdata_tag, some pi_tag])
        (0 : Nat) (List.replicate 57 0) 56 2).status ≠ 1 :=
  ⟨by decide, by decide, by decide, by decide, by decide,
   ((node_capacity_check_is_exact (some (text_value .STRING_UTF16 "A")) none []
      [some cdata_tag, some pi_tag] 0 55 (List.replicate 57 0) 57 2 (by decide) (by decide)
      (by decide) (by decide)).1 (by decide)).1,
   (((node_capacity_check_is_exact (some (text_value .STRING_UTF16 "A")) none []
      [some cdata_tag, some pi_tag] 0 55 (List.replicate 57 0) 57 2 (by decide) (by decide)
      (by decide) (by decide)).1 (by decide)).2).2 ⟨by decide, by decide⟩,
   fun h => absurd ((((node_capacity_check_is_exact (some (text_value .STRING_UTF16 "A")) none
      [] [some cdata_tag, some pi_tag] 0 55 (List.replicate 57 0) 56 2 (by decide) (by decide)
      (by decide) (by decide)).1 (by decide)).2).1 h).1 (by decide)⟩

/-- Counterexample to C32 as stated, at both ends of the range. The empty
element `Event` has size 10 at level 0. Called at the entry index SIZE_MAX with
a capacity of 10, the writer returns 1 although the capacity is below the
entry index plus the size: the sum in its first check wraps around to 0. And
a buffer with the capacity SSIZE_MAX + 1 has room for the 10 units at the
entry index 0, yet the writer returns -1 with the error VALUE_EXCEEDS_MAXIMUM,
because the capacity is above SSIZE_MAX. -/
theorem node_write_outside_the_range_of_the_check :
    Machine.libevtx_xml_tag_get_utf8_xml_string_size event_tag 0 = some 10
    ∧ (10 ≤ (List.replicate 10 0).length
      ∧ (Machine.libevtx_xml_tag_get_utf8_xml_string_with_index event_tag 0
          (List.replicate 10 0) 10 18446744073709551615).status = 1
      ∧ (Machine.libevtx_xml_tag_get_utf8_xml_string_with_index event_tag 0
          (List.replicate 10 0) 10 18446744073709551615).string_index = 9
      ∧ ¬ (18446744073709551615 + 10 ≤ 10))
    ∧ (0 + 10 ≤ SSIZE_MAX + 1
      ∧ (List.replicate (SSIZE_MAX + 1) 0).length = SSIZE_MAX + 1
      ∧ (Machine.libevtx_xml_tag_get_utf8_xml_string_with_index event_tag 0
          (List.replicate (SSIZE_MAX + 1) 0) (SSIZE_MAX + 1) 0).status = -1
      ∧ (Machine.libevtx_xml_tag_get_utf8_xml_string_with_index event_tag 0
          (List.replicate (SSIZE_MAX + 1) 0) (SSIZE_MAX + 1) 0).error
          = some ErrorCode.ARGUMENT_VALUE_EXCEEDS_MAXIMUM) := by
  have hw : Machine.xml_string_with_index Encoding.utf8 event_tag 0 (SSIZE_MAX + 1)
      { buf := List.replicate (SSIZE_MAX + 1) 0, index := 0, oob := false }
      = .error (ErrorCode.ARGUMENT_VALUE_EXCEEDS_MAXIMUM,
        { buf := List.replicate (SSIZE_MAX + 1) 0, index := 0, oob := false }) := by
    unfold event_tag node
    rw [machine_xml_string_with_index_eq, if_pos (by omega)]
  refine ⟨by decide, ⟨by decide, by decide, by decide, by decide⟩, by decide,
    List.length_replicate _ _, ?_, ?_⟩
  · unfold Machine.libevtx_xml_tag_get_utf8_xml_string_with_index
      Machine.get_xml_string_with_index
    rw [hw]
  · unfold Machine.libevtx_xml_tag_get_utf8_xml_string_with_index
      Machine.get_xml_string_with_index
    rw [hw]

theorem machine_child_steps_over_nul {enc : Encoding} {t : XmlTag} {L cap : Nat}
    {st st1 : WState} (hr : in_range enc t L) (hidx : st.index + (2 * L + 1) ≤ SIZE_MAX)
    (h : Machine.xml_string_with_index enc t (L : Int) cap st = .ok st1)
    (hcap : cap ≤ st.buf.length) (hin : st1.index ≤ cap) :
    st.index ≤ (Machine.rewind st1).index
      ∧ st1.buf[(Machine.rewind st1).index]? = some 0 := by
  have hcs : cap ≤ SSIZE_MAX := by
    by_contra hc
    cases t with
    | mk type name value attrs elems =>
      rw [machine_xml_string_with_index_eq, if_pos (by omega)] at h
      cases h
  have he := ((same_xml_string_with_index_both enc).1 t L cap st hr.2 hr.1 hcs
    (by omega)).1
  rw [he] at h
  obtain ⟨s, -, hi, hpos⟩ := (xml_string_with_index_index_both enc).1 t L cap st st1 h
  rw [machine_rewind_eq (by omega)]
  exact child_steps_over_nul h hcap hin

/-- C37, as amended: when no computation on levels, sizes and indices leaves
the range of its type (every level reached is below 2^30, the value sizes fit a
`size_t`, and the entry index plus 2·L + 1 is at most SIZE_MAX), the writer, in
the arithmetic of the code, never touches the buffer before its entry index:
after the call, whether it returns 1 or -1, every unit of the buffer at an
index below the entry index has the value it had before the call, in both
encodings.  Each decrement of the index steps back over a NUL written just
before: a value copy followed by its decrement leaves the index at or above
the index before the copy, on the NUL the copy wrote; a sub element written
within the capacity, followed by its decrement, leaves the index at or above
the index before it, on the NUL the sub element wrote. -/
theorem writer_keeps_buffer_before_entry_index (xml_tag : XmlTag) (xml_tag_level : Nat)
    (string : List Nat) (string_size string_index : Nat)
    (hidx : string_index + (2 * xml_tag_level + 1) ≤ SIZE_MAX) :
    (in_range Encoding.utf8 xml_tag xml_tag_level → ∀ j, j < string_index →
      (Machine.libevtx_xml_tag_get_utf8_xml_string_with_index xml_tag xml_tag_level string
        string_size string_index).string[j]? = string[j]?)
    ∧ (in_range Encoding.utf16 xml_tag xml_tag_level → ∀ j, j < string_index →
      (Machine.libevtx_xml_tag_get_utf16_xml_string_with_index xml_tag xml_tag_level string
        string_size string_index).string[j]? = string[j]?)
    ∧ (∀ enc value i cap (st st1 : WState), Machine.copy_value enc value i cap st = .ok st1 →
        cap ≤ st.buf.length → st.index ≤ st1.index ∧ st1.buf[st1.index]? = some 0)
    ∧ (∀ enc t (L : Nat) cap (st st1 : WState), in_range enc t L →
        st.index + (2 * L + 1) ≤ SIZE_MAX →
        Machine.xml_string_with_index enc t (L : Int) cap st = .ok st1 →
        cap ≤ st.buf.length → st1.index ≤ cap →
        st.index ≤ (Machine.rewind st1).index
          ∧ st1.buf[(Machine.rewind st1).index]? = some 0) := by
  refine ⟨?_, ?_, ?_, ?_⟩
  · intro hr j hj
    unfold Machine.libevtx_xml_tag_get_utf8_xml_string_with_index
    rw [(machine_get_xml_string_with_index_of_fit Encoding.utf8 xml_tag xml_tag_level string
      string_size string_index hr hidx).1]
    exact get_xml_string_with_index_frame Encoding.utf8 xml_tag xml_tag_level string
      string_size string_index j hj
  · intro hr j hj
    unfold Machine.libevtx_xml_tag_get_utf16_xml_string_with_index
    rw [(machine_get_xml_string_with_index_of_fit Encoding.utf16 xml_tag xml_tag_level string
      string_size string_index hr hidx).1]
    exact get_xml_string_with_index_frame Encoding.utf16 xml_tag xml_tag_level string
      string_size string_index j hj
  · intro enc value i cap st st1 h hcap
    rw [machine_copy_value_eq] at h
    exact copy_value_steps_over_nul h hcap
  · intro enc t L cap st st1 hr hi h hcap hin
    exact machine_child_steps_over_nul hr hi h hcap hin

/-- Witness for C37: the block of scenario (c), written at the entry index 3
into a buffer of 30 units 7, succeeds with the capacity 30 and fails with
the capacity 20; in both calls the unit at index 2 is still 7. -/
theorem writer_keeps_buffer_before_entry_index_witness :
    3 + (2 * 0 + 1) ≤ SIZE_MAX ∧ in_range Encoding.utf8 block_tag 0 ∧ (2 : Nat) < 3
    ∧ (Machine.libevtx_xml_tag_get_utf8_xml_string_with_index block_tag (0 : Nat)
        (List.replicate 30 7) 30 3).status = 1
    ∧ (Machine.libevtx_xml_tag_get_utf8_xml_string_with_index block_tag (0 : Nat)
        (List.replicate 30 7) 30 3).string[2]? = (List.replicate 30 7)[2]?
    ∧ (Machine.libevtx_xml_tag_get_utf8_xml_string_with_index block_tag (0 : Nat)
        (List.replicate 30 7) 20 3).status = -1
    ∧ (Machine.libevtx_xml_tag_get_utf8_xml_string_with_index block_tag (0 : Nat)
        (List.replicate 30 7) 20 3).string[2]? = (List.replicate 30 7)[2]? :=
  ⟨by decide, ⟨by decide, by decide⟩, by decide, by decide,
   (writer_keeps_buffer_before_entry_index block_tag 0 (List.replicate 30 7) 30 3
     (by decide)).1 ⟨by decide, by decide⟩ 2 (by decide),
   by decide,
   (writer_keeps_buffer_before_entry_index block_tag 0 (List.replicate 30 7) 20 3
     (by decide)).1 ⟨by decide, by decide⟩ 2 (by decide)⟩

/-- Counterexample to C37 as stated: called at the entry index SIZE_MAX with a
buffer of 10 units 7 and the capacity 10, the writer of the element `Event` at
level 0 passes its first check, because the sum of the index and 1 wraps
around to 0, stores `<` outside the buffer, and returns 1 with the index 9
after it has overwritten the units 0 to 8, all of them below the entry
index. -/
theorem writer_overwrites_units_below_wrapped_entry_index :
    (Machine.libevtx_xml_tag_get_utf8_xml_string_with_index event_tag 0
        (List.replicate 10 7) 10 18446744073709551615).status = 1
    ∧ (Machine.libevtx_xml_tag_get_utf8_xml_string_with_index event_tag 0
        (List.replicate 10 7) 10 18446744073709551615).string_index = 9
    ∧ (Machine.libevtx_xml_tag_get_utf8_xml_string_with_index event_tag 0
        (List.replicate 10 7) 10 18446744073709551615).string
      = units "Event/>\n" ++ [0, 7]
    ∧ (Machine.libevtx_xml_tag_get_utf8_xml_string_with_index event_tag 0
        (List.replicate 10 7) 10 18446744073709551615).oob = true
    ∧ (0 : Nat) < 18446744073709551615
    ∧ (Machine.libevtx_xml_tag_get_utf8_xml_string_with_index event_tag 0
        (List.replicate 10 7) 10 18446744073709551615).string[0]?
      ≠ (List.replicate 10 7)[0]? := by
  decide

end Libevtx
